import Mathlib

/-!
# Koivisto: evaluation and alpha-beta search

A shallow embedding of `src_files/search.cpp` and `src_files/eval.cpp`.

Conventions of the embedding

* A value of the source type `Score` is an `Int`.  The typedef lives in a header that is
  not part of the sources at hand, so scores are mathematical integers and no wrap-around
  is modelled.
* `Depth` is the unsigned 8-bit type of the source: every depth or ply that is passed
  to a call goes through `toDepth` (reduction modulo 256).
* The board, the move generator, the move orderer, the history table and the clock are
  collaborators of the search whose code is not part of the sources at hand.  They are
  the fields of `Env`.  The wall clock and the asynchronous stop flag are read only by
  `isTimeLeft`; the `k`-th call of `isTimeLeft` sees `elapsedTime k` and `forceStop k`.
* A value of the source type `Move` is a `Nat` (0 is the source's empty move).
* A search function takes fuel and returns `none` when the fuel is used up.
-/

namespace Koivisto

/-! ## Search: data -/

/-- Conversion to the unsigned 8-bit `Depth` type. -/
def toDepth (x : Int) : Nat := (x % 256).toNat

/-- Node-type tag of a transposition entry. -/
inductive NodeType where
  | PV_NODE
  | CUT_NODE
  | ALL_NODE
deriving DecidableEq

/-- Modelled from the spec: the transposition entry (key, best move, score, depth,
node-type tag); the `Entry` declaration is in a header that is not at hand. -/
structure Entry where
  zobrist : Nat
  move : Nat
  score : Int
  depth : Nat
  type : NodeType
deriving DecidableEq

/-- Modelled from the spec: the transposition table, an array of `capacity` slots
indexed by `key mod capacity` with always-replace insertion; the class
`TranspositionTable` is not at hand. -/
structure TranspositionTable where
  capacity : Nat
  slots : Nat → Option Entry

namespace TranspositionTable

/-- Modelled from the spec: `get(key)` returns the entry if present, else absent. -/
def get (t : TranspositionTable) (key : Nat) : Option Entry :=
  match t.slots (key % t.capacity) with
  | some e => if e.zobrist = key then some e else none
  | none => none

/-- Modelled from the spec: `put(key, score, move, type, depth)` stores or overwrites. -/
def put (t : TranspositionTable) (key : Nat) (score : Int) (move : Nat)
    (type : NodeType) (depth : Nat) : TranspositionTable :=
  { t with slots := fun i =>
      if i = key % t.capacity then some ⟨key, move, score, depth, type⟩ else t.slots i }

/-- Modelled from the spec: `clear()` zeros the table. -/
def clear (t : TranspositionTable) : TranspositionTable :=
  { t with slots := fun _ => none }

end TranspositionTable

/-- The collaborators of the search (board, move encoding, move orderer, history,
constants, clock).  `B` is the board type, `SD` the `SearchData` type. -/
structure Env (B SD : Type) where
  isDraw : B → Bool
  zobrist : B → Nat
  getActivePlayer : B → Bool
  isInCheck : B → Bool → Bool
  getPseudoLegalMoves : B → List Nat
  getNonQuietMoves : B → List Nat
  isLegal : B → Nat → Bool
  givesCheck : B → Nat → Bool
  staticExchangeEvaluation : B → Nat → Int
  move : B → Nat → B
  undoMove : B → B
  move_null : B → B
  undoMove_null : B → B
  /-- The static evaluation `evaluate(b)` called by `qSearch`. -/
  evaluate : B → Int
  isCapture : Nat → Bool
  getSquareFrom : Nat → Nat
  getSquareTo : Nat → Nat
  setScore : Nat → Int → Nat
  /-- The sequence of moves that `MoveOrderer::next` yields after `setMovesPVSearch`. -/
  orderPV : List Nat → Nat → SD → List Nat
  /-- The sequence of moves that `MoveOrderer::next` yields after `setMovesQSearch`. -/
  orderQ : List Nat → List Nat
  sdInit : SD
  addHistoryScore : SD → Nat → Nat → Nat → SD
  subtractHistoryScore : SD → Nat → Nat → Nat → SD
  MAX_PLY : Nat
  MAX_MATE_SCORE : Int
  /-- The table filled by `initLmr`. -/
  lmrReductions : Nat → Nat → Int
  /-- Result of `elapsedTime()` at the `k`-th call of `isTimeLeft`. -/
  elapsedTime : Nat → Int
  /-- Value of `_forceStop` at the `k`-th call of `isTimeLeft`. -/
  forceStop : Nat → Bool

/-- The mutable state of the search: the board behind `Board *b`, the globals `table`,
`moves`, `_nodes`, `_selDepth`, `_maxTime`, the `SearchData` behind `sd`, and the number
of `isTimeLeft` calls made so far. -/
structure State (B SD : Type) where
  board : B
  table : TranspositionTable
  sd : SD
  moves : Nat → List Nat
  nodes : Int
  selDepth : Int
  maxTime : Int
  polls : Nat

/-- The return statement through which a call of `pvSearch` left (bookkeeping only). -/
inductive Exit where
  | timeout
  | draw
  | quiescence
  | ttPV
  | ttCut
  | ttAll
  | nullMove
  | mateUpper
  | mateLower
  | betaCutoff
  | stalemate
  | checkmate
  | final
deriving DecidableEq

variable {B SD : Type}

/-- `isTimeLeft`: `elapsedTime()+1 < _maxTime && !_forceStop`. -/
def isTimeLeft (env : Env B SD) (st : State B SD) : Bool :=
  decide (env.elapsedTime st.polls + 1 < st.maxTime) && !env.forceStop st.polls

/-! ## Search: quiescence -/

/-- The move loop of `qSearch` (lines 500-523).  `search` is the recursive call. -/
def qLoop (env : Env B SD) (search : State B SD → Int → Int → Nat → Option (Int × State B SD))
    (beta : Int) (ply : Nat) :
    List Nat → State B SD → Int → Option (Int × State B SD)
  | [], st, alpha => some (alpha, st)
  | m :: ms, st, alpha =>
    if !env.isLegal st.board m then qLoop env search beta ply ms st alpha
    else
      let st1 := { st with board := env.move st.board m }
      match search st1 (-beta) (-alpha) (toDepth (ply + 1)) with
      | none => none
      | some (r, st2) =>
        let score := -r
        let st3 := { st2 with board := env.undoMove st2.board }
        if score ≥ beta then some (beta, st3)
        else if score > alpha then qLoop env search beta ply ms st3 score
        else qLoop env search beta ply ms st3 alpha

/-- `qSearch` (lines 474-527). -/
def qSearch (env : Env B SD) :
    Nat → State B SD → Int → Int → Nat → Option (Int × State B SD)
  | 0 => fun _ _ _ _ => none
  | fuel + 1 => fun st alpha beta ply =>
    let stand_pat := env.evaluate st.board * (if env.getActivePlayer st.board = false then 1 else -1)
    let st := { st with nodes := st.nodes + 1 }
    if stand_pat ≥ beta then some (beta, st)
    else
      let alpha := if alpha < stand_pat then stand_pat else alpha
      let mv := env.getNonQuietMoves st.board
      let st := { st with moves := fun i => if i = ply then mv else st.moves i }
      qLoop env (qSearch env fuel) beta ply (env.orderQ mv) st alpha

/-! ## Search: principal variation search -/

/-- `extractPV` (lines 118-158): returns the board it leaves behind and the moves it
appended to the list. -/
def extractPV (env : Env B SD) (table : TranspositionTable) : Nat → B → B × List Nat
  | 0, b => (b, [])
  | depth + 1, b =>
    match table.get (env.zobrist b) with
    | none => (b, [])
    | some en =>
      let mov := env.setScore en.move 0
      let moveContained := (env.getPseudoLegalMoves b).any (fun x => x == mov)
      if !moveContained then (b, [])
      else if !env.isLegal b mov then (b, [])
      else
        let r := extractPV env table depth (env.move b en.move)
        (env.undoMove r.1, mov :: r.2)

/-- The transposition-table cutoff of `pvSearch` (lines 298-317): the value returned
and the return statement taken, or `none` when the search goes on. -/
def probeCutoff (en : Option Entry) (alpha beta : Int) (depth : Nat) : Option (Int × Exit) :=
  match en with
  | none => none
  | some e =>
    if e.depth ≥ depth then
      if e.type = NodeType.PV_NODE ∧ e.score ≥ alpha then some (e.score, Exit.ttPV)
      else if e.type = NodeType.CUT_NODE then
        (if e.score ≥ beta then some (beta, Exit.ttCut) else none)
      else if e.type = NodeType.ALL_NODE then
        (if e.score ≤ alpha then some (alpha, Exit.ttAll) else none)
      else none
    else none

/-- The local variables of `pvSearch` that live across the move loop. -/
structure LoopVars where
  alpha : Int
  highestScore : Int
  bestMove : Nat
  legalMoves : Nat

abbrev PvResult (B SD : Type) := Option (Int × Exit × State B SD)

/-- The searches made for one move inside the move loop (lines 398-407): the full-window
search of the first move of a PV node; otherwise the zero-window search, its re-search at
full depth and its re-search with the full window.  The result is the final `score`. -/
def searchMove
    (search : State B SD → Int → Int → Nat → Nat → Bool → PvResult B SD)
    (st1 : State B SD) (alpha beta : Int) (depth ply : Nat) (pv : Bool) (legalMoves lmr : Nat)
    (extension : Int) : Option (Int × State B SD) :=
  if legalMoves == 0 && pv then
    match search st1 (-beta) (-alpha) (toDepth (depth - 1 + extension)) (toDepth (ply + 1)) false with
    | none => none
    | some (r, _, s) => some (-r, s)
  else
    match search st1 (-alpha - 1) (-alpha) (toDepth (depth - 1 - lmr + extension))
        (toDepth (ply + 1)) false with
    | none => none
    | some (r1, _, s1) =>
      let second : Option (Int × State B SD) :=
        if lmr ≠ 0 ∧ -r1 > alpha then
          match search s1 (-alpha - 1) (-alpha) (toDepth (depth - 1 + extension))
              (toDepth (ply + 1)) false with
          | none => none
          | some (r2, _, s2) => some (-r2, s2)
        else some (-r1, s1)
      match second with
      | none => none
      | some (score2, s2) =>
        if score2 > alpha ∧ score2 < beta then
          match search s2 (-beta) (-alpha) (toDepth (depth - 1 + extension))
              (toDepth (ply + 1)) false with
          | none => none
          | some (r3, _, s3) => some (-r3, s3)
        else some (score2, s2)

/-- The epilogue of `pvSearch` (lines 445-462). -/
def pvEpilogue (env : Env B SD) (zobrist : Nat) (originalAlpha : Int) (depth ply : Nat)
    (st : State B SD) (v : LoopVars) : Int × Exit × State B SD :=
  if v.legalMoves = 0 then
    if !env.isInCheck st.board (env.getActivePlayer st.board) then (0, Exit.stalemate, st)
    else (-env.MAX_MATE_SCORE + ply, Exit.checkmate, st)
  else if v.alpha > originalAlpha then
    (v.alpha, Exit.final,
      { st with table := st.table.put zobrist v.alpha v.bestMove NodeType.PV_NODE depth })
  else
    (v.alpha, Exit.final,
      { st with table := st.table.put zobrist v.highestScore v.bestMove NodeType.ALL_NODE depth })

/-- The move loop of `pvSearch` (lines 376-443) followed by the epilogue.  `search` is the
recursive call; `beta` and the `alpha` inside `LoopVars` are the values after
mate-distance pruning. -/
def pvLoop (env : Env B SD)
    (search : State B SD → Int → Int → Nat → Nat → Bool → PvResult B SD)
    (zobrist : Nat) (pv : Bool) (originalAlpha beta : Int) (depth ply : Nat) :
    List Nat → State B SD → LoopVars → PvResult B SD
  | [], st, v => some (pvEpilogue env zobrist originalAlpha depth ply st v)
  | m :: ms, st, v =>
    if !env.isLegal st.board m then
      pvLoop env search zobrist pv originalAlpha beta depth ply ms st v
    else
      let givesCheck := env.givesCheck st.board m
      let extension : Int :=
        if env.givesCheck st.board m && decide (env.staticExchangeEvaluation st.board m ≥ 0)
        then 1 else 0
      let st1 := { st with board := env.move st.board m }
      let lmr : Nat :=
        if pv || v.legalMoves == 0 || givesCheck || decide (depth < 2) || env.isCapture m then 0
        else toDepth (env.lmrReductions depth v.legalMoves)
      let alpha := v.alpha
      match searchMove search st1 alpha beta depth ply pv v.legalMoves lmr extension with
      | none => none
      | some (score, s) =>
        let s := { s with board := env.undoMove s.board }
        if score ≥ beta then
          some (beta, Exit.betaCutoff,
            { s with
              table := s.table.put zobrist beta m NodeType.CUT_NODE depth
              sd := env.addHistoryScore s.sd (env.getSquareFrom m) (env.getSquareTo m) depth })
        else
          let highestScore := if score > v.highestScore then score else v.highestScore
          let bestMove := if score > v.highestScore then m else v.bestMove
          if score > alpha then
            let s :=
              if ply = 0 then
                let t := s.table.put zobrist alpha bestMove NodeType.PV_NODE depth
                { s with
                  table := t
                  board := (extractPV env t (toDepth s.selDepth) s.board).1 }
              else s
            pvLoop env search zobrist pv originalAlpha beta depth ply ms s
              ⟨score, highestScore, m, v.legalMoves + 1⟩
          else
            let s := { s with
              sd := env.subtractHistoryScore s.sd (env.getSquareFrom m) (env.getSquareTo m) depth }
            pvLoop env search zobrist pv originalAlpha beta depth ply ms s
              ⟨alpha, highestScore, bestMove, v.legalMoves + 1⟩

/-- Null-move pruning (lines 332-340): `none` when the fuel ran out, else whether the
null-move search failed high, and the state afterwards. -/
def nullMovePruning (env : Env B SD)
    (search : State B SD → Int → Int → Nat → Nat → Bool → PvResult B SD)
    (st : State B SD) (beta : Int) (depth ply : Nat) (pv : Bool) : Option (Bool × State B SD) :=
  if !pv && !env.isInCheck st.board (env.getActivePlayer st.board) then
    let st1 := { st with board := env.move_null st.board }
    match search st1 (-beta) (1 - beta) (toDepth (depth - 3)) (toDepth (ply + 1)) false with
    | none => none
    | some (r, _, s) => some (decide (-r ≥ beta), { s with board := env.undoMove_null s.board })
  else some (false, st)

/-- Internal iterative deepening (lines 345-352): the hash move and the state
afterwards. -/
def iid
    (search : State B SD → Int → Int → Nat → Nat → Bool → PvResult B SD)
    (st : State B SD) (zobrist : Nat) (alpha beta : Int) (depth ply : Nat) (pv : Bool)
    (hashMove : Nat) : Option (Nat × State B SD) :=
  if decide (depth ≥ 6) && pv && (hashMove == 0) then
    match search st alpha beta (toDepth (depth - 2)) ply false with
    | none => none
    | some (_, _, s) =>
      match s.table.get zobrist with
      | some en => some (en.move, s)
      | none => some (hashMove, s)
  else some (hashMove, st)

/-- Mate-distance pruning followed by the move loop (lines 357-462). -/
def mateDistanceAndLoop (env : Env B SD)
    (search : State B SD → Int → Int → Nat → Nat → Bool → PvResult B SD)
    (st : State B SD) (zobrist : Nat) (pv : Bool) (originalAlpha alpha beta : Int)
    (depth ply : Nat) (hashMove : Nat) : PvResult B SD :=
  let matingValue : Int := env.MAX_MATE_SCORE - ply
  let beta' := if matingValue < beta then matingValue else beta
  if matingValue < beta ∧ alpha ≥ matingValue then some (matingValue, Exit.mateUpper, st)
  else
    let matingValue : Int := -env.MAX_MATE_SCORE + ply
    let alpha' := if matingValue > alpha then matingValue else alpha
    if matingValue > alpha ∧ beta' ≤ matingValue then some (matingValue, Exit.mateLower, st)
    else
      pvLoop env search zobrist pv originalAlpha beta' depth ply
        (env.orderPV (st.moves ply) hashMove st.sd) st
        ⟨alpha', -env.MAX_MATE_SCORE, 0, 0⟩

/-- The part of `pvSearch` after the transposition-table probe (lines 319-462); the
entry found by the probe enters only through `hashMove`. -/
def pvBody (env : Env B SD)
    (search : State B SD → Int → Int → Nat → Nat → Bool → PvResult B SD)
    (st : State B SD) (alpha beta : Int) (depth ply : Nat) (hashMove : Nat) : PvResult B SD :=
  let zobrist := env.zobrist st.board
  let pv : Bool := decide (beta - alpha ≠ 1)
  let st := { st with moves := fun i => if i = ply then env.getPseudoLegalMoves st.board else st.moves i }
  match nullMovePruning env search st beta depth ply pv with
  | none => none
  | some (true, s) => some (beta, Exit.nullMove, s)
  | some (false, st) =>
    match iid search st zobrist alpha beta depth ply pv hashMove with
    | none => none
    | some (hashMove, st) =>
      mateDistanceAndLoop env search st zobrist pv alpha alpha beta depth ply hashMove

/-- The first statements of `pvSearch` (lines 264-266): `_nodes++` and the call of
`isTimeLeft`. -/
def countNode (st : State B SD) : State B SD :=
  { st with nodes := st.nodes + 1, polls := st.polls + 1 }

/-- The update of the selective-depth high-water mark (lines 274-276). -/
def bumpSelDepth (st : State B SD) (ply : Nat) : State B SD :=
  if (ply : Int) > st.selDepth then { st with selDepth := ply } else st

/-- The hash move remembered from the probe (lines 298-299). -/
def hashMoveOf (en : Option Entry) : Nat :=
  match en with
  | some e => e.move
  | none => 0

/-- `pvSearch` (lines 261-463). -/
def pvSearch (env : Env B SD) :
    Nat → State B SD → Int → Int → Nat → Nat → Bool → PvResult B SD
  | 0 => fun _ _ _ _ _ _ => none
  | fuel + 1 => fun st alpha beta depth ply _expectedCut =>
    if !isTimeLeft env st then some (beta, Exit.timeout, countNode st)
    else if env.isDraw st.board && decide (ply > 0) then some (0, Exit.draw, countNode st)
    else
      let st := bumpSelDepth (countNode st) ply
      if depth = 0 ∨ depth > env.MAX_PLY then
        match qSearch env fuel st alpha beta ply with
        | none => none
        | some (r, s) => some (r, Exit.quiescence, s)
      else
        let en := st.table.get (env.zobrist st.board)
        match probeCutoff en alpha beta depth with
        | some (r, x) => some (r, x, st)
        | none => pvBody env (pvSearch env fuel) st alpha beta depth ply (hashMoveOf en)

/-- The iterative-deepening loop of `bestMove` (lines 238-245). -/
def iterate (env : Env B SD) (maxDepth : Nat) : Nat → Nat → State B SD → Option (State B SD)
  | 0, _, _ => none
  | fuel + 1, d, st =>
    if d ≤ maxDepth then
      match pvSearch env fuel st (-env.MAX_MATE_SCORE) env.MAX_MATE_SCORE d 0 false with
      | none => none
      | some (_, _, s) =>
        let timeLeft := isTimeLeft env s
        let s := { s with polls := s.polls + 1 }
        if !timeLeft then some s
        else iterate env maxDepth fuel (toDepth (d + 1)) s
    else some st

/-- `bestMove` (lines 224-249).  The move is `none` when the final read goes through an
absent entry (`table->get(...)` returned `nullptr`). -/
def bestMove (env : Env B SD) (fuel : Nat) (st : State B SD) (maxDepth : Nat) (maxTime : Int) :
    Option (Option Nat × State B SD) :=
  let maxDepth := if maxDepth > env.MAX_PLY then toDepth env.MAX_PLY else maxDepth
  let st := { st with
    maxTime := maxTime
    nodes := 0
    selDepth := 0
    table := st.table.clear
    sd := env.sdInit }
  match iterate env maxDepth fuel 1 st with
  | none => none
  | some s => some ((s.table.get (env.zobrist s.board)).map (fun e => e.move), s)

/-- What `qSearch` leaves unchanged: it writes only `_nodes` and the move lists. -/
def QFrame (st st' : State B SD) : Prop :=
  st'.board = st.board ∧ st'.table = st.table ∧ st'.sd = st.sd ∧
    st'.selDepth = st.selDepth ∧ st'.maxTime = st.maxTime ∧ st'.polls = st.polls

/-- The exits of `pvSearch` whose value is clipped to the window of the call. -/
def Exit.clipped : Exit → Bool
  | Exit.timeout => true
  | Exit.quiescence => true
  | Exit.ttCut => true
  | Exit.ttAll => true
  | Exit.nullMove => true
  | Exit.betaCutoff => true
  | Exit.final => true
  | _ => false

/-- The time budget `T` is used up from the `N`-th call of `isTimeLeft` on. -/
def TimeUp (env : Env B SD) (T : Int) (N : Nat) : Prop :=
  ∀ k, N ≤ k → (decide (env.elapsedTime k + 1 < T) && !env.forceStop k) = false

/-- A search function that returns on every state with `_maxTime = T` on which at least
`p` calls of `isTimeLeft` have been made, and neither changes `_maxTime` nor lowers the
number of calls. -/
def PvTotal (T : Int) (p : Nat)
    (search : State B SD → Int → Int → Nat → Nat → Bool → PvResult B SD) : Prop :=
  ∀ st alpha beta depth ply cut, st.maxTime = T → p ≤ st.polls →
    ∃ v x st', search st alpha beta depth ply cut = some (v, x, st') ∧
      st'.maxTime = T ∧ st.polls ≤ st'.polls

/-! ## A small concrete game used to run the search

Positions are heaps of counters; a move takes one, two or three counters and only taking
three is a capture.  The knobs are the draw and check predicates and the clock. -/

/-- Board of the counter game, with the undo stack kept by `move`. -/
structure ToyBoard where
  cur : Nat
  hist : List Nat
  black : Bool
deriving DecidableEq

/-- History table of the counter game. -/
abbrev ToySD := Nat → Nat → Int

/-- The counter game as a collaborator of the search. -/
def toyEnv (drawAt checkAt : Nat → Bool) (elapsed : Nat → Int) : Env ToyBoard ToySD where
  isDraw b := drawAt b.cur
  zobrist b := 2 * b.cur + (if b.black then 1 else 0)
  getActivePlayer b := b.black
  isInCheck b _ := checkAt b.cur
  getPseudoLegalMoves _ := [1, 2, 3]
  getNonQuietMoves b := if b.cur ≤ 10 then [3] else []
  isLegal b m := decide (1 ≤ m) && decide (m ≤ b.cur)
  givesCheck b m := checkAt (b.cur - m)
  staticExchangeEvaluation _ _ := 0
  move b m := ⟨b.cur - m, b.cur :: b.hist, !b.black⟩
  undoMove b := match b.hist with
    | [] => b
    | h :: t => ⟨h, t, !b.black⟩
  move_null b := ⟨b.cur, b.cur :: b.hist, !b.black⟩
  undoMove_null b := match b.hist with
    | [] => b
    | h :: t => ⟨h, t, !b.black⟩
  evaluate b := ((b.cur * 7 % 11 : Nat) : Int) - 5
  isCapture m := m == 3
  getSquareFrom m := m
  getSquareTo _ := 0
  setScore m _ := m
  orderPV mv hashMove _ := if hashMove ∈ mv then hashMove :: mv.filter (fun x => x != hashMove) else mv
  orderQ mv := mv
  sdInit := fun _ _ => 0
  addHistoryScore sd f t d := fun i j => if i = f ∧ j = t then sd i j + d * d else sd i j
  subtractHistoryScore sd f t d := fun i j => if i = f ∧ j = t then sd i j - d * d else sd i j
  MAX_PLY := 128
  MAX_MATE_SCORE := 32000
  lmrReductions d m := if d = 0 ∨ m = 0 then 0 else 1
  elapsedTime := elapsed
  forceStop _ := false

/-- A transposition table with 64 empty slots. -/
def toyTable : TranspositionTable := ⟨64, fun _ => none⟩

/-- Start state of the counter game with `n` counters, White to move. -/
def toyState (n : Nat) (table : TranspositionTable) (maxTime : Int) : State ToyBoard ToySD :=
  { board := ⟨n, [], false⟩, table := table, sd := fun _ _ => 0, moves := fun _ => [],
    nodes := 0, selDepth := 0, maxTime := maxTime, polls := 0 }

/-- The exits of `pvSearch` that return a value taken from the transposition table. -/
def Exit.fromTable : Exit → Bool
  | Exit.ttPV => true
  | Exit.ttCut => true
  | Exit.ttAll => true
  | _ => false

/-- The condition of lines 301-314 under which an entry ends the search of a node. -/
def Entry.prunes (e : Entry) (alpha beta : Int) (depth : Nat) : Prop :=
  e.depth ≥ depth ∧
    ((e.type = NodeType.PV_NODE ∧ e.score ≥ alpha) ∨
     (e.type = NodeType.CUT_NODE ∧ e.score ≥ beta) ∨
     (e.type = NodeType.ALL_NODE ∧ e.score ≤ alpha))

/-- A predicate of the counter game that never holds. -/
def toyNever : Nat → Bool := fun _ => false

/-- A predicate of the counter game that always holds. -/
def toyAlways : Nat → Bool := fun _ => true

/-- A clock of the counter game: no time has passed at the first `n` calls of
`isTimeLeft`, a second has passed at every later call. -/
def toyClock (n : Nat) : Nat → Int := fun k => if k < n then 0 else 1000

/-- The termination measure of quiescence in the counter game. -/
def toyMu (b : ToyBoard) : Nat := if b.cur ≤ 10 then b.cur else 0

/-- A table of the counter game holding one entry for the position with five counters
and White to move (key 10): a PV entry of depth 3 with move 2 and score 100. -/
def toyTablePV : TranspositionTable :=
  toyTable.put 10 100 2 NodeType.PV_NODE 3

/-! ## Evaluation: bitboards

The header with the bitboard primitives is not part of the sources at hand.  A value of
the source type `U64` is a `Nat` below `2 ^ 64`; every primitive reduces modulo `2 ^ 64`
where the 64-bit operation of the source would.  Squares are numbered `a1 = 0`, `b1 = 1`,
..., `h8 = 63`, so that `rankIndex s = s / 8` and `fileIndex s = s % 8`.  The loop idiom
`while (k) { s = bitscanForward(k); ...; k = lsbReset(k); }` is a fold over `bitsOf k`,
the set squares of `k` in increasing order. -/

abbrev WHITE : Bool := false
abbrev BLACK : Bool := true

abbrev PAWN : Nat := 0
abbrev KNIGHT : Nat := 1
abbrev BISHOP : Nat := 2
abbrev ROOK : Nat := 3
abbrev QUEEN : Nat := 4
abbrev KING : Nat := 5

abbrev WHITE_PAWN : Nat := 0
abbrev WHITE_KNIGHT : Nat := 1
abbrev WHITE_BISHOP : Nat := 2
abbrev WHITE_ROOK : Nat := 3
abbrev WHITE_QUEEN : Nat := 4
abbrev WHITE_KING : Nat := 5
abbrev BLACK_PAWN : Nat := 8
abbrev BLACK_KNIGHT : Nat := 9
abbrev BLACK_BISHOP : Nat := 10
abbrev BLACK_ROOK : Nat := 11
abbrev BLACK_QUEEN : Nat := 12
abbrev BLACK_KING : Nat := 13

abbrev WHITE_QUEENSIDE_CASTLING : Nat := 0
abbrev WHITE_KINGSIDE_CASTLING : Nat := 1
abbrev BLACK_QUEENSIDE_CASTLING : Nat := 2
abbrev BLACK_KINGSIDE_CASTLING : Nat := 3

/-- Modelled from the spec: the complement `~x` of a 64-bit mask. -/
def not64 (x : Nat) : Nat := 2 ^ 64 - (x % 2 ^ 64 + 1)

/-- Modelled from the spec: `x << k` on 64 bits. -/
def shl64 (x k : Nat) : Nat := (x <<< k) % 2 ^ 64

/-- Modelled from the spec: `x >> k` on 64 bits. -/
def shr64 (x k : Nat) : Nat := (x % 2 ^ 64) >>> k

/-- Modelled from the spec: the set squares of a bitboard, in increasing order. -/
def bitsOf (x : Nat) : List Nat := (List.range 64).filter (fun i => x.testBit i)

/-- Modelled from the spec: `bitCount`, the number of set bits. -/
def bitCount (x : Nat) : Nat := (bitsOf x).length

/-- Modelled from the spec: `bitscanForward`, the index of the lowest set bit (64 stands
for the undefined result on an empty bitboard). -/
def bitscanForward (x : Nat) : Nat := (bitsOf x).headD 64

/-- Modelled from the spec: `lsbIsolation`, the bitboard of the lowest set bit. -/
def lsbIsolation (x : Nat) : Nat :=
  match bitsOf x with
  | [] => 0
  | s :: _ => 2 ^ s

def FILE_A_BB : Nat := 0x0101010101010101
def FILE_H_BB : Nat := 0x8080808080808080
def NOT_FILE_A_BB : Nat := 0xFEFEFEFEFEFEFEFE
def NOT_FILE_H_BB : Nat := 0x7F7F7F7F7F7F7F7F
def NOT_FILE_AB_BB : Nat := 0xFCFCFCFCFCFCFCFC
def NOT_FILE_GH_BB : Nat := 0x3F3F3F3F3F3F3F3F
def RANK_1_BB : Nat := 0x00000000000000FF
def RANK_2_BB : Nat := 0x000000000000FF00
def RANK_3_BB : Nat := 0x0000000000FF0000
def RANK_4_BB : Nat := 0x00000000FF000000
def RANK_5_BB : Nat := 0x000000FF00000000
def RANK_6_BB : Nat := 0x0000FF0000000000
def RANK_7_BB : Nat := 0x00FF000000000000
def RANK_8_BB : Nat := 0xFF00000000000000
def WHITE_SQUARES_BB : Nat := 0x55AA55AA55AA55AA
def BLACK_SQUARES_BB : Nat := 0xAA55AA55AA55AA55
def CENTER_SQUARES_BB : Nat := 0x0000001818000000

/-- Modelled from the spec: the file mask `FILES_BB[f]`. -/
def FILES_BB (f : Nat) : Nat := shl64 FILE_A_BB f

def rankIndex (s : Nat) : Nat := s / 8
def fileIndex (s : Nat) : Nat := s % 8

def shiftNorth (b : Nat) : Nat := shl64 b 8
def shiftSouth (b : Nat) : Nat := shr64 b 8
def shiftEast (b : Nat) : Nat := shl64 b 1 &&& NOT_FILE_A_BB
def shiftWest (b : Nat) : Nat := shr64 b 1 &&& NOT_FILE_H_BB
def shiftNorthEast (b : Nat) : Nat := shl64 b 9 &&& NOT_FILE_A_BB
def shiftSouthEast (b : Nat) : Nat := shr64 b 7 &&& NOT_FILE_A_BB
def shiftSouthWest (b : Nat) : Nat := shr64 b 9 &&& NOT_FILE_H_BB
def shiftNorthWest (b : Nat) : Nat := shl64 b 7 &&& NOT_FILE_H_BB

def fillNorth (b : Nat) : Nat :=
  let b := b ||| shl64 b 8
  let b := b ||| shl64 b 16
  (b ||| shl64 b 32) % 2 ^ 64

def fillSouth (b : Nat) : Nat :=
  let b := b ||| shr64 b 8
  let b := b ||| shr64 b 16
  (b ||| shr64 b 32) % 2 ^ 64

def fillFile (b : Nat) : Nat := fillSouth b ||| fillNorth b

def wFrontSpans (b : Nat) : Nat := shiftNorth (fillNorth b)
def wRearSpans (b : Nat) : Nat := shiftSouth (fillSouth b)
def bFrontSpans (b : Nat) : Nat := shiftSouth (fillSouth b)
def bRearSpans (b : Nat) : Nat := shiftNorth (fillNorth b)
def wAttackFrontSpans (b : Nat) : Nat := fillNorth (shiftNorthEast b ||| shiftNorthWest b)
def wAttackRearSpans (b : Nat) : Nat := fillSouth (shiftEast b ||| shiftWest b)
def bAttackFrontSpans (b : Nat) : Nat := fillSouth (shiftSouthEast b ||| shiftSouthWest b)
def bAttackRearSpans (b : Nat) : Nat := fillNorth (shiftEast b ||| shiftWest b)

/-- Modelled from the spec: the king moves from a square (`KING_ATTACKS[s]`). -/
def KING_ATTACKS (s : Nat) : Nat :=
  let b := shl64 1 s
  shiftNorth b ||| shiftSouth b ||| shiftEast b ||| shiftWest b |||
    shiftNorthEast b ||| shiftNorthWest b ||| shiftSouthEast b ||| shiftSouthWest b

/-- Modelled from the spec: the knight moves from a square (`KNIGHT_ATTACKS[s]`). -/
def KNIGHT_ATTACKS (s : Nat) : Nat :=
  let b := shl64 1 s
  (shl64 b 17 &&& NOT_FILE_A_BB) ||| (shl64 b 10 &&& NOT_FILE_AB_BB) |||
    (shr64 b 6 &&& NOT_FILE_AB_BB) ||| (shr64 b 15 &&& NOT_FILE_A_BB) |||
    (shl64 b 15 &&& NOT_FILE_H_BB) ||| (shl64 b 6 &&& NOT_FILE_GH_BB) |||
    (shr64 b 10 &&& NOT_FILE_GH_BB) ||| (shr64 b 17 &&& NOT_FILE_H_BB)

/-- The squares reached from the one-square bitboard `b` by repeating `shift`, up to and
including the first square of `occ`. -/
def rayAttack (shift : Nat → Nat) (occ : Nat) : Nat → Nat → Nat
  | 0, _ => 0
  | n + 1, b =>
    let nxt := shift b
    if nxt = 0 then 0
    else if nxt &&& occ ≠ 0 then nxt
    else nxt ||| rayAttack shift occ n nxt

/-- Modelled from the spec: the rook attack set for an occupancy (`lookUpRookAttack`). -/
def lookUpRookAttack (s occ : Nat) : Nat :=
  let b := shl64 1 s
  rayAttack shiftNorth occ 7 b ||| rayAttack shiftSouth occ 7 b |||
    rayAttack shiftEast occ 7 b ||| rayAttack shiftWest occ 7 b

/-- Modelled from the spec: the bishop attack set for an occupancy
(`lookUpBishopAttack`). -/
def lookUpBishopAttack (s occ : Nat) : Nat :=
  let b := shl64 1 s
  rayAttack shiftNorthEast occ 7 b ||| rayAttack shiftNorthWest occ 7 b |||
    rayAttack shiftSouthEast occ 7 b ||| rayAttack shiftSouthWest occ 7 b

/-- The squares strictly between the one-square bitboards `a` and `t` in the direction of
`shift`, or nothing when `t` is not met. -/
def between (shift : Nat → Nat) (a t : Nat) : Nat :=
  let r := rayAttack shift t 7 a
  if r &&& t ≠ 0 then r &&& not64 t else 0

/-- Modelled from the spec: the squares strictly between two squares of one rank, file or
diagonal (`IN_BETWEEN_SQUARES[a][b]`), empty otherwise. -/
def IN_BETWEEN_SQUARES (a t : Nat) : Nat :=
  let x := shl64 1 a
  let y := shl64 1 t
  between shiftNorth x y ||| between shiftSouth x y ||| between shiftEast x y |||
    between shiftWest x y ||| between shiftNorthEast x y ||| between shiftNorthWest x y |||
    between shiftSouthEast x y ||| between shiftSouthWest x y

/-- Modelled from the spec: the squares ahead of a pawn of colour `c` on its file and the
adjacent files (`PASSED_PAWN_MASK[c][s]`). -/
def PASSED_PAWN_MASK (c : Bool) (s : Nat) : Nat :=
  let b := shl64 1 s
  if c = WHITE then wFrontSpans b ||| wAttackFrontSpans b
  else bFrontSpans b ||| bAttackFrontSpans b

/-- Modelled from the spec: `manhattanDistance`. -/
def manhattanDistance (a t : Nat) : Int :=
  |(rankIndex a : Int) - rankIndex t| + |(fileIndex a : Int) - fileIndex t|

/-- Modelled from the spec: `chebyshevDistance`. -/
def chebyshevDistance (a t : Nat) : Int :=
  max |(rankIndex a : Int) - rankIndex t| |(fileIndex a : Int) - fileIndex t|

/-! ## Evaluation: packed scores and single-precision arithmetic -/

/-- Modelled from the spec: the packed score, a pair of a middlegame and an endgame value
with componentwise arithmetic.  The two halves are signed 16-bit values in the code; here
they are integers and a sum is the exact componentwise sum.  This is the sum of the code
as long as both halves of the result are within the signed 16-bit range
(`EvalScore.fits16`); a half that leaves the range wraps around in the code (`wrap16`),
which the sum of the model does not do. -/
abbrev EvalScore := Int × Int

def M (mg eg : Int) : EvalScore := (mg, eg)
def MgScore (s : EvalScore) : Int := s.1
def EgScore (s : EvalScore) : Int := s.2

/-- The product of a packed score and an integer (`EvalScore * int`). -/
def EvalScore.scale (s : EvalScore) (n : Int) : EvalScore := (s.1 * n, s.2 * n)

/-- The integer of a `bool` operand. -/
def boolInt (p : Bool) : Int := if p then 1 else 0

/-- The binary exponent of a positive rational: the `e` with `2 ^ e <= q < 2 ^ (e + 1)`. -/
def binExp (q : ℚ) : Int :=
  let e0 : Int := (Nat.log2 q.num.natAbs : Int) - (Nat.log2 q.den : Int)
  if q < (2 : ℚ) ^ e0 then e0 - 1 else e0

/-- Rounding of a non-negative rational to the nearest integer, ties to even. -/
def roundHalfEven (x : ℚ) : Int :=
  let f := Rat.floor x
  let r := x - f
  if r < 1 / 2 then f
  else if 1 / 2 < r then f + 1
  else if f % 2 = 0 then f else f + 1

/-- Rounding of a positive rational to 24 significant bits (round to nearest, ties to
even), as single precision does in its normal range. -/
def f32pos (q : ℚ) : ℚ :=
  let ulp : ℚ := (2 : ℚ) ^ (binExp q - 23)
  (roundHalfEven (q / ulp) : ℚ) * ulp

/-- The single-precision value nearest to a rational.  A `float` of the source is the
rational it stands for; overflow and subnormal numbers do not occur in the evaluation and
are not modelled. -/
def f32 (q : ℚ) : ℚ :=
  if q = 0 then 0 else if q < 0 then -f32pos (-q) else f32pos q

/-- The conversion `(int) x` of a `float`: truncation toward zero. -/
def truncInt (q : ℚ) : Int :=
  if q < 0 then -Rat.floor (-q) else Rat.floor q

/-- The conversion `(float) n` of an integer. -/
def floatOfInt (n : Int) : ℚ := f32 n

def fadd (a b : ℚ) : ℚ := f32 (a + b)
def fsub (a b : ℚ) : ℚ := f32 (a - b)
def fmul (a b : ℚ) : ℚ := f32 (a * b)
def fdiv (a b : ℚ) : ℚ := f32 (a / b)

/-! ## Evaluation: parameters -/

def SIDE_TO_MOVE : EvalScore := M 14 14
def PAWN_STRUCTURE : EvalScore := M 8 2
def PAWN_PASSED_AND_DOUBLED : EvalScore := M (-12) (-36)
def PAWN_PASSED_AND_BLOCKED : EvalScore := M 1 (-36)
def PAWN_PASSED_COVERED_PROMO : EvalScore := M (-1) 8
def PAWN_PASSED_HELPER : EvalScore := M 2 4
def PAWN_PASSED_AND_DEFENDED : EvalScore := M 11 0
def PAWN_PASSED_SQUARE_RULE : EvalScore := M 4 15
def PAWN_PASSED_EDGE_DISTANCE : EvalScore := M (-4) (-4)
def PAWN_PASSED_KING_TROPISM : EvalScore := M (-2) 13
def PAWN_ISOLATED : EvalScore := M (-0) (-7)
def PAWN_DOUBLED : EvalScore := M (-6) (-7)
def PAWN_DOUBLED_AND_ISOLATED : EvalScore := M (-5) (-21)
def PAWN_BACKWARD : EvalScore := M (-9) (-2)
def PAWN_OPEN : EvalScore := M (-9) (-10)
def PAWN_BLOCKED : EvalScore := M (-4) (-9)
def PAWN_CONNECTED : EvalScore := M 8 8
def KNIGHT_OUTPOST : EvalScore := M 22 19
def KNIGHT_DISTANCE_ENEMY_KING : EvalScore := M (-4) (-1)
def ROOK_OPEN_FILE : EvalScore := M 23 (-1)
def ROOK_HALF_OPEN_FILE : EvalScore := M 1 (-9)
def ROOK_KING_LINE : EvalScore := M 8 6
def BISHOP_DOUBLED : EvalScore := M 13 74
def BISHOP_FIANCHETTO : EvalScore := M 23 29
def BISHOP_STUNTED : EvalScore := M (-6) (-10)
def BISHOP_PIECE_SAME_SQUARE_E : EvalScore := M 3 3
def QUEEN_DISTANCE_ENEMY_KING : EvalScore := M (-20) (-12)
def KING_CLOSE_OPPONENT : EvalScore := M (-13) 14
def KING_PAWN_SHIELD : EvalScore := M 26 8
def CASTLING_RIGHTS : EvalScore := M 16 1
def MINOR_BEHIND_PAWN : EvalScore := M 5 19
def SAFE_QUEEN_CHECK : EvalScore := M 5 27
def SAFE_ROOK_CHECK : EvalScore := M 11 4
def SAFE_BISHOP_CHECK : EvalScore := M 5 4
def SAFE_KNIGHT_CHECK : EvalScore := M 11 4
def PAWN_ATTACK_MINOR : EvalScore := M 38 65
def PAWN_ATTACK_ROOK : EvalScore := M 39 26
def PAWN_ATTACK_QUEEN : EvalScore := M 30 28
def MINOR_ATTACK_ROOK : EvalScore := M 33 25
def MINOR_ATTACK_QUEEN : EvalScore := M 24 37
def ROOK_ATTACK_QUEEN : EvalScore := M 31 16

def mobilityKnight : List EvalScore :=
  [M (-76) 12, M (-66) 57, M (-61) 83, M (-57) 97, M (-53) 107,
   M (-49) 116, M (-43) 117, M (-34) 112, M (-21) 96]

def mobilityBishop : List EvalScore :=
  [M (-21) (-10), M (-12) 46, M (-5) 73, M (-1) 89, M 3 102,
   M 6 112, M 7 119, M 6 123, M 7 126, M 10 124,
   M 16 119, M 31 111, M 40 120, M 63 91]

def mobilityRook : List EvalScore :=
  [M (-76) 79, M (-70) 116, M (-67) 148, M (-66) 172, M (-65) 186,
   M (-60) 193, M (-54) 199, M (-47) 202, M (-43) 207, M (-38) 213,
   M (-34) 217, M (-30) 220, M (-20) 218, M 9 200, M 63 169]

def mobilityQueen : List EvalScore :=
  [M (-195) 141, M (-179) 143, M (-167) 243, M (-164) 309, M (-162) 344,
   M (-161) 368, M (-160) 389, M (-158) 402, M (-157) 413, M (-154) 419,
   M (-152) 424, M (-150) 427, M (-149) 429, M (-148) 432, M (-148) 434,
   M (-149) 434, M (-149) 433, M (-149) 431, M (-147) 427, M (-139) 417,
   M (-131) 404, M (-128) 395, M (-131) 387, M (-114) 371, M (-174) 396,
   M (-57) 310, M (-89) 355, M (-197) 446]

def hangingEval : List EvalScore :=
  [M (-3) (-1), M (-3) (-1), M (-5) (-6), M (-4) (-4), M (-3) (-6)]

def pinnedEval : List EvalScore :=
  [M 3 (-3), M (-6) 8, M (-6) 51, M (-18) (-54), M (-14) (-15),
   M (-17) 47, M (-2) (-9), M (-20) (-14), M (-13) 35, M (-10) (-10),
   M 8 (-10), M (-13) 39, M 12 (-19), M (-4) (-31), M (-16) 53]

def passer_rank_n : List EvalScore :=
  [M 0 0, M (-13) 5, M (-22) 19, M (-15) 55,
   M 11 92, M 31 152, M 10 61, M 0 0]

def candidate_passer : List EvalScore :=
  [M 0 0, M (-21) 6, M (-6) 13, M (-3) 23,
   M 3 71, M 4 65, M 0 0, M 0 0]

def bishop_pawn_same_color_table_o : List EvalScore :=
  [M (-49) 39, M (-55) 41, M (-54) 28,
   M (-56) 19, M (-58) 10, M (-62) (-1),
   M (-64) (-17), M (-63) (-31), M (-70) (-69)]

def bishop_pawn_same_color_table_e : List EvalScore :=
  [M (-38) 30, M (-55) 42, M (-59) 35,
   M (-63) 30, M (-66) 22, M (-69) 11,
   M (-70) (-3), M (-68) (-13), M (-76) (-21)]

def kingSafetyAttackWeights : List Int := [0, 22, 12, 46, 58, 0]

def kingSafetyAttackScale : List Int := [0, 0, 36, 66, 91, 105, 1453, 99]

def phaseValues : List ℚ := [0, 1, 1, 2, 4, 0]

def lazyEvalAlphaBound : Int := 803
def lazyEvalBetaBound : Int := 392

/-- The table `mobilities[pieceType]` (a null pointer for pawns and kings). -/
def mobilities (pieceType : Nat) : List EvalScore :=
  if pieceType = KNIGHT then mobilityKnight
  else if pieceType = BISHOP then mobilityBishop
  else if pieceType = ROOK then mobilityRook
  else if pieceType = QUEEN then mobilityQueen
  else []

/-- An array read `table[i]` of packed scores whose index is in range on every board. -/
def tableAt (table : List EvalScore) (i : Nat) : EvalScore := table.getD i (0, 0)

/-! ## Evaluation: board and scratchpad -/

/-- Modelled from the spec: what the evaluation reads of the board: the bitboard of every
piece code (0-5 White, 8-13 Black), the side to move, the four castling rights and the
material score.  The class `Board` is not part of the sources at hand. -/
structure Board where
  pieceBB : Nat → Nat
  activePlayer : Bool
  castlingRights : Nat → Bool
  material : EvalScore

namespace Board

/-- The index of a colour as an array index (`false` is 0, `true` is 1). -/
def colorIndex (c : Bool) : Nat := if c then 1 else 0

/-- Modelled from the spec: `getPieceBB(color, type)`. -/
def getPieceBB (b : Board) (c : Bool) (t : Nat) : Nat := b.pieceBB (colorIndex c * 8 + t)

/-- Modelled from the spec: `getTeamOccupiedBB(color)`, the union of the six bitboards of a
colour. -/
def getTeamOccupiedBB (b : Board) (c : Bool) : Nat :=
  b.getPieceBB c PAWN ||| b.getPieceBB c KNIGHT ||| b.getPieceBB c BISHOP |||
    b.getPieceBB c ROOK ||| b.getPieceBB c QUEEN ||| b.getPieceBB c KING

/-- Modelled from the spec: `getOccupiedBB()`. -/
def getOccupiedBB (b : Board) : Nat := b.getTeamOccupiedBB WHITE ||| b.getTeamOccupiedBB BLACK

/-- Modelled from the spec: `getPiece(square)`, the piece code on a square (-1 on an empty
square). -/
def getPiece (b : Board) (s : Nat) : Int :=
  match [0, 1, 2, 3, 4, 5, 8, 9, 10, 11, 12, 13].find? (fun p => (b.pieceBB p).testBit s) with
  | some p => p
  | none => -1

def getActivePlayer (b : Board) : Bool := b.activePlayer

def getCastlingRights (b : Board) (i : Nat) : Bool := b.castlingRights i

end Board

/-- The scratchpad `evalData` of the evaluator. -/
structure EvalData where
  attacks : Bool → Nat → Nat
  allAttacks : Bool → Nat
  kingZone : Bool → Nat
  kingSquare : Bool → Nat
  pawnEastAttacks : Bool → Nat
  pawnWestAttacks : Bool → Nat
  mobilitySquares : Bool → Nat
  semiOpen : Bool → Nat
  openFiles : Nat
  threats : Bool → EvalScore
  ksAttackValue : Bool → Int
  ksAttackCount : Bool → Nat

/-- The value-initialised scratchpad (`evalData = {}`). -/
def EvalData.zero : EvalData :=
  { attacks := fun _ _ => 0, allAttacks := fun _ => 0, kingZone := fun _ => 0,
    kingSquare := fun _ => 0, pawnEastAttacks := fun _ => 0, pawnWestAttacks := fun _ => 0,
    mobilitySquares := fun _ => 0, semiOpen := fun _ => 0, openFiles := 0,
    threats := fun _ => (0, 0), ksAttackValue := fun _ => 0, ksAttackCount := fun _ => 0 }

/-- The array `f` with the entry of colour `c` replaced by `v`. -/
def setC {α : Type} (f : Bool → α) (c : Bool) (v : α) : Bool → α :=
  fun d => if d = c then v else f d

/-- The array `f` with the entry of colour `c` and piece type `t` replaced by `v`. -/
def setCT (f : Bool → Nat → Nat) (c : Bool) (t : Nat) (v : Nat) : Bool → Nat → Nat :=
  fun d u => if d = c ∧ u = t then v else f d u

/-! ## Evaluation: features -/

/-- `hasMatingMaterial` (lines 191-198). -/
def hasMatingMaterial (b : Board) (side : Bool) : Bool :=
  let s := Board.colorIndex side
  decide ((b.pieceBB (QUEEN + s * 8) ||| b.pieceBB (ROOK + s * 8) ||| b.pieceBB (PAWN + s * 8)) ≠ 0)
    || (decide (bitCount (b.pieceBB (BISHOP + s * 8) ||| b.pieceBB (KNIGHT + s * 8)) > 1)
        && decide (b.pieceBB (BISHOP + s * 8) ≠ 0))

/-- `isOutpost` (lines 203-206). -/
def isOutpost (s : Nat) (c : Bool) (opponentPawns pawnCover : Nat) : Bool :=
  let sq := shl64 1 s
  decide (((PASSED_PAWN_MASK c s &&& not64 (FILES_BB (fileIndex s))) &&& opponentPawns) = 0)
    && decide (sq &&& pawnCover ≠ 0)

/-- The phase computed at the start of `evaluate` (lines 686-697). -/
def phaseOf (b : Board) : ℚ :=
  let phase :=
    fdiv
      (fsub (fsub (fsub (fsub (fsub (fadd 24 (phaseValues.getD 5 0))
        (fmul (phaseValues.getD 0 0)
          (floatOfInt (bitCount (b.pieceBB WHITE_PAWN ||| b.pieceBB BLACK_PAWN)))))
        (fmul (phaseValues.getD 1 0)
          (floatOfInt (bitCount (b.pieceBB WHITE_KNIGHT ||| b.pieceBB BLACK_KNIGHT)))))
        (fmul (phaseValues.getD 2 0)
          (floatOfInt (bitCount (b.pieceBB WHITE_BISHOP ||| b.pieceBB BLACK_BISHOP)))))
        (fmul (phaseValues.getD 3 0)
          (floatOfInt (bitCount (b.pieceBB WHITE_ROOK ||| b.pieceBB BLACK_ROOK)))))
        (fmul (phaseValues.getD 4 0)
          (floatOfInt (bitCount (b.pieceBB WHITE_QUEEN ||| b.pieceBB BLACK_QUEEN)))))
      24
  let phase := if phase > 1 then 1 else phase
  if phase < 0 then 0 else phase

/-- `computeHangingPieces` (lines 226-240). -/
def computeHangingPieces (ed : EvalData) (b : Board) : EvalScore :=
  let WnotAttacked := not64 (ed.allAttacks WHITE)
  let BnotAttacked := not64 (ed.allAttacks BLACK)
  [PAWN, KNIGHT, BISHOP, ROOK, QUEEN].foldl
    (fun res i => res + (tableAt hangingEval i).scale
      ((bitCount (b.getPieceBB WHITE i &&& WnotAttacked) : Int)
        - bitCount (b.getPieceBB BLACK i &&& BnotAttacked)))
    (M 0 0)

/-- The body of the loop of `computePinnedPieces` for one potential pinner (lines
272-299). -/
def pinnedStep (color : Bool) (b : Board) (ourOcc kingSq : Nat) (result : EvalScore)
    (pinnerSquare : Nat) : EvalScore :=
  let inBetween := IN_BETWEEN_SQUARES kingSq pinnerSquare
  let potentialPinned := ourOcc &&& inBetween
  if potentialPinned = 0 ∨ lsbIsolation potentialPinned ≠ potentialPinned then result
  else
    let pinnedPiece := b.getPiece (bitscanForward potentialPinned)
    let pinnerPiece := b.getPiece pinnerSquare - BISHOP
    let pinnerPiece := if color = WHITE then pinnerPiece - 8 else pinnerPiece
    let pinnedPiece := if color = WHITE then pinnedPiece else pinnedPiece - 8
    result + tableAt pinnedEval (pinnedPiece * 3 + pinnerPiece).toNat

/-- `computePinnedPieces<color>` (lines 242-303). -/
def computePinnedPieces (color : Bool) (b : Board) : EvalScore :=
  let us := color
  let them := !color
  let opponentOcc := b.getTeamOccupiedBB them
  let ourOcc := b.getTeamOccupiedBB us
  let bishops := b.getPieceBB them BISHOP
  let rooks := b.getPieceBB them ROOK
  let queens := b.getPieceBB them QUEEN
  let kingSq := bitscanForward (b.getPieceBB us KING)
  let rookAttacks := lookUpRookAttack kingSq opponentOcc &&& (rooks ||| queens)
  let bishopAttacks := lookUpBishopAttack kingSq opponentOcc &&& (bishops ||| queens)
  let potentialPinners := rookAttacks ||| bishopAttacks
  (bitsOf potentialPinners).foldl (pinnedStep color b ourOcc kingSq) (0, 0)

/-- The body of the loop of `computePassedPawns` for the pawn on square `s` (lines
319-388). -/
def passedStep (color : Bool) (ed : EvalData) (b : Board) (pawns oppPawns kingSq oppKingSq : Nat)
    (h : EvalScore) (s : Nat) : EvalScore :=
  let r : Int := if color = WHITE then rankIndex s else 7 - (rankIndex s : Int)
  let f : Int := fileIndex s
  let sqBB := shl64 1 s
  let advBB := if color = WHITE then shiftNorth sqBB else shiftSouth sqBB
  let adv := bitscanForward advBB
  let passerMask := PASSED_PAWN_MASK color s
  let passed : Bool := decide (passerMask &&& oppPawns = 0)
  let h :=
    if passed then
      let teleBB := if color = WHITE then shiftNorth sqBB else shiftSouth sqBB
      let promBB := FILES_BB (fileIndex s) &&& (if color = WHITE then RANK_8_BB else RANK_1_BB)
      let promCBB := if promBB &&& WHITE_SQUARES_BB ≠ 0 then WHITE_SQUARES_BB else BLACK_SQUARES_BB
      let h := h + (tableAt passer_rank_n r.toNat
        + PAWN_PASSED_EDGE_DISTANCE.scale (if f > 3 then 7 - f else f))
      let h := h + PAWN_PASSED_AND_DOUBLED.scale (bitCount (teleBB &&& pawns))
      let h := h + PAWN_PASSED_AND_BLOCKED.scale (bitCount (teleBB &&& b.getTeamOccupiedBB (!color)))
      let h := h + PAWN_PASSED_COVERED_PROMO.scale
        ((bitCount (b.getPieceBB color BISHOP &&& promCBB) : Int)
          + bitCount (b.getPieceBB color QUEEN)
          - bitCount (b.getPieceBB (!color) BISHOP &&& promCBB)
          - bitCount (b.getPieceBB (!color) QUEEN))
      let h := h + PAWN_PASSED_HELPER.scale
        (bitCount (pawns &&& (if color = WHITE then wAttackRearSpans pawns else bAttackRearSpans pawns)))
      let h := h + PAWN_PASSED_AND_DEFENDED.scale
        ((bitCount (sqBB &&& ed.pawnWestAttacks color) : Int)
          + bitCount (sqBB &&& ed.pawnEastAttacks color))
      let h := h + PAWN_PASSED_SQUARE_RULE.scale
        (boolInt (decide (7 - r + boolInt (color != b.getActivePlayer)
          < manhattanDistance (bitscanForward promBB)
              (bitscanForward (b.getPieceBB (!color) KING)))))
      h + PAWN_PASSED_KING_TROPISM.scale
        (max (-4) (min 4 (chebyshevDistance oppKingSq adv - chebyshevDistance kingSq adv)))
    else h
  if !passed && decide (sqBB &&& ed.semiOpen color ≠ 0) then
    let antiPassers := passerMask &&& oppPawns
    let pawnAdvance := if color = WHITE then shiftNorth sqBB else shiftSouth sqBB
    let levers := oppPawns &&& (if color = WHITE then shiftNorthEast sqBB ||| shiftNorthWest sqBB
      else shiftSouthEast sqBB ||| shiftSouthWest sqBB)
    let forwardLevers := oppPawns &&&
      (if color = WHITE then shiftNorthEast pawnAdvance ||| shiftNorthWest pawnAdvance
        else shiftSouthEast pawnAdvance ||| shiftSouthWest pawnAdvance)
    let helpers := (shiftEast sqBB ||| shiftWest sqBB) &&& pawns
    let push : Bool := decide (antiPassers ^^^ levers = 0)
    let helped : Bool := decide (antiPassers ^^^ forwardLevers = 0)
      && decide (bitCount helpers ≥ bitCount forwardLevers)
    if push || helped then h + tableAt candidate_passer r.toNat else h
  else h

/-- `computePassedPawns<color>` (lines 305-391). -/
def computePassedPawns (color : Bool) (ed : EvalData) (b : Board) : EvalScore :=
  let pawns := b.getPieceBB color PAWN
  let oppPawns := b.getPieceBB (!color) PAWN
  let kingSq := bitscanForward (b.getPieceBB color KING)
  let oppKingSq := bitscanForward (b.getPieceBB (!color) KING)
  (bitsOf pawns).foldl (passedStep color ed b pawns oppPawns kingSq oppKingSq) (M 0 0)

/-- `computePawns` (lines 393-491): the score and the scratchpad it leaves. -/
def computePawns (ed : EvalData) (b : Board) : EvalScore × EvalData :=
  let whiteTeam := b.getTeamOccupiedBB WHITE
  let blackTeam := b.getTeamOccupiedBB BLACK
  let whitePawns := b.pieceBB WHITE_PAWN
  let blackPawns := b.pieceBB BLACK_PAWN
  let whiteDoubledWithoutFirst := wFrontSpans whitePawns &&& whitePawns
  let blackDoubledWithoutFirst := bFrontSpans blackPawns &&& blackPawns
  let whiteDoubledPawns := whiteDoubledWithoutFirst ||| (wRearSpans whiteDoubledWithoutFirst &&& whitePawns)
  let blackDoubledPawns := blackDoubledWithoutFirst ||| (bRearSpans blackDoubledWithoutFirst &&& blackPawns)
  let whiteIsolatedPawns := whitePawns &&& not64 (fillFile (shiftWest whitePawns ||| shiftEast whitePawns))
  let blackIsolatedPawns := blackPawns &&& not64 (fillFile (shiftWest blackPawns ||| shiftEast blackPawns))
  let whiteBlockedPawns := shiftNorth whitePawns &&& (whiteTeam ||| blackTeam)
  let blackBlockedPawns := shiftSouth blackPawns &&& (whiteTeam ||| blackTeam)
  let whiteConnectedPawns := whitePawns &&& (shiftEast whitePawns ||| shiftWest whitePawns)
    &&& (RANK_4_BB ||| RANK_5_BB ||| RANK_6_BB ||| RANK_7_BB)
  let blackConnectedPawns := blackPawns &&& (shiftEast blackPawns ||| shiftWest blackPawns)
    &&& (RANK_5_BB ||| RANK_4_BB ||| RANK_3_BB ||| RANK_2_BB)
  let semiOpen := setC (setC ed.semiOpen WHITE (not64 (fillFile blackPawns))) BLACK
    (not64 (fillFile whitePawns))
  let openFiles := semiOpen WHITE &&& semiOpen BLACK
  let whitePawnEastCover := shiftNorthEast whitePawns &&& whitePawns
  let whitePawnWestCover := shiftNorthWest whitePawns &&& whitePawns
  let blackPawnEastCover := shiftSouthEast blackPawns &&& blackPawns
  let blackPawnWestCover := shiftSouthWest blackPawns &&& blackPawns
  let pawnEastAttacks := setC (setC ed.pawnEastAttacks WHITE (shiftNorthEast whitePawns)) BLACK
    (shiftSouthEast blackPawns)
  let pawnWestAttacks := setC (setC ed.pawnWestAttacks WHITE (shiftNorthWest whitePawns)) BLACK
    (shiftSouthWest blackPawns)
  let attacks := setCT ed.attacks WHITE PAWN (pawnEastAttacks WHITE ||| pawnWestAttacks WHITE)
  let attacks := setCT attacks BLACK PAWN (pawnEastAttacks BLACK ||| pawnWestAttacks BLACK)
  let allAttacks := setC ed.allAttacks WHITE (ed.allAttacks WHITE ||| attacks WHITE PAWN)
  let allAttacks := setC allAttacks BLACK (allAttacks BLACK ||| attacks BLACK PAWN)
  let mobilitySquares := setC ed.mobilitySquares WHITE (not64 whiteTeam &&& not64 (attacks BLACK PAWN))
  let mobilitySquares := setC mobilitySquares BLACK (not64 blackTeam &&& not64 (attacks WHITE PAWN))
  let threats := setC ed.threats WHITE (PAWN_ATTACK_MINOR.scale
    (bitCount (attacks WHITE PAWN &&& (b.getPieceBB BLACK KNIGHT ||| b.getPieceBB BLACK BISHOP))))
  let threats := setC threats BLACK (PAWN_ATTACK_MINOR.scale
    (bitCount (attacks BLACK PAWN &&& (b.getPieceBB WHITE KNIGHT ||| b.getPieceBB WHITE BISHOP))))
  let threats := setC threats WHITE (threats WHITE + PAWN_ATTACK_ROOK.scale
    (bitCount (attacks WHITE PAWN &&& b.getPieceBB BLACK ROOK)))
  let threats := setC threats BLACK (threats BLACK + PAWN_ATTACK_ROOK.scale
    (bitCount (attacks BLACK PAWN &&& b.getPieceBB WHITE ROOK)))
  let threats := setC threats WHITE (threats WHITE + PAWN_ATTACK_QUEEN.scale
    (bitCount (attacks WHITE PAWN &&& b.getPieceBB BLACK QUEEN)))
  let threats := setC threats BLACK (threats BLACK + PAWN_ATTACK_QUEEN.scale
    (bitCount (attacks BLACK PAWN &&& b.getPieceBB WHITE QUEEN)))
  let res : EvalScore := (0, 0)
  let res := res + PAWN_DOUBLED_AND_ISOLATED.scale
    ((bitCount (whiteIsolatedPawns &&& whiteDoubledPawns) : Int)
      - bitCount (blackIsolatedPawns &&& blackDoubledPawns))
  let res := res + PAWN_DOUBLED.scale
    ((bitCount (not64 whiteIsolatedPawns &&& whiteDoubledPawns) : Int)
      - bitCount (not64 blackIsolatedPawns &&& blackDoubledPawns))
  let res := res + PAWN_ISOLATED.scale
    ((bitCount (whiteIsolatedPawns &&& not64 whiteDoubledPawns) : Int)
      - bitCount (blackIsolatedPawns &&& not64 blackDoubledPawns))
  let res := res + PAWN_STRUCTURE.scale
    ((bitCount whitePawnEastCover : Int) + bitCount whitePawnWestCover
      - bitCount blackPawnEastCover - bitCount blackPawnWestCover)
  let res := res + PAWN_OPEN.scale
    ((bitCount (whitePawns &&& not64 (attacks WHITE PAWN) &&& not64 (fillSouth blackPawns)) : Int)
      - bitCount (blackPawns &&& not64 (attacks BLACK PAWN) &&& not64 (fillNorth whitePawns)))
  let res := res + PAWN_BACKWARD.scale
    ((bitCount (fillSouth (not64 (wAttackFrontSpans whitePawns) &&& attacks BLACK PAWN)
        &&& whitePawns) : Int)
      - bitCount (fillNorth (not64 (bAttackFrontSpans blackPawns) &&& attacks WHITE PAWN)
        &&& blackPawns))
  let res := res + PAWN_BLOCKED.scale
    ((bitCount whiteBlockedPawns : Int) - bitCount blackBlockedPawns)
  let res := res + PAWN_CONNECTED.scale
    ((bitCount whiteConnectedPawns : Int) - bitCount blackConnectedPawns)
  let res := res + MINOR_BEHIND_PAWN.scale
    ((bitCount (shiftNorth (b.pieceBB WHITE_KNIGHT ||| b.pieceBB WHITE_BISHOP)
        &&& (b.pieceBB WHITE_PAWN ||| b.pieceBB BLACK_PAWN)) : Int)
      - bitCount (shiftSouth (b.pieceBB BLACK_KNIGHT ||| b.pieceBB BLACK_BISHOP)
        &&& (b.pieceBB WHITE_PAWN ||| b.pieceBB BLACK_PAWN)))
  (res, { ed with
    semiOpen := semiOpen, openFiles := openFiles, pawnEastAttacks := pawnEastAttacks,
    pawnWestAttacks := pawnWestAttacks, attacks := attacks, allAttacks := allAttacks,
    mobilitySquares := mobilitySquares, threats := threats })

/-- The attack set of a piece in `computePieces` (lines 506-519). -/
def pieceAttacks (color : Bool) (pieceType : Nat) (b : Board) (square : Nat) : Nat :=
  if pieceType = KNIGHT then KNIGHT_ATTACKS square
  else if pieceType = BISHOP then
    lookUpBishopAttack square (b.getOccupiedBB &&& not64 (b.getPieceBB color QUEEN))
  else if pieceType = ROOK then
    lookUpRookAttack square
      (b.getOccupiedBB &&& not64 (b.getPieceBB color QUEEN) &&& not64 (b.getPieceBB color ROOK))
  else if pieceType = QUEEN then
    lookUpRookAttack square (b.getOccupiedBB &&& not64 (b.getPieceBB color ROOK))
      ||| lookUpBishopAttack square (b.getOccupiedBB &&& not64 (b.getPieceBB color BISHOP))
  else 0

/-- The body of the loop of `computePieces` for the piece on `square` (lines 501-619): the
running score and the scratchpad. -/
def pieceStep (color : Bool) (pieceType : Nat) (b : Board) (st : EvalScore × EvalData)
    (square : Nat) : EvalScore × EvalData :=
  let score := st.1
  let ed := st.2
  let squareBB := shl64 1 square
  let attacks := pieceAttacks color pieceType b square
  let ed := { ed with
    attacks := setCT ed.attacks color pieceType (ed.attacks color pieceType ||| attacks)
    allAttacks := setC ed.allAttacks color (ed.allAttacks color ||| attacks) }
  let score := score + tableAt (mobilities pieceType) (bitCount (attacks &&& ed.mobilitySquares color))
  let ed :=
    if pieceType = KNIGHT ∨ pieceType = BISHOP then
      let ed := { ed with threats := setC ed.threats color (ed.threats color
        + MINOR_ATTACK_ROOK.scale (bitCount (attacks &&& b.getPieceBB (!color) ROOK))) }
      { ed with threats := setC ed.threats color (ed.threats color
        + MINOR_ATTACK_QUEEN.scale (bitCount (attacks &&& b.getPieceBB (!color) QUEEN))) }
    else ed
  let score :=
    if pieceType = KNIGHT then
      let score := score + KNIGHT_OUTPOST.scale
        (boolInt (isOutpost square color (b.getPieceBB (!color) PAWN) (ed.attacks color PAWN)))
      let score := score + KNIGHT_DISTANCE_ENEMY_KING.scale
        (manhattanDistance square (ed.kingSquare (!color)))
      score + SAFE_KNIGHT_CHECK.scale (bitCount
        (KNIGHT_ATTACKS (ed.kingSquare (!color)) &&& not64 (b.getTeamOccupiedBB color)
          &&& attacks &&& not64 (ed.attacks (!color) PAWN)))
    else score
  let score :=
    if pieceType = BISHOP then
      let sameColoredSquares :=
        if squareBB &&& WHITE_SQUARES_BB ≠ 0 then WHITE_SQUARES_BB else BLACK_SQUARES_BB
      let score := score + tableAt bishop_pawn_same_color_table_e
        (bitCount (b.getPieceBB (!color) PAWN &&& sameColoredSquares))
      let score := score + tableAt bishop_pawn_same_color_table_o
        (bitCount (b.getPieceBB color PAWN &&& sameColoredSquares))
      let score := score + BISHOP_PIECE_SAME_SQUARE_E.scale
        (bitCount (b.getTeamOccupiedBB (!color) &&& sameColoredSquares))
      let score :=
        if CENTER_SQUARES_BB &&& squareBB = 0
            ∧ bitCount (CENTER_SQUARES_BB &&& lookUpBishopAttack square
                (b.getPieceBB WHITE PAWN ||| b.getPieceBB BLACK PAWN)) > 1
        then score + BISHOP_FIANCHETTO else score
      let score :=
        if attacks &&& b.getPieceBB (!color) PAWN &&& ed.attacks (!color) PAWN ≠ 0
        then score + BISHOP_STUNTED else score
      score + SAFE_BISHOP_CHECK.scale (bitCount
        (lookUpBishopAttack (ed.kingSquare (!color)) b.getOccupiedBB
          &&& not64 (b.getTeamOccupiedBB color) &&& attacks &&& not64 (ed.attacks (!color) PAWN)))
    else score
  let st : EvalScore × EvalData :=
    if pieceType = ROOK then
      let ed := { ed with threats := setC ed.threats color (ed.threats color
        + ROOK_ATTACK_QUEEN.scale (bitCount (attacks &&& b.getPieceBB (!color) QUEEN))) }
      (score + SAFE_ROOK_CHECK.scale (bitCount
        (lookUpRookAttack (ed.kingSquare (!color)) b.getOccupiedBB
          &&& not64 (b.getTeamOccupiedBB color) &&& attacks &&& not64 (ed.attacks (!color) PAWN))),
       ed)
    else (score, ed)
  let score := st.1
  let ed := st.2
  let score :=
    if pieceType = QUEEN then
      let score := score + QUEEN_DISTANCE_ENEMY_KING.scale
        (manhattanDistance square (ed.kingSquare (!color)))
      score + SAFE_QUEEN_CHECK.scale (bitCount
        (((lookUpRookAttack (ed.kingSquare (!color)) b.getOccupiedBB
              &&& not64 (b.getTeamOccupiedBB color))
            ||| (lookUpBishopAttack (ed.kingSquare (!color)) b.getOccupiedBB
              &&& not64 (b.getTeamOccupiedBB color)))
          &&& attacks &&& not64 (ed.attacks (!color) PAWN)))
    else score
  let ed :=
    if ed.kingZone (!color) &&& attacks ≠ 0 then
      { ed with
        ksAttackValue := setC ed.ksAttackValue (!color) (ed.ksAttackValue (!color)
          + kingSafetyAttackWeights.getD pieceType 0 * bitCount (ed.kingZone (!color) &&& attacks))
        ksAttackCount := setC ed.ksAttackCount (!color) (ed.ksAttackCount (!color) + 1) }
    else ed
  (score, ed)

/-- The set-wise terms at the end of `computePieces` (lines 623-644). -/
def pieceSetwise (color : Bool) (pieceType : Nat) (ed : EvalData) (b : Board) (score : EvalScore) :
    EvalScore :=
  if color = WHITE then
    let score :=
      if pieceType = BISHOP then
        score + BISHOP_DOUBLED.scale
          (boolInt (decide (bitCount (b.pieceBB WHITE_BISHOP) = 2))
            - boolInt (decide (bitCount (b.pieceBB BLACK_BISHOP) = 2)))
      else score
    if pieceType = ROOK then
      let score := score + ROOK_KING_LINE.scale
        ((bitCount (lookUpRookAttack (ed.kingSquare BLACK) b.getOccupiedBB
            &&& b.getPieceBB WHITE ROOK) : Int)
          - bitCount (lookUpRookAttack (ed.kingSquare WHITE) b.getOccupiedBB
            &&& b.getPieceBB BLACK ROOK))
      let score := score + ROOK_OPEN_FILE.scale
        ((bitCount (ed.openFiles &&& b.getPieceBB WHITE ROOK) : Int)
          - bitCount (ed.openFiles &&& b.getPieceBB BLACK ROOK))
      score + ROOK_HALF_OPEN_FILE.scale
        ((bitCount (ed.semiOpen WHITE &&& not64 ed.openFiles &&& b.getPieceBB WHITE ROOK) : Int)
          - bitCount (ed.semiOpen BLACK &&& not64 ed.openFiles &&& b.getPieceBB BLACK ROOK))
    else score
  else score

/-- `computePieces<color, pieceType>` (lines 493-647): the score and the scratchpad it
leaves. -/
def computePieces (color : Bool) (pieceType : Nat) (ed : EvalData) (b : Board) :
    EvalScore × EvalData :=
  let st := (bitsOf (b.getPieceBB color pieceType)).foldl (pieceStep color pieceType b) ((0, 0), ed)
  (pieceSetwise color pieceType st.2 b st.1, st.2)

/-- `computeKings<color>` (lines 649-662). -/
def computeKings (color : Bool) (ed : EvalData) (b : Board) : EvalScore × EvalData :=
  let ed := { ed with attacks := setCT ed.attacks color KING (KING_ATTACKS (ed.kingSquare color)) }
  let ed := { ed with allAttacks := setC ed.allAttacks color (ed.allAttacks color ||| ed.attacks color KING) }
  let res : EvalScore := (0, 0)
  let res := res + KING_PAWN_SHIELD.scale
    (bitCount (KING_ATTACKS (ed.kingSquare color) &&& b.getPieceBB color PAWN))
  let res := res + KING_CLOSE_OPPONENT.scale
    (bitCount (KING_ATTACKS (ed.kingSquare color) &&& b.getTeamOccupiedBB (!color)))
  (res, ed)

/-- `computeKingSafety<color>` (lines 664-671); `none` when the read of
`kingSafetyAttackScale` is out of bounds. -/
def computeKingSafety (color : Bool) (ed : EvalData) : Option EvalScore :=
  match kingSafetyAttackScale.get? (ed.ksAttackCount color) with
  | none => none
  | some scale =>
    let danger : Int := (ed.ksAttackValue color * scale).tdiv 100
    some (M (-danger) 0)

/-! ## Evaluation: the composer -/

/-- The evaluator object: the scratchpad and the phase of the last evaluation. -/
structure Evaluator where
  evalData : EvalData
  phase : ℚ

/-- The feature part of `evaluate` (lines 712-750): `totalScore`, or `none` when an array
is read out of bounds, and the scratchpad left behind.  The two operands of every
`White - Black` difference are evaluated from left to right. -/
def totalScoreOf (b : Board) : Option EvalScore × EvalData :=
  let mobScore : EvalScore := M 0 0
  let whiteKingSquare := bitscanForward (b.pieceBB WHITE_KING)
  let blackKingSquare := bitscanForward (b.pieceBB BLACK_KING)
  let ed := EvalData.zero
  let ed := { ed with
    kingZone := setC (setC ed.kingZone WHITE (KING_ATTACKS whiteKingSquare)) BLACK
      (KING_ATTACKS blackKingSquare) }
  let ed := { ed with
    kingSquare := setC (setC ed.kingSquare WHITE whiteKingSquare) BLACK blackKingSquare }
  let featureScore : EvalScore := M 0 0
  let p := computePawns ed b
  let featureScore := featureScore + p.1
  let wn := computePieces WHITE KNIGHT p.2 b
  let bn := computePieces BLACK KNIGHT wn.2 b
  let featureScore := featureScore + (wn.1 - bn.1)
  let wb := computePieces WHITE BISHOP bn.2 b
  let bb := computePieces BLACK BISHOP wb.2 b
  let featureScore := featureScore + (wb.1 - bb.1)
  let wr := computePieces WHITE ROOK bb.2 b
  let br := computePieces BLACK ROOK wr.2 b
  let featureScore := featureScore + (wr.1 - br.1)
  let wq := computePieces WHITE QUEEN br.2 b
  let bq := computePieces BLACK QUEEN wq.2 b
  let featureScore := featureScore + (wq.1 - bq.1)
  let wk := computeKings WHITE bq.2 b
  let bk := computeKings BLACK wk.2 b
  let featureScore := featureScore + (wk.1 - bk.1)
  let ed := bk.2
  let featureScore := featureScore + CASTLING_RIGHTS.scale
    (boolInt (b.getCastlingRights WHITE_QUEENSIDE_CASTLING)
      + boolInt (b.getCastlingRights WHITE_KINGSIDE_CASTLING)
      - boolInt (b.getCastlingRights BLACK_QUEENSIDE_CASTLING)
      - boolInt (b.getCastlingRights BLACK_KINGSIDE_CASTLING))
  let featureScore := featureScore + SIDE_TO_MOVE.scale (if b.getActivePlayer = WHITE then 1 else -1)
  let hangingEvalScore := computeHangingPieces ed b
  let pinnedEvalScore := computePinnedPieces WHITE b - computePinnedPieces BLACK b
  let passedScore := computePassedPawns WHITE ed b - computePassedPawns BLACK ed b
  let threatScore := ed.threats WHITE - ed.threats BLACK
  match computeKingSafety WHITE ed, computeKingSafety BLACK ed with
  | some ksw, some ksb =>
    let kingSafetyScore := ksw - ksb
    (some (pinnedEvalScore + hangingEvalScore + featureScore + mobScore + passedScore
      + threatScore + kingSafetyScore), ed)
  | _, _ => (none, ed)

/-- The last steps of `evaluate` (lines 752-759): the blend of `totalScore + materialScore`
at the phase, with the endgame part scaled by the pawn count and the result divided by 10
without mating material. -/
def blendScore (b : Board) (phase : ℚ) (totalScore : EvalScore) : Int :=
  let materialScore := b.material
  let res : Int := truncInt (fmul (floatOfInt (MgScore (totalScore + materialScore))) (fsub 1 phase))
  let eg : Int := EgScore (totalScore + materialScore)
  let n : Int := bitCount (b.getPieceBB (if eg > 0 then WHITE else BLACK) PAWN)
  let eg : Int := (eg * (120 - (8 - n) * (8 - n))).tdiv 100
  let res := res + truncInt (fmul (floatOfInt eg) phase)
  if !hasMatingMaterial b (if res > 0 then WHITE else BLACK) then res.tdiv 10 else res

/-- The part of `evaluate` after the lazy return (lines 712-759): the score, or `none` when
an array is read out of bounds, and the scratchpad left behind. -/
def fullEvaluate (b : Board) (phase : ℚ) : Option Int × EvalData :=
  let t := totalScoreOf b
  (t.1.map (blendScore b phase), t.2)

/-- `Evaluator::evaluate` (lines 677-760): the score, or `none` when an array is read out
of bounds, and the evaluator left behind. -/
def Evaluator.evaluate (ev : Evaluator) (b : Board) (alpha beta : Int) : Option Int × Evaluator :=
  let res : Int := 0
  let materialScore := b.material
  let phase := phaseOf b
  let res := res + truncInt (fmul (floatOfInt (MgScore materialScore)) (fsub 1 phase))
  let res := res + truncInt (fmul (floatOfInt (EgScore materialScore)) phase)
  let lazyScore := res * (if b.getActivePlayer = WHITE then 1 else -1)
  if lazyScore < alpha - lazyEvalAlphaBound then (some res, { ev with phase := phase })
  else if lazyScore > beta + lazyEvalBetaBound then (some res, { ev with phase := phase })
  else
    let r := fullEvaluate b phase
    (r.1, { evalData := r.2, phase := phase })

/-! ## Evaluation: concrete boards -/

/-- The piece bitboards of the standard starting position. -/
def startPieces : Nat → Nat
  | 0 => 0x000000000000FF00
  | 1 => 0x0000000000000042
  | 2 => 0x0000000000000024
  | 3 => 0x0000000000000081
  | 4 => 0x0000000000000008
  | 5 => 0x0000000000000010
  | 8 => 0x00FF000000000000
  | 9 => 0x4200000000000000
  | 10 => 0x2400000000000000
  | 11 => 0x8100000000000000
  | 12 => 0x0800000000000000
  | 13 => 0x1000000000000000
  | _ => 0

/-- The standard starting position with White to move, all castling rights and a
material score of (0, 0). -/
def startBoard : Board :=
  { pieceBB := startPieces, activePlayer := WHITE, castlingRights := fun i => decide (i < 4),
    material := M 0 0 }

/-- The position whose only pieces are a white king on `wk` and a black king on `bk`, with
no castling rights and a material score of (0, 0). -/
def kingsBoard (wk bk : Nat) (side : Bool) : Board :=
  { pieceBB := fun p => if p = WHITE_KING then 2 ^ wk else if p = BLACK_KING then 2 ^ bk else 0,
    activePlayer := side, castlingRights := fun _ => false, material := M 0 0 }

/-- An evaluator whose scratchpad holds arbitrary data. -/
def someEvaluator : Evaluator := { evalData := EvalData.zero, phase := 0 }

/-- The starting position without the white knight of b1. -/
def startMinusKnight : Board :=
  { startBoard with pieceBB := fun p => if p = WHITE_KNIGHT then 0x40 else startPieces p }

/-- The non-pawn material of a board in phase units: knights and bishops count 1, rooks 2,
queens 4, each over both colours. -/
def materialWeight (b : Board) : Nat :=
  bitCount (b.pieceBB WHITE_KNIGHT ||| b.pieceBB BLACK_KNIGHT)
    + bitCount (b.pieceBB WHITE_BISHOP ||| b.pieceBB BLACK_BISHOP)
    + 2 * bitCount (b.pieceBB WHITE_ROOK ||| b.pieceBB BLACK_ROOK)
    + 4 * bitCount (b.pieceBB WHITE_QUEEN ||| b.pieceBB BLACK_QUEEN)

/-- The number of pieces of type `t` of both colours. -/
def countBoth (b : Board) (t : Nat) : Nat :=
  bitCount (b.getPieceBB WHITE t) + bitCount (b.getPieceBB BLACK t)

/-- The quantity `N + B + 2*R + 4*Q` of the phase formula, where `N`, `B`, `R`, `Q` count
the knights, bishops, rooks and queens of both colours. -/
def materialCount (b : Board) : Nat :=
  countBoth b KNIGHT + countBoth b BISHOP + 2 * countBoth b ROOK + 4 * countBoth b QUEEN

/-- No square holds a white and a black piece of the same type. -/
def Board.colorsDisjoint (b : Board) : Prop :=
  ∀ t, b.getPieceBB WHITE t &&& b.getPieceBB BLACK t = 0

/-- The single-precision quotient `(24 - w) / 24` clamped to [0, 1]. -/
def phaseOfWeight (w : Nat) : ℚ := max 0 (min 1 (f32 ((24 - (w : ℚ)) / 24)))

/-! ## Evaluation: the mirrored position -/

/-- The square `s` mirrored vertically (a1 and a8 change places). -/
def flipSq (s : Nat) : Nat := s % 8 + 8 * (7 - s / 8)

/-- The number below `2 ^ n` whose bit `i` is `f i`. -/
def bitboardOf (f : Nat → Bool) : Nat → Nat
  | 0 => 0
  | n + 1 => bitboardOf f n + (if f n then 2 ^ n else 0)

/-- The bitboard `x` mirrored vertically: square `i` is set when the mirrored square of `i`
is set in `x`. -/
def flipV (x : Nat) : Nat := bitboardOf (fun i => x.testBit (flipSq i)) 64

/-- The piece code of the same piece type and the other colour. -/
def swapPiece (p : Nat) : Nat := if p < 8 then p + 8 else p - 8

/-- The castling right of the same wing and the other colour. -/
def swapCastling (i : Nat) : Nat := if i < 2 then i + 2 else i - 2

/-- The position mirrored vertically with the colours of the pieces, the side to move and
the castling rights exchanged, and the material score negated. -/
def mirror (b : Board) : Board :=
  { pieceBB := fun p => flipV (b.pieceBB (swapPiece p)),
    activePlayer := !b.activePlayer,
    castlingRights := fun i => b.castlingRights (swapCastling i),
    material := -b.material }

/-- A position of the game as far as the evaluation is concerned: every bitboard is a
64-bit value, each side has exactly one king, no square holds a white and a black piece,
and no pawn stands on its promotion rank. -/
def Board.wellFormed (b : Board) : Prop :=
  (∀ p ∈ [0, 1, 2, 3, 4, 5, 8, 9, 10, 11, 12, 13], b.pieceBB p < 2 ^ 64)
    ∧ bitCount (b.pieceBB WHITE_KING) = 1 ∧ bitCount (b.pieceBB BLACK_KING) = 1
    ∧ b.getTeamOccupiedBB WHITE &&& b.getTeamOccupiedBB BLACK = 0
    ∧ b.pieceBB WHITE_PAWN &&& RANK_8_BB = 0 ∧ b.pieceBB BLACK_PAWN &&& RANK_1_BB = 0

instance (b : Board) : Decidable b.wellFormed := by
  unfold Board.wellFormed; infer_instance

/-- The scratchpad of the mirrored position: the entries of the two colours exchanged and
every bitboard and square mirrored. -/
def mirrorED (ed : EvalData) : EvalData :=
  { attacks := fun c t => flipV (ed.attacks (!c) t),
    allAttacks := fun c => flipV (ed.allAttacks (!c)),
    kingZone := fun c => flipV (ed.kingZone (!c)),
    kingSquare := fun c => flipSq (ed.kingSquare (!c)),
    pawnEastAttacks := fun c => flipV (ed.pawnEastAttacks (!c)),
    pawnWestAttacks := fun c => flipV (ed.pawnWestAttacks (!c)),
    mobilitySquares := fun c => flipV (ed.mobilitySquares (!c)),
    semiOpen := fun c => flipV (ed.semiOpen (!c)),
    openFiles := flipV ed.openFiles,
    threats := fun c => ed.threats (!c),
    ksAttackValue := fun c => ed.ksAttackValue (!c),
    ksAttackCount := fun c => ed.ksAttackCount (!c) }

/-- The threat bonus that one piece with attack set `attacks` adds to `threats[color]` in
`computePieces`. -/
def pieceThreat (color : Bool) (pieceType : Nat) (b : Board) (attacks : Nat) : EvalScore :=
  (if pieceType = KNIGHT ∨ pieceType = BISHOP then
    MINOR_ATTACK_ROOK.scale (bitCount (attacks &&& b.getPieceBB (!color) ROOK))
      + MINOR_ATTACK_QUEEN.scale (bitCount (attacks &&& b.getPieceBB (!color) QUEEN))
  else 0)
  + (if pieceType = ROOK then
      ROOK_ATTACK_QUEEN.scale (bitCount (attacks &&& b.getPieceBB (!color) QUEEN))
    else 0)

/-- The king-safety attack value that one piece with attack set `attacks` adds against a
king with zone `kingZone`. -/
def ksValue (pieceType : Nat) (kingZone attacks : Nat) : Int :=
  if kingZone &&& attacks ≠ 0 then
    kingSafetyAttackWeights.getD pieceType 0 * bitCount (kingZone &&& attacks)
  else 0

/-- The king-safety attacker count that one piece with attack set `attacks` adds. -/
def ksCount (kingZone attacks : Nat) : Nat :=
  if kingZone &&& attacks ≠ 0 then 1 else 0

/-- The scratchpad after pieces of one colour and type added the attack set `att`, the
threat bonus `thr`, the king-safety value `ksv` and the attacker count `ksc`. -/
def applyPiece (color : Bool) (pieceType : Nat) (ed : EvalData) (att : Nat) (thr : EvalScore)
    (ksv : Int) (ksc : Nat) : EvalData :=
  { ed with
    attacks := setCT ed.attacks color pieceType (ed.attacks color pieceType ||| att)
    allAttacks := setC ed.allAttacks color (ed.allAttacks color ||| att)
    threats := setC ed.threats color (ed.threats color + thr)
    ksAttackValue := setC ed.ksAttackValue (!color) (ed.ksAttackValue (!color) + ksv)
    ksAttackCount := setC ed.ksAttackCount (!color) (ed.ksAttackCount (!color) + ksc) }

/-- The bishop-specific part of the score of one bishop in `computePieces`. -/
def bishopTerm (color : Bool) (b : Board) (oppPawnAttacks oppKingSq square attacks : Nat) :
    EvalScore :=
  let squareBB := shl64 1 square
  let sameColoredSquares :=
    if squareBB &&& WHITE_SQUARES_BB ≠ 0 then WHITE_SQUARES_BB else BLACK_SQUARES_BB
  tableAt bishop_pawn_same_color_table_e
      (bitCount (b.getPieceBB (!color) PAWN &&& sameColoredSquares))
    + tableAt bishop_pawn_same_color_table_o
      (bitCount (b.getPieceBB color PAWN &&& sameColoredSquares))
    + BISHOP_PIECE_SAME_SQUARE_E.scale
      (bitCount (b.getTeamOccupiedBB (!color) &&& sameColoredSquares))
    + (if CENTER_SQUARES_BB &&& squareBB = 0
          ∧ bitCount (CENTER_SQUARES_BB &&& lookUpBishopAttack square
              (b.getPieceBB WHITE PAWN ||| b.getPieceBB BLACK PAWN)) > 1
       then BISHOP_FIANCHETTO else 0)
    + (if attacks &&& b.getPieceBB (!color) PAWN &&& oppPawnAttacks ≠ 0
       then BISHOP_STUNTED else 0)
    + SAFE_BISHOP_CHECK.scale (bitCount
        (lookUpBishopAttack oppKingSq b.getOccupiedBB
          &&& not64 (b.getTeamOccupiedBB color) &&& attacks &&& not64 oppPawnAttacks))

/-- The score that the piece on `square` adds in `computePieces`, as a function of the
entries of the scratchpad that the loop reads and does not write. -/
def pieceTerm (color : Bool) (pieceType : Nat) (b : Board)
    (mob ownPawnAttacks oppPawnAttacks oppKingSq : Nat) (square : Nat) : EvalScore :=
  let attacks := pieceAttacks color pieceType b square
  tableAt (mobilities pieceType) (bitCount (attacks &&& mob))
    + (if pieceType = KNIGHT then
        KNIGHT_OUTPOST.scale
            (boolInt (isOutpost square color (b.getPieceBB (!color) PAWN) ownPawnAttacks))
          + KNIGHT_DISTANCE_ENEMY_KING.scale (manhattanDistance square oppKingSq)
          + SAFE_KNIGHT_CHECK.scale (bitCount
              (KNIGHT_ATTACKS oppKingSq &&& not64 (b.getTeamOccupiedBB color)
                &&& attacks &&& not64 oppPawnAttacks))
      else 0)
    + (if pieceType = BISHOP then bishopTerm color b oppPawnAttacks oppKingSq square attacks
      else 0)
    + (if pieceType = ROOK then
        SAFE_ROOK_CHECK.scale (bitCount
          (lookUpRookAttack oppKingSq b.getOccupiedBB
            &&& not64 (b.getTeamOccupiedBB color) &&& attacks &&& not64 oppPawnAttacks))
      else 0)
    + (if pieceType = QUEEN then
        QUEEN_DISTANCE_ENEMY_KING.scale (manhattanDistance square oppKingSq)
          + SAFE_QUEEN_CHECK.scale (bitCount
              (((lookUpRookAttack oppKingSq b.getOccupiedBB
                    &&& not64 (b.getTeamOccupiedBB color))
                  ||| (lookUpBishopAttack oppKingSq b.getOccupiedBB
                    &&& not64 (b.getTeamOccupiedBB color)))
                &&& attacks &&& not64 oppPawnAttacks))
      else 0)

/-- The union of a list of bitboards. -/
def orList (l : List Nat) : Nat := l.foldr (fun x acc => x ||| acc) 0

/-- The sum of the scores of the pieces of one colour and type in `computePieces`. -/
def sumTerm (color : Bool) (pieceType : Nat) (b : Board) (ed : EvalData) : EvalScore :=
  ((bitsOf (b.getPieceBB color pieceType)).map
    (pieceTerm color pieceType b (ed.mobilitySquares color) (ed.attacks color PAWN)
      (ed.attacks (!color) PAWN) (ed.kingSquare (!color)))).sum

/-- The scratchpad after the loop of `computePieces` over the pieces of one colour and
type. -/
def piecesED (color : Bool) (pieceType : Nat) (b : Board) (ed : EvalData) : EvalData :=
  let l := bitsOf (b.getPieceBB color pieceType)
  applyPiece color pieceType ed (orList (l.map (pieceAttacks color pieceType b)))
    (l.map (fun s => pieceThreat color pieceType b (pieceAttacks color pieceType b s))).sum
    (l.map (fun s => ksValue pieceType (ed.kingZone (!color))
      (pieceAttacks color pieceType b s))).sum
    (l.map (fun s => ksCount (ed.kingZone (!color)) (pieceAttacks color pieceType b s))).sum

/-- The first piece code whose test `f` succeeds, or -1 (the search of `getPiece`). -/
def pieceOf (f : Nat → Bool) : Int :=
  match [0, 1, 2, 3, 4, 5, 8, 9, 10, 11, 12, 13].find? f with
  | some p => p
  | none => -1

/-- The piece code found when the twelve tests have the given outcomes. -/
def pieceOfBools (w0 w1 w2 w3 w4 w5 b0 b1 b2 b3 b4 b5 : Bool) : Int :=
  if w0 then 0 else if w1 then 1 else if w2 then 2 else if w3 then 3 else if w4 then 4
  else if w5 then 5 else if b0 then 8 else if b1 then 9 else if b2 then 10
  else if b3 then 11 else if b4 then 12 else if b5 then 13 else -1

/-- The scratchpad of `evaluate` after the king squares and king zones are set (lines
712-716). -/
def initED (b : Board) : EvalData :=
  let whiteKingSquare := bitscanForward (b.pieceBB WHITE_KING)
  let blackKingSquare := bitscanForward (b.pieceBB BLACK_KING)
  let ed := EvalData.zero
  let ed := { ed with
    kingZone := setC (setC ed.kingZone WHITE (KING_ATTACKS whiteKingSquare)) BLACK
      (KING_ATTACKS blackKingSquare) }
  { ed with
    kingSquare := setC (setC ed.kingSquare WHITE whiteKingSquare) BLACK blackKingSquare }

/-- One line `computePieces<WHITE, t>(b) - computePieces<BLACK, t>(b)` of `evaluate`: the
difference and the scratchpad left behind. -/
def pairScore (t : Nat) (ed : EvalData) (b : Board) : EvalScore × EvalData :=
  let w := computePieces WHITE t ed b
  let bl := computePieces BLACK t w.2 b
  (w.1 - bl.1, bl.2)

/-- The line `computeKings<WHITE>(b) - computeKings<BLACK>(b)` of `evaluate`. -/
def kingsPair (ed : EvalData) (b : Board) : EvalScore × EvalData :=
  let w := computeKings WHITE ed b
  let bl := computeKings BLACK w.2 b
  (w.1 - bl.1, bl.2)

/-- The feature score of `evaluate` after the pawns, the pieces and the kings (lines
719-724), and the scratchpad left behind. -/
def features (b : Board) : EvalScore × EvalData :=
  let p := computePawns (initED b) b
  let n := pairScore KNIGHT p.2 b
  let bi := pairScore BISHOP n.2 b
  let r := pairScore ROOK bi.2 b
  let q := pairScore QUEEN r.2 b
  let k := kingsPair q.2 b
  (M 0 0 + p.1 + n.1 + bi.1 + r.1 + q.1 + k.1, k.2)

/-- The rest of the total score of `evaluate` (lines 726-750) from the feature score and
the scratchpad. -/
def totalFrom (b : Board) (f : EvalScore × EvalData) : Option EvalScore :=
  let mobScore : EvalScore := M 0 0
  let ed := f.2
  let featureScore := f.1 + CASTLING_RIGHTS.scale
    (boolInt (b.getCastlingRights WHITE_QUEENSIDE_CASTLING)
      + boolInt (b.getCastlingRights WHITE_KINGSIDE_CASTLING)
      - boolInt (b.getCastlingRights BLACK_QUEENSIDE_CASTLING)
      - boolInt (b.getCastlingRights BLACK_KINGSIDE_CASTLING))
  let featureScore := featureScore + SIDE_TO_MOVE.scale (if b.getActivePlayer = WHITE then 1 else -1)
  let hangingEvalScore := computeHangingPieces ed b
  let pinnedEvalScore := computePinnedPieces WHITE b - computePinnedPieces BLACK b
  let passedScore := computePassedPawns WHITE ed b - computePassedPawns BLACK ed b
  let threatScore := ed.threats WHITE - ed.threats BLACK
  match computeKingSafety WHITE ed, computeKingSafety BLACK ed with
  | some ksw, some ksb =>
    let kingSafetyScore := ksw - ksb
    some (pinnedEvalScore + hangingEvalScore + featureScore + mobScore + passedScore
      + threatScore + kingSafetyScore)
  | _, _ => none

/-! ## Evaluation: the parts of the blend -/

/-- The scalar blend of a packed score at a phase, as `evaluate` computes it for the lazy
score (lines 699-701): the two products are made in `float` and truncated one by one. -/
def blend (s : EvalScore) (p : ℚ) : Int :=
  truncInt (fmul (floatOfInt (MgScore s)) (fsub 1 p)) + truncInt (fmul (floatOfInt (EgScore s)) p)

/-- The lazy score of `evaluate` (line 702): the blended material score seen from the side
to move. -/
def lazyScoreOf (b : Board) : Int :=
  (0 + truncInt (fmul (floatOfInt (MgScore b.material)) (fsub 1 (phaseOf b)))
      + truncInt (fmul (floatOfInt (EgScore b.material)) (phaseOf b)))
    * (if b.getActivePlayer = WHITE then 1 else -1)

/-- The endgame component after the pawn-count scaling of line 754. -/
def scaledEg (b : Board) (eg : Int) : Int :=
  let n : Int := bitCount (b.getPieceBB (if eg > 0 then WHITE else BLACK) PAWN)
  (eg * (120 - (8 - n) * (8 - n))).tdiv 100

/-- The blended score of the full evaluation before its last step (lines 752-755). -/
def blendRaw (b : Board) (phase : ℚ) (totalScore : EvalScore) : Int :=
  let materialScore := b.material
  let res : Int := truncInt (fmul (floatOfInt (MgScore (totalScore + materialScore))) (fsub 1 phase))
  let eg : Int := scaledEg b (EgScore (totalScore + materialScore))
  res + truncInt (fmul (floatOfInt eg) phase)

/-- The exact value `mg * (1 - p) + eg * p` of a packed score at a phase. -/
def exactBlend (s : EvalScore) (p : ℚ) : ℚ := (MgScore s : ℚ) * (1 - p) + (EgScore s : ℚ) * p

/-- A position with a white king and a white knight only, and the black king. -/
def knightBoard : Board :=
  { pieceBB := fun p => if p = WHITE_KING then 2 ^ 4 else if p = BLACK_KING then 2 ^ 60
      else if p = WHITE_KNIGHT then 2 ^ 1 else 0,
    activePlayer := WHITE, castlingRights := fun _ => false, material := M 0 0 }

/-- A position with the kings, the four rooks and a white queen, whose board status
carries the material score (1, 1); its phase is 1/2. -/
def rooksQueenBoard : Board :=
  { pieceBB := fun p => if p = WHITE_KING then 2 ^ 4 else if p = BLACK_KING then 2 ^ 60
      else if p = WHITE_ROOK then 2 ^ 0 + 2 ^ 7 else if p = BLACK_ROOK then 2 ^ 56 + 2 ^ 63
      else if p = WHITE_QUEEN then 2 ^ 3 else 0,
    activePlayer := WHITE, castlingRights := fun _ => false, material := M 1 1 }

/-- A position with the kings, both queens and a white rook; its phase is the `float`
nearest to 14/24. -/
def queensRookBoard : Board :=
  { pieceBB := fun p => if p = WHITE_KING then 2 ^ 4 else if p = BLACK_KING then 2 ^ 60
      else if p = WHITE_ROOK then 2 ^ 0 else if p = BLACK_QUEEN then 2 ^ 59
      else if p = WHITE_QUEEN then 2 ^ 3 else 0,
    activePlayer := WHITE, castlingRights := fun _ => false, material := M 0 0 }

/-- The result of a quiescence search with the table of its final state replaced. -/
def withTable (tb : TranspositionTable) (r : Option (Int × State B SD)) :
    Option (Int × State B SD) :=
  r.map (fun p => (p.1, { p.2 with table := tb }))

/-- A search function that leaves the board as it found it. -/
def KeepsBoard (search : State B SD → Int → Int → Nat → Nat → Bool → PvResult B SD) : Prop :=
  ∀ st alpha beta depth ply cut r x s,
    search st alpha beta depth ply cut = some (r, x, s) → s.board = st.board

/-- What a search called with an 8-bit ply leaves alone: the move lists from index 256 on
and a selective depth below 256. -/
def PlyFrame (st s : State B SD) : Prop :=
  (∀ i, 256 ≤ i → s.moves i = st.moves i) ∧ (st.selDepth ≤ 255 → s.selDepth ≤ 255)

/-- A search function that, called with an 8-bit ply, keeps the `PlyFrame`. -/
def KeepsPlyFrame (search : State B SD → Int → Int → Nat → Nat → Bool → PvResult B SD) : Prop :=
  ∀ st alpha beta depth ply cut r x s, ply < 256 →
    search st alpha beta depth ply cut = some (r, x, s) → PlyFrame st s

/-! ## Evaluation: named parts of the feature functions -/

/-- The number of knights, bishops, rooks and queens of the opponent of `c` whose attack
set, as `computePieces` computes it, meets the king zone of `c` (the pieces for which
lines 613-617 run). -/
def attackerCount (b : Board) (c : Bool) : Nat :=
  ([KNIGHT, BISHOP, ROOK, QUEEN].map (fun t =>
    ((bitsOf (b.getPieceBB (!c) t)).map (fun s =>
      ksCount (KING_ATTACKS (bitscanForward (b.getPieceBB c KING)))
        (pieceAttacks (!c) t b s))).sum)).sum

/-- A scratchpad with three attackers of total value 80 against each king. -/
def threeAttackers : EvalData :=
  { EvalData.zero with ksAttackCount := (fun _ => 3), ksAttackValue := (fun _ => 80) }

/-- The pawns that `computePawns` treats as doubled (lines 406-412), for the pawns of one
colour: first the pawns in the front span of another pawn, then also the pawns in the rear
span of one of those. -/
def doubledPawns (color : Bool) (pawns : Nat) : Nat :=
  let withoutFirst := (if color = WHITE then wFrontSpans pawns else bFrontSpans pawns) &&& pawns
  withoutFirst
    ||| ((if color = WHITE then wRearSpans withoutFirst else bRearSpans withoutFirst) &&& pawns)

/-- The isolated pawns of `computePawns` (lines 414-416). -/
def isolatedPawns (pawns : Nat) : Nat :=
  pawns &&& not64 (fillFile (shiftWest pawns ||| shiftEast pawns))

/-- The squares attacked by the pawns of one colour (`evalData.attacks[color][PAWN]`,
lines 439-445). -/
def pawnAttacksOf (color : Bool) (pawns : Nat) : Nat :=
  if color = WHITE then shiftNorthEast pawns ||| shiftNorthWest pawns
  else shiftSouthEast pawns ||| shiftSouthWest pawns

/-- The pawns counted in the `PAWN_BACKWARD` term of `computePawns` (lines 477-479), for
the pawns `own` of one colour against the pawns `opp` of the other. -/
def backwardPawns (color : Bool) (own opp : Nat) : Nat :=
  if color = WHITE then
    fillSouth (not64 (wAttackFrontSpans own) &&& pawnAttacksOf BLACK opp) &&& own
  else fillNorth (not64 (bAttackFrontSpans own) &&& pawnAttacksOf WHITE opp) &&& own

/-- The score of `computePawns` (lines 460-487) in terms of the pawn sets above. -/
def pawnScore (b : Board) : EvalScore :=
  let whitePawns := b.pieceBB WHITE_PAWN
  let blackPawns := b.pieceBB BLACK_PAWN
  let occ := b.getTeamOccupiedBB WHITE ||| b.getTeamOccupiedBB BLACK
  (0, 0)
    + PAWN_DOUBLED_AND_ISOLATED.scale
      ((bitCount (isolatedPawns whitePawns &&& doubledPawns WHITE whitePawns) : Int)
        - bitCount (isolatedPawns blackPawns &&& doubledPawns BLACK blackPawns))
    + PAWN_DOUBLED.scale
      ((bitCount (not64 (isolatedPawns whitePawns) &&& doubledPawns WHITE whitePawns) : Int)
        - bitCount (not64 (isolatedPawns blackPawns) &&& doubledPawns BLACK blackPawns))
    + PAWN_ISOLATED.scale
      ((bitCount (isolatedPawns whitePawns &&& not64 (doubledPawns WHITE whitePawns)) : Int)
        - bitCount (isolatedPawns blackPawns &&& not64 (doubledPawns BLACK blackPawns)))
    + PAWN_STRUCTURE.scale
      ((bitCount (shiftNorthEast whitePawns &&& whitePawns) : Int)
        + bitCount (shiftNorthWest whitePawns &&& whitePawns)
        - bitCount (shiftSouthEast blackPawns &&& blackPawns)
        - bitCount (shiftSouthWest blackPawns &&& blackPawns))
    + PAWN_OPEN.scale
      ((bitCount (whitePawns &&& not64 (pawnAttacksOf WHITE whitePawns)
          &&& not64 (fillSouth blackPawns)) : Int)
        - bitCount (blackPawns &&& not64 (pawnAttacksOf BLACK blackPawns)
          &&& not64 (fillNorth whitePawns)))
    + PAWN_BACKWARD.scale
      ((bitCount (backwardPawns WHITE whitePawns blackPawns) : Int)
        - bitCount (backwardPawns BLACK blackPawns whitePawns))
    + PAWN_BLOCKED.scale
      ((bitCount (shiftNorth whitePawns &&& occ) : Int) - bitCount (shiftSouth blackPawns &&& occ))
    + PAWN_CONNECTED.scale
      ((bitCount (whitePawns &&& (shiftEast whitePawns ||| shiftWest whitePawns)
          &&& (RANK_4_BB ||| RANK_5_BB ||| RANK_6_BB ||| RANK_7_BB)) : Int)
        - bitCount (blackPawns &&& (shiftEast blackPawns ||| shiftWest blackPawns)
          &&& (RANK_5_BB ||| RANK_4_BB ||| RANK_3_BB ||| RANK_2_BB)))
    + MINOR_BEHIND_PAWN.scale
      ((bitCount (shiftNorth (b.pieceBB WHITE_KNIGHT ||| b.pieceBB WHITE_BISHOP)
          &&& (b.pieceBB WHITE_PAWN ||| b.pieceBB BLACK_PAWN)) : Int)
        - bitCount (shiftSouth (b.pieceBB BLACK_KNIGHT ||| b.pieceBB BLACK_BISHOP)
          &&& (b.pieceBB WHITE_PAWN ||| b.pieceBB BLACK_PAWN)))

/-! ## Evaluation: pinned pieces -/

/-- The potential pinners of `computePinnedPieces<color>` (lines 250-268): the enemy rooks
and queens in the rook attack set of the own king, and the enemy bishops and queens in
its bishop attack set, the attack sets being taken with the enemy pieces as the only
blockers. -/
def potentialPinners (color : Bool) (b : Board) : Nat :=
  let them := !color
  let opponentOcc := b.getTeamOccupiedBB them
  let bishops := b.getPieceBB them BISHOP
  let rooks := b.getPieceBB them ROOK
  let queens := b.getPieceBB them QUEEN
  let kingSq := bitscanForward (b.getPieceBB color KING)
  let rookAttacks := lookUpRookAttack kingSq opponentOcc &&& (rooks ||| queens)
  let bishopAttacks := lookUpBishopAttack kingSq opponentOcc &&& (bishops ||| queens)
  rookAttacks ||| bishopAttacks

/-- No square holds two pieces: the twelve piece bitboards of a position are pairwise
disjoint. -/
def Board.piecesDisjoint (b : Board) : Prop :=
  ∀ p ∈ [0, 1, 2, 3, 4, 5, 8, 9, 10, 11, 12, 13], ∀ q ∈ [0, 1, 2, 3, 4, 5, 8, 9, 10, 11, 12, 13],
    p ≠ q → b.pieceBB p &&& b.pieceBB q = 0

instance (b : Board) : Decidable b.piecesDisjoint := by
  unfold Board.piecesDisjoint; infer_instance

/-- The colour-agnostic type (0 pawn .. 5 king) of the piece of colour `c` on square `s`,
6 when there is none. -/
def pieceTypeOf (b : Board) (c : Bool) (s : Nat) : Nat :=
  ([PAWN, KNIGHT, BISHOP, ROOK, QUEEN, KING].find? (fun t => (b.getPieceBB c t).testBit s)).getD 6

/-- The pinned-piece term in the words of the specification: the sum, over the potential
pinners with exactly one own piece between the own king and the pinner, of
`pinnedEval[t_pinned * 3 + (t_pinner - BISHOP)]`, the types being colour-agnostic. -/
def pinnedSpec (color : Bool) (b : Board) : EvalScore :=
  let kingSq := bitscanForward (b.getPieceBB color KING)
  ((bitsOf (potentialPinners color b)).map (fun pinnerSquare =>
    let between := b.getTeamOccupiedBB color &&& IN_BETWEEN_SQUARES kingSq pinnerSquare
    if bitCount between = 1 then
      tableAt pinnedEval
        (pieceTypeOf b color (bitscanForward between) * 3
          + (pieceTypeOf b (!color) pinnerSquare - BISHOP))
    else 0)).sum

/-- A position with a pin: white king on e1, white knight on e2, black rook on e8, black
king on h8. -/
def pinBoard : Board :=
  { pieceBB := fun p => if p = WHITE_KING then 2 ^ 4 else if p = BLACK_KING then 2 ^ 63
      else if p = WHITE_KNIGHT then 2 ^ 12 else if p = BLACK_ROOK then 2 ^ 60 else 0,
    activePlayer := WHITE, castlingRights := fun _ => false, material := M 0 0 }

/-! ## Search: the late-move-reduction table -/

/-- Rounding of a positive rational to 53 significant bits (round to nearest, ties to
even), as double precision does in its normal range. -/
def f64pos (q : ℚ) : ℚ :=
  let ulp : ℚ := (2 : ℚ) ^ (binExp q - 52)
  (roundHalfEven (q / ulp) : ℚ) * ulp

/-- The double-precision value nearest to a rational; overflow and subnormal numbers do
not occur in `initLmr` and are not modelled. -/
def f64 (q : ℚ) : ℚ :=
  if q = 0 then 0 else if q < 0 then -f64pos (-q) else f64pos q

/-- A `double` of the source: a finite value, an infinity or a NaN. -/
inductive Double where
  | finite (q : ℚ)
  | posInf
  | negInf
  | nan
  deriving DecidableEq

namespace Double

/-- The product of two `double`s: the rounded product of finite values; an infinity times
zero is a NaN, an infinity times a non-zero value is the infinity of the product sign. -/
def mul : Double → Double → Double
  | finite a, finite b => finite (f64 (a * b))
  | nan, _ => nan
  | _, nan => nan
  | finite a, posInf => if a = 0 then nan else if 0 < a then posInf else negInf
  | finite a, negInf => if a = 0 then nan else if 0 < a then negInf else posInf
  | posInf, finite b => if b = 0 then nan else if 0 < b then posInf else negInf
  | negInf, finite b => if b = 0 then nan else if 0 < b then negInf else posInf
  | posInf, posInf => posInf
  | posInf, negInf => negInf
  | negInf, posInf => negInf
  | negInf, negInf => posInf

/-- The sum of two `double`s: the rounded sum of finite values; infinities of opposite
sign add to a NaN. -/
def add : Double → Double → Double
  | finite a, finite b => finite (f64 (a + b))
  | nan, _ => nan
  | _, nan => nan
  | finite _, posInf => posInf
  | finite _, negInf => negInf
  | posInf, finite _ => posInf
  | negInf, finite _ => negInf
  | posInf, posInf => posInf
  | negInf, negInf => negInf
  | posInf, negInf => nan
  | negInf, posInf => nan

/-- The conversion of a `double` to `int`: truncation toward zero.  The conversion of a
NaN, of an infinity or of a value outside the range of `int` is undefined (`none`). -/
def toInt : Double → Option Int
  | finite q => if -2 ^ 31 ≤ truncInt q ∧ truncInt q < 2 ^ 31 then some (truncInt q) else none
  | _ => none

end Double

/-- The global array `lmrReductions[256][256]` (line 23); an entry is `none` when the
conversion that wrote it is undefined. -/
abbrev LmrTable := Nat → Nat → Option Int

/-- The zero-initialised array before `initLmr`. -/
def lmrTableZero : LmrTable := fun _ _ => some 0

/-- The right-hand side of line 32: `1.0 + log(d) * log(m) * 0.5`, for the `log` of the C
library on the integers. -/
def lmrValue (log : Nat → Double) (d m : Nat) : Double :=
  Double.add (Double.finite 1)
    (Double.mul (Double.mul (log d) (log m)) (Double.finite (1 / 2)))

/-- The assignment of line 32 to entry `[d][m]`. -/
def lmrAssign (log : Nat → Double) (t : LmrTable) (d m : Nat) : LmrTable :=
  fun d' m' => if d' = d ∧ m' = m then (lmrValue log d m).toInt else t d' m'

/-- `initLmr` (lines 26-33): the two loops over `d` and `m` from 0 to 255. -/
def initLmr (log : Nat → Double) : LmrTable :=
  (List.range 256).foldl
    (fun t d => (List.range 256).foldl (fun t m => lmrAssign log t d m) t) lmrTableZero

/-- What the table needs of the `log` of the C library: `log(0)` is minus infinity,
`log(1)` is zero, and `log(d)` is within `2^-20` of the natural logarithm for
`2 <= d <= 255`. -/
def LogAccurate (log : Nat → Double) : Prop :=
  log 0 = Double.negInf ∧ log 1 = Double.finite 0
    ∧ ∀ d, 2 ≤ d → d ≤ 255 → ∃ q : ℚ, log d = Double.finite q ∧ |(q : ℝ) - Real.log d| ≤ 1 / 2 ^ 20

/-! ### Certified bounds of the natural logarithm -/

/-- The scale of the fixed-point bounds. -/
def logScale : Nat := 2 ^ 40

/-- The partial sum `sum (i < k) floor (logScale / ((i + 1) (n + 1) ^ (i + 1)))` of the
series of `log (n + 1) - log n`. -/
def logStepSum (n : Nat) : Nat → Nat
  | 0 => 0
  | i + 1 => logStepSum n i + logScale / ((i + 1) * (n + 1) ^ (i + 1))

/-- An upper bound of the scaled remainder of the series after 32 terms. -/
def logStepTail (n : Nat) : Nat := logScale / (n * (n + 1) ^ 32) + 1

/-- A lower bound of `logScale * (log (n + 1) - log n)`. -/
def logStepLo (n : Nat) : Nat := logStepSum n 32 - logStepTail n

/-- An upper bound of `logScale * (log (n + 1) - log n)`. -/
def logStepHi (n : Nat) : Nat := logStepSum n 32 + 32 + logStepTail n

/-- Lower and upper bounds of `logScale * log d` for `d` from 2 to 255. -/
def logRows : List (Nat × Nat) :=
  [(762123384509, 762123385055), (1207936985518, 1207936986098), (1524246769273, 1524246769887),
   (1769595698598, 1769595699246), (1970060370281, 1970060370963), (2139550835173, 2139550835889),
   (2286370154032, 2286370154782), (2415873971284, 2415873972068), (2531719083350, 2531719084168),
   (2636513734284, 2636513735136), (2732183755026, 2732183755912), (2820191642825, 2820191643745),
   (2901674219914, 2901674220868), (2977532684343, 2977532685331), (3048493538770, 3048493539792),
   (3115151015382, 3115151016438), (3177997356019, 3177997357109), (3237444894482, 3237444895606),
   (3293842468082, 3293842469240), (3347487820902, 3347487822094), (3398637119012, 3398637120238),
   (3447512348828, 3447512350088), (3494307139749, 3494307141043), (3539191397388, 3539191398716),
   (3582315027545, 3582315028907), (3623810956994, 3623810958390), (3663797604631, 3663797606061),
   (3702380918795, 3702380920259), (3739656069058, 3739656070556), (3775708860521, 3775708862053),
   (3810616923481, 3810616925047), (3844450719987, 3844450721587), (3877274400089, 3877274401723),
   (3909146533937, 3909146535605), (3940120740723, 3940120742425), (3970246231428, 3970246233164),
   (3999568279183, 3999568280953), (4028128628517, 4028128630321), (4055965852781, 4055965854619),
   (4083115667440, 4083115669312), (4109611205598, 4109611207504), (4135483261102, 4135483263042),
   (4160760503703, 4160760505677), (4185469670018, 4185469672026), (4209635733516, 4209635735558),
   (4233282056222, 4233282058298), (4256430524435, 4256430526545), (4279101670467, 4279101672611),
   (4301314782071, 4301314784249), (4323088001041, 4323088003253), (4344438412226, 4344438414472),
   (4365382124079, 4365382126359), (4385934341669, 4385934343983), (4406109432991, 4406109435339),
   (4425920989302, 4425920991684), (4445381880125, 4445381882541), (4464504303461, 4464504305911),
   (4483299831706, 4483299834190), (4501779453720, 4501779456238), (4519953613410, 4519953615962),
   (4537832245178, 4537832247764), (4555424806532, 4555424809152), (4572740308134, 4572740310788),
   (4589787341506, 4589787344194), (4606574104636, 4606574107358), (4623108425652, 4623108428408),
   (4639397784735, 4639397787525), (4655449334446, 4655449337270), (4671269918580, 4671269921438),
   (4686866089685, 4686866092577), (4702244125362, 4702244128288), (4717410043430, 4717410046390),
   (4732369616066, 4732369619060), (4747128382997, 4747128386025), (4761691663817, 4761691666879),
   (4776064569496, 4776064572592), (4790252013148, 4790252016278), (4804258720113, 4804258723277),
   (4818089237408, 4818089240606), (4831747942588, 4831747945820), (4845239052063, 4845239055329),
   (4858566628908, 4858566632208), (4871734590217, 4871734593551), (4884746714005, 4884746717373),
   (4897606645720, 4897606649122), (4910317904374, 4910317907810), (4922883888318, 4922883891788),
   (4935307880705, 4935307884209), (4947593054630, 4947593058168), (4959742477999, 4959742481571),
   (4971759118126, 4971759121732), (4983645846086, 4983645849726), (4995405440828, 4995405444502),
   (5007040593080, 5007040596788), (5018553909038, 5018553912780), (5029947913875, 5029947917651),
   (5041225055065, 5041225058875), (5052387705536, 5052387709380), (5063438166665, 5063438170543),
   (5074378671135, 5074378675047), (5085211385630, 5085211389576), (5095938413421, 5095938417401),
   (5106561796812, 5106561800826), (5117083519472, 5117083523520), (5127505508663, 5127505512745),
   (5137829637356, 5137829641472), (5148057726251, 5148057730401), (5158191545705, 5158191549889),
   (5168232817569, 5168232821787), (5178183216950, 5178183221202), (5188044373878, 5188044378164),
   (5197817874918, 5197817879238), (5207505264698, 5207505269052), (5217108047373, 5217108051761),
   (5226627688030, 5226627692452), (5236065614026, 5236065618482), (5245423216272, 5245423220762),
   (5254701850470, 5254701854994), (5263902838284, 5263902842842), (5273027468471, 5273027473063),
   (5282076997971, 5282077002597), (5291052652936, 5291052657596), (5299955629736, 5299955634430),
   (5308787095910, 5308787100638), (5317548191088, 5317548195850), (5326240027872, 5326240032668),
   (5334863692687, 5334863697517), (5343420246588, 5343420251452), (5351910726055, 5351910730953),
   (5360336143737, 5360336148669), (5368697489182, 5368697494148), (5376995729533, 5376995734533),
   (5385231810196, 5385231815230), (5393406655492, 5393406660560), (5401521169276, 5401521174378),
   (5409576235539, 5409576240675), (5417572718984, 5417572724154), (5425511465584, 5425511470788),
   (5433393303117, 5433393308355), (5441219041685, 5441219046957), (5448989474220, 5448989479526),
   (5456705376953, 5456705382293), (5464367509893, 5464367515267), (5471976617267, 5471976622675),
   (5479533427957, 5479533433399), (5487038655919, 5487038661395), (5494493000589, 5494493006099),
   (5501897147269, 5501897152813), (5509251767514, 5509251773092), (5516557519490, 5516557525102),
   (5523815048330, 5523815053976), (5531024986475, 5531024992155), (5538187954005, 5538187959719),
   (5545304558963, 5545304564711), (5552375397656, 5552375403438), (5559401054961, 5559401060777),
   (5566382104619, 5566382110469), (5573319109506, 5573319115390), (5580212621913, 5580212627831),
   (5587063183808, 5587063189760), (5593871327091, 5593871333077), (5600637573843, 5600637579863),
   (5607362436562, 5607362442616), (5614046418406, 5614046424494), (5620690013405, 5620690019527),
   (5627293706692, 5627293712848), (5633857974710, 5633857980900), (5640383285418, 5640383291642),
   (5646870098494, 5646870104752), (5653318865527, 5653318871819), (5659730030206, 5659730036532),
   (5666104028504, 5666104034864), (5672441288855, 5672441295249), (5678742232330, 5678742238758),
   (5685007272797, 5685007279259), (5691236817095, 5691236823591), (5697431265181, 5697431271711),
   (5703591010295, 5703591016859), (5709716439103, 5709716445701), (5715807931843, 5715807938475),
   (5721865862469, 5721865869135), (5727890598789, 5727890605489), (5733882502594, 5733882509328),
   (5739841929797, 5739841936565), (5745769230551, 5745769237353), (5751664749379, 5751664756215),
   (5757528825291, 5757528832161), (5763361791900, 5763361798804), (5769163977539, 5769163984477),
   (5774935705371, 5774935712343), (5780677293494, 5780677300500), (5786389055051, 5786389062091),
   (5792071298329, 5792071305403), (5797724326860, 5797724333968), (5803348439516, 5803348446658),
   (5808943930610, 5808943937786), (5814511089983, 5814511097193), (5820050203095, 5820050210339),
   (5825561551110, 5825561558388), (5831045410992, 5831045418304), (5836502055577, 5836502062923),
   (5841931753658, 5841931761038), (5847334770069, 5847334777483), (5852711365756, 5852711373204),
   (5858061797857, 5858061805339), (5863386319773, 5863386327289), (5868685181243, 5868685188793),
   (5873958628412, 5873958635996), (5879206903900, 5879206911518), (5884430246867, 5884430254519),
   (5889628893086, 5889628900772), (5894803074997, 5894803082717), (5899953021776, 5899953029530),
   (5905078959391, 5905078967179), (5910181110668, 5910181118490), (5915259695341, 5915259703197),
   (5920314930118, 5920314938008), (5925347028728, 5925347036652), (5930356201980, 5930356209938),
   (5935342657815, 5935342665807), (5940306601358, 5940306609384), (5945248234967, 5945248243027),
   (5950167758284, 5950167766378), (5955065368284, 5955065376412), (5959941259322, 5959941267484),
   (5964795623176, 5964795631372), (5969628649099, 5969628657329), (5974440523855, 5974440532119),
   (5979231431771, 5979231440069), (5984001554772, 5984001563104), (5988751072425, 5988751080791),
   (5993480161982, 5993480170382), (5998188998417, 5998189006851), (6002877754465, 6002877762933),
   (6007546600661, 6007546609163), (6012195705376, 6012195713912), (6016825234856, 6016825243426),
   (6021435353254, 6021435361858), (6026026222667, 6026026231305), (6030598003170, 6030598011842),
   (6035150852852, 6035150861558), (6039684927841, 6039684936581), (6044200382347, 6044200391121),
   (6048697368685, 6048697377493), (6053176037310, 6053176046152), (6057636536843, 6057636545719),
   (6062079014107, 6062079023017), (6066503614150, 6066503623094), (6070910480279, 6070910489257),
   (6075299754081, 6075299763093), (6079671575456, 6079671584502), (6084026082640, 6084026091720),
   (6088363412238, 6088363421352), (6092683699240, 6092683708388)]

def logLo (d : Nat) : Nat := (logRows.getD (d - 2) (0, 0)).1

def logHi (d : Nat) : Nat := (logRows.getD (d - 2) (0, 0)).2

/-- The step check of the table of bounds: the rows of `n + 1`, `n + 2`, ... follow from
the row `a` of `n`. -/
def logStepsOk : Nat → Nat × Nat → List (Nat × Nat) → Bool
  | _, _, [] => true
  | n, a, b :: rest =>
    Nat.ble b.1 (a.1 + logStepLo n) && Nat.ble (a.2 + logStepHi n) b.2
      && logStepsOk (n + 1) b rest

/-- The size check of a row: the bounds are above `2^39`, in order, within `2^20` of each
other and below `5.55 * 2^40`. -/
def logRowOk (a : Nat × Nat) : Bool :=
  Nat.ble (2 ^ 39) a.1 && Nat.ble a.1 a.2 && Nat.ble a.2 (a.1 + 2 ^ 20)
    && Nat.ble a.2 6102290000000

/-- The order check of the table: both bounds do not decrease from a row to the next. -/
def logSorted : List (Nat × Nat) → Bool
  | a :: b :: rest => Nat.ble a.1 b.1 && Nat.ble a.2 b.2 && logSorted (b :: rest)
  | _ => true

/-- With a margin of `2^-20` on both logarithms the half product of the rows `a` and `b`
is at least `k + 2^-30`. -/
def lmrAbove (k : Nat) (a b : Nat × Nat) : Bool :=
  Nat.ble (2 * logScale * logScale * k + 2 ^ 51) ((a.1 - 2 ^ 20) * (b.1 - 2 ^ 20))

/-- With a margin of `2^-20` on both logarithms the half product of the rows `a` and `b`
is at most `k - 2^-30`. -/
def lmrBelow (k : Nat) (a b : Nat × Nat) : Bool :=
  Nat.ble ((a.2 + 2 ^ 20) * (b.2 + 2 ^ 20) + 2 ^ 51) (2 * logScale * logScale * k)

/-- The walk along the border of level `k`: `rows` in increasing and `cols` in decreasing
order; a pair above the level settles its column for the remaining rows, a pair below the
level settles its row for the remaining columns. -/
def lmrSaddle (k : Nat) : Nat → List (Nat × Nat) → List (Nat × Nat) → Bool
  | _, [], _ => true
  | _, _ :: _, [] => true
  | 0, _ :: _, _ :: _ => false
  | fuel + 1, a :: rows, b :: cols =>
    if lmrAbove k a b then lmrSaddle k fuel (a :: rows) cols
    else lmrBelow k a b && lmrSaddle k fuel rows (b :: cols)

/-- The walks of the levels 1 to 16 over the table. -/
def lmrLevelsOk : Bool :=
  (List.range 16).all (fun k => lmrSaddle (k + 1) 600 logRows logRows.reverse)

/-- A `log` that meets `LogAccurate`: the lower bounds of the table. -/
def tableLog (d : Nat) : Double :=
  if d = 0 then Double.negInf
  else if d = 1 then Double.finite 0
  else Double.finite ((logLo d : ℚ) / 2 ^ 40)

/-- The history data that can be reached from `sd` by the two updates of the move loop of
`pvSearch`: `addHistoryScore` and `subtractHistoryScore` at the squares of a move. -/
inductive HistoryPath (env : Env B SD) : SD → SD → Prop
  | same (sd : SD) : HistoryPath env sd sd
  | add (sd sd' : SD) (m d : Nat) : HistoryPath env sd sd' →
      HistoryPath env sd (env.addHistoryScore sd' (env.getSquareFrom m) (env.getSquareTo m) d)
  | sub (sd sd' : SD) (m d : Nat) : HistoryPath env sd sd' →
      HistoryPath env sd
        (env.subtractHistoryScore sd' (env.getSquareFrom m) (env.getSquareTo m) d)

/-- A search function that changes the history data only along a `HistoryPath`. -/
def KeepsHistory (env : Env B SD)
    (search : State B SD → Int → Int → Nat → Nat → Bool → PvResult B SD) : Prop :=
  ∀ st alpha beta depth ply cut r x s,
    search st alpha beta depth ply cut = some (r, x, s) → HistoryPath env st.sd s.sd

/-- The late-move reduction of a move in the move loop of `pvSearch` (line 396). -/
def lmrOf (env : Env B SD) (pv : Bool) (depth : Nat) (legalMoves : Nat) (b : B) (m : Nat) : Nat :=
  if pv || legalMoves == 0 || env.givesCheck b m || decide (depth < 2) || env.isCapture m then 0
  else toDepth (env.lmrReductions depth legalMoves)

/-- The check extension of a move in the move loop of `pvSearch` (lines 386-390). -/
def extensionOf (env : Env B SD) (b : B) (m : Nat) : Int :=
  if env.givesCheck b m && decide (env.staticExchangeEvaluation b m ≥ 0) then 1 else 0

/-! ## Evaluation: the number of king attackers -/

/-- The number of knights, bishops, rooks and queens of colour `c` on the board. -/
def sliderAndKnightCount (b : Board) (c : Bool) : Nat :=
  bitCount (b.getPieceBB c KNIGHT) + bitCount (b.getPieceBB c BISHOP)
    + bitCount (b.getPieceBB c ROOK) + bitCount (b.getPieceBB c QUEEN)

/-- A position after six knight promotions: white king on e1, black king on e8, black
knights on b3, c3, g3, c4, d4, e4, f4 and g4, each attacking a square next to the white
king. -/
def eightKnightsBoard : Board :=
  { pieceBB := fun p => if p = WHITE_KING then 2 ^ 4 else if p = BLACK_KING then 2 ^ 60
      else if p = BLACK_KNIGHT then
        2 ^ 17 + 2 ^ 18 + 2 ^ 22 + 2 ^ 26 + 2 ^ 27 + 2 ^ 28 + 2 ^ 29 + 2 ^ 30
      else 0,
    activePlayer := WHITE, castlingRights := fun _ => false, material := M 0 0 }

/-- The local variables of `pvSearch` when the move loop starts (lines 289-291 and the
lower mate-distance bound of lines 364-367): `alpha` raised to `-MAX_MATE_SCORE + ply`,
`highestScore = -MAX_MATE_SCORE`, `bestMove = 0`, `legalMoves = 0`. -/
def loopStart (env : Env B SD) (alpha : Int) (ply : Nat) : LoopVars :=
  ⟨if -env.MAX_MATE_SCORE + ply > alpha then -env.MAX_MATE_SCORE + ply else alpha,
    -env.MAX_MATE_SCORE, 0, 0⟩

/-- The local variables at the end of an iteration of the move loop that searched the
move `m` with result `score` and did not cut off (lines 426-443). -/
def nextVars (v : LoopVars) (m : Nat) (score : Int) : LoopVars :=
  if score > v.alpha then
    ⟨score, if score > v.highestScore then score else v.highestScore, m, v.legalMoves + 1⟩
  else
    ⟨v.alpha, if score > v.highestScore then score else v.highestScore,
      if score > v.highestScore then m else v.bestMove, v.legalMoves + 1⟩

/-- The state at the end of an iteration of the move loop that searched the move `m` with
result `score` and did not cut off; `s` is the state the search of the move left
(lines 409 and 426-443). -/
def nextState (env : Env B SD) (zobrist : Nat) (depth ply : Nat) (v : LoopVars) (m : Nat)
    (score : Int) (s : State B SD) : State B SD :=
  let s := { s with board := env.undoMove s.board }
  if score > v.alpha then
    if ply = 0 then
      let t := s.table.put zobrist v.alpha (if score > v.highestScore then m else v.bestMove)
        NodeType.PV_NODE depth
      { s with
        table := t
        board := (extractPV env t (toDepth s.selDepth) s.board).1 }
    else s
  else
    { s with
      sd := env.subtractHistoryScore s.sd (env.getSquareFrom m) (env.getSquareTo m) depth }

/-- The scores of the moves searched by a run of the move loop, in the order of the
search: the pair `(m, score)` for every legal move `m` that the loop reaches, `score` being
the result of the searches made for the move (lines 398-407).  The run is the one of
`pvLoop` on the same arguments: an illegal move is skipped, a score at or above `beta` ends
the loop, and otherwise the loop goes on from `nextState` and `nextVars`. -/
def loopScores (env : Env B SD)
    (search : State B SD → Int → Int → Nat → Nat → Bool → PvResult B SD)
    (zobrist : Nat) (pv : Bool) (beta : Int) (depth ply : Nat) :
    List Nat → State B SD → LoopVars → List (Nat × Int)
  | [], _, _ => []
  | m :: ms, st, v =>
    if !env.isLegal st.board m then
      loopScores env search zobrist pv beta depth ply ms st v
    else
      match searchMove search { st with board := env.move st.board m } v.alpha beta depth ply pv
          v.legalMoves (lmrOf env pv depth v.legalMoves st.board m)
          (extensionOf env st.board m) with
      | none => []
      | some (score, s) =>
        if score ≥ beta then [(m, score)]
        else
          (m, score) :: loopScores env search zobrist pv beta depth ply ms
            (nextState env zobrist depth ply v m score s) (nextVars v m score)

/-- What holds of the local variables between two iterations of the move loop, `trace`
being the moves searched so far with their scores, `hs0` the value of `highestScore` and
`a0` the value of `alpha` when the loop started: `highestScore ≤ alpha`; no score searched
so far is above `highestScore`; when a move raised `alpha`, `bestMove` is a searched move
and its score is `alpha = highestScore`; when no move raised `alpha`, `bestMove` is 0 with
`highestScore` unchanged, or a searched move whose score is `highestScore`. -/
def LoopInv (trace : List (Nat × Int)) (hs0 a0 : Int) (v : LoopVars) : Prop :=
  v.highestScore ≤ v.alpha ∧ a0 ≤ v.alpha
    ∧ (∀ p ∈ trace, p.2 ≤ v.highestScore)
    ∧ (a0 < v.alpha → v.highestScore = v.alpha ∧ (v.bestMove, v.alpha) ∈ trace)
    ∧ (v.alpha = a0 → (v.bestMove = 0 ∧ v.highestScore = hs0)
        ∨ (v.bestMove, v.highestScore) ∈ trace)

/-- The counter game in which only one counter may be taken at a time; the side to move
is in check when no counter is left. -/
def toyOneEnv (elapsed : Nat → Int) : Env ToyBoard ToySD :=
  { toyEnv toyNever (fun n => n == 0) elapsed with
    isLegal := fun b m => decide (m = 1) && decide (1 ≤ b.cur) }

/-- A table of the one-counter game holding the entry that a root search of depth 1 stores
for the position with one counter and White to move (key 2): a PV entry with move 1 and
the score `MAX_MATE_SCORE - 1` of a mate in one. -/
def toyTableMate : TranspositionTable :=
  toyTable.put 2 31999 1 NodeType.PV_NODE 1

/-- The position with two counters and Black to move, with the table `toyTableMate`. -/
def toyStateMate : State ToyBoard ToySD :=
  { toyState 2 toyTableMate 100 with board := ⟨2, [], true⟩ }

/-! ## Evaluation: the 16-bit range of the halves of a packed score -/

/-- Modelled from the spec: the value that a signed 16-bit half holds after the integer `x`
is stored in it (two's complement wrap-around). -/
def wrap16 (x : Int) : Int := (x + 32768) % 65536 - 32768

/-- Both halves of the packed score are within the signed 16-bit range.  For such a score
the pair of integers of the model is the pair of halves of the code. -/
def EvalScore.fits16 (s : EvalScore) : Prop :=
  (-32768 ≤ MgScore s ∧ MgScore s ≤ 32767) ∧ (-32768 ≤ EgScore s ∧ EgScore s ≤ 32767)

instance (s : EvalScore) : Decidable (EvalScore.fits16 s) := by
  unfold EvalScore.fits16
  infer_instance

/-! # Theorems -/

/-! ## Search: the window of `qSearch` -/

theorem qLoop_window (env : Env B SD)
    (search : State B SD → Int → Int → Nat → Option (Int × State B SD))
    (beta : Int) (ply : Nat) :
    ∀ (ms : List Nat) (st : State B SD) (alpha v : Int) (st' : State B SD),
      alpha ≤ beta → qLoop env search beta ply ms st alpha = some (v, st') →
      alpha ≤ v ∧ v ≤ beta := by
  intro ms
  induction ms with
  | nil =>
    intro st alpha v st' hab h
    simp only [qLoop, Option.some.injEq, Prod.mk.injEq] at h
    omega
  | cons m ms ih =>
    intro st alpha v st' hab h
    rw [qLoop] at h
    split at h
    · exact ih _ _ _ _ hab h
    · dsimp only at h
      split at h
      · exact absurd h (by simp)
      · rename_i r st2 _
        split at h
        · simp only [Option.some.injEq, Prod.mk.injEq] at h
          omega
        · split at h
          · have := ih _ _ _ _ (by omega) h
            omega
          · exact ih _ _ _ _ hab h

theorem qSearch_window_of_some (env : Env B SD) (fuel : Nat) (st : State B SD)
    (alpha beta : Int) (ply : Nat) (v : Int) (st' : State B SD) (hab : alpha ≤ beta)
    (h : qSearch env fuel st alpha beta ply = some (v, st')) : alpha ≤ v ∧ v ≤ beta := by
  cases fuel with
  | zero => simp [qSearch] at h
  | succ fuel =>
    simp only [qSearch] at h
    generalize env.evaluate st.board * (if env.getActivePlayer st.board = false then 1 else -1) = sp at h
    by_cases hsp : sp ≥ beta
    · rw [if_pos hsp] at h
      simp only [Option.some.injEq, Prod.mk.injEq] at h
      omega
    · rw [if_neg hsp] at h
      have := qLoop_window env _ beta ply _ _ _ _ _ (by split <;> omega) h
      split at this <;> omega

theorem QFrame.refl (st : State B SD) : QFrame st st := ⟨rfl, rfl, rfl, rfl, rfl, rfl⟩

theorem qLoop_total (env : Env B SD) (mu : B → Nat) (f : Nat)
    (search : State B SD → Int → Int → Nat → Option (Int × State B SD))
    (hundo : ∀ b m, env.undoMove (env.move b m) = b)
    (hsearch : ∀ st a b p, mu st.board < f → ∃ v st', search st a b p = some (v, st') ∧ QFrame st st')
    (beta : Int) (ply : Nat) :
    ∀ (ms : List Nat) (st : State B SD) (alpha : Int),
      (∀ m ∈ ms, env.isLegal st.board m = true → mu (env.move st.board m) < f) →
      ∃ v st', qLoop env search beta ply ms st alpha = some (v, st') ∧ QFrame st st' := by
  intro ms
  induction ms with
  | nil =>
    intro st alpha _
    exact ⟨alpha, st, rfl, QFrame.refl st⟩
  | cons m ms ih =>
    intro st alpha hms
    have hms' : ∀ m ∈ ms, env.isLegal st.board m = true → mu (env.move st.board m) < f :=
      fun x hx => hms x (List.mem_cons_of_mem _ hx)
    rw [qLoop]
    by_cases hl : env.isLegal st.board m = true
    · rw [if_neg (by simp [hl])]
      dsimp only
      obtain ⟨r, st2, hs, hf⟩ := hsearch { st with board := env.move st.board m } (-beta) (-alpha)
        (toDepth (ply + 1)) (hms m (List.mem_cons_self _ _) hl)
      rw [hs]
      dsimp only
      obtain ⟨hb, ht, hsd, hsel, hmt, hp⟩ := hf
      have hfr : QFrame st { st2 with board := env.undoMove st2.board } := by
        refine ⟨?_, ht, hsd, hsel, hmt, hp⟩
        show env.undoMove st2.board = st.board
        rw [hb]; exact hundo _ _
      have hms3 : ∀ x ∈ ms, env.isLegal ({ st2 with board := env.undoMove st2.board } : State B SD).board x = true →
          mu (env.move ({ st2 with board := env.undoMove st2.board } : State B SD).board x) < f := by
        intro x hx
        rw [hfr.1]; exact hms' x hx
      have trans : ∀ (v : Int) (st' : State B SD), QFrame { st2 with board := env.undoMove st2.board } st' → QFrame st st' := by
        intro v st' h
        obtain ⟨a1, a2, a3, a4, a5, a6⟩ := h
        obtain ⟨b1, b2, b3, b4, b5, b6⟩ := hfr
        exact ⟨a1.trans b1, a2.trans b2, a3.trans b3, a4.trans b4, a5.trans b5, a6.trans b6⟩
      split
      · exact ⟨_, _, rfl, hfr⟩
      · split
        · obtain ⟨v, st', h1, h2⟩ := ih _ (-r) hms3
          exact ⟨v, st', h1, trans v st' h2⟩
        · obtain ⟨v, st', h1, h2⟩ := ih _ alpha hms3
          exact ⟨v, st', h1, trans v st' h2⟩
    · rw [if_pos (by simp [hl])]
      exact ih st alpha hms'

theorem qSearch_total (env : Env B SD) (mu : B → Nat)
    (hundo : ∀ b m, env.undoMove (env.move b m) = b)
    (hmu : ∀ b m, m ∈ env.orderQ (env.getNonQuietMoves b) → env.isLegal b m = true →
      mu (env.move b m) < mu b) :
    ∀ (fuel : Nat) (st : State B SD) (alpha beta : Int) (ply : Nat), mu st.board < fuel →
      ∃ v st', qSearch env fuel st alpha beta ply = some (v, st') ∧ QFrame st st' := by
  intro fuel
  induction fuel with
  | zero => intro st _ _ _ h; exact absurd h (Nat.not_lt_zero _)
  | succ fuel ih =>
    intro st alpha beta ply hlt
    simp only [qSearch]
    by_cases hsp : env.evaluate st.board * (if env.getActivePlayer st.board = false then 1 else -1) ≥ beta
    · rw [if_pos hsp]
      exact ⟨_, _, rfl, rfl, rfl, rfl, rfl, rfl, rfl⟩
    · rw [if_neg hsp]
      obtain ⟨v, st', h1, h2⟩ := qLoop_total env mu fuel (qSearch env fuel) hundo
        (fun st a b p h => ih st a b p h) beta ply (env.orderQ (env.getNonQuietMoves st.board))
        { st with nodes := st.nodes + 1,
                  moves := fun i => if i = ply then env.getNonQuietMoves st.board else st.moves i }
        (if alpha < env.evaluate st.board * (if env.getActivePlayer st.board = false then 1 else -1)
          then env.evaluate st.board * (if env.getActivePlayer st.board = false then 1 else -1) else alpha)
        (fun m hm hl => by have := hmu st.board m hm hl; exact Nat.lt_of_lt_of_le this (Nat.lt_succ_iff.mp hlt))
      exact ⟨v, st', h1, h2⟩

/-! ## Search: the window of `pvSearch` -/

theorem pvEpilogue_window (env : Env B SD) (zobrist : Nat) (originalAlpha beta : Int)
    (depth ply : Nat) (st : State B SD) (v : LoopVars) (r : Int) (x : Exit) (st' : State B SD)
    (h : pvEpilogue env zobrist originalAlpha depth ply st v = (r, x, st'))
    (hx : x.clipped = true) (h1 : originalAlpha ≤ v.alpha) (h2 : v.alpha < beta) :
    originalAlpha ≤ r ∧ r ≤ beta := by
  unfold pvEpilogue at h
  split at h
  · split at h <;> (simp only [Prod.mk.injEq] at h; obtain ⟨_, rfl, _⟩ := h; simp [Exit.clipped] at hx)
  · split at h <;> (simp only [Prod.mk.injEq] at h; obtain ⟨rfl, _, _⟩ := h; omega)

theorem pvLoop_window (env : Env B SD)
    (search : State B SD → Int → Int → Nat → Nat → Bool → PvResult B SD)
    (zobrist : Nat) (pv : Bool) (originalAlpha beta : Int) (depth ply : Nat) :
    ∀ (ms : List Nat) (st : State B SD) (v : LoopVars) (r : Int) (x : Exit) (st' : State B SD),
      pvLoop env search zobrist pv originalAlpha beta depth ply ms st v = some (r, x, st') →
      x.clipped = true → originalAlpha ≤ v.alpha → v.alpha < beta →
      originalAlpha ≤ r ∧ r ≤ beta := by
  intro ms
  induction ms with
  | nil =>
    intro st v r x st' h hx h1 h2
    rw [pvLoop] at h
    exact pvEpilogue_window env zobrist originalAlpha beta depth ply st v r x st'
      (Option.some.inj h) hx h1 h2
  | cons m ms ih =>
    intro st v r x st' h hx h1 h2
    rw [pvLoop] at h
    split at h
    · exact ih _ _ _ _ _ h hx h1 h2
    · dsimp only at h
      split at h
      · exact absurd h (by simp)
      · rename_i score s _
        split at h
        · simp only [Option.some.injEq, Prod.mk.injEq] at h
          obtain ⟨rfl, _, _⟩ := h
          omega
        · split at h
          · exact ih _ _ _ _ _ h hx (by dsimp only; omega) (by dsimp only; omega)
          · exact ih _ _ _ _ _ h hx h1 h2

theorem mateDistanceAndLoop_window (env : Env B SD)
    (search : State B SD → Int → Int → Nat → Nat → Bool → PvResult B SD)
    (st : State B SD) (zobrist : Nat) (pv : Bool) (alpha beta : Int) (depth ply : Nat)
    (hashMove : Nat) (r : Int) (x : Exit) (st' : State B SD)
    (h : mateDistanceAndLoop env search st zobrist pv alpha alpha beta depth ply hashMove
      = some (r, x, st'))
    (hx : x.clipped = true) (hab : alpha < beta) : alpha ≤ r ∧ r ≤ beta := by
  unfold mateDistanceAndLoop at h
  dsimp only at h
  by_cases c1 : env.MAX_MATE_SCORE - ply < beta ∧ alpha ≥ env.MAX_MATE_SCORE - ply
  · rw [if_pos c1] at h
    simp only [Option.some.injEq, Prod.mk.injEq] at h
    obtain ⟨_, rfl, _⟩ := h
    simp [Exit.clipped] at hx
  · rw [if_neg c1] at h
    by_cases c2 : -env.MAX_MATE_SCORE + ply > alpha ∧
        (if env.MAX_MATE_SCORE - ply < beta then env.MAX_MATE_SCORE - ply else beta)
          ≤ -env.MAX_MATE_SCORE + ply
    · rw [if_pos c2] at h
      simp only [Option.some.injEq, Prod.mk.injEq] at h
      obtain ⟨_, rfl, _⟩ := h
      simp [Exit.clipped] at hx
    · rw [if_neg c2] at h
      have := pvLoop_window env search zobrist pv alpha _ depth ply _ _ _ _ _ _ h hx
        (by dsimp only; split <;> omega)
        (by dsimp only; split at c2 <;> split <;> omega)
      constructor
      · exact this.1
      · have h3 := this.2
        split at h3 <;> omega

theorem pvBody_window (env : Env B SD)
    (search : State B SD → Int → Int → Nat → Nat → Bool → PvResult B SD)
    (st : State B SD) (alpha beta : Int) (depth ply : Nat) (hashMove : Nat)
    (r : Int) (x : Exit) (st' : State B SD)
    (h : pvBody env search st alpha beta depth ply hashMove = some (r, x, st'))
    (hx : x.clipped = true) (hab : alpha < beta) : alpha ≤ r ∧ r ≤ beta := by
  unfold pvBody at h
  dsimp only at h
  split at h
  · exact absurd h (by simp)
  · simp only [Option.some.injEq, Prod.mk.injEq] at h
    obtain ⟨rfl, _, _⟩ := h
    omega
  · split at h
    · exact absurd h (by simp)
    · exact mateDistanceAndLoop_window env search _ _ _ alpha beta depth ply _ r x st' h hx hab

theorem probeCutoff_window (en : Option Entry) (alpha beta : Int) (depth : Nat) (r : Int)
    (x : Exit) (h : probeCutoff en alpha beta depth = some (r, x)) (hx : x.clipped = true)
    (hab : alpha < beta) : alpha ≤ r ∧ r ≤ beta := by
  unfold probeCutoff at h
  split at h
  · exact absurd h (by simp)
  · split at h
    · split at h
      · simp only [Option.some.injEq, Prod.mk.injEq] at h
        obtain ⟨_, rfl⟩ := h
        simp [Exit.clipped] at hx
      · split at h
        · split at h
          · simp only [Option.some.injEq, Prod.mk.injEq] at h
            omega
          · exact absurd h (by simp)
        · split at h
          · split at h
            · simp only [Option.some.injEq, Prod.mk.injEq] at h
              omega
            · exact absurd h (by simp)
          · exact absurd h (by simp)
    · exact absurd h (by simp)

theorem pvSearch_window_of_some (env : Env B SD) (fuel : Nat) (st : State B SD)
    (alpha beta : Int) (depth ply : Nat) (cut : Bool) (r : Int) (x : Exit) (st' : State B SD)
    (h : pvSearch env fuel st alpha beta depth ply cut = some (r, x, st'))
    (hx : x.clipped = true) (hab : alpha < beta) : alpha ≤ r ∧ r ≤ beta := by
  cases fuel with
  | zero => simp [pvSearch] at h
  | succ fuel =>
    simp only [pvSearch] at h
    split at h
    · simp only [Option.some.injEq, Prod.mk.injEq] at h
      omega
    · split at h
      · simp only [Option.some.injEq, Prod.mk.injEq] at h
        obtain ⟨_, rfl, _⟩ := h
        simp [Exit.clipped] at hx
      · split at h
        · split at h
          · exact absurd h (by simp)
          · rename_i hq
            simp only [Option.some.injEq, Prod.mk.injEq] at h
            obtain ⟨rfl, _, rfl⟩ := h
            exact qSearch_window_of_some env fuel _ alpha beta ply _ _ (le_of_lt hab) hq
        · split at h
          · rename_i hp
            simp only [Option.some.injEq, Prod.mk.injEq] at h
            obtain ⟨rfl, rfl, _⟩ := h
            exact probeCutoff_window _ alpha beta depth _ _ hp hx hab
          · exact pvBody_window env _ _ alpha beta depth ply _ r x st' h hx hab

/-! ## Search: `pvSearch` returns -/

theorem searchMove_total (T : Int) (p : Nat)
    (search : State B SD → Int → Int → Nat → Nat → Bool → PvResult B SD)
    (hs : PvTotal T p search) (st1 : State B SD) (alpha beta : Int) (depth ply : Nat) (pv : Bool)
    (legalMoves lmr : Nat) (extension : Int) (hT : st1.maxTime = T) (hp : p ≤ st1.polls) :
    ∃ score s, searchMove search st1 alpha beta depth ply pv legalMoves lmr extension
        = some (score, s) ∧ s.maxTime = T ∧ st1.polls ≤ s.polls := by
  unfold searchMove
  split
  · obtain ⟨v, x, s, h, h1, h2⟩ := hs st1 (-beta) (-alpha) (toDepth (depth - 1 + extension))
      (toDepth (ply + 1)) false hT hp
    rw [h]
    exact ⟨_, _, rfl, h1, h2⟩
  · obtain ⟨v, x, s, h, h1, h2⟩ := hs st1 (-alpha - 1) (-alpha)
      (toDepth (depth - 1 - lmr + extension)) (toDepth (ply + 1)) false hT hp
    rw [h]
    dsimp only
    by_cases hc : lmr ≠ 0 ∧ -v > alpha
    · rw [if_pos hc]
      obtain ⟨v2, x2, s2, h', h1', h2'⟩ := hs s (-alpha - 1) (-alpha)
        (toDepth (depth - 1 + extension)) (toDepth (ply + 1)) false h1 (le_trans hp h2)
      rw [h']
      dsimp only
      split
      · obtain ⟨v3, x3, s3, h'', h1'', h2''⟩ := hs s2 (-beta) (-alpha)
          (toDepth (depth - 1 + extension)) (toDepth (ply + 1)) false h1'
          (le_trans hp (le_trans h2 h2'))
        rw [h'']
        exact ⟨_, _, rfl, h1'', le_trans h2 (le_trans h2' h2'')⟩
      · exact ⟨_, _, rfl, h1', le_trans h2 h2'⟩
    · rw [if_neg hc]
      dsimp only
      split
      · obtain ⟨v3, x3, s3, h'', h1'', h2''⟩ := hs s (-beta) (-alpha)
          (toDepth (depth - 1 + extension)) (toDepth (ply + 1)) false h1 (le_trans hp h2)
        rw [h'']
        exact ⟨_, _, rfl, h1'', le_trans h2 h2''⟩
      · exact ⟨_, _, rfl, h1, h2⟩

theorem pvLoop_total (env : Env B SD) (T : Int) (p : Nat)
    (search : State B SD → Int → Int → Nat → Nat → Bool → PvResult B SD)
    (hs : PvTotal T p search)
    (zobrist : Nat) (pv : Bool) (originalAlpha beta : Int) (depth ply : Nat) :
    ∀ (ms : List Nat) (st : State B SD) (v : LoopVars), st.maxTime = T → p ≤ st.polls →
      ∃ r x st', pvLoop env search zobrist pv originalAlpha beta depth ply ms st v
        = some (r, x, st') ∧ st'.maxTime = T ∧ st.polls ≤ st'.polls := by
  intro ms
  induction ms with
  | nil =>
    intro st v hT hp
    rw [pvLoop]
    unfold pvEpilogue
    split
    · split <;> exact ⟨_, _, _, rfl, hT, le_refl _⟩
    · split <;> exact ⟨_, _, _, rfl, hT, le_refl _⟩
  | cons m ms ih =>
    intro st v hT hp
    rw [pvLoop]
    split
    · exact ih st v hT hp
    · dsimp only
      obtain ⟨score, s, h, h1, h2⟩ := searchMove_total T p search hs
        { st with board := env.move st.board m } v.alpha beta depth ply pv v.legalMoves
        (if pv || v.legalMoves == 0 || env.givesCheck st.board m || decide (depth < 2) || env.isCapture m
          then 0 else toDepth (env.lmrReductions depth v.legalMoves))
        (if env.givesCheck st.board m && decide (env.staticExchangeEvaluation st.board m ≥ 0)
          then 1 else 0) hT hp
      rw [h]
      dsimp only
      have key : ∀ (st2 : State B SD) (v2 : LoopVars), st2.maxTime = T → st.polls ≤ st2.polls →
          ∃ r x st', pvLoop env search zobrist pv originalAlpha beta depth ply ms st2 v2
            = some (r, x, st') ∧ st'.maxTime = T ∧ st.polls ≤ st'.polls := by
        intro st2 v2 a b
        obtain ⟨r, x, st', e, e1, e2⟩ := ih st2 v2 a (le_trans hp b)
        exact ⟨r, x, st', e, e1, le_trans b e2⟩
      split
      · exact ⟨_, _, _, rfl, h1, h2⟩
      · split
        · split
          · apply key
            · exact h1
            · exact h2
          · apply key
            · exact h1
            · exact h2
        · apply key
          · exact h1
          · exact h2

theorem countNode_maxTime (st : State B SD) : (countNode st).maxTime = st.maxTime := rfl

theorem countNode_polls (st : State B SD) : (countNode st).polls = st.polls + 1 := rfl

theorem countNode_board (st : State B SD) : (countNode st).board = st.board := rfl

theorem countNode_table (st : State B SD) : (countNode st).table = st.table := rfl

theorem bumpSelDepth_maxTime (st : State B SD) (ply : Nat) :
    (bumpSelDepth st ply).maxTime = st.maxTime := by
  unfold bumpSelDepth; split <;> rfl

theorem bumpSelDepth_polls (st : State B SD) (ply : Nat) :
    (bumpSelDepth st ply).polls = st.polls := by
  unfold bumpSelDepth; split <;> rfl

theorem bumpSelDepth_board (st : State B SD) (ply : Nat) :
    (bumpSelDepth st ply).board = st.board := by
  unfold bumpSelDepth; split <;> rfl

theorem bumpSelDepth_table (st : State B SD) (ply : Nat) :
    (bumpSelDepth st ply).table = st.table := by
  unfold bumpSelDepth; split <;> rfl

theorem mateDistanceAndLoop_total (env : Env B SD) (T : Int) (p : Nat)
    (search : State B SD → Int → Int → Nat → Nat → Bool → PvResult B SD)
    (hs : PvTotal T p search) (st : State B SD) (zobrist : Nat) (pv : Bool)
    (originalAlpha alpha beta : Int) (depth ply : Nat) (hashMove : Nat)
    (hT : st.maxTime = T) (hp : p ≤ st.polls) :
    ∃ r x st', mateDistanceAndLoop env search st zobrist pv originalAlpha alpha beta depth ply
        hashMove = some (r, x, st') ∧ st'.maxTime = T ∧ st.polls ≤ st'.polls := by
  unfold mateDistanceAndLoop
  dsimp only
  by_cases c1 : env.MAX_MATE_SCORE - ply < beta ∧ alpha ≥ env.MAX_MATE_SCORE - ply
  · rw [if_pos c1]
    exact ⟨_, _, _, rfl, hT, le_refl _⟩
  · rw [if_neg c1]
    by_cases c2 : -env.MAX_MATE_SCORE + ply > alpha ∧
        (if env.MAX_MATE_SCORE - ply < beta then env.MAX_MATE_SCORE - ply else beta)
          ≤ -env.MAX_MATE_SCORE + ply
    · rw [if_pos c2]
      exact ⟨_, _, _, rfl, hT, le_refl _⟩
    · rw [if_neg c2]
      exact pvLoop_total env T p search hs zobrist pv originalAlpha _ depth ply _ st _ hT hp

theorem nullMovePruning_total (env : Env B SD) (T : Int) (p : Nat)
    (search : State B SD → Int → Int → Nat → Nat → Bool → PvResult B SD)
    (hs : PvTotal T p search) (st : State B SD) (beta : Int) (depth ply : Nat) (pv : Bool)
    (hT : st.maxTime = T) (hp : p ≤ st.polls) :
    ∃ c s, nullMovePruning env search st beta depth ply pv = some (c, s) ∧
      s.maxTime = T ∧ st.polls ≤ s.polls := by
  unfold nullMovePruning
  split
  · dsimp only
    obtain ⟨v, x, s, h, h1, h2⟩ := hs { st with board := env.move_null st.board }
      (-beta) (1 - beta) (toDepth (depth - 3)) (toDepth (ply + 1)) false hT hp
    rw [h]
    exact ⟨_, _, rfl, h1, h2⟩
  · exact ⟨_, _, rfl, hT, le_refl _⟩

theorem iid_total (T : Int) (p : Nat)
    (search : State B SD → Int → Int → Nat → Nat → Bool → PvResult B SD)
    (hs : PvTotal T p search) (st : State B SD) (zobrist : Nat) (alpha beta : Int)
    (depth ply : Nat) (pv : Bool) (hashMove : Nat) (hT : st.maxTime = T) (hp : p ≤ st.polls) :
    ∃ hm s, iid search st zobrist alpha beta depth ply pv hashMove = some (hm, s) ∧
      s.maxTime = T ∧ st.polls ≤ s.polls := by
  unfold iid
  split
  · obtain ⟨v, x, s2, h, h1, h2⟩ := hs st alpha beta (toDepth (depth - 2)) ply false hT hp
    rw [h]
    dsimp only
    split <;> exact ⟨_, _, rfl, h1, h2⟩
  · exact ⟨_, _, rfl, hT, le_refl _⟩

theorem pvBody_total (env : Env B SD) (T : Int) (p : Nat)
    (search : State B SD → Int → Int → Nat → Nat → Bool → PvResult B SD)
    (hs : PvTotal T p search) (st : State B SD) (alpha beta : Int) (depth ply : Nat)
    (hashMove : Nat) (hT : st.maxTime = T) (hp : p ≤ st.polls) :
    ∃ r x st', pvBody env search st alpha beta depth ply hashMove = some (r, x, st') ∧
      st'.maxTime = T ∧ st.polls ≤ st'.polls := by
  unfold pvBody
  dsimp only
  obtain ⟨c, s, e, h1, h2⟩ := nullMovePruning_total env T p search hs
    { st with moves := fun i => if i = ply then env.getPseudoLegalMoves st.board else st.moves i }
    beta depth ply (decide (beta - alpha ≠ 1)) hT hp
  rw [e]
  cases c with
  | true => exact ⟨_, _, _, rfl, h1, h2⟩
  | false =>
    dsimp only
    obtain ⟨hm, s2, e2, h1', h2'⟩ := iid_total T p search hs s (env.zobrist st.board) alpha beta
      depth ply (decide (beta - alpha ≠ 1)) hashMove h1 (le_trans hp h2)
    rw [e2]
    dsimp only
    obtain ⟨r, x, st', e3, e4, e5⟩ := mateDistanceAndLoop_total env T p search hs s2
      (env.zobrist st.board) (decide (beta - alpha ≠ 1)) alpha alpha beta depth ply hm h1'
      (le_trans hp (le_trans h2 h2'))
    exact ⟨r, x, st', e3, e4, le_trans h2 (le_trans h2' e5)⟩

theorem pvSearch_total (env : Env B SD) (mu : B → Nat) (K N : Nat) (T : Int)
    (hundo : ∀ b m, env.undoMove (env.move b m) = b)
    (hmu : ∀ b m, m ∈ env.orderQ (env.getNonQuietMoves b) → env.isLegal b m = true →
      mu (env.move b m) < mu b)
    (hK : ∀ b, mu b ≤ K) (hN : TimeUp env T N) :
    ∀ (fuel : Nat) (st : State B SD) (alpha beta : Int) (depth ply : Nat) (cut : Bool),
      st.maxTime = T → (N - st.polls) + K + 2 ≤ fuel →
      ∃ r x st', pvSearch env fuel st alpha beta depth ply cut = some (r, x, st') ∧
        st'.maxTime = T ∧ st.polls ≤ st'.polls := by
  intro fuel
  induction fuel with
  | zero => intro st _ _ _ _ _ _ h; omega
  | succ fuel ih =>
    intro st alpha beta depth ply cut hT hf
    simp only [pvSearch]
    by_cases htl : isTimeLeft env st = true
    · have hlt : st.polls < N := by
        by_contra hge
        have := hN st.polls (not_lt.mp hge)
        unfold isTimeLeft at htl
        rw [hT] at htl
        rw [this] at htl
        exact Bool.false_ne_true htl
      rw [if_neg (by simp [htl])]
      split
      · exact ⟨_, _, _, rfl, hT, Nat.le_succ _⟩
      · have hsT : (bumpSelDepth (countNode st) ply).maxTime = T := by
          rw [bumpSelDepth_maxTime, countNode_maxTime, hT]
        have hsp : (bumpSelDepth (countNode st) ply).polls = st.polls + 1 := by
          rw [bumpSelDepth_polls, countNode_polls]
        generalize bumpSelDepth (countNode st) ply = s1 at hsT hsp
        split
        · obtain ⟨v, st', hq, hfr⟩ := qSearch_total env mu hundo hmu fuel s1 alpha beta ply
            (by have := hK s1.board; omega)
          rw [hq]
          obtain ⟨_, _, _, _, hmt, hpl⟩ := hfr
          exact ⟨_, _, _, rfl, hmt.trans hsT, by rw [hpl, hsp]; exact Nat.le_succ _⟩
        · split
          · exact ⟨_, _, _, rfl, hsT, by rw [hsp]; exact Nat.le_succ _⟩
          · have hrec : PvTotal T (st.polls + 1) (pvSearch env fuel) := by
              intro s a b d pl c hsT hsp
              exact ih s a b d pl c hsT (by omega)
            obtain ⟨r, x, st', e, e1, e2⟩ := pvBody_total env T (st.polls + 1) (pvSearch env fuel)
              hrec s1 alpha beta depth ply (hashMoveOf (s1.table.get (env.zobrist s1.board))) hsT
              (by rw [hsp])
            exact ⟨r, x, st', e, e1, by omega⟩
    · rw [if_pos (by simp [htl])]
      exact ⟨_, _, _, rfl, hT, Nat.le_succ _⟩

/-! ## The counter game meets the assumptions made on the collaborators -/

theorem toy_undo (d c : Nat → Bool) (e : Nat → Int) (b : ToyBoard) (m : Nat) :
    (toyEnv d c e).undoMove ((toyEnv d c e).move b m) = b := by
  cases b
  simp [toyEnv]

theorem toy_mu_decreases (d c : Nat → Bool) (e : Nat → Int) (b : ToyBoard) (m : Nat)
    (hm : m ∈ (toyEnv d c e).orderQ ((toyEnv d c e).getNonQuietMoves b))
    (hl : (toyEnv d c e).isLegal b m = true) : toyMu ((toyEnv d c e).move b m) < toyMu b := by
  simp only [toyEnv, Bool.and_eq_true, decide_eq_true_eq] at hm hl
  simp only [toyEnv, toyMu]
  by_cases h10 : b.cur ≤ 10
  · rw [if_pos h10] at hm
    simp only [List.mem_singleton] at hm
    rw [if_pos (by omega), if_pos h10]
    omega
  · rw [if_neg h10] at hm
    simp at hm

theorem toy_mu_le (b : ToyBoard) : toyMu b ≤ 10 := by
  unfold toyMu
  split <;> omega

theorem toy_timeUp (d c : Nat → Bool) (n : Nat) : TimeUp (toyEnv d c (toyClock n)) 100 n := by
  intro k hk
  have h : ¬ k < n := by omega
  simp [toyEnv, toyClock, h]

/-! ## Claims on the search -/

/-- Claim C1, as stated, fails: four returns of `pvSearch` leave the window they were
called with.  In the counter game the draw return gives 0 for the window (5, 10), the
transposition-table return of a PV entry gives the stored 100 for the window (0, 1), the
mate-distance return gives 31998 for the window (31999, 32000), and the stalemate and
checkmate returns give 0 and -32000 for the window (5, 10). -/
theorem pvSearch_window_counterexample :
    ((pvSearch (toyEnv (fun n => n == 4) toyNever (toyClock 100)) 1 (toyState 4 toyTable 100)
        5 10 1 1 false).map (fun r => (r.1, r.2.1)) = some (0, Exit.draw) ∧ (0 : Int) < 5) ∧
    ((pvSearch (toyEnv toyNever toyNever (toyClock 100)) 1 (toyState 5 toyTablePV 100)
        0 1 2 0 false).map (fun r => (r.1, r.2.1)) = some (100, Exit.ttPV) ∧ (1 : Int) < 100) ∧
    ((pvSearch (toyEnv toyNever toyAlways (toyClock 100)) 1 (toyState 5 toyTable 100)
        31999 32000 1 2 false).map (fun r => (r.1, r.2.1)) = some (31998, Exit.mateUpper) ∧
      (31998 : Int) < 31999) ∧
    ((pvSearch (toyEnv toyNever toyNever (toyClock 100)) 1 (toyState 0 toyTable 100)
        5 10 1 0 false).map (fun r => (r.1, r.2.1)) = some (0, Exit.stalemate) ∧ (0 : Int) < 5) ∧
    ((pvSearch (toyEnv toyNever toyAlways (toyClock 100)) 1 (toyState 0 toyTable 100)
        5 10 1 0 false).map (fun r => (r.1, r.2.1)) = some (-32000, Exit.checkmate) ∧
      (-32000 : Int) < 5) := by
  decide!

/-- Claim C1, amended: when the time budget is finite, quiescence terminates (a measure
bounded by `K` drops with every legal non-quiet move) and `undoMove` undoes `move`, every
call of `pvSearch` with `alpha < beta` and enough fuel returns, and the value lies in
`[alpha, beta]` whenever the call leaves through the time-out return, the quiescence
return, the CUT or ALL transposition-table return, the null-move cutoff, a beta cutoff of
the move loop or the final `return alpha`. -/
theorem pvSearch_clipped_window (env : Env B SD) (mu : B → Nat) (K N : Nat)
    (hundo : ∀ b m, env.undoMove (env.move b m) = b)
    (hmu : ∀ b m, m ∈ env.orderQ (env.getNonQuietMoves b) → env.isLegal b m = true →
      mu (env.move b m) < mu b)
    (hK : ∀ b, mu b ≤ K)
    (fuel : Nat) (st : State B SD) (alpha beta : Int) (depth ply : Nat) (cut : Bool)
    (hN : TimeUp env st.maxTime N) (hab : alpha < beta) (hfuel : (N - st.polls) + K + 2 ≤ fuel) :
    ∃ r x st', pvSearch env fuel st alpha beta depth ply cut = some (r, x, st') ∧
      (x.clipped = true → alpha ≤ r ∧ r ≤ beta) := by
  obtain ⟨r, x, st', h, _, _⟩ := pvSearch_total env mu K N st.maxTime hundo hmu hK hN fuel st
    alpha beta depth ply cut rfl hfuel
  exact ⟨r, x, st', h, fun hx =>
    pvSearch_window_of_some env fuel st alpha beta depth ply cut r x st' h hx hab⟩

/-- Witness of `pvSearch_clipped_window` in the counter game: five counters, a clock that
runs out at the sixth call of `isTimeLeft`, the full window, depth 2. -/
theorem pvSearch_clipped_window_witness :
    ((-32000 : Int) < 32000 ∧ (6 - (toyState 5 toyTable 100).polls) + 10 + 2 ≤ 18) ∧
    ∃ r x st', pvSearch (toyEnv toyNever toyNever (toyClock 6)) 18 (toyState 5 toyTable 100)
        (-32000) 32000 2 0 false = some (r, x, st') ∧
      (x.clipped = true → (-32000 : Int) ≤ r ∧ r ≤ 32000) :=
  ⟨by decide,
   pvSearch_clipped_window (toyEnv toyNever toyNever (toyClock 6)) toyMu 10 6
    (toy_undo _ _ _) (toy_mu_decreases _ _ _) toy_mu_le 18 (toyState 5 toyTable 100)
    (-32000) 32000 2 0 false (toy_timeUp _ _ 6) (by decide) (by decide)⟩

/-- Claim C2: when `undoMove` undoes `move` and a measure of the board drops with every
legal non-quiet move, `qSearch(b, alpha, beta, ply)` with `alpha <= beta` returns (for
every amount of fuel above the measure of the board) and its value lies in
`[alpha, beta]`. -/
theorem qSearch_fail_hard (env : Env B SD) (mu : B → Nat)
    (hundo : ∀ b m, env.undoMove (env.move b m) = b)
    (hmu : ∀ b m, m ∈ env.orderQ (env.getNonQuietMoves b) → env.isLegal b m = true →
      mu (env.move b m) < mu b)
    (fuel : Nat) (st : State B SD) (alpha beta : Int) (ply : Nat)
    (hab : alpha ≤ beta) (hfuel : mu st.board < fuel) :
    ∃ v st', qSearch env fuel st alpha beta ply = some (v, st') ∧ alpha ≤ v ∧ v ≤ beta := by
  obtain ⟨v, st', h, _⟩ := qSearch_total env mu hundo hmu fuel st alpha beta ply hfuel
  exact ⟨v, st', h, qSearch_window_of_some env fuel st alpha beta ply v st' hab h⟩

/-- Witness of `qSearch_fail_hard` in the counter game: seven counters, window (-3, 4). -/
theorem qSearch_fail_hard_witness :
    ((-3 : Int) ≤ 4 ∧ toyMu (toyState 7 toyTable 100).board < 8) ∧
    ∃ v st', qSearch (toyEnv toyNever toyNever (toyClock 6)) 8 (toyState 7 toyTable 100)
        (-3) 4 0 = some (v, st') ∧ (-3 : Int) ≤ v ∧ v ≤ 4 :=
  ⟨by decide,
   qSearch_fail_hard (toyEnv toyNever toyNever (toyClock 6)) toyMu (toy_undo _ _ _)
    (toy_mu_decreases _ _ _) 8 (toyState 7 toyTable 100) (-3) 4 0 (by decide) (by decide)⟩

/-- Claim C3 fails on the code: an aborted iteration is not discarded.  In the counter
game with five counters the first iteration ends with move 1 stored for the root
(`bestMove` with `maxDepth = 1` returns it).  With `maxDepth = 2` and a clock that runs
out between the root's call of `isTimeLeft` in the second iteration and that of its
first child, every child returns its `beta`, the root stores an ALL entry of depth 2
with move 0 over the entry of the first iteration, and `bestMove` returns 0, which is no
move at all. -/
theorem bestMove_keeps_aborted_iteration :
    (bestMove (toyEnv toyNever toyNever (toyClock 6)) 50 (toyState 5 toyTable 0) 1 100).map
        (fun r => (r.1, (r.2.table.get 10).map (fun e => (e.move, e.depth, e.type))))
      = some (some 1, some (1, 1, NodeType.PV_NODE)) ∧
    (bestMove (toyEnv toyNever toyNever (toyClock 6)) 50 (toyState 5 toyTable 0) 2 100).map
        (fun r => (r.1, (r.2.table.get 10).map (fun e => (e.move, e.depth, e.type))))
      = some (some 0, some (0, 2, NodeType.ALL_NODE)) ∧
    (toyEnv toyNever toyNever (toyClock 6)).isLegal (toyState 5 toyTable 0).board 0 = false := by
  decide!

/-- Claim C4, as stated, fails: `bestMove` removes what an earlier call stored.  In the
counter game a first call on five counters stores an entry under key 10; a second call,
on one counter, leaves no entry under key 10. -/
theorem bestMove_table_counterexample :
    (bestMove (toyEnv toyNever toyNever (toyClock 100)) 50 (toyState 5 toyTable 0) 1 100).bind
        (fun r1 =>
          (bestMove (toyEnv toyNever toyNever (toyClock 100)) 50
              { r1.2 with board := ⟨1, [], false⟩ } 1 100).map
            (fun r2 => ((r1.2.table.get 10).map (fun e => e.move),
                        (r2.2.table.get 10).map (fun e => e.move))))
      = some (some 1, none) := by
  decide!

/-- Claim C4, amended: the transposition table does not persist across search roots.
`bestMove` empties the table before it searches, so a call started on a table with
arbitrary contents `slots` (whatever an earlier call stored) gives the same move and the
same final state, table included, as the call started on the emptied table. -/
theorem bestMove_clears_table (env : Env B SD) (fuel : Nat) (st : State B SD) (maxDepth : Nat)
    (maxTime : Int) (slots : Nat → Option Entry) :
    bestMove env fuel { st with table := { st.table with slots := slots } } maxDepth maxTime
      = bestMove env fuel { st with table := st.table.clear } maxDepth maxTime := by
  unfold bestMove TranspositionTable.clear
  rfl

/-! ## Search: which returns come from the transposition table -/

theorem pvLoop_not_fromTable (env : Env B SD)
    (search : State B SD → Int → Int → Nat → Nat → Bool → PvResult B SD)
    (zobrist : Nat) (pv : Bool) (originalAlpha beta : Int) (depth ply : Nat) :
    ∀ (ms : List Nat) (st : State B SD) (v : LoopVars) (r : Int) (x : Exit) (st' : State B SD),
      pvLoop env search zobrist pv originalAlpha beta depth ply ms st v = some (r, x, st') →
      x.fromTable = false := by
  intro ms
  induction ms with
  | nil =>
    intro st v r x st' h
    rw [pvLoop] at h
    unfold pvEpilogue at h
    split at h
    · split at h <;>
        (simp only [Option.some.injEq, Prod.mk.injEq] at h; obtain ⟨_, rfl, _⟩ := h; rfl)
    · split at h <;>
        (simp only [Option.some.injEq, Prod.mk.injEq] at h; obtain ⟨_, rfl, _⟩ := h; rfl)
  | cons m ms ih =>
    intro st v r x st' h
    rw [pvLoop] at h
    split at h
    · exact ih _ _ _ _ _ h
    · dsimp only at h
      split at h
      · exact absurd h (by simp)
      · split at h
        · simp only [Option.some.injEq, Prod.mk.injEq] at h
          obtain ⟨_, rfl, _⟩ := h
          rfl
        · split at h
          · exact ih _ _ _ _ _ h
          · exact ih _ _ _ _ _ h

theorem pvBody_not_fromTable (env : Env B SD)
    (search : State B SD → Int → Int → Nat → Nat → Bool → PvResult B SD)
    (st : State B SD) (alpha beta : Int) (depth ply : Nat) (hashMove : Nat)
    (r : Int) (x : Exit) (st' : State B SD)
    (h : pvBody env search st alpha beta depth ply hashMove = some (r, x, st')) :
    x.fromTable = false := by
  unfold pvBody at h
  dsimp only at h
  split at h
  · exact absurd h (by simp)
  · simp only [Option.some.injEq, Prod.mk.injEq] at h
    obtain ⟨_, rfl, _⟩ := h
    rfl
  · split at h
    · exact absurd h (by simp)
    · unfold mateDistanceAndLoop at h
      dsimp only at h
      by_cases c1 : env.MAX_MATE_SCORE - ply < beta ∧ alpha ≥ env.MAX_MATE_SCORE - ply
      · rw [if_pos c1] at h
        simp only [Option.some.injEq, Prod.mk.injEq] at h
        obtain ⟨_, rfl, _⟩ := h
        rfl
      · rw [if_neg c1] at h
        by_cases c2 : -env.MAX_MATE_SCORE + ply > alpha ∧
            (if env.MAX_MATE_SCORE - ply < beta then env.MAX_MATE_SCORE - ply else beta)
              ≤ -env.MAX_MATE_SCORE + ply
        · rw [if_pos c2] at h
          simp only [Option.some.injEq, Prod.mk.injEq] at h
          obtain ⟨_, rfl, _⟩ := h
          rfl
        · rw [if_neg c2] at h
          exact pvLoop_not_fromTable env search _ _ _ _ _ _ _ _ _ _ _ _ h

theorem probeCutoff_of_prunes (e : Entry) (alpha beta : Int) (depth : Nat)
    (h : e.prunes alpha beta depth) :
    probeCutoff (some e) alpha beta depth =
      some (if e.type = NodeType.PV_NODE then (e.score, Exit.ttPV)
            else if e.type = NodeType.CUT_NODE then (beta, Exit.ttCut)
            else (alpha, Exit.ttAll)) := by
  obtain ⟨hd, h⟩ := h
  unfold probeCutoff
  dsimp only
  rw [if_pos hd]
  rcases h with ⟨ht, hs⟩ | ⟨ht, hs⟩ | ⟨ht, hs⟩
  · rw [if_pos ⟨ht, hs⟩, if_pos ht]
  · rw [if_neg (by rw [ht]; simp), if_pos ht, if_pos hs, if_neg (by rw [ht]; simp), if_pos ht]
  · rw [if_neg (by rw [ht]; simp), if_neg (by rw [ht]; simp), if_pos ht, if_pos hs,
      if_neg (by rw [ht]; simp), if_neg (by rw [ht]; simp)]

theorem probeCutoff_none_of_not_prunes (en : Option Entry) (alpha beta : Int) (depth : Nat)
    (h : ∀ e, en = some e → ¬ e.prunes alpha beta depth) :
    probeCutoff en alpha beta depth = none := by
  cases en with
  | none => rfl
  | some e =>
    have hn := h e rfl
    unfold Entry.prunes at hn
    unfold probeCutoff
    dsimp only
    by_cases hd : e.depth ≥ depth
    · rw [if_pos hd]
      have h1 : ¬ (e.type = NodeType.PV_NODE ∧ e.score ≥ alpha) := fun c => hn ⟨hd, Or.inl c⟩
      rw [if_neg h1]
      by_cases hc : e.type = NodeType.CUT_NODE
      · rw [if_pos hc, if_neg (fun c => hn ⟨hd, Or.inr (Or.inl ⟨hc, c⟩)⟩)]
      · rw [if_neg hc]
        by_cases ha : e.type = NodeType.ALL_NODE
        · rw [if_pos ha, if_neg (fun c => hn ⟨hd, Or.inr (Or.inr ⟨ha, c⟩)⟩)]
        · rw [if_neg ha]
    · rw [if_neg hd]

theorem pvSearch_probe_some (env : Env B SD) (fuel : Nat) (st : State B SD) (alpha beta : Int)
    (depth ply : Nat) (cut : Bool) (htime : isTimeLeft env st = true)
    (hdraw : (env.isDraw st.board && decide (ply > 0)) = false)
    (hd1 : 1 ≤ depth) (hd2 : depth ≤ env.MAX_PLY) (r : Int) (x : Exit)
    (h : probeCutoff (st.table.get (env.zobrist st.board)) alpha beta depth = some (r, x)) :
    pvSearch env (fuel + 1) st alpha beta depth ply cut
      = some (r, x, bumpSelDepth (countNode st) ply) := by
  simp only [pvSearch]
  rw [if_neg (by simp [htime]), if_neg (by simp [hdraw]), if_neg (by omega)]
  rw [bumpSelDepth_table, bumpSelDepth_board, countNode_table, countNode_board, h]

theorem pvSearch_probe_none (env : Env B SD) (fuel : Nat) (st : State B SD) (alpha beta : Int)
    (depth ply : Nat) (cut : Bool) (htime : isTimeLeft env st = true)
    (hdraw : (env.isDraw st.board && decide (ply > 0)) = false)
    (hd1 : 1 ≤ depth) (hd2 : depth ≤ env.MAX_PLY)
    (h : probeCutoff (st.table.get (env.zobrist st.board)) alpha beta depth = none) :
    pvSearch env (fuel + 1) st alpha beta depth ply cut
      = pvBody env (pvSearch env fuel) (bumpSelDepth (countNode st) ply) alpha beta
          depth ply (hashMoveOf (st.table.get (env.zobrist st.board))) := by
  simp only [pvSearch]
  rw [if_neg (by simp [htime]), if_neg (by simp [hdraw]), if_neg (by omega)]
  rw [bumpSelDepth_table, bumpSelDepth_board, countNode_table, countNode_board, h]

/-- Claim C5: with time left, no draw return and depth in 1..MAX_PLY, `pvSearch` leaves
through a transposition-table return exactly when the entry of the position has stored
depth >= depth and is PV with score >= alpha (the stored score is returned), CUT with
score >= beta (beta is returned) or ALL with score <= alpha (alpha is returned); in every
other case, in particular for an entry of smaller depth, the call is the rest of the
search run with the move of the entry as hash move. -/
theorem pvSearch_table_return (env : Env B SD) (fuel : Nat) (st : State B SD)
    (alpha beta : Int) (depth ply : Nat) (cut : Bool) (htime : isTimeLeft env st = true)
    (hdraw : (env.isDraw st.board && decide (ply > 0)) = false)
    (hd1 : 1 ≤ depth) (hd2 : depth ≤ env.MAX_PLY) :
    ((∃ r x st', pvSearch env (fuel + 1) st alpha beta depth ply cut = some (r, x, st') ∧
        x.fromTable = true) ↔
      ∃ e, st.table.get (env.zobrist st.board) = some e ∧ e.prunes alpha beta depth) ∧
    (∀ e, st.table.get (env.zobrist st.board) = some e → e.prunes alpha beta depth →
      pvSearch env (fuel + 1) st alpha beta depth ply cut =
        some (if e.type = NodeType.PV_NODE then e.score
                else if e.type = NodeType.CUT_NODE then beta else alpha,
              if e.type = NodeType.PV_NODE then Exit.ttPV
                else if e.type = NodeType.CUT_NODE then Exit.ttCut else Exit.ttAll,
              bumpSelDepth (countNode st) ply)) ∧
    ((∀ e, st.table.get (env.zobrist st.board) = some e → ¬ e.prunes alpha beta depth) →
      pvSearch env (fuel + 1) st alpha beta depth ply cut =
        pvBody env (pvSearch env fuel) (bumpSelDepth (countNode st) ply) alpha beta depth ply
          (hashMoveOf (st.table.get (env.zobrist st.board)))) ∧
    (∀ e, st.table.get (env.zobrist st.board) = some e → e.depth < depth →
      ¬ e.prunes alpha beta depth) := by
  have hyes : ∀ e, st.table.get (env.zobrist st.board) = some e → e.prunes alpha beta depth →
      pvSearch env (fuel + 1) st alpha beta depth ply cut =
        some (if e.type = NodeType.PV_NODE then e.score
                else if e.type = NodeType.CUT_NODE then beta else alpha,
              if e.type = NodeType.PV_NODE then Exit.ttPV
                else if e.type = NodeType.CUT_NODE then Exit.ttCut else Exit.ttAll,
              bumpSelDepth (countNode st) ply) := by
    intro e he hpr
    have hc := probeCutoff_of_prunes e alpha beta depth hpr
    rw [← he] at hc
    by_cases h1 : e.type = NodeType.PV_NODE
    · rw [if_pos h1] at hc
      rw [if_pos h1, if_pos h1]
      exact pvSearch_probe_some env fuel st alpha beta depth ply cut htime hdraw hd1 hd2 _ _ hc
    · rw [if_neg h1] at hc
      rw [if_neg h1, if_neg h1]
      by_cases h2 : e.type = NodeType.CUT_NODE
      · rw [if_pos h2] at hc
        rw [if_pos h2, if_pos h2]
        exact pvSearch_probe_some env fuel st alpha beta depth ply cut htime hdraw hd1 hd2 _ _ hc
      · rw [if_neg h2] at hc
        rw [if_neg h2, if_neg h2]
        exact pvSearch_probe_some env fuel st alpha beta depth ply cut htime hdraw hd1 hd2 _ _ hc
  have hno : (∀ e, st.table.get (env.zobrist st.board) = some e → ¬ e.prunes alpha beta depth) →
      pvSearch env (fuel + 1) st alpha beta depth ply cut =
        pvBody env (pvSearch env fuel) (bumpSelDepth (countNode st) ply) alpha beta depth ply
          (hashMoveOf (st.table.get (env.zobrist st.board))) := by
    intro h
    exact pvSearch_probe_none env fuel st alpha beta depth ply cut htime hdraw hd1 hd2
      (probeCutoff_none_of_not_prunes _ alpha beta depth h)
  refine ⟨⟨?_, ?_⟩, hyes, hno, ?_⟩
  · rintro ⟨r, x, st', h, hx⟩
    by_contra hne
    have hall : ∀ e, st.table.get (env.zobrist st.board) = some e → ¬ e.prunes alpha beta depth :=
      fun e he hpr => hne ⟨e, he, hpr⟩
    rw [hno hall] at h
    have := pvBody_not_fromTable env _ _ alpha beta depth ply _ r x st' h
    rw [this] at hx
    exact Bool.false_ne_true hx
  · rintro ⟨e, he, hpr⟩
    refine ⟨_, _, _, hyes e he hpr, ?_⟩
    split <;> [rfl; (split <;> rfl)]
  · intro e _ hlt hpr
    exact absurd hpr.1 (by omega)

/-- Witness of `pvSearch_table_return` in the counter game: five counters, the table
`toyTablePV` (a PV entry of depth 3 under the key of the position), depth 2. -/
theorem pvSearch_table_return_witness :
    (isTimeLeft (toyEnv toyNever toyNever (toyClock 100)) (toyState 5 toyTablePV 100) = true ∧
      (1 ≤ 2 ∧ 2 ≤ (toyEnv toyNever toyNever (toyClock 100)).MAX_PLY)) ∧
    ∃ e, (toyState 5 toyTablePV 100).table.get
          ((toyEnv toyNever toyNever (toyClock 100)).zobrist (toyState 5 toyTablePV 100).board)
            = some e ∧
      e.prunes 0 1 2 ∧
      pvSearch (toyEnv toyNever toyNever (toyClock 100)) (7 + 1) (toyState 5 toyTablePV 100)
          0 1 2 0 false =
        some (100, Exit.ttPV, bumpSelDepth (countNode (toyState 5 toyTablePV 100)) 0) := by
  refine ⟨by decide, ⟨10, 2, 100, 3, NodeType.PV_NODE⟩, by decide, ?_, ?_⟩
  · exact ⟨by decide, Or.inl ⟨rfl, by decide⟩⟩
  · exact (pvSearch_table_return (toyEnv toyNever toyNever (toyClock 100)) 7
      (toyState 5 toyTablePV 100) 0 1 2 0 false (by decide) (by decide) (by decide)
      (by decide)).2.1 ⟨10, 2, 100, 3, NodeType.PV_NODE⟩ (by decide)
      ⟨by decide, Or.inl ⟨rfl, by decide⟩⟩

/-! ## Bitboards: counting -/

theorem mem_bitsOf (x s : Nat) : s ∈ bitsOf x ↔ s < 64 ∧ x.testBit s = true := by
  simp [bitsOf]

theorem bitsOf_nodup (x : Nat) : (bitsOf x).Nodup :=
  (List.nodup_range 64).filter _

theorem bitsOf_zero : bitsOf 0 = [] := by decide

theorem bitCount_zero : bitCount 0 = 0 := by decide

theorem bitCount_le (x : Nat) : bitCount x ≤ 64 := by
  unfold bitCount bitsOf
  exact (List.length_filter_le _ _).trans (by simp)

theorem bitCount_eq_countP (x : Nat) :
    bitCount x = (List.range 64).countP (fun i => x.testBit i) := by
  unfold bitCount bitsOf
  rw [List.countP_eq_length_filter]

/-- A bitboard whose squares are among those of another has at most as many. -/
theorem bitCount_mono (x y : Nat) (h : ∀ i, x.testBit i = true → y.testBit i = true) :
    bitCount x ≤ bitCount y := by
  rw [bitCount_eq_countP, bitCount_eq_countP]
  exact List.countP_mono_left (fun i _ hi => h i hi)

theorem bitCount_or_disjoint (x y : Nat) (h : x &&& y = 0) :
    bitCount (x ||| y) = bitCount x + bitCount y := by
  rw [bitCount_eq_countP, bitCount_eq_countP, bitCount_eq_countP]
  simp only [Nat.testBit_or]
  induction (List.range 64) with
  | nil => rfl
  | cons a l ih =>
    have hd : ¬ (x.testBit a = true ∧ y.testBit a = true) := by
      intro ⟨h1, h2⟩
      have : (x &&& y).testBit a = true := by rw [Nat.testBit_and, h1, h2]; rfl
      rw [h] at this
      simp at this
    simp only [List.countP_cons, ih]
    by_cases h1 : x.testBit a = true <;> by_cases h2 : y.testBit a = true
    · exact absurd ⟨h1, h2⟩ hd
    · simp [h1, h2]; omega
    · simp [h1, h2]; omega
    · simp [h1, h2]

/-! ## Single precision: small integers are exact -/

theorem roundHalfEven_intCast (z : Int) : roundHalfEven (z : ℚ) = z := by
  unfold roundHalfEven
  have hf : Rat.floor (z : ℚ) = z := by
    show ⌊(z : ℚ)⌋ = z
    exact Int.floor_intCast z
  rw [hf]
  norm_num

theorem binExp_natCast_le (n : Nat) (hn : n ≠ 0) (h : n < 2 ^ 24) : binExp (n : ℚ) ≤ 23 := by
  unfold binExp
  simp only [Rat.num_natCast, Int.natAbs_ofNat, Rat.den_natCast]
  have h1 : Nat.log2 n < 24 := (Nat.log2_lt hn).mpr h
  have h2 : Nat.log2 1 = 0 := by simp [Nat.log2]
  rw [h2]
  split <;> omega

theorem f32pos_natCast (n : Nat) (hn : n ≠ 0) (h : n < 2 ^ 24) : f32pos (n : ℚ) = n := by
  unfold f32pos
  have he := binExp_natCast_le n hn h
  generalize binExp (n : ℚ) = e at he
  obtain ⟨k, hk⟩ : ∃ k : Nat, e - 23 = -(k : Int) := ⟨(23 - e).toNat, by omega⟩
  simp only [hk, zpow_neg, zpow_natCast]
  have h2 : ((n : ℚ) / ((2 : ℚ) ^ k)⁻¹) = ((n * 2 ^ k : Int) : ℚ) := by
    push_cast
    rw [div_inv_eq_mul]
  rw [h2, roundHalfEven_intCast]
  push_cast
  have h3 : ((2 : ℚ) ^ k) ≠ 0 := pow_ne_zero _ (by norm_num)
  field_simp

theorem f32_natCast (n : Nat) (h : n < 2 ^ 24) : f32 (n : ℚ) = n := by
  unfold f32
  by_cases hn : n = 0
  · simp [hn]
  · have hq : ¬ ((n : ℚ) = 0) := by exact_mod_cast hn
    have hq2 : ¬ ((n : ℚ) < 0) := by
      have : (0 : ℚ) ≤ n := Nat.cast_nonneg n
      linarith
    rw [if_neg hq, if_neg hq2]
    exact f32pos_natCast n hn h

theorem f32_neg (q : ℚ) : f32 (-q) = -f32 q := by
  unfold f32
  by_cases h0 : q = 0
  · simp [h0]
  · have h0' : ¬ (-q = 0) := by simpa using h0
    rw [if_neg h0, if_neg h0']
    by_cases hneg : q < 0
    · have : ¬ (-q < 0) := by linarith
      rw [if_pos hneg, if_neg this, neg_neg]
    · have hpos : 0 < q := lt_of_le_of_ne (not_lt.mp hneg) (Ne.symm h0)
      have : -q < 0 := by linarith
      rw [if_neg hneg, if_pos this, neg_neg]

theorem f32_intCast (z : Int) (h1 : -(2 ^ 24) < z) (h2 : z < 2 ^ 24) : f32 (z : ℚ) = z := by
  by_cases hz : 0 ≤ z
  · obtain ⟨n, rfl⟩ := Int.eq_ofNat_of_zero_le hz
    have : n < 2 ^ 24 := by exact_mod_cast h2
    simpa using f32_natCast n this
  · obtain ⟨n, hn⟩ : ∃ n : Nat, z = -(n : Int) := ⟨(-z).toNat, by omega⟩
    subst hn
    have : n < 2 ^ 24 := by
      have : (n : Int) < 2 ^ 24 := by omega
      exact_mod_cast this
    have e := f32_natCast n this
    push_cast
    rw [f32_neg, e]

theorem roundHalfEven_nonneg (x : ℚ) (h : 0 ≤ x) : 0 ≤ roundHalfEven x := by
  unfold roundHalfEven
  have hf : 0 ≤ Rat.floor x := Int.floor_nonneg.mpr h
  dsimp only
  split
  · exact hf
  · split
    · omega
    · split <;> omega

theorem f32pos_nonneg (q : ℚ) (h : 0 ≤ q) : 0 ≤ f32pos q := by
  unfold f32pos
  have hu : (0 : ℚ) < (2 : ℚ) ^ (binExp q - 23) := zpow_pos (by norm_num) _
  have hr := roundHalfEven_nonneg (q / (2 : ℚ) ^ (binExp q - 23)) (div_nonneg h hu.le)
  have : (0 : ℚ) ≤ (roundHalfEven (q / (2 : ℚ) ^ (binExp q - 23)) : ℚ) := by exact_mod_cast hr
  exact mul_nonneg this hu.le

theorem f32_nonpos (q : ℚ) (h : q ≤ 0) : f32 q ≤ 0 := by
  unfold f32
  split
  · exact le_refl _
  · split
    · have := f32pos_nonneg (-q) (by linarith)
      linarith
    · rename_i h0 h1
      exact absurd (le_antisymm h (not_lt.mp h1)) h0

/-! ## The phase -/

theorem f32_eq_of_int (q : ℚ) (z : Int) (hq : q = z) (h1 : -(2 ^ 24) < z) (h2 : z < 2 ^ 24) :
    f32 q = z := by
  rw [hq]; exact f32_intCast z h1 h2

/-- The phase of `evaluate` depends on the board only through its non-pawn material: it is
the single-precision quotient `(24 - w) / 24`, clamped. -/
theorem phaseOf_eq_phaseOfWeight (b : Board) : phaseOf b = phaseOfWeight (materialWeight b) := by
  have g0 : phaseValues.getD 0 0 = 0 := rfl
  have g1 : phaseValues.getD 1 0 = 1 := rfl
  have g2 : phaseValues.getD 2 0 = 1 := rfl
  have g3 : phaseValues.getD 3 0 = 2 := rfl
  have g4 : phaseValues.getD 4 0 = 4 := rfl
  have g5 : phaseValues.getD 5 0 = 0 := rfl
  unfold phaseOf materialWeight phaseOfWeight
  rw [g0, g1, g2, g3, g4, g5]
  have b0 := bitCount_le (b.pieceBB WHITE_PAWN ||| b.pieceBB BLACK_PAWN)
  have b1 := bitCount_le (b.pieceBB WHITE_KNIGHT ||| b.pieceBB BLACK_KNIGHT)
  have b2 := bitCount_le (b.pieceBB WHITE_BISHOP ||| b.pieceBB BLACK_BISHOP)
  have b3 := bitCount_le (b.pieceBB WHITE_ROOK ||| b.pieceBB BLACK_ROOK)
  have b4 := bitCount_le (b.pieceBB WHITE_QUEEN ||| b.pieceBB BLACK_QUEEN)
  generalize bitCount (b.pieceBB WHITE_PAWN ||| b.pieceBB BLACK_PAWN) = n0 at b0
  generalize bitCount (b.pieceBB WHITE_KNIGHT ||| b.pieceBB BLACK_KNIGHT) = n1 at b1
  generalize bitCount (b.pieceBB WHITE_BISHOP ||| b.pieceBB BLACK_BISHOP) = n2 at b2
  generalize bitCount (b.pieceBB WHITE_ROOK ||| b.pieceBB BLACK_ROOK) = n3 at b3
  generalize bitCount (b.pieceBB WHITE_QUEEN ||| b.pieceBB BLACK_QUEEN) = n4 at b4
  have c0 : floatOfInt (n0 : Int) = ((n0 : Int) : ℚ) := f32_intCast _ (by omega) (by omega)
  have c1 : floatOfInt (n1 : Int) = ((n1 : Int) : ℚ) := f32_intCast _ (by omega) (by omega)
  have c2 : floatOfInt (n2 : Int) = ((n2 : Int) : ℚ) := f32_intCast _ (by omega) (by omega)
  have c3 : floatOfInt (n3 : Int) = ((n3 : Int) : ℚ) := f32_intCast _ (by omega) (by omega)
  have c4 : floatOfInt (n4 : Int) = ((n4 : Int) : ℚ) := f32_intCast _ (by omega) (by omega)
  rw [c0, c1, c2, c3, c4]
  have d0 : fadd 24 0 = ((24 : Int) : ℚ) :=
    f32_eq_of_int _ 24 (by push_cast; norm_num) (by omega) (by omega)
  have m0 : fmul 0 ((n0 : Int) : ℚ) = ((0 : Int) : ℚ) :=
    f32_eq_of_int _ 0 (by push_cast; norm_num) (by omega) (by omega)
  have m1 : fmul 1 ((n1 : Int) : ℚ) = ((n1 : Int) : ℚ) :=
    f32_eq_of_int _ _ (by push_cast; norm_num) (by omega) (by omega)
  have m2 : fmul 1 ((n2 : Int) : ℚ) = ((n2 : Int) : ℚ) :=
    f32_eq_of_int _ _ (by push_cast; norm_num) (by omega) (by omega)
  have m3 : fmul 2 ((n3 : Int) : ℚ) = ((2 * n3 : Int) : ℚ) :=
    f32_eq_of_int _ _ (by push_cast; norm_num) (by omega) (by omega)
  have m4 : fmul 4 ((n4 : Int) : ℚ) = ((4 * n4 : Int) : ℚ) :=
    f32_eq_of_int _ _ (by push_cast; norm_num) (by omega) (by omega)
  rw [d0, m0, m1, m2, m3, m4]
  have s0 : fsub ((24 : Int) : ℚ) ((0 : Int) : ℚ) = ((24 : Int) : ℚ) :=
    f32_eq_of_int _ _ (by push_cast; norm_num) (by omega) (by omega)
  rw [s0]
  have s1 : fsub ((24 : Int) : ℚ) ((n1 : Int) : ℚ) = ((24 - n1 : Int) : ℚ) :=
    f32_eq_of_int _ _ (by push_cast; rfl) (by omega) (by omega)
  rw [s1]
  have s2 : fsub ((24 - n1 : Int) : ℚ) ((n2 : Int) : ℚ) = ((24 - n1 - n2 : Int) : ℚ) :=
    f32_eq_of_int _ _ (by push_cast; rfl) (by omega) (by omega)
  rw [s2]
  have s3 : fsub ((24 - n1 - n2 : Int) : ℚ) ((2 * n3 : Int) : ℚ)
      = ((24 - n1 - n2 - 2 * n3 : Int) : ℚ) :=
    f32_eq_of_int _ _ (by push_cast; rfl) (by omega) (by omega)
  rw [s3]
  have s4 : fsub ((24 - n1 - n2 - 2 * n3 : Int) : ℚ) ((4 * n4 : Int) : ℚ)
      = ((24 - n1 - n2 - 2 * n3 - 4 * n4 : Int) : ℚ) :=
    f32_eq_of_int _ _ (by push_cast; rfl) (by omega) (by omega)
  rw [s4]
  have e : fdiv ((24 - n1 - n2 - 2 * n3 - 4 * n4 : Int) : ℚ) 24
      = f32 ((24 - ((n1 + n2 + 2 * n3 + 4 * n4 : Nat) : ℚ)) / 24) := by
    unfold fdiv
    congr 1
    push_cast
    ring
  rw [e]
  generalize f32 ((24 - ((n1 + n2 + 2 * n3 + 4 * n4 : Nat) : ℚ)) / 24) = x
  dsimp only
  by_cases h1 : x > 1
  · rw [if_pos h1, if_neg (by norm_num)]
    rw [min_eq_left (le_of_lt h1), max_eq_right (by norm_num)]
  · rw [if_neg h1]
    have h1' : x ≤ 1 := not_lt.mp h1
    rw [min_eq_right h1']
    by_cases h0 : x < 0
    · rw [if_pos h0, max_eq_left (le_of_lt h0)]
    · rw [if_neg h0, max_eq_right (not_lt.mp h0)]

theorem phaseOfWeight_of_le (w : Nat) (h : 24 ≤ w) : phaseOfWeight w = 0 := by
  unfold phaseOfWeight
  have hq : (24 - (w : ℚ)) / 24 ≤ 0 := by
    have : (24 : ℚ) ≤ w := by exact_mod_cast h
    apply div_nonpos_of_nonpos_of_nonneg <;> linarith
  have := f32_nonpos _ hq
  rw [min_eq_right (by linarith), max_eq_left this]

theorem phaseOfWeight_step (w : Nat) : phaseOfWeight (w + 1) ≤ phaseOfWeight w := by
  by_cases h : 24 ≤ w
  · rw [phaseOfWeight_of_le w h, phaseOfWeight_of_le (w + 1) (by omega)]
  · have key : ∀ k : Fin 24, phaseOfWeight (k.val + 1) ≤ phaseOfWeight k.val := by decide!
    exact key ⟨w, by omega⟩

theorem phaseOfWeight_antitone (w w' : Nat) (h : w' ≤ w) : phaseOfWeight w ≤ phaseOfWeight w' := by
  induction w with
  | zero =>
    have : w' = 0 := by omega
    rw [this]
  | succ n ih =>
    by_cases h' : w' ≤ n
    · exact (phaseOfWeight_step n).trans (ih h')
    · have : w' = n + 1 := by omega
      rw [this]

theorem clamp_of_lt (w : Nat) (h : w < 24) :
    max 0 (min 1 ((24 - (w : ℚ)) / 24)) = (24 - (w : ℚ)) / 24 := by
  have h1 : (w : ℚ) < 24 := by exact_mod_cast h
  have h2 : (0 : ℚ) ≤ w := Nat.cast_nonneg w
  have h3 : (24 - (w : ℚ)) / 24 ≤ 1 := by
    rw [div_le_one (by norm_num)]; linarith
  have h4 : 0 ≤ (24 - (w : ℚ)) / 24 := div_nonneg (by linarith) (by norm_num)
  rw [min_eq_right h3, max_eq_right h4]

theorem clamp_of_le (w : Nat) (h : 24 ≤ w) : max 0 (min 1 ((24 - (w : ℚ)) / 24)) = 0 := by
  have hq : (24 - (w : ℚ)) / 24 ≤ 0 := by
    have : (24 : ℚ) ≤ w := by exact_mod_cast h
    apply div_nonpos_of_nonpos_of_nonneg <;> linarith
  rw [min_eq_right (by linarith), max_eq_left hq]

theorem phaseOfWeight_error (w : Nat) :
    |phaseOfWeight w - max 0 (min 1 ((24 - (w : ℚ)) / 24))| ≤ 1 / 2 ^ 25 := by
  by_cases h : 24 ≤ w
  · rw [phaseOfWeight_of_le w h, clamp_of_le w h]
    norm_num
  · have key : ∀ k : Fin 24,
        -(1 / 33554432) ≤ phaseOfWeight k.val - (24 - (k.val : ℚ)) / 24 ∧
        phaseOfWeight k.val - (24 - (k.val : ℚ)) / 24 ≤ 1 / 33554432 := by
      decide!
    have e : (1 : ℚ) / 2 ^ 25 = 1 / 33554432 := by norm_num
    rw [e, clamp_of_lt w (by omega)]
    exact abs_le.mpr (key ⟨w, by omega⟩)

theorem phaseOfWeight_exact (w : Nat) (h : 3 ∣ w) :
    phaseOfWeight w = max 0 (min 1 ((24 - (w : ℚ)) / 24)) := by
  by_cases h24 : 24 ≤ w
  · rw [phaseOfWeight_of_le w h24, clamp_of_le w h24]
  · have key : ∀ k : Fin 24, 3 ∣ k.val →
        phaseOfWeight k.val = (24 - (k.val : ℚ)) / 24 := by
      decide!
    rw [clamp_of_lt w (by omega)]
    exact key ⟨w, by omega⟩ h

theorem materialWeight_eq_materialCount (b : Board) (h : b.colorsDisjoint) :
    materialWeight b = materialCount b := by
  unfold materialWeight materialCount countBoth
  have h1 := bitCount_or_disjoint _ _ (h KNIGHT)
  have h2 := bitCount_or_disjoint _ _ (h BISHOP)
  have h3 := bitCount_or_disjoint _ _ (h ROOK)
  have h4 := bitCount_or_disjoint _ _ (h QUEEN)
  simp only [Board.getPieceBB, Board.colorIndex] at h1 h2 h3 h4 ⊢
  simp only [Bool.false_eq_true, if_false, if_true, zero_mul, one_mul, zero_add] at h1 h2 h3 h4 ⊢
  rw [← h1, ← h2, ← h3, ← h4]
  rfl

theorem startBoard_colorsDisjoint : startBoard.colorsDisjoint := by
  intro t
  simp only [Board.getPieceBB, Board.colorIndex, startBoard]
  simp only [Bool.false_eq_true, if_false, if_true, zero_mul, one_mul, zero_add]
  match t with
  | 0 => decide
  | 1 => decide
  | 2 => decide
  | 3 => decide
  | 4 => decide
  | 5 => decide
  | n + 6 =>
    have : startPieces (n + 6) = 0 ∨ startPieces (8 + (n + 6)) = 0 := by
      right
      unfold startPieces
      split <;> first | rfl | omega
    rcases this with h | h <;> simp [h]

/-- Claim C9, as stated, fails by the rounding of single precision: on the starting
position without the knight of b1 (`N + B + 2*R + 4*Q = 23`) the phase computed by
`evaluate` is the `float` 11184811 / 2^28, which is not 1/24. -/
theorem phase_formula_counterexample :
    materialCount startMinusKnight = 23 ∧
    phaseOf startMinusKnight = 11184811 / 268435456 ∧
    phaseOf startMinusKnight
      ≠ max 0 (min 1 ((24 - (materialCount startMinusKnight : ℚ)) / 24)) := by
  have h1 : materialCount startMinusKnight = 23 := by decide!
  have h2 : phaseOf startMinusKnight = 11184811 / 268435456 := by decide!
  refine ⟨h1, h2, ?_⟩
  rw [h1, h2]
  norm_num

/-- Claim C9, amended: for every position (no square holding a white and a black piece of
one type) the phase computed by `evaluate` is the single-precision quotient
`(24 - (N + B + 2*R + 4*Q)) / 24` clamped to [0, 1], where `N`, `B`, `R`, `Q` count the
knights, bishops, rooks and queens of both colours; pawns and kings contribute nothing.
It differs from the exact `clamp((24 - (N + B + 2*R + 4*Q)) / 24, 0, 1)` by at most
`2^-25`, and equals it when `N + B + 2*R + 4*Q` is a multiple of 3 or at least 24.  Hence
the phase is 0 at full starting material and above, and 1 when no non-pawn piece remains. -/
theorem phase_formula (b : Board) (h : b.colorsDisjoint) :
    phaseOf b = max 0 (min 1 (f32 ((24 - (materialCount b : ℚ)) / 24))) ∧
    |phaseOf b - max 0 (min 1 ((24 - (materialCount b : ℚ)) / 24))| ≤ 1 / 2 ^ 25 ∧
    (3 ∣ materialCount b →
      phaseOf b = max 0 (min 1 ((24 - (materialCount b : ℚ)) / 24))) ∧
    (24 ≤ materialCount b → phaseOf b = 0) ∧
    (materialCount b = 0 → phaseOf b = 1) := by
  have e := phaseOf_eq_phaseOfWeight b
  rw [materialWeight_eq_materialCount b h] at e
  refine ⟨e, ?_, ?_, ?_, ?_⟩
  · rw [e]; exact phaseOfWeight_error _
  · intro h3; rw [e]; exact phaseOfWeight_exact _ h3
  · intro h24; rw [e]; exact phaseOfWeight_of_le _ h24
  · intro h0
    rw [e, h0, phaseOfWeight_exact 0 (by decide)]
    norm_num

/-- Witness of `phase_formula`: the starting position, whose phase is 0. -/
theorem phase_formula_witness :
    startBoard.colorsDisjoint ∧ materialCount startBoard = 24 ∧ phaseOf startBoard = 0 :=
  have h : materialCount startBoard = 24 := by decide!
  ⟨startBoard_colorsDisjoint, h,
    (phase_formula startBoard startBoard_colorsDisjoint).2.2.2.1 (by rw [h])⟩

/-- Claim C10, as stated, fails: removing the knight of b1 from the starting position
raises the phase computed by `evaluate` from 0 to 11184811 / 2^28. -/
theorem phase_monotone_counterexample :
    (∀ p, startMinusKnight.pieceBB p =
      if p = WHITE_KNIGHT then startBoard.pieceBB p &&& not64 (2 ^ 1) else startBoard.pieceBB p) ∧
    phaseOf startBoard = 0 ∧ phaseOf startMinusKnight = 11184811 / 268435456 ∧
    phaseOf startBoard < phaseOf startMinusKnight := by
  have h1 : phaseOf startBoard = 0 := by decide!
  have h2 : phaseOf startMinusKnight = 11184811 / 268435456 := by decide!
  refine ⟨?_, h1, h2, ?_⟩
  · intro p
    by_cases hp : p = WHITE_KNIGHT
    · subst hp
      decide
    · simp [startMinusKnight, startBoard, hp]
  · rw [h1, h2]; norm_num

/-- Claim C10, amended: the phase is monotone non-decreasing as material decreases: when
every bitboard of `b'` is contained in that of `b` (pieces were removed, none added), the
phase computed by `evaluate` on `b'` is at least the phase on `b`; removing a knight,
bishop, rook or queen never makes the phase smaller. -/
theorem phase_monotone (b b' : Board) (h : ∀ p, b'.pieceBB p &&& b.pieceBB p = b'.pieceBB p) :
    phaseOf b ≤ phaseOf b' := by
  rw [phaseOf_eq_phaseOfWeight, phaseOf_eq_phaseOfWeight]
  apply phaseOfWeight_antitone
  have sub : ∀ p q, bitCount (b'.pieceBB p ||| b'.pieceBB q)
      ≤ bitCount (b.pieceBB p ||| b.pieceBB q) := by
    intro p q
    apply bitCount_mono
    intro i hi
    rw [Nat.testBit_or, Bool.or_eq_true] at hi ⊢
    rcases hi with hi | hi
    · left
      rw [← h p, Nat.testBit_and, Bool.and_eq_true] at hi
      exact hi.2
    · right
      rw [← h q, Nat.testBit_and, Bool.and_eq_true] at hi
      exact hi.2
  unfold materialWeight
  have s1 := sub WHITE_KNIGHT BLACK_KNIGHT
  have s2 := sub WHITE_BISHOP BLACK_BISHOP
  have s3 := sub WHITE_ROOK BLACK_ROOK
  have s4 := sub WHITE_QUEEN BLACK_QUEEN
  omega

/-- Witness of `phase_monotone`: the starting position and the starting position without
the knight of b1. -/
theorem phase_monotone_witness :
    (∀ p, startMinusKnight.pieceBB p &&& startBoard.pieceBB p = startMinusKnight.pieceBB p) ∧
    phaseOf startBoard ≤ phaseOf startMinusKnight :=
  have h : ∀ p, startMinusKnight.pieceBB p &&& startBoard.pieceBB p
      = startMinusKnight.pieceBB p := by
    intro p
    by_cases hp : p = WHITE_KNIGHT
    · subst hp
      decide
    · simp [startMinusKnight, startBoard, hp]
  ⟨h, phase_monotone startBoard startMinusKnight h⟩

/-! ## Evaluation of positions with the two kings only -/

theorem scale_zero (s : EvalScore) : s.scale 0 = (0, 0) := by
  simp [EvalScore.scale]

theorem shifts_zero :
    shiftNorth 0 = 0 ∧ shiftSouth 0 = 0 ∧ shiftEast 0 = 0 ∧ shiftWest 0 = 0 ∧
    shiftNorthEast 0 = 0 ∧ shiftNorthWest 0 = 0 ∧ shiftSouthEast 0 = 0 ∧ shiftSouthWest 0 = 0 ∧
    fillNorth 0 = 0 ∧ fillSouth 0 = 0 ∧ fillFile 0 = 0 ∧
    wFrontSpans 0 = 0 ∧ bFrontSpans 0 = 0 ∧ wRearSpans 0 = 0 ∧ bRearSpans 0 = 0 := by
  decide

theorem kingsBoard_getW (wk bk : Nat) (side : Bool) (t : Nat) (ht : t < 5) :
    (kingsBoard wk bk side).getPieceBB WHITE t = 0 := by
  have e5 : WHITE_KING = 5 := rfl
  have e13 : BLACK_KING = 13 := rfl
  simp only [Board.getPieceBB, Board.colorIndex, kingsBoard, e5, e13]
  rw [if_neg (by simp; omega), if_neg (by simp; omega)]

theorem kingsBoard_getB (wk bk : Nat) (side : Bool) (t : Nat) (ht : t < 5) :
    (kingsBoard wk bk side).getPieceBB BLACK t = 0 := by
  have e5 : WHITE_KING = 5 := rfl
  have e13 : BLACK_KING = 13 := rfl
  simp only [Board.getPieceBB, Board.colorIndex, kingsBoard, e5, e13]
  rw [if_neg (by simp; omega), if_neg (by simp; omega)]

theorem kingsBoard_get (wk bk : Nat) (side : Bool) (c : Bool) (t : Nat) (ht : t < 5) :
    (kingsBoard wk bk side).getPieceBB c t = 0 := by
  cases c
  · exact kingsBoard_getW wk bk side t ht
  · exact kingsBoard_getB wk bk side t ht

theorem kingsBoard_pieceBB (wk bk : Nat) (side : Bool) (p : Nat) (h5 : p ≠ 5) (h13 : p ≠ 13) :
    (kingsBoard wk bk side).pieceBB p = 0 := by
  simp only [kingsBoard]
  rw [if_neg h5, if_neg h13]

theorem kingsBoard_kingW (wk bk : Nat) (side : Bool) :
    (kingsBoard wk bk side).getPieceBB WHITE KING = 2 ^ wk := by
  simp [Board.getPieceBB, Board.colorIndex, kingsBoard]

theorem kingsBoard_kingB (wk bk : Nat) (side : Bool) :
    (kingsBoard wk bk side).getPieceBB BLACK KING = 2 ^ bk := by
  have e5 : WHITE_KING = 5 := rfl
  have e13 : BLACK_KING = 13 := rfl
  have e : KING = 5 := rfl
  simp [Board.getPieceBB, Board.colorIndex, kingsBoard, e5, e13, e]

theorem kingsBoard_teamW (wk bk : Nat) (side : Bool) :
    (kingsBoard wk bk side).getTeamOccupiedBB WHITE = 2 ^ wk := by
  unfold Board.getTeamOccupiedBB
  rw [kingsBoard_get _ _ _ _ PAWN (by decide), kingsBoard_get _ _ _ _ KNIGHT (by decide),
    kingsBoard_get _ _ _ _ BISHOP (by decide), kingsBoard_get _ _ _ _ ROOK (by decide),
    kingsBoard_get _ _ _ _ QUEEN (by decide), kingsBoard_kingW]
  simp

theorem kingsBoard_teamB (wk bk : Nat) (side : Bool) :
    (kingsBoard wk bk side).getTeamOccupiedBB BLACK = 2 ^ bk := by
  unfold Board.getTeamOccupiedBB
  rw [kingsBoard_get _ _ _ _ PAWN (by decide), kingsBoard_get _ _ _ _ KNIGHT (by decide),
    kingsBoard_get _ _ _ _ BISHOP (by decide), kingsBoard_get _ _ _ _ ROOK (by decide),
    kingsBoard_get _ _ _ _ QUEEN (by decide), kingsBoard_kingB]
  simp

theorem computePawns_kingsBoard (wk bk : Nat) (side : Bool) (ed : EvalData) :
    (computePawns ed (kingsBoard wk bk side)).1 = (0, 0) ∧
    (computePawns ed (kingsBoard wk bk side)).2.threats WHITE = (0, 0) ∧
    (computePawns ed (kingsBoard wk bk side)).2.threats BLACK = (0, 0) ∧
    (computePawns ed (kingsBoard wk bk side)).2.ksAttackCount = ed.ksAttackCount ∧
    (computePawns ed (kingsBoard wk bk side)).2.ksAttackValue = ed.ksAttackValue ∧
    (computePawns ed (kingsBoard wk bk side)).2.kingSquare = ed.kingSquare := by
  obtain ⟨s1, s2, s3, s4, s5, s6, s7, s8, s9, s10, s11, s12, s13, s14, s15⟩ := shifts_zero
  have p0 : (kingsBoard wk bk side).pieceBB WHITE_PAWN = 0 := kingsBoard_pieceBB _ _ _ _ (by decide) (by decide)
  have p1 : (kingsBoard wk bk side).pieceBB WHITE_KNIGHT = 0 := kingsBoard_pieceBB _ _ _ _ (by decide) (by decide)
  have p2 : (kingsBoard wk bk side).pieceBB WHITE_BISHOP = 0 := kingsBoard_pieceBB _ _ _ _ (by decide) (by decide)
  have p8 : (kingsBoard wk bk side).pieceBB BLACK_PAWN = 0 := kingsBoard_pieceBB _ _ _ _ (by decide) (by decide)
  have p9 : (kingsBoard wk bk side).pieceBB BLACK_KNIGHT = 0 := kingsBoard_pieceBB _ _ _ _ (by decide) (by decide)
  have p10 : (kingsBoard wk bk side).pieceBB BLACK_BISHOP = 0 := kingsBoard_pieceBB _ _ _ _ (by decide) (by decide)
  unfold computePawns
  simp only [p0, p1, p2, p8, p9, p10, s1, s2, s3, s4, s5, s6, s7, s8, s9, s10, s11, s12, s13, s14,
    s15, Nat.zero_and, Nat.and_zero, Nat.zero_or, Nat.or_zero, bitCount_zero, setC, setCT,
    kingsBoard_get _ _ _ _ KNIGHT (by decide), kingsBoard_get _ _ _ _ BISHOP (by decide),
    kingsBoard_get _ _ _ _ ROOK (by decide), kingsBoard_get _ _ _ _ QUEEN (by decide)]
  simp [scale_zero]

theorem boolInt_false : boolInt false = 0 := rfl

theorem computePieces_kingsBoard (wk bk : Nat) (side : Bool) (c : Bool) (t : Nat) (ht : t < 5)
    (ed : EvalData) : computePieces c t ed (kingsBoard wk bk side) = ((0, 0), ed) := by
  have p2 : (kingsBoard wk bk side).pieceBB WHITE_BISHOP = 0 :=
    kingsBoard_pieceBB _ _ _ _ (by decide) (by decide)
  have p10 : (kingsBoard wk bk side).pieceBB BLACK_BISHOP = 0 :=
    kingsBoard_pieceBB _ _ _ _ (by decide) (by decide)
  unfold computePieces
  rw [kingsBoard_get _ _ _ _ t ht, bitsOf_zero]
  simp only [List.foldl_nil]
  unfold pieceSetwise
  simp only [p2, p10, kingsBoard_get _ _ _ _ ROOK (by decide), Nat.and_zero, bitCount_zero,
    sub_self, scale_zero]
  simp

theorem computeHangingPieces_kingsBoard (wk bk : Nat) (side : Bool) (ed : EvalData) :
    computeHangingPieces ed (kingsBoard wk bk side) = (0, 0) := by
  unfold computeHangingPieces
  simp only [List.foldl_cons, List.foldl_nil,
    kingsBoard_get _ _ _ _ PAWN (by decide), kingsBoard_get _ _ _ _ KNIGHT (by decide),
    kingsBoard_get _ _ _ _ BISHOP (by decide), kingsBoard_get _ _ _ _ ROOK (by decide),
    kingsBoard_get _ _ _ _ QUEEN (by decide), Nat.zero_and, bitCount_zero, sub_self, scale_zero]
  simp [M]

theorem computePinnedPieces_kingsBoard (wk bk : Nat) (side : Bool) (c : Bool) :
    computePinnedPieces c (kingsBoard wk bk side) = (0, 0) := by
  unfold computePinnedPieces
  simp only [kingsBoard_get _ _ _ _ BISHOP (by decide), kingsBoard_get _ _ _ _ ROOK (by decide),
    kingsBoard_get _ _ _ _ QUEEN (by decide), Nat.zero_or, Nat.and_zero, bitsOf_zero,
    List.foldl_nil]

theorem computePassedPawns_kingsBoard (wk bk : Nat) (side : Bool) (c : Bool) (ed : EvalData) :
    computePassedPawns c ed (kingsBoard wk bk side) = (0, 0) := by
  unfold computePassedPawns
  simp only [kingsBoard_get _ _ _ _ PAWN (by decide), bitsOf_zero, List.foldl_nil]
  rfl

theorem computeKings_kingsBoard (wk bk : Nat) (side : Bool) (c : Bool) (ed : EvalData) :
    (computeKings c ed (kingsBoard wk bk side)).1 =
      KING_CLOSE_OPPONENT.scale (bitCount (KING_ATTACKS (ed.kingSquare c)
        &&& (kingsBoard wk bk side).getTeamOccupiedBB (!c))) ∧
    (computeKings c ed (kingsBoard wk bk side)).2.threats = ed.threats ∧
    (computeKings c ed (kingsBoard wk bk side)).2.ksAttackCount = ed.ksAttackCount ∧
    (computeKings c ed (kingsBoard wk bk side)).2.ksAttackValue = ed.ksAttackValue ∧
    (computeKings c ed (kingsBoard wk bk side)).2.kingSquare = ed.kingSquare := by
  unfold computeKings
  simp only [kingsBoard_get _ _ _ _ PAWN (by decide), Nat.and_zero, bitCount_zero]
  simp [scale_zero, setCT]

/-- Adjacency of kings is symmetric: a king on `a` attacks `b` exactly when a king on `b`
attacks `a`. -/
theorem king_adjacent_symm : ∀ a : Fin 64, ∀ b : Fin 64,
    (KING_ATTACKS a.val).testBit b.val = (KING_ATTACKS b.val).testBit a.val := by
  decide!

theorem bitscanForward_two_pow : ∀ a : Fin 64, bitscanForward (2 ^ a.val) = a.val := by
  decide!

theorem bitCount_two_pow : ∀ a : Fin 64, bitCount (2 ^ a.val) = 1 := by
  decide!

theorem bitCount_and_two_pow (x b : Nat) (hb : b < 64) :
    bitCount (x &&& 2 ^ b) = if x.testBit b then 1 else 0 := by
  by_cases h : x.testBit b = true
  · have e : x &&& 2 ^ b = 2 ^ b := by
      apply Nat.eq_of_testBit_eq
      intro i
      rw [Nat.testBit_and, Nat.testBit_two_pow]
      by_cases hi : b = i
      · subst hi; simp [h]
      · simp [hi]
    rw [e, if_pos h]
    exact bitCount_two_pow ⟨b, hb⟩
  · have e : x &&& 2 ^ b = 0 := by
      apply Nat.eq_of_testBit_eq
      intro i
      rw [Nat.testBit_and, Nat.testBit_two_pow]
      by_cases hi : b = i
      · subst hi; simp [h]
      · simp [hi]
    rw [e, if_neg h]
    exact bitCount_zero

theorem hasMatingMaterial_kingsBoard (wk bk : Nat) (side c : Bool) :
    hasMatingMaterial (kingsBoard wk bk side) c = false := by
  unfold hasMatingMaterial
  have h : ∀ t, t < 5 → (kingsBoard wk bk side).pieceBB (t + Board.colorIndex c * 8) = 0 := by
    intro t ht
    apply kingsBoard_pieceBB
    · cases c <;> simp [Board.colorIndex]
      all_goals omega
    · cases c <;> simp [Board.colorIndex]
      all_goals omega
  simp only [h QUEEN (by decide), h ROOK (by decide), h PAWN (by decide), h BISHOP (by decide),
    h KNIGHT (by decide)]
  decide

theorem totalScoreOf_kingsBoard (wk bk : Fin 64) (side : Bool) :
    (totalScoreOf (kingsBoard wk.val bk.val side)).1
      = some (SIDE_TO_MOVE.scale (if side = WHITE then 1 else -1)) := by
  have e5 : (kingsBoard wk.val bk.val side).pieceBB WHITE_KING = 2 ^ wk.val := by
    simp [kingsBoard]
  have e13 : (kingsBoard wk.val bk.val side).pieceBB BLACK_KING = 2 ^ bk.val := by
    have : BLACK_KING ≠ WHITE_KING := by decide
    simp [kingsBoard, this]
  unfold totalScoreOf
  simp only [e5, e13, bitscanForward_two_pow]
  generalize hed0 : ({ EvalData.zero with
      kingZone := setC (setC EvalData.zero.kingZone WHITE (KING_ATTACKS wk.val)) BLACK
        (KING_ATTACKS bk.val),
      kingSquare := setC (setC EvalData.zero.kingSquare WHITE wk.val) BLACK bk.val } : EvalData)
    = ed0
  have k0 : ed0.kingSquare WHITE = wk.val := by rw [← hed0]; rfl
  have k1 : ed0.kingSquare BLACK = bk.val := by rw [← hed0]; rfl
  have c0 : ed0.ksAttackCount = fun _ => 0 := by rw [← hed0]; rfl
  have v0 : ed0.ksAttackValue = fun _ => 0 := by rw [← hed0]; rfl
  obtain ⟨hp1, hp2, hp3, hp4, hp5, hp6⟩ := computePawns_kingsBoard wk.val bk.val side ed0
  generalize computePawns ed0 (kingsBoard wk.val bk.val side) = p at hp1 hp2 hp3 hp4 hp5 hp6
  simp only [computePieces_kingsBoard _ _ _ _ KNIGHT (by decide),
    computePieces_kingsBoard _ _ _ _ BISHOP (by decide),
    computePieces_kingsBoard _ _ _ _ ROOK (by decide),
    computePieces_kingsBoard _ _ _ _ QUEEN (by decide)]
  obtain ⟨hw1, hw2, hw3, hw4, hw5⟩ := computeKings_kingsBoard wk.val bk.val side WHITE p.2
  generalize computeKings WHITE p.2 (kingsBoard wk.val bk.val side) = kw at hw1 hw2 hw3 hw4 hw5
  obtain ⟨hb1, hb2, hb3, hb4, hb5⟩ := computeKings_kingsBoard wk.val bk.val side BLACK kw.2
  generalize computeKings BLACK kw.2 (kingsBoard wk.val bk.val side) = kb at hb1 hb2 hb3 hb4 hb5
  have hc : kb.2.ksAttackCount = fun _ => 0 := by rw [hb3, hw3, hp4, c0]
  have hv : kb.2.ksAttackValue = fun _ => 0 := by rw [hb4, hw4, hp5, v0]
  have ht : kb.2.threats = p.2.threats := by rw [hb2, hw2]
  have hkk : kw.1 = kb.1 := by
    rw [hw1, hb1, hw5, hp6, k0, k1]
    simp only [Bool.not_false, Bool.not_true, kingsBoard_teamW, kingsBoard_teamB]
    rw [bitCount_and_two_pow _ _ bk.isLt, bitCount_and_two_pow _ _ wk.isLt,
      king_adjacent_symm wk bk]
  have ks : ∀ c, computeKingSafety c kb.2 = some (0, 0) := by
    intro c
    unfold computeKingSafety
    rw [hc, hv]
    rfl
  simp only [computeHangingPieces_kingsBoard, computePinnedPieces_kingsBoard,
    computePassedPawns_kingsBoard, ks, ht, hp2, hp3, hp1, hkk]
  simp [M, boolInt, Board.getCastlingRights, kingsBoard, Board.getActivePlayer, scale_zero]

theorem materialWeight_kingsBoard (wk bk : Nat) (side : Bool) :
    materialWeight (kingsBoard wk bk side) = 0 := by
  unfold materialWeight
  have h : ∀ p, p ≠ 5 → p ≠ 13 → (kingsBoard wk bk side).pieceBB p = 0 :=
    kingsBoard_pieceBB wk bk side
  rw [h WHITE_KNIGHT (by decide) (by decide), h BLACK_KNIGHT (by decide) (by decide),
    h WHITE_BISHOP (by decide) (by decide), h BLACK_BISHOP (by decide) (by decide),
    h WHITE_ROOK (by decide) (by decide), h BLACK_ROOK (by decide) (by decide),
    h WHITE_QUEEN (by decide) (by decide), h BLACK_QUEEN (by decide) (by decide)]
  decide

theorem phaseOf_kingsBoard (wk bk : Nat) (side : Bool) :
    phaseOf (kingsBoard wk bk side) = 1 := by
  rw [phaseOf_eq_phaseOfWeight, materialWeight_kingsBoard]
  decide!

theorem blendScore_kingsBoard (wk bk : Nat) (side s : Bool) :
    blendScore (kingsBoard wk bk side) 1 (SIDE_TO_MOVE.scale (if s = WHITE then 1 else -1)) = 0 := by
  have hp : ∀ c, (kingsBoard wk bk side).getPieceBB c PAWN = 0 := by
    intro c
    unfold Board.getPieceBB
    apply kingsBoard_pieceBB
    · cases c <;> simp [Board.colorIndex]
    · cases c <;> simp [Board.colorIndex]
  unfold blendScore
  simp only [hp, hasMatingMaterial_kingsBoard]
  have hm : (kingsBoard wk bk side).material = M 0 0 := rfl
  rw [hm]
  cases s <;> decide!

/-- Claim C6: for every position whose only pieces are the two kings, on any squares, with
either side to move, no castling rights and a material score of (0, 0), `evaluate`
returns exactly 0, whatever the window and the state of the evaluator. -/
theorem evaluate_kings_only (wk bk : Fin 64) (side : Bool) (ev : Evaluator) (alpha beta : Int) :
    (ev.evaluate (kingsBoard wk.val bk.val side) alpha beta).1 = some 0 := by
  unfold Evaluator.evaluate
  simp only [phaseOf_kingsBoard]
  have hm : (kingsBoard wk.val bk.val side).material = M 0 0 := rfl
  rw [hm]
  have h0 : (0 : Int) + truncInt (fmul (floatOfInt (MgScore (M 0 0))) (fsub 1 1))
      + truncInt (fmul (floatOfInt (EgScore (M 0 0))) 1) = 0 := by decide!
  rw [h0]
  have hf : (fullEvaluate (kingsBoard wk.val bk.val side) 1).1 = some 0 := by
    unfold fullEvaluate
    simp only [totalScoreOf_kingsBoard, Option.map_some', blendScore_kingsBoard]
  generalize (0 : Int) * (if (kingsBoard wk.val bk.val side).getActivePlayer = WHITE then 1 else -1)
    = lazyScore
  by_cases h1 : lazyScore < alpha - lazyEvalAlphaBound
  · rw [if_pos h1]
  · rw [if_neg h1]
    by_cases h2 : lazyScore > beta + lazyEvalBetaBound
    · rw [if_pos h2]
    · rw [if_neg h2]
      exact hf

theorem totalScoreOf_startBoard : (totalScoreOf startBoard).1 = some SIDE_TO_MOVE := by
  decide!

theorem phaseOf_startBoard : phaseOf startBoard = 0 := by
  decide!

theorem blendScore_startBoard : blendScore startBoard 0 SIDE_TO_MOVE = 14 := by
  decide!

/-- Claim C8: for the standard starting position with White to move, `evaluate` called
with a window that does not trigger the lazy return (in particular the full window)
returns 14, a positive value: the feature terms other than the side-to-move term cancel
between White and Black, the phase is 0, the side-to-move term blended at phase 0 is 14,
and 14 is at most twice the side-to-move term. -/
theorem evaluate_start_position (ev : Evaluator) (alpha beta : Int)
    (ha : alpha ≤ lazyEvalAlphaBound) (hb : -lazyEvalBetaBound ≤ beta) :
    (ev.evaluate startBoard alpha beta).1 = some 14
      ∧ (totalScoreOf startBoard).1 = some SIDE_TO_MOVE
      ∧ phaseOf startBoard = 0
      ∧ blendScore startBoard 0 SIDE_TO_MOVE = 14
      ∧ (0 : Int) < 14
      ∧ |(14 : Int)| ≤ 2 * |MgScore SIDE_TO_MOVE| := by
  refine ⟨?_, totalScoreOf_startBoard, phaseOf_startBoard, blendScore_startBoard,
    by decide, by decide⟩
  unfold Evaluator.evaluate
  simp only [phaseOf_startBoard]
  have hm : startBoard.material = M 0 0 := rfl
  rw [hm]
  have h0 : ((0 : Int) + truncInt (fmul (floatOfInt (MgScore (M 0 0))) (fsub 1 0))
      + truncInt (fmul (floatOfInt (EgScore (M 0 0))) 0))
        * (if startBoard.getActivePlayer = WHITE then 1 else -1) = 0 := by decide!
  rw [h0]
  have hf : (fullEvaluate startBoard 0).1 = some 14 := by
    unfold fullEvaluate
    simp only [totalScoreOf_startBoard, Option.map_some', blendScore_startBoard]
  rw [if_neg (by omega), if_neg (by omega)]
  exact hf

/-- The starting position evaluated with the window (-32000, 32000). -/
theorem evaluate_start_position_witness :
    (-32000 : Int) ≤ lazyEvalAlphaBound ∧ -lazyEvalBetaBound ≤ (32000 : Int)
      ∧ (someEvaluator.evaluate startBoard (-32000) 32000).1 = some 14 :=
  ⟨by decide, by decide,
    (evaluate_start_position someEvaluator (-32000) 32000 (by decide) (by decide)).1⟩

theorem bitboardOf_lt (f : Nat → Bool) (n : Nat) : bitboardOf f n < 2 ^ n := by
  induction n with
  | zero => simp [bitboardOf]
  | succ n ih =>
    unfold bitboardOf
    have : (if f n = true then 2 ^ n else 0) ≤ 2 ^ n := by split <;> simp
    rw [pow_succ]
    omega

theorem testBit_bitboardOf (f : Nat → Bool) (n i : Nat) :
    (bitboardOf f n).testBit i = (decide (i < n) && f i) := by
  induction n with
  | zero => simp [bitboardOf]
  | succ n ih =>
    unfold bitboardOf
    have hlt := bitboardOf_lt f n
    by_cases hf : f n = true
    · rw [if_pos hf, Nat.add_comm]
      rcases Nat.lt_trichotomy i n with h | h | h
      · rw [Nat.testBit_two_pow_add_gt h, ih]
        simp [h, Nat.lt_succ_of_lt h]
      · subst h
        rw [Nat.testBit_two_pow_add_eq, Nat.testBit_lt_two_pow hlt]
        simp [hf]
      · have : 2 ^ n + bitboardOf f n < 2 ^ i := by
          have : 2 ^ (n + 1) ≤ 2 ^ i := Nat.pow_le_pow_right (by decide) h
          rw [pow_succ] at this
          omega
        rw [Nat.testBit_lt_two_pow this]
        have : ¬ i < n + 1 := by omega
        simp [this]
    · rw [if_neg hf, Nat.add_zero, ih]
      rcases Nat.lt_trichotomy i n with h | h | h
      · simp [h, Nat.lt_succ_of_lt h]
      · subst h
        simp at hf
        simp [hf]
      · have h1 : ¬ i < n + 1 := by omega
        have h2 : ¬ i < n := by omega
        simp [h1, h2]

theorem flipSq_lt {i : Nat} (h : i < 64) : flipSq i < 64 := by
  unfold flipSq; omega

theorem flipSq_flipSq {i : Nat} (h : i < 64) : flipSq (flipSq i) = i := by
  unfold flipSq; omega

theorem flipSq_inj {i j : Nat} (hi : i < 64) (hj : j < 64) (h : flipSq i = flipSq j) : i = j := by
  unfold flipSq at h; omega

theorem testBit_flipV (x i : Nat) :
    (flipV x).testBit i = (decide (i < 64) && x.testBit (flipSq i)) := by
  unfold flipV
  rw [testBit_bitboardOf]

theorem flipV_lt (x : Nat) : flipV x < 2 ^ 64 := bitboardOf_lt _ 64

theorem testBit_not64 (x i : Nat) :
    (not64 x).testBit i = (decide (i < 64) && !x.testBit i) := by
  unfold not64
  rw [Nat.testBit_two_pow_sub_succ (Nat.mod_lt _ (by decide)), Nat.testBit_mod_two_pow]
  by_cases h : i < 64 <;> simp [h]

theorem not64_lt (x : Nat) : not64 x < 2 ^ 64 := by
  unfold not64; omega

theorem flipV_and (x y : Nat) : flipV (x &&& y) = flipV x &&& flipV y := by
  apply Nat.eq_of_testBit_eq
  intro i
  simp only [testBit_flipV, Nat.testBit_and]
  by_cases h : i < 64 <;> simp [h]

theorem flipV_or (x y : Nat) : flipV (x ||| y) = flipV x ||| flipV y := by
  apply Nat.eq_of_testBit_eq
  intro i
  simp only [testBit_flipV, Nat.testBit_or]
  by_cases h : i < 64 <;> simp [h]

theorem flipV_xor (x y : Nat) : flipV (x ^^^ y) = flipV x ^^^ flipV y := by
  apply Nat.eq_of_testBit_eq
  intro i
  simp only [testBit_flipV, Nat.testBit_xor]
  by_cases h : i < 64 <;> simp [h]

theorem flipV_not64 (x : Nat) : flipV (not64 x) = not64 (flipV x) := by
  apply Nat.eq_of_testBit_eq
  intro i
  simp only [testBit_flipV, testBit_not64]
  by_cases h : i < 64
  · simp [h, flipSq_lt h]
  · simp [h]

theorem flipV_zero : flipV 0 = 0 := by
  apply Nat.eq_of_testBit_eq
  intro i
  simp [testBit_flipV]

theorem flipV_mod (x : Nat) : flipV (x % 2 ^ 64) = flipV x := by
  apply Nat.eq_of_testBit_eq
  intro i
  simp only [testBit_flipV, Nat.testBit_mod_two_pow]
  by_cases h : i < 64
  · simp [h, flipSq_lt h]
  · simp [h]

theorem mod_flipV (x : Nat) : flipV x % 2 ^ 64 = flipV x :=
  Nat.mod_eq_of_lt (flipV_lt x)

theorem flipV_flipV (x : Nat) : flipV (flipV x) = x % 2 ^ 64 := by
  apply Nat.eq_of_testBit_eq
  intro i
  simp only [testBit_flipV, Nat.testBit_mod_two_pow]
  by_cases h : i < 64
  · simp [h, flipSq_lt h, flipSq_flipSq h]
  · simp [h]

theorem flipV_flipV_of_lt {x : Nat} (h : x < 2 ^ 64) : flipV (flipV x) = x := by
  rw [flipV_flipV, Nat.mod_eq_of_lt h]

theorem flipV_eq_zero {x : Nat} (h : x < 2 ^ 64) : flipV x = 0 ↔ x = 0 := by
  constructor
  · intro e
    have := flipV_flipV_of_lt h
    rw [e, flipV_zero] at this
    exact this.symm
  · intro e
    rw [e, flipV_zero]

theorem flipV_two_pow {s : Nat} (h : s < 64) : flipV (2 ^ s) = 2 ^ flipSq s := by
  apply Nat.eq_of_testBit_eq
  intro i
  simp only [testBit_flipV, Nat.testBit_two_pow]
  by_cases hi : i < 64
  · have : (s = flipSq i) ↔ (flipSq s = i) := by
      constructor
      · intro e; rw [e, flipSq_flipSq hi]
      · intro e; rw [← e, flipSq_flipSq h]
    simp [hi, this]
  · have : flipSq s ≠ i := by
      have := flipSq_lt h
      omega
    simp [hi, this]

theorem shl64_one {s : Nat} (h : s < 64) : shl64 1 s = 2 ^ s := by
  unfold shl64
  rw [Nat.shiftLeft_eq, Nat.one_mul]
  exact Nat.mod_eq_of_lt (Nat.pow_lt_pow_right (by decide) h)

theorem flipV_shl64_one {s : Nat} (h : s < 64) : flipV (shl64 1 s) = shl64 1 (flipSq s) := by
  rw [shl64_one h, shl64_one (flipSq_lt h), flipV_two_pow h]

theorem bitsOf_flipV_perm (x : Nat) : (bitsOf (flipV x)).Perm ((bitsOf x).map flipSq) := by
  rw [List.perm_ext_iff_of_nodup (bitsOf_nodup _)]
  · intro a
    rw [mem_bitsOf, List.mem_map, testBit_flipV]
    constructor
    · rintro ⟨ha, h⟩
      refine ⟨flipSq a, ?_, flipSq_flipSq ha⟩
      rw [mem_bitsOf]
      simp [ha] at h
      exact ⟨flipSq_lt ha, h⟩
    · rintro ⟨s, hs, rfl⟩
      rw [mem_bitsOf] at hs
      refine ⟨flipSq_lt hs.1, ?_⟩
      simp [flipSq_lt hs.1, flipSq_flipSq hs.1, hs.2]
  · refine List.Nodup.map_on ?_ (bitsOf_nodup x)
    intro a ha c hc h
    rw [mem_bitsOf] at ha hc
    exact flipSq_inj ha.1 hc.1 h

theorem bitCount_flipV (x : Nat) : bitCount (flipV x) = bitCount x := by
  unfold bitCount
  rw [(bitsOf_flipV_perm x).length_eq, List.length_map]

theorem eq_of_testBit_lt {x y : Nat} (hx : x < 2 ^ 64) (hy : y < 2 ^ 64)
    (h : ∀ i, i < 64 → x.testBit i = y.testBit i) : x = y := by
  apply Nat.eq_of_testBit_eq
  intro i
  by_cases hi : i < 64
  · exact h i hi
  · have hp : 2 ^ 64 ≤ 2 ^ i := Nat.pow_le_pow_right (by decide) (by omega)
    rw [Nat.testBit_lt_two_pow (lt_of_lt_of_le hx hp), Nat.testBit_lt_two_pow (lt_of_lt_of_le hy hp)]

theorem shl64_lt (x k : Nat) : shl64 x k < 2 ^ 64 := Nat.mod_lt _ (by decide)

theorem shr64_lt (x k : Nat) : shr64 x k < 2 ^ 64 := by
  unfold shr64
  rw [Nat.shiftRight_eq_div_pow]
  exact lt_of_le_of_lt (Nat.div_le_self _ _) (Nat.mod_lt _ (by decide))

theorem testBit_shl64 (x k i : Nat) :
    (shl64 x k).testBit i = (decide (i < 64) && (decide (k ≤ i) && x.testBit (i - k))) := by
  unfold shl64
  rw [Nat.testBit_mod_two_pow, Nat.testBit_shiftLeft]

theorem testBit_shr64 (x k i : Nat) :
    (shr64 x k).testBit i = (decide (k + i < 64) && x.testBit (k + i)) := by
  unfold shr64
  rw [Nat.testBit_shiftRight, Nat.testBit_mod_two_pow]

theorem shl64_shl64 (x j k : Nat) : shl64 (shl64 x j) k = shl64 x (j + k) := by
  apply eq_of_testBit_lt (shl64_lt _ _) (shl64_lt _ _)
  intro i hi
  simp only [testBit_shl64, hi, decide_True, Bool.true_and]
  by_cases h1 : k ≤ i
  · by_cases h2 : j ≤ i - k
    · have e : i - k - j = i - (j + k) := by omega
      have h3 : j + k ≤ i := by omega
      have h4 : i - k < 64 := by omega
      simp [h1, h2, h3, h4, e]
    · have h3 : ¬ j + k ≤ i := by omega
      simp [h1, h2, h3]
  · have h3 : ¬ j + k ≤ i := by omega
    simp [h1, h3]

theorem shr64_shr64 (x j k : Nat) : shr64 (shr64 x j) k = shr64 x (j + k) := by
  apply eq_of_testBit_lt (shr64_lt _ _) (shr64_lt _ _)
  intro i hi
  simp only [testBit_shr64]
  have e : j + (k + i) = j + k + i := by omega
  by_cases h1 : j + k + i < 64
  · have h2 : k + i < 64 := by omega
    simp [h1, h2, e]
  · by_cases h2 : k + i < 64
    · simp [h1, h2, e]
    · simp [h1, h2]

theorem flipV_shl64_8 (x : Nat) : flipV (shl64 x 8) = shr64 (flipV x) 8 := by
  apply eq_of_testBit_lt (flipV_lt _) (shr64_lt _ _)
  intro i hi
  simp only [testBit_flipV, testBit_shl64, testBit_shr64, hi, flipSq_lt hi, decide_True,
    Bool.true_and]
  by_cases h : i < 56
  · have e : flipSq (8 + i) = flipSq i - 8 := by unfold flipSq; omega
    have h1 : 8 ≤ flipSq i := by unfold flipSq; omega
    have h2 : 8 + i < 64 := by omega
    simp [h1, h2, e]
  · have h1 : ¬ 8 ≤ flipSq i := by unfold flipSq; omega
    have h2 : ¬ 8 + i < 64 := by omega
    simp [h1, h2]

theorem flipV_shr64_8 (x : Nat) : flipV (shr64 x 8) = shl64 (flipV x) 8 := by
  apply eq_of_testBit_lt (flipV_lt _) (shl64_lt _ _)
  intro i hi
  simp only [testBit_flipV, testBit_shl64, testBit_shr64, hi, decide_True, Bool.true_and]
  by_cases h : 8 ≤ i
  · have e : flipSq (i - 8) = 8 + flipSq i := by unfold flipSq; omega
    have h1 : 8 + flipSq i < 64 := by unfold flipSq; omega
    have h2 : i - 8 < 64 := by omega
    simp [h, h1, h2, e]
  · have h1 : ¬ 8 + flipSq i < 64 := by unfold flipSq; omega
    simp [h, h1]

theorem flipV_shiftNorth (x : Nat) : flipV (shiftNorth x) = shiftSouth (flipV x) :=
  flipV_shl64_8 x

theorem flipV_shiftSouth (x : Nat) : flipV (shiftSouth x) = shiftNorth (flipV x) :=
  flipV_shr64_8 x

theorem testBit_mask {c : Nat} (hc : c < 2 ^ 64) (P : Nat → Bool)
    (h : ∀ i : Fin 64, c.testBit i.val = P i.val) (i : Nat) :
    c.testBit i = (decide (i < 64) && P i) := by
  by_cases hi : i < 64
  · simp [hi, h ⟨i, hi⟩]
  · have hp : 2 ^ 64 ≤ 2 ^ i := Nat.pow_le_pow_right (by decide) (by omega)
    rw [Nat.testBit_lt_two_pow (lt_of_lt_of_le hc hp)]
    simp [hi]

theorem testBit_NOT_FILE_A (i : Nat) :
    NOT_FILE_A_BB.testBit i = (decide (i < 64) && decide (i % 8 ≠ 0)) :=
  testBit_mask (by decide) (fun i => decide (i % 8 ≠ 0)) (by decide) i

theorem testBit_NOT_FILE_H (i : Nat) :
    NOT_FILE_H_BB.testBit i = (decide (i < 64) && decide (i % 8 ≠ 7)) :=
  testBit_mask (by decide) (fun i => decide (i % 8 ≠ 7)) (by decide) i

theorem flipV_shiftEast (x : Nat) : flipV (shiftEast x) = shiftEast (flipV x) := by
  unfold shiftEast
  apply eq_of_testBit_lt (flipV_lt _) (Nat.and_lt_two_pow _ (by decide))
  intro i hi
  simp only [testBit_flipV, Nat.testBit_and, testBit_shl64, testBit_NOT_FILE_A, hi,
    flipSq_lt hi, decide_True, Bool.true_and]
  have e8 : flipSq i % 8 = i % 8 := by unfold flipSq; omega
  rw [e8]
  by_cases h : i % 8 = 0
  · simp [h]
  · have e : flipSq (i - 1) = flipSq i - 1 := by unfold flipSq; omega
    have h1 : 1 ≤ flipSq i := by unfold flipSq; omega
    have h2 : 1 ≤ i := by omega
    have h3 : i - 1 < 64 := by omega
    simp [h, h1, h2, h3, e]

theorem flipV_shiftWest (x : Nat) : flipV (shiftWest x) = shiftWest (flipV x) := by
  unfold shiftWest
  apply eq_of_testBit_lt (flipV_lt _) (Nat.and_lt_two_pow _ (by decide))
  intro i hi
  simp only [testBit_flipV, Nat.testBit_and, testBit_shr64, testBit_NOT_FILE_H, hi,
    flipSq_lt hi, decide_True, Bool.true_and]
  have e8 : flipSq i % 8 = i % 8 := by unfold flipSq; omega
  rw [e8]
  by_cases h : i % 8 = 7
  · simp [h]
  · have e : flipSq (1 + i) = 1 + flipSq i := by unfold flipSq; omega
    have h1 : 1 + flipSq i < 64 := by unfold flipSq; omega
    have h2 : 1 + i < 64 := by omega
    simp [h, h1, h2, e]

theorem shiftNorthEast_eq (x : Nat) : shiftNorthEast x = shiftEast (shiftNorth x) := by
  unfold shiftNorthEast shiftEast shiftNorth
  rw [shl64_shl64]

theorem shiftNorthWest_eq (x : Nat) : shiftNorthWest x = shiftWest (shiftNorth x) := by
  unfold shiftNorthWest shiftWest shiftNorth
  apply eq_of_testBit_lt (Nat.and_lt_two_pow _ (by decide)) (Nat.and_lt_two_pow _ (by decide))
  intro i hi
  simp only [Nat.testBit_and, testBit_shl64, testBit_shr64, testBit_NOT_FILE_H, hi,
    decide_True, Bool.true_and]
  by_cases h : i % 8 = 7
  · simp [h]
  · have h1 : 1 + i < 64 := by omega
    by_cases h7 : 7 ≤ i
    · have h2 : 8 ≤ 1 + i := by omega
      have e : 1 + i - 8 = i - 7 := by omega
      simp [h, h1, h7, h2, e]
    · have h2 : ¬ 8 ≤ 1 + i := by omega
      simp [h, h1, h7, h2]

theorem shiftSouthEast_eq (x : Nat) : shiftSouthEast x = shiftEast (shiftSouth x) := by
  unfold shiftSouthEast shiftEast shiftSouth
  apply eq_of_testBit_lt (Nat.and_lt_two_pow _ (by decide)) (Nat.and_lt_two_pow _ (by decide))
  intro i hi
  simp only [Nat.testBit_and, testBit_shl64, testBit_shr64, testBit_NOT_FILE_A, hi,
    decide_True, Bool.true_and]
  by_cases h : i % 8 = 0
  · simp [h]
  · have h1 : 1 ≤ i := by omega
    have e : 8 + (i - 1) = 7 + i := by omega
    by_cases h7 : 7 + i < 64
    · have h2 : 8 + (i - 1) < 64 := by omega
      simp [h, h1, h7, h2, e]
    · have h2 : ¬ 8 + (i - 1) < 64 := by omega
      simp [h, h1, h7, h2]

theorem shiftSouthWest_eq (x : Nat) : shiftSouthWest x = shiftWest (shiftSouth x) := by
  unfold shiftSouthWest shiftWest shiftSouth
  rw [shr64_shr64]

theorem flipV_shiftNorthEast (x : Nat) : flipV (shiftNorthEast x) = shiftSouthEast (flipV x) := by
  rw [shiftNorthEast_eq, shiftSouthEast_eq, flipV_shiftEast, flipV_shiftNorth]

theorem flipV_shiftNorthWest (x : Nat) : flipV (shiftNorthWest x) = shiftSouthWest (flipV x) := by
  rw [shiftNorthWest_eq, shiftSouthWest_eq, flipV_shiftWest, flipV_shiftNorth]

theorem flipV_shiftSouthEast (x : Nat) : flipV (shiftSouthEast x) = shiftNorthEast (flipV x) := by
  rw [shiftNorthEast_eq, shiftSouthEast_eq, flipV_shiftEast, flipV_shiftSouth]

theorem flipV_shiftSouthWest (x : Nat) : flipV (shiftSouthWest x) = shiftNorthWest (flipV x) := by
  rw [shiftNorthWest_eq, shiftSouthWest_eq, flipV_shiftWest, flipV_shiftSouth]

theorem flipV_shl64_16 (x : Nat) : flipV (shl64 x 16) = shr64 (flipV x) 16 := by
  rw [← shl64_shl64 x 8 8, ← shr64_shr64 _ 8 8, flipV_shl64_8, flipV_shl64_8]

theorem flipV_shl64_32 (x : Nat) : flipV (shl64 x 32) = shr64 (flipV x) 32 := by
  rw [← shl64_shl64 x 16 16, ← shr64_shr64 _ 16 16, flipV_shl64_16, flipV_shl64_16]

theorem flipV_shr64_16 (x : Nat) : flipV (shr64 x 16) = shl64 (flipV x) 16 := by
  rw [← shl64_shl64 _ 8 8, ← shr64_shr64 x 8 8, flipV_shr64_8, flipV_shr64_8]

theorem flipV_shr64_32 (x : Nat) : flipV (shr64 x 32) = shl64 (flipV x) 32 := by
  rw [← shl64_shl64 _ 16 16, ← shr64_shr64 x 16 16, flipV_shr64_16, flipV_shr64_16]

theorem flipV_fillNorth (x : Nat) : flipV (fillNorth x) = fillSouth (flipV x) := by
  unfold fillNorth fillSouth
  simp only [flipV_mod, flipV_or, flipV_shl64_8, flipV_shl64_16, flipV_shl64_32]
  rw [Nat.mod_eq_of_lt]
  exact Nat.or_lt_two_pow (Nat.or_lt_two_pow (Nat.or_lt_two_pow (flipV_lt _) (shr64_lt _ _))
    (shr64_lt _ _)) (shr64_lt _ _)

theorem flipV_fillSouth (x : Nat) : flipV (fillSouth x) = fillNorth (flipV x) := by
  unfold fillNorth fillSouth
  simp only [flipV_mod, flipV_or, flipV_shr64_8, flipV_shr64_16, flipV_shr64_32]
  rw [Nat.mod_eq_of_lt]
  exact Nat.or_lt_two_pow (Nat.or_lt_two_pow (Nat.or_lt_two_pow (flipV_lt _) (shl64_lt _ _))
    (shl64_lt _ _)) (shl64_lt _ _)

theorem flipV_fillFile (x : Nat) : flipV (fillFile x) = fillFile (flipV x) := by
  unfold fillFile
  rw [flipV_or, flipV_fillNorth, flipV_fillSouth, Nat.lor_comm]

theorem flipV_wFrontSpans (x : Nat) : flipV (wFrontSpans x) = bFrontSpans (flipV x) := by
  unfold wFrontSpans bFrontSpans
  rw [flipV_shiftNorth, flipV_fillNorth]

theorem flipV_bFrontSpans (x : Nat) : flipV (bFrontSpans x) = wFrontSpans (flipV x) := by
  unfold wFrontSpans bFrontSpans
  rw [flipV_shiftSouth, flipV_fillSouth]

theorem flipV_wRearSpans (x : Nat) : flipV (wRearSpans x) = bRearSpans (flipV x) := by
  unfold wRearSpans bRearSpans
  rw [flipV_shiftSouth, flipV_fillSouth]

theorem flipV_bRearSpans (x : Nat) : flipV (bRearSpans x) = wRearSpans (flipV x) := by
  unfold wRearSpans bRearSpans
  rw [flipV_shiftNorth, flipV_fillNorth]

theorem flipV_wAttackFrontSpans (x : Nat) :
    flipV (wAttackFrontSpans x) = bAttackFrontSpans (flipV x) := by
  unfold wAttackFrontSpans bAttackFrontSpans
  rw [flipV_fillNorth, flipV_or, flipV_shiftNorthEast, flipV_shiftNorthWest]

theorem flipV_bAttackFrontSpans (x : Nat) :
    flipV (bAttackFrontSpans x) = wAttackFrontSpans (flipV x) := by
  unfold wAttackFrontSpans bAttackFrontSpans
  rw [flipV_fillSouth, flipV_or, flipV_shiftSouthEast, flipV_shiftSouthWest]

theorem flipV_wAttackRearSpans (x : Nat) :
    flipV (wAttackRearSpans x) = bAttackRearSpans (flipV x) := by
  unfold wAttackRearSpans bAttackRearSpans
  rw [flipV_fillSouth, flipV_or, flipV_shiftEast, flipV_shiftWest]

theorem flipV_bAttackRearSpans (x : Nat) :
    flipV (bAttackRearSpans x) = wAttackRearSpans (flipV x) := by
  unfold wAttackRearSpans bAttackRearSpans
  rw [flipV_fillNorth, flipV_or, flipV_shiftEast, flipV_shiftWest]

theorem and_lt_of_left {x : Nat} (y : Nat) (h : x < 2 ^ 64) : x &&& y < 2 ^ 64 :=
  lt_of_le_of_lt Nat.and_le_left h

theorem flipV_and_eq_zero {x : Nat} (y : Nat) (h : x < 2 ^ 64) :
    flipV x &&& flipV y = 0 ↔ x &&& y = 0 := by
  rw [← flipV_and, flipV_eq_zero (and_lt_of_left y h)]

theorem flipV_rayAttack (shift shift' : Nat → Nat)
    (hs : ∀ x, flipV (shift x) = shift' (flipV x)) (hlt : ∀ x, shift x < 2 ^ 64)
    (occ n b : Nat) :
    flipV (rayAttack shift occ n b) = rayAttack shift' (flipV occ) n (flipV b) := by
  induction n generalizing b with
  | zero => simp [rayAttack, flipV_zero]
  | succ n ih =>
    unfold rayAttack
    dsimp only
    rw [← hs b]
    by_cases h0 : shift b = 0
    · rw [if_pos h0, if_pos ((flipV_eq_zero (hlt b)).mpr h0), flipV_zero]
    · rw [if_neg h0, if_neg (fun h => h0 ((flipV_eq_zero (hlt b)).mp h))]
      by_cases h1 : shift b &&& occ = 0
      · have h1' : ¬ (flipV (shift b) &&& flipV occ ≠ 0) := by
          rw [not_not, flipV_and_eq_zero _ (hlt b)]; exact h1
        have h1'' : ¬ (shift b &&& occ ≠ 0) := by rw [not_not]; exact h1
        rw [if_neg h1', if_neg h1'', flipV_or, ih]
      · have h1' : flipV (shift b) &&& flipV occ ≠ 0 := by
          rw [Ne, flipV_and_eq_zero _ (hlt b)]; exact h1
        rw [if_pos h1', if_pos h1]

theorem rayAttack_lt (shift : Nat → Nat) (hlt : ∀ x, shift x < 2 ^ 64) (occ n b : Nat) :
    rayAttack shift occ n b < 2 ^ 64 := by
  induction n generalizing b with
  | zero => simp [rayAttack]
  | succ n ih =>
    unfold rayAttack
    dsimp only
    split
    · decide
    · split
      · exact hlt b
      · exact Nat.or_lt_two_pow (hlt b) (ih _)

theorem shiftNorth_lt (x : Nat) : shiftNorth x < 2 ^ 64 := shl64_lt _ _
theorem shiftSouth_lt (x : Nat) : shiftSouth x < 2 ^ 64 := shr64_lt _ _
theorem shiftEast_lt (x : Nat) : shiftEast x < 2 ^ 64 := and_lt_of_left _ (shl64_lt _ _)
theorem shiftWest_lt (x : Nat) : shiftWest x < 2 ^ 64 := and_lt_of_left _ (shr64_lt _ _)
theorem shiftNorthEast_lt (x : Nat) : shiftNorthEast x < 2 ^ 64 := and_lt_of_left _ (shl64_lt _ _)
theorem shiftNorthWest_lt (x : Nat) : shiftNorthWest x < 2 ^ 64 := and_lt_of_left _ (shl64_lt _ _)
theorem shiftSouthEast_lt (x : Nat) : shiftSouthEast x < 2 ^ 64 := and_lt_of_left _ (shr64_lt _ _)
theorem shiftSouthWest_lt (x : Nat) : shiftSouthWest x < 2 ^ 64 := and_lt_of_left _ (shr64_lt _ _)

theorem flipV_lookUpRookAttack {s : Nat} (h : s < 64) (occ : Nat) :
    flipV (lookUpRookAttack s occ) = lookUpRookAttack (flipSq s) (flipV occ) := by
  unfold lookUpRookAttack
  simp only [flipV_or, ← flipV_shl64_one h,
    flipV_rayAttack shiftNorth shiftSouth flipV_shiftNorth shiftNorth_lt,
    flipV_rayAttack shiftSouth shiftNorth flipV_shiftSouth shiftSouth_lt,
    flipV_rayAttack shiftEast shiftEast flipV_shiftEast shiftEast_lt,
    flipV_rayAttack shiftWest shiftWest flipV_shiftWest shiftWest_lt]
  rw [Nat.lor_comm (rayAttack shiftSouth _ _ _)]

theorem flipV_lookUpBishopAttack {s : Nat} (h : s < 64) (occ : Nat) :
    flipV (lookUpBishopAttack s occ) = lookUpBishopAttack (flipSq s) (flipV occ) := by
  unfold lookUpBishopAttack
  simp only [flipV_or, ← flipV_shl64_one h,
    flipV_rayAttack shiftNorthEast shiftSouthEast flipV_shiftNorthEast shiftNorthEast_lt,
    flipV_rayAttack shiftNorthWest shiftSouthWest flipV_shiftNorthWest shiftNorthWest_lt,
    flipV_rayAttack shiftSouthEast shiftNorthEast flipV_shiftSouthEast shiftSouthEast_lt,
    flipV_rayAttack shiftSouthWest shiftNorthWest flipV_shiftSouthWest shiftSouthWest_lt]
  simp only [Nat.lor_assoc]
  rw [Nat.lor_comm (rayAttack shiftSouthEast _ _ _), Nat.lor_assoc,
    Nat.lor_comm (rayAttack shiftSouthEast _ _ _), ← Nat.lor_assoc (rayAttack shiftSouthWest _ _ _),
    Nat.lor_comm (rayAttack shiftSouthWest _ _ _)]
  simp only [Nat.lor_assoc]

theorem lookUpRookAttack_lt (s occ : Nat) : lookUpRookAttack s occ < 2 ^ 64 := by
  unfold lookUpRookAttack
  exact Nat.or_lt_two_pow (Nat.or_lt_two_pow (Nat.or_lt_two_pow
    (rayAttack_lt _ shiftNorth_lt _ _ _) (rayAttack_lt _ shiftSouth_lt _ _ _))
    (rayAttack_lt _ shiftEast_lt _ _ _)) (rayAttack_lt _ shiftWest_lt _ _ _)

theorem lookUpBishopAttack_lt (s occ : Nat) : lookUpBishopAttack s occ < 2 ^ 64 := by
  unfold lookUpBishopAttack
  exact Nat.or_lt_two_pow (Nat.or_lt_two_pow (Nat.or_lt_two_pow
    (rayAttack_lt _ shiftNorthEast_lt _ _ _) (rayAttack_lt _ shiftNorthWest_lt _ _ _))
    (rayAttack_lt _ shiftSouthEast_lt _ _ _)) (rayAttack_lt _ shiftSouthWest_lt _ _ _)

theorem flipV_between (shift shift' : Nat → Nat)
    (hs : ∀ x, flipV (shift x) = shift' (flipV x)) (hlt : ∀ x, shift x < 2 ^ 64) (a t : Nat) :
    flipV (between shift a t) = between shift' (flipV a) (flipV t) := by
  unfold between
  dsimp only
  rw [← flipV_rayAttack shift shift' hs hlt]
  have hr := rayAttack_lt shift hlt t 7 a
  by_cases h : rayAttack shift t 7 a &&& t = 0
  · have h' : ¬ (rayAttack shift t 7 a &&& t ≠ 0) := by rw [not_not]; exact h
    have h'' : ¬ (flipV (rayAttack shift t 7 a) &&& flipV t ≠ 0) := by
      rw [not_not, flipV_and_eq_zero _ hr]; exact h
    rw [if_neg h', if_neg h'', flipV_zero]
  · have h'' : flipV (rayAttack shift t 7 a) &&& flipV t ≠ 0 := by
      rw [Ne, flipV_and_eq_zero _ hr]; exact h
    rw [if_pos h, if_pos h'', flipV_and, flipV_not64]

theorem between_lt (shift : Nat → Nat) (hlt : ∀ x, shift x < 2 ^ 64) (a t : Nat) :
    between shift a t < 2 ^ 64 := by
  unfold between
  dsimp only
  split
  · exact and_lt_of_left _ (rayAttack_lt shift hlt _ _ _)
  · decide

theorem flipV_IN_BETWEEN_SQUARES {a t : Nat} (ha : a < 64) (ht : t < 64) :
    flipV (IN_BETWEEN_SQUARES a t) = IN_BETWEEN_SQUARES (flipSq a) (flipSq t) := by
  unfold IN_BETWEEN_SQUARES
  simp only [flipV_or, ← flipV_shl64_one ha, ← flipV_shl64_one ht,
    flipV_between shiftNorth shiftSouth flipV_shiftNorth shiftNorth_lt,
    flipV_between shiftSouth shiftNorth flipV_shiftSouth shiftSouth_lt,
    flipV_between shiftEast shiftEast flipV_shiftEast shiftEast_lt,
    flipV_between shiftWest shiftWest flipV_shiftWest shiftWest_lt,
    flipV_between shiftNorthEast shiftSouthEast flipV_shiftNorthEast shiftNorthEast_lt,
    flipV_between shiftNorthWest shiftSouthWest flipV_shiftNorthWest shiftNorthWest_lt,
    flipV_between shiftSouthEast shiftNorthEast flipV_shiftSouthEast shiftSouthEast_lt,
    flipV_between shiftSouthWest shiftNorthWest flipV_shiftSouthWest shiftSouthWest_lt]
  apply Nat.eq_of_testBit_eq
  intro i
  simp only [Nat.testBit_or]
  generalize (between shiftNorth _ _).testBit i = p1
  generalize (between shiftSouth _ _).testBit i = p2
  generalize (between shiftEast _ _).testBit i = p3
  generalize (between shiftWest _ _).testBit i = p4
  generalize (between shiftNorthEast _ _).testBit i = p5
  generalize (between shiftNorthWest _ _).testBit i = p6
  generalize (between shiftSouthEast _ _).testBit i = p7
  generalize (between shiftSouthWest _ _).testBit i = p8
  revert p1 p2 p3 p4 p5 p6 p7 p8
  decide

theorem IN_BETWEEN_SQUARES_lt (a t : Nat) : IN_BETWEEN_SQUARES a t < 2 ^ 64 := by
  unfold IN_BETWEEN_SQUARES
  exact Nat.or_lt_two_pow (Nat.or_lt_two_pow (Nat.or_lt_two_pow (Nat.or_lt_two_pow
    (Nat.or_lt_two_pow (Nat.or_lt_two_pow (Nat.or_lt_two_pow
    (between_lt shiftNorth shiftNorth_lt _ _) (between_lt shiftSouth shiftSouth_lt _ _))
    (between_lt shiftEast shiftEast_lt _ _)) (between_lt shiftWest shiftWest_lt _ _))
    (between_lt shiftNorthEast shiftNorthEast_lt _ _))
    (between_lt shiftNorthWest shiftNorthWest_lt _ _))
    (between_lt shiftSouthEast shiftSouthEast_lt _ _))
    (between_lt shiftSouthWest shiftSouthWest_lt _ _)

theorem flipV_KING_ATTACKS_fin : ∀ s : Fin 64, flipV (KING_ATTACKS s.val) = KING_ATTACKS (flipSq s.val) := by
  decide!

theorem flipV_KNIGHT_ATTACKS_fin :
    ∀ s : Fin 64, flipV (KNIGHT_ATTACKS s.val) = KNIGHT_ATTACKS (flipSq s.val) := by
  decide!

theorem flipV_KING_ATTACKS {s : Nat} (h : s < 64) : flipV (KING_ATTACKS s) = KING_ATTACKS (flipSq s) :=
  flipV_KING_ATTACKS_fin ⟨s, h⟩

theorem flipV_KNIGHT_ATTACKS {s : Nat} (h : s < 64) :
    flipV (KNIGHT_ATTACKS s) = KNIGHT_ATTACKS (flipSq s) :=
  flipV_KNIGHT_ATTACKS_fin ⟨s, h⟩

theorem flipV_PASSED_PAWN_MASK (c : Bool) {s : Nat} (h : s < 64) :
    flipV (PASSED_PAWN_MASK c s) = PASSED_PAWN_MASK (!c) (flipSq s) := by
  unfold PASSED_PAWN_MASK
  cases c
  · simp [flipV_or, flipV_wFrontSpans, flipV_wAttackFrontSpans, flipV_shl64_one h]
  · simp [flipV_or, flipV_bFrontSpans, flipV_bAttackFrontSpans, flipV_shl64_one h]

theorem fileIndex_flipSq (s : Nat) : fileIndex (flipSq s) = fileIndex s := by
  unfold fileIndex flipSq; omega

theorem rankIndex_flipSq {s : Nat} (h : s < 64) : (rankIndex (flipSq s) : Int) = 7 - rankIndex s := by
  unfold rankIndex flipSq; omega

theorem flipV_FILES_BB_fin : ∀ f : Fin 8, flipV (FILES_BB f.val) = FILES_BB f.val := by
  decide!

theorem flipV_FILES_BB (s : Nat) : flipV (FILES_BB (fileIndex s)) = FILES_BB (fileIndex s) :=
  flipV_FILES_BB_fin ⟨fileIndex s, Nat.mod_lt _ (by decide)⟩

theorem manhattanDistance_flipSq {a t : Nat} (ha : a < 64) (ht : t < 64) :
    manhattanDistance (flipSq a) (flipSq t) = manhattanDistance a t := by
  unfold manhattanDistance
  rw [rankIndex_flipSq ha, rankIndex_flipSq ht, fileIndex_flipSq, fileIndex_flipSq,
    show (7 - (rankIndex a : Int)) - (7 - rankIndex t) = -((rankIndex a : Int) - rankIndex t) by ring,
    abs_neg]

theorem chebyshevDistance_flipSq {a t : Nat} (ha : a < 64) (ht : t < 64) :
    chebyshevDistance (flipSq a) (flipSq t) = chebyshevDistance a t := by
  unfold chebyshevDistance
  rw [rankIndex_flipSq ha, rankIndex_flipSq ht, fileIndex_flipSq, fileIndex_flipSq,
    show (7 - (rankIndex a : Int)) - (7 - rankIndex t) = -((rankIndex a : Int) - rankIndex t) by ring,
    abs_neg]

theorem flipV_WHITE_SQUARES : flipV WHITE_SQUARES_BB = BLACK_SQUARES_BB := by decide!
theorem flipV_BLACK_SQUARES : flipV BLACK_SQUARES_BB = WHITE_SQUARES_BB := by decide!
theorem flipV_CENTER_SQUARES : flipV CENTER_SQUARES_BB = CENTER_SQUARES_BB := by decide!
theorem flipV_RANK_8 : flipV RANK_8_BB = RANK_1_BB := by decide!
theorem flipV_RANK_1 : flipV RANK_1_BB = RANK_8_BB := by decide!
theorem flipV_ranks_white :
    flipV (RANK_4_BB ||| RANK_5_BB ||| RANK_6_BB ||| RANK_7_BB)
      = RANK_5_BB ||| RANK_4_BB ||| RANK_3_BB ||| RANK_2_BB := by decide!
theorem flipV_ranks_black :
    flipV (RANK_5_BB ||| RANK_4_BB ||| RANK_3_BB ||| RANK_2_BB)
      = RANK_4_BB ||| RANK_5_BB ||| RANK_6_BB ||| RANK_7_BB := by decide!

theorem swapPiece_index (c : Bool) (t : Nat) (ht : t < 8) :
    swapPiece (Board.colorIndex c * 8 + t) = Board.colorIndex (!c) * 8 + t := by
  cases c
  · have h1 : swapPiece (Board.colorIndex false * 8 + t) = t + 8 := by
      simp only [swapPiece, Board.colorIndex]
      rw [if_pos (by simpa using ht)]
      simp
    rw [h1]
    simp [Board.colorIndex]
    omega
  · have h1 : swapPiece (Board.colorIndex true * 8 + t) = t := by
      simp only [swapPiece, Board.colorIndex]
      rw [if_neg (by simp)]
      simp
    rw [h1]
    simp [Board.colorIndex]

theorem mirror_getPieceBB (b : Board) (c : Bool) (t : Nat) (ht : t < 8) :
    (mirror b).getPieceBB c t = flipV (b.getPieceBB (!c) t) := by
  unfold Board.getPieceBB mirror
  simp only [swapPiece_index c t ht]

theorem mirror_getTeamOccupiedBB (b : Board) (c : Bool) :
    (mirror b).getTeamOccupiedBB c = flipV (b.getTeamOccupiedBB (!c)) := by
  unfold Board.getTeamOccupiedBB
  simp only [flipV_or, mirror_getPieceBB b c _ (by decide : PAWN < 8),
    mirror_getPieceBB b c _ (by decide : KNIGHT < 8), mirror_getPieceBB b c _ (by decide : BISHOP < 8),
    mirror_getPieceBB b c _ (by decide : ROOK < 8), mirror_getPieceBB b c _ (by decide : QUEEN < 8),
    mirror_getPieceBB b c _ (by decide : KING < 8)]

theorem mirror_getOccupiedBB (b : Board) :
    (mirror b).getOccupiedBB = flipV b.getOccupiedBB := by
  unfold Board.getOccupiedBB
  rw [mirror_getTeamOccupiedBB, mirror_getTeamOccupiedBB, flipV_or, Nat.lor_comm]
  rfl

theorem mirror_pieceBB (b : Board) (p : Nat) :
    (mirror b).pieceBB p = flipV (b.pieceBB (swapPiece p)) := rfl

theorem mirror_getActivePlayer (b : Board) :
    (mirror b).getActivePlayer = !b.getActivePlayer := rfl

theorem mirror_material (b : Board) : (mirror b).material = -b.material := rfl

theorem wf_getPieceBB_lt {b : Board} (h : b.wellFormed) (c : Bool) (t : Nat) (ht : t ≤ 5) :
    b.getPieceBB c t < 2 ^ 64 := by
  unfold Board.getPieceBB
  apply h.1
  cases c <;> simp [Board.colorIndex] <;> omega

theorem wf_pieceBB_lt {b : Board} (h : b.wellFormed) (p : Nat)
    (hp : p ∈ [0, 1, 2, 3, 4, 5, 8, 9, 10, 11, 12, 13]) : b.pieceBB p < 2 ^ 64 :=
  h.1 p hp

theorem wf_team_lt {b : Board} (h : b.wellFormed) (c : Bool) :
    b.getTeamOccupiedBB c < 2 ^ 64 := by
  unfold Board.getTeamOccupiedBB
  exact Nat.or_lt_two_pow (Nat.or_lt_two_pow (Nat.or_lt_two_pow (Nat.or_lt_two_pow
    (Nat.or_lt_two_pow (wf_getPieceBB_lt h c _ (by decide)) (wf_getPieceBB_lt h c _ (by decide)))
    (wf_getPieceBB_lt h c _ (by decide))) (wf_getPieceBB_lt h c _ (by decide)))
    (wf_getPieceBB_lt h c _ (by decide))) (wf_getPieceBB_lt h c _ (by decide))

theorem wf_occupied_lt {b : Board} (h : b.wellFormed) : b.getOccupiedBB < 2 ^ 64 :=
  Nat.or_lt_two_pow (wf_team_lt h _) (wf_team_lt h _)

theorem eq_two_pow_of_bitCount_one {x : Nat} (hx : x < 2 ^ 64) (h : bitCount x = 1) :
    ∃ k, k < 64 ∧ x = 2 ^ k := by
  unfold bitCount at h
  obtain ⟨k, hk⟩ := List.length_eq_one.mp h
  have hm : ∀ i, i < 64 ∧ x.testBit i = true ↔ i = k := by
    intro i
    rw [← mem_bitsOf, hk, List.mem_singleton]
  have hk64 : k < 64 := ((hm k).mpr rfl).1
  refine ⟨k, hk64, ?_⟩
  apply eq_of_testBit_lt hx (Nat.pow_lt_pow_right (by decide) hk64)
  intro i hi
  rw [Nat.testBit_two_pow]
  by_cases e : k = i
  · subst e
    simp [((hm k).mpr rfl).2]
  · have : ¬ (x.testBit i = true) := fun ht => e ((hm i).mp ⟨hi, ht⟩).symm
    simp [e, this]

theorem bitscanForward_pow {k : Nat} (h : k < 64) : bitscanForward (2 ^ k) = k :=
  bitscanForward_two_pow ⟨k, h⟩

theorem wf_whiteKing {b : Board} (h : b.wellFormed) :
    ∃ k, k < 64 ∧ b.pieceBB WHITE_KING = 2 ^ k :=
  eq_two_pow_of_bitCount_one (h.1 _ (by decide)) h.2.1

theorem wf_blackKing {b : Board} (h : b.wellFormed) :
    ∃ k, k < 64 ∧ b.pieceBB BLACK_KING = 2 ^ k :=
  eq_two_pow_of_bitCount_one (h.1 _ (by decide)) h.2.2.1

theorem wf_king {b : Board} (h : b.wellFormed) (c : Bool) :
    ∃ k, k < 64 ∧ b.getPieceBB c KING = 2 ^ k := by
  cases c
  · exact wf_whiteKing h
  · exact wf_blackKing h

theorem wf_kingSquare_lt {b : Board} (h : b.wellFormed) (c : Bool) :
    bitscanForward (b.getPieceBB c KING) < 64 := by
  obtain ⟨k, hk, e⟩ := wf_king h c
  rw [e, bitscanForward_pow hk]
  exact hk

theorem mirror_kingSquare {b : Board} (h : b.wellFormed) (c : Bool) :
    bitscanForward ((mirror b).getPieceBB c KING)
      = flipSq (bitscanForward (b.getPieceBB (!c) KING)) := by
  obtain ⟨k, hk, e⟩ := wf_king h (!c)
  rw [mirror_getPieceBB b c KING (by decide), e, flipV_two_pow hk, bitscanForward_pow hk,
    bitscanForward_pow (flipSq_lt hk)]

theorem mirror_hasMatingMaterial {b : Board} (h : b.wellFormed) (c : Bool) :
    hasMatingMaterial (mirror b) c = hasMatingMaterial b (!c) := by
  have hx : ∀ t, t ≤ 5 → (mirror b).pieceBB (t + Board.colorIndex c * 8)
      = flipV (b.pieceBB (t + Board.colorIndex (!c) * 8)) := by
    intro t ht
    have := mirror_getPieceBB b c t (by omega)
    unfold Board.getPieceBB at this
    rw [Nat.add_comm, this, Nat.add_comm]
  have hl : ∀ t, t ≤ 5 → b.pieceBB (t + Board.colorIndex (!c) * 8) < 2 ^ 64 := by
    intro t ht
    have := wf_getPieceBB_lt h (!c) t ht
    unfold Board.getPieceBB at this
    rw [Nat.add_comm]
    exact this
  unfold hasMatingMaterial
  simp only [hx QUEEN (by decide), hx ROOK (by decide), hx PAWN (by decide), hx BISHOP (by decide),
    hx KNIGHT (by decide), ← flipV_or, bitCount_flipV]
  have e1 := flipV_eq_zero (Nat.or_lt_two_pow (Nat.or_lt_two_pow (hl QUEEN (by decide))
    (hl ROOK (by decide))) (hl PAWN (by decide)))
  have e2 := flipV_eq_zero (hl BISHOP (by decide))
  simp only [ne_eq, e1, e2]

theorem mirror_phaseOf (b : Board) : phaseOf (mirror b) = phaseOf b := by
  unfold phaseOf
  simp only [mirror_pieceBB, ← flipV_or, bitCount_flipV]
  have e : ∀ p q, (b.pieceBB (swapPiece p) ||| b.pieceBB (swapPiece q))
      = (b.pieceBB (swapPiece q) ||| b.pieceBB (swapPiece p)) := fun p q => Nat.lor_comm _ _
  rw [e WHITE_PAWN, e WHITE_KNIGHT, e WHITE_BISHOP, e WHITE_ROOK, e WHITE_QUEEN]
  rfl

theorem scale_neg (s : EvalScore) (n : Int) : s.scale (-n) = -s.scale n := by
  unfold EvalScore.scale
  ext <;> simp

theorem scale_sub_swap (s : EvalScore) (a c : Int) : s.scale (a - c) = -s.scale (c - a) := by
  rw [← scale_neg]; congr 1; ring

theorem mirror_pawnsW (b : Board) : (mirror b).pieceBB WHITE_PAWN = flipV (b.pieceBB BLACK_PAWN) := rfl
theorem mirror_pawnsB (b : Board) : (mirror b).pieceBB BLACK_PAWN = flipV (b.pieceBB WHITE_PAWN) := rfl
theorem mirror_knightsW (b : Board) : (mirror b).pieceBB WHITE_KNIGHT = flipV (b.pieceBB BLACK_KNIGHT) := rfl
theorem mirror_knightsB (b : Board) : (mirror b).pieceBB BLACK_KNIGHT = flipV (b.pieceBB WHITE_KNIGHT) := rfl
theorem mirror_bishopsW (b : Board) : (mirror b).pieceBB WHITE_BISHOP = flipV (b.pieceBB BLACK_BISHOP) := rfl
theorem mirror_bishopsB (b : Board) : (mirror b).pieceBB BLACK_BISHOP = flipV (b.pieceBB WHITE_BISHOP) := rfl
theorem mirror_kingW (b : Board) : (mirror b).pieceBB WHITE_KING = flipV (b.pieceBB BLACK_KING) := rfl
theorem mirror_kingB (b : Board) : (mirror b).pieceBB BLACK_KING = flipV (b.pieceBB WHITE_KING) := rfl

theorem connected_mirror_w (x : Nat) :
    bitCount (flipV x &&& (shiftEast (flipV x) ||| shiftWest (flipV x))
      &&& (RANK_4_BB ||| RANK_5_BB ||| RANK_6_BB ||| RANK_7_BB))
    = bitCount (x &&& (shiftEast x ||| shiftWest x)
      &&& (RANK_5_BB ||| RANK_4_BB ||| RANK_3_BB ||| RANK_2_BB)) := by
  rw [← flipV_ranks_black, ← flipV_shiftEast, ← flipV_shiftWest, ← flipV_or, ← flipV_and,
    ← flipV_and, bitCount_flipV]

theorem connected_mirror_b (x : Nat) :
    bitCount (flipV x &&& (shiftEast (flipV x) ||| shiftWest (flipV x))
      &&& (RANK_5_BB ||| RANK_4_BB ||| RANK_3_BB ||| RANK_2_BB))
    = bitCount (x &&& (shiftEast x ||| shiftWest x)
      &&& (RANK_4_BB ||| RANK_5_BB ||| RANK_6_BB ||| RANK_7_BB)) := by
  rw [← flipV_ranks_white, ← flipV_shiftEast, ← flipV_shiftWest, ← flipV_or, ← flipV_and,
    ← flipV_and, bitCount_flipV]

theorem computePawns_mirror_score (b : Board) (ed ed' : EvalData) :
    (computePawns ed' (mirror b)).1 = -(computePawns ed b).1 := by
  unfold computePawns
  simp only [mirror_pawnsW, mirror_pawnsB, mirror_knightsW, mirror_knightsB, mirror_bishopsW,
    mirror_bishopsB, mirror_getTeamOccupiedBB, mirror_getPieceBB b _ _ (by decide : KNIGHT < 8),
    mirror_getPieceBB b _ _ (by decide : BISHOP < 8), mirror_getPieceBB b _ _ (by decide : ROOK < 8),
    mirror_getPieceBB b _ _ (by decide : QUEEN < 8), setC, setCT, Bool.false_eq_true,
    Bool.true_eq_false, and_true, and_self, false_and, if_true, if_false, ↓reduceIte,
    Bool.not_true, Bool.not_false]
  simp only [connected_mirror_w, connected_mirror_b]
  simp only [← flipV_and, ← flipV_or, ← flipV_not64, ← flipV_shiftNorth, ← flipV_shiftSouth,
    ← flipV_shiftEast, ← flipV_shiftWest, ← flipV_shiftNorthEast, ← flipV_shiftNorthWest,
    ← flipV_shiftSouthEast, ← flipV_shiftSouthWest, ← flipV_fillNorth, ← flipV_fillSouth,
    ← flipV_fillFile, ← flipV_wFrontSpans, ← flipV_bFrontSpans, ← flipV_wRearSpans,
    ← flipV_bRearSpans, ← flipV_wAttackFrontSpans, ← flipV_bAttackFrontSpans, bitCount_flipV]
  rw [Nat.lor_comm (b.pieceBB BLACK_PAWN) (b.pieceBB WHITE_PAWN),
    Nat.lor_comm (b.getTeamOccupiedBB BLACK) (b.getTeamOccupiedBB WHITE)]
  refine Prod.ext ?_ ?_ <;>
    simp only [Prod.fst_add, Prod.snd_add, Prod.fst_neg, Prod.snd_neg, EvalScore.scale] <;> ring

theorem computePawns_mirror_ed (b : Board) (ed : EvalData) :
    (computePawns (mirrorED ed) (mirror b)).2 = mirrorED (computePawns ed b).2 := by
  unfold computePawns mirrorED
  simp only [mirror_pawnsW, mirror_pawnsB, mirror_knightsW, mirror_knightsB, mirror_bishopsW,
    mirror_bishopsB, mirror_getTeamOccupiedBB, mirror_getPieceBB b _ _ (by decide : KNIGHT < 8),
    mirror_getPieceBB b _ _ (by decide : BISHOP < 8), mirror_getPieceBB b _ _ (by decide : ROOK < 8),
    mirror_getPieceBB b _ _ (by decide : QUEEN < 8), EvalData.mk.injEq]
  refine ⟨?_, ?_, trivial, trivial, ?_, ?_, ?_, ?_, ?_, ?_, trivial, trivial⟩
  · funext c t
    cases c <;> by_cases ht : t = PAWN <;>
      simp [setC, setCT, ht, flipV_or, flipV_shiftNorthEast, flipV_shiftNorthWest,
        flipV_shiftSouthEast, flipV_shiftSouthWest]
  · funext c
    cases c <;>
      simp [setC, setCT, flipV_or, flipV_shiftNorthEast, flipV_shiftNorthWest,
        flipV_shiftSouthEast, flipV_shiftSouthWest]
  · funext c
    cases c <;>
      simp [setC, setCT, flipV_or, flipV_shiftNorthEast, flipV_shiftNorthWest,
        flipV_shiftSouthEast, flipV_shiftSouthWest]
  · funext c
    cases c <;>
      simp [setC, setCT, flipV_or, flipV_shiftNorthEast, flipV_shiftNorthWest,
        flipV_shiftSouthEast, flipV_shiftSouthWest]
  · funext c
    cases c <;>
      simp [setC, setCT, flipV_or, flipV_and, flipV_not64, flipV_shiftNorthEast,
        flipV_shiftNorthWest, flipV_shiftSouthEast, flipV_shiftSouthWest]
  · funext c
    cases c <;>
      simp [setC, setCT, flipV_not64, flipV_fillFile]
  · simp [setC, setCT, flipV_and, flipV_not64, flipV_fillFile, Nat.land_comm]
  · funext c
    cases c <;>
      simp [setC, setCT, ← flipV_or, ← flipV_and, ← flipV_shiftNorthEast,
        ← flipV_shiftNorthWest, ← flipV_shiftSouthEast, ← flipV_shiftSouthWest, bitCount_flipV]

theorem setC_same {α : Type} (f : Bool → α) (c : Bool) (v : α) : setC f c v c = v := by
  simp [setC]

theorem setC_setC {α : Type} (f : Bool → α) (c : Bool) (v w : α) :
    setC (setC f c v) c w = setC f c w := by
  funext d; simp only [setC]; split <;> rfl

theorem setCT_same (f : Bool → Nat → Nat) (c : Bool) (t v : Nat) : setCT f c t v c t = v := by
  simp [setCT]

theorem setCT_setCT (f : Bool → Nat → Nat) (c : Bool) (t v w : Nat) :
    setCT (setCT f c t v) c t w = setCT f c t w := by
  funext d u; simp only [setCT]; split <;> rfl

theorem setCT_pawn (f : Bool → Nat → Nat) (c : Bool) (t v : Nat) (ht : t ≠ PAWN) (d : Bool) :
    setCT f c t v d PAWN = f d PAWN := by
  simp only [setCT]
  rw [if_neg]
  rintro ⟨_, h⟩
  exact ht h.symm

theorem setC_self {α : Type} (f : Bool → α) (c : Bool) : setC f c (f c) = f := by
  funext d; simp only [setC]; split
  · next h => rw [h]
  · rfl

theorem pieceStep_eq (c : Bool) (t : Nat) (ht : t = KNIGHT ∨ t = BISHOP ∨ t = ROOK ∨ t = QUEEN)
    (b : Board) (sc : EvalScore) (ed : EvalData) (s : Nat) :
    pieceStep c t b (sc, ed) s
      = (sc + pieceTerm c t b (ed.mobilitySquares c) (ed.attacks c PAWN)
              (ed.attacks (!c) PAWN) (ed.kingSquare (!c)) s,
         applyPiece c t ed (pieceAttacks c t b s)
           (pieceThreat c t b (pieceAttacks c t b s))
           (ksValue t (ed.kingZone (!c)) (pieceAttacks c t b s))
           (ksCount (ed.kingZone (!c)) (pieceAttacks c t b s))) := by
  rcases ht with rfl | rfl | rfl | rfl
  · unfold pieceStep pieceTerm applyPiece pieceThreat ksValue ksCount
    simp only [setCT_pawn _ _ _ _ (by decide : KNIGHT ≠ PAWN), setC_same, setC_setC,
      (by decide : ¬ KNIGHT = BISHOP), (by decide : ¬ KNIGHT = ROOK),
      (by decide : ¬ KNIGHT = QUEEN), if_true, if_false, or_false, true_or, ↓reduceIte]
    refine Prod.ext ?_ ?_
    · simp only [add_zero, add_assoc]
    · by_cases h : ed.kingZone (!c) &&& pieceAttacks c KNIGHT b s ≠ 0
      · simp only [if_pos h, add_zero, add_assoc]
      · simp only [if_neg h, add_zero, add_assoc, setC_self]
  · unfold pieceStep pieceTerm applyPiece pieceThreat ksValue ksCount bishopTerm
    simp only [setCT_pawn _ _ _ _ (by decide : BISHOP ≠ PAWN), setC_same, setC_setC,
      (by decide : ¬ BISHOP = KNIGHT), (by decide : ¬ BISHOP = ROOK),
      (by decide : ¬ BISHOP = QUEEN), if_true, if_false, or_false, false_or, true_or, or_true,
      ↓reduceIte]
    refine Prod.ext ?_ ?_
    · dsimp only
      split_ifs <;> simp only [add_zero, zero_add, add_assoc]
    · by_cases h : ed.kingZone (!c) &&& pieceAttacks c BISHOP b s ≠ 0
      · simp only [if_pos h, add_zero, add_assoc]
      · simp only [if_neg h, add_zero, add_assoc, setC_self]
  · unfold pieceStep pieceTerm applyPiece pieceThreat ksValue ksCount
    simp only [setCT_pawn _ _ _ _ (by decide : ROOK ≠ PAWN), setC_same, setC_setC,
      (by decide : ¬ ROOK = KNIGHT), (by decide : ¬ ROOK = BISHOP),
      (by decide : ¬ ROOK = QUEEN), if_true, if_false, or_false, false_or, true_or, or_true,
      or_self, ↓reduceIte]
    refine Prod.ext ?_ ?_
    · simp only [add_zero, zero_add, add_assoc]
    · by_cases h : ed.kingZone (!c) &&& pieceAttacks c ROOK b s ≠ 0
      · simp only [if_pos h, add_zero, zero_add, add_assoc]
      · simp only [if_neg h, add_zero, zero_add, add_assoc, setC_self]
  · unfold pieceStep pieceTerm applyPiece pieceThreat ksValue ksCount
    simp only [setCT_pawn _ _ _ _ (by decide : QUEEN ≠ PAWN), setC_same, setC_setC,
      (by decide : ¬ QUEEN = KNIGHT), (by decide : ¬ QUEEN = BISHOP),
      (by decide : ¬ QUEEN = ROOK), if_true, if_false, or_false, false_or, true_or, or_true,
      or_self, ↓reduceIte]
    refine Prod.ext ?_ ?_
    · simp only [add_zero, zero_add, add_assoc]
    · by_cases h : ed.kingZone (!c) &&& pieceAttacks c QUEEN b s ≠ 0
      · simp only [if_pos h, add_zero, zero_add, add_assoc, setC_self]
      · simp only [if_neg h, add_zero, zero_add, add_assoc, setC_self]

theorem setCT_self (f : Bool → Nat → Nat) (c : Bool) (t : Nat) : setCT f c t (f c t) = f := by
  funext d u; simp only [setCT]; split
  · next h => rw [h.1, h.2]
  · rfl

theorem applyPiece_zero (c : Bool) (t : Nat) (ed : EvalData) : applyPiece c t ed 0 0 0 0 = ed := by
  unfold applyPiece
  simp only [Nat.or_zero, add_zero, setC_self, setCT_self]

theorem applyPiece_applyPiece (c : Bool) (t : Nat) (ed : EvalData) (a1 a2 : Nat)
    (t1 t2 : EvalScore) (v1 v2 : Int) (n1 n2 : Nat) :
    applyPiece c t (applyPiece c t ed a1 t1 v1 n1) a2 t2 v2 n2
      = applyPiece c t ed (a1 ||| a2) (t1 + t2) (v1 + v2) (n1 + n2) := by
  unfold applyPiece
  simp only [setCT_same, setC_same, setCT_setCT, setC_setC, Nat.lor_assoc, add_assoc]

theorem applyPiece_comm (c : Bool) (t : Nat) (ed : EvalData) (a1 a2 : Nat)
    (t1 t2 : EvalScore) (v1 v2 : Int) (n1 n2 : Nat) :
    applyPiece (!c) t (applyPiece c t ed a1 t1 v1 n1) a2 t2 v2 n2
      = applyPiece c t (applyPiece (!c) t ed a2 t2 v2 n2) a1 t1 v1 n1 := by
  unfold applyPiece
  simp only [EvalData.mk.injEq]
  refine ⟨?_, ?_, trivial, trivial, trivial, trivial, trivial, trivial, trivial, ?_, ?_, ?_⟩
  · funext d u
    cases c <;> cases d <;> by_cases hu : u = t <;> simp [setCT, hu]
  · funext d
    cases c <;> cases d <;> simp [setC]
  · funext d
    cases c <;> cases d <;> simp [setC]
  · funext d
    cases c <;> cases d <;> simp [setC]
  · funext d
    cases c <;> cases d <;> simp [setC]

theorem orList_cons (x : Nat) (l : List Nat) : orList (x :: l) = x ||| orList l := rfl

theorem foldl_pieceStep (c : Bool) (t : Nat)
    (ht : t = KNIGHT ∨ t = BISHOP ∨ t = ROOK ∨ t = QUEEN) (b : Board) (l : List Nat)
    (sc : EvalScore) (ed : EvalData) :
    l.foldl (pieceStep c t b) (sc, ed)
      = (sc + (l.map (pieceTerm c t b (ed.mobilitySquares c) (ed.attacks c PAWN)
            (ed.attacks (!c) PAWN) (ed.kingSquare (!c)))).sum,
         applyPiece c t ed (orList (l.map (pieceAttacks c t b)))
           (l.map (fun s => pieceThreat c t b (pieceAttacks c t b s))).sum
           (l.map (fun s => ksValue t (ed.kingZone (!c)) (pieceAttacks c t b s))).sum
           (l.map (fun s => ksCount (ed.kingZone (!c)) (pieceAttacks c t b s))).sum) := by
  have htp : t ≠ PAWN := by
    rcases ht with rfl | rfl | rfl | rfl <;> decide
  induction l generalizing sc ed with
  | nil =>
    simp only [List.foldl_nil, List.map_nil, List.sum_nil, add_zero]
    rw [show orList [] = 0 from rfl, applyPiece_zero]
  | cons s l ih =>
    rw [List.foldl_cons, pieceStep_eq c t ht, ih]
    have e1 : ∀ a th v n d, (applyPiece c t ed a th v n).attacks d PAWN = ed.attacks d PAWN := by
      intro a th v n d
      exact setCT_pawn _ _ _ _ htp d
    have e2 : ∀ a th v n, (applyPiece c t ed a th v n).mobilitySquares = ed.mobilitySquares :=
      fun _ _ _ _ => rfl
    have e3 : ∀ a th v n, (applyPiece c t ed a th v n).kingSquare = ed.kingSquare :=
      fun _ _ _ _ => rfl
    have e4 : ∀ a th v n, (applyPiece c t ed a th v n).kingZone = ed.kingZone :=
      fun _ _ _ _ => rfl
    simp only [e1, e2, e3, e4, applyPiece_applyPiece, List.map_cons, List.sum_cons, orList_cons,
      add_assoc]

theorem pieceSetwise_add (c : Bool) (t : Nat) (ed : EvalData) (b : Board) (sc : EvalScore) :
    pieceSetwise c t ed b sc = sc + pieceSetwise c t ed b 0 := by
  unfold pieceSetwise
  split_ifs <;> simp only [add_zero, zero_add, add_assoc]

theorem computePieces_eq (c : Bool) (t : Nat)
    (ht : t = KNIGHT ∨ t = BISHOP ∨ t = ROOK ∨ t = QUEEN) (ed : EvalData) (b : Board) :
    computePieces c t ed b = (sumTerm c t b ed + pieceSetwise c t ed b 0, piecesED c t b ed) := by
  unfold computePieces
  dsimp only
  rw [show (((0 : Int), (0 : Int)), ed) = ((0 : EvalScore), ed) from rfl, foldl_pieceStep c t ht]
  dsimp only
  rw [pieceSetwise_add, zero_add]
  rfl

theorem fillNorth_lt (x : Nat) : fillNorth x < 2 ^ 64 := Nat.mod_lt _ (by decide)
theorem fillSouth_lt (x : Nat) : fillSouth x < 2 ^ 64 := Nat.mod_lt _ (by decide)

theorem KNIGHT_ATTACKS_lt (s : Nat) : KNIGHT_ATTACKS s < 2 ^ 64 := by
  unfold KNIGHT_ATTACKS
  exact Nat.or_lt_two_pow (Nat.or_lt_two_pow (Nat.or_lt_two_pow (Nat.or_lt_two_pow
    (Nat.or_lt_two_pow (Nat.or_lt_two_pow (Nat.or_lt_two_pow
    (and_lt_of_left _ (shl64_lt _ _)) (and_lt_of_left _ (shl64_lt _ _)))
    (and_lt_of_left _ (shr64_lt _ _))) (and_lt_of_left _ (shr64_lt _ _)))
    (and_lt_of_left _ (shl64_lt _ _))) (and_lt_of_left _ (shl64_lt _ _)))
    (and_lt_of_left _ (shr64_lt _ _))) (and_lt_of_left _ (shr64_lt _ _))

theorem KING_ATTACKS_lt (s : Nat) : KING_ATTACKS s < 2 ^ 64 := by
  unfold KING_ATTACKS
  exact Nat.or_lt_two_pow (Nat.or_lt_two_pow (Nat.or_lt_two_pow (Nat.or_lt_two_pow
    (Nat.or_lt_two_pow (Nat.or_lt_two_pow (Nat.or_lt_two_pow
    (shiftNorth_lt _) (shiftSouth_lt _)) (shiftEast_lt _)) (shiftWest_lt _))
    (shiftNorthEast_lt _)) (shiftNorthWest_lt _)) (shiftSouthEast_lt _)) (shiftSouthWest_lt _)

theorem PASSED_PAWN_MASK_lt (c : Bool) (s : Nat) : PASSED_PAWN_MASK c s < 2 ^ 64 := by
  unfold PASSED_PAWN_MASK
  dsimp only
  split
  · exact Nat.or_lt_two_pow (shiftNorth_lt _) (fillNorth_lt _)
  · exact Nat.or_lt_two_pow (shiftSouth_lt _) (fillSouth_lt _)

theorem pieceAttacks_lt (c : Bool) (t : Nat) (b : Board) (s : Nat) :
    pieceAttacks c t b s < 2 ^ 64 := by
  unfold pieceAttacks
  split_ifs
  · exact KNIGHT_ATTACKS_lt _
  · exact lookUpBishopAttack_lt _ _
  · exact lookUpRookAttack_lt _ _
  · exact Nat.or_lt_two_pow (lookUpRookAttack_lt _ _) (lookUpBishopAttack_lt _ _)
  · decide

theorem pieceAttacks_mirror (c : Bool) (t : Nat) (b : Board) {s : Nat} (h : s < 64) :
    pieceAttacks (!c) t (mirror b) (flipSq s) = flipV (pieceAttacks c t b s) := by
  unfold pieceAttacks
  simp only [mirror_getOccupiedBB, mirror_getPieceBB b _ _ (by decide : QUEEN < 8),
    mirror_getPieceBB b _ _ (by decide : ROOK < 8), mirror_getPieceBB b _ _ (by decide : BISHOP < 8),
    Bool.not_not, ← flipV_not64, ← flipV_and, ← flipV_lookUpRookAttack h,
    ← flipV_lookUpBishopAttack h, ← flipV_KNIGHT_ATTACKS h, ← flipV_or]
  split_ifs <;> rfl

theorem pieceThreat_mirror (c : Bool) (t : Nat) (b : Board) (a : Nat) :
    pieceThreat (!c) t (mirror b) (flipV a) = pieceThreat c t b a := by
  unfold pieceThreat
  simp only [mirror_getPieceBB b _ _ (by decide : QUEEN < 8),
    mirror_getPieceBB b _ _ (by decide : ROOK < 8), ← flipV_and, bitCount_flipV, Bool.not_not]

theorem flipV_and_ne_zero_right (x : Nat) {y : Nat} (h : y < 2 ^ 64) :
    flipV x &&& flipV y ≠ 0 ↔ x &&& y ≠ 0 := by
  rw [Ne, Ne, ← flipV_and, flipV_eq_zero (Nat.and_lt_two_pow _ h)]

theorem ksValue_mirror (t : Nat) (kz : Nat) {a : Nat} (h : a < 2 ^ 64) :
    ksValue t (flipV kz) (flipV a) = ksValue t kz a := by
  unfold ksValue
  simp only [← flipV_and, bitCount_flipV, ne_eq, flipV_eq_zero (Nat.and_lt_two_pow kz h)]

theorem ksCount_mirror (kz : Nat) {a : Nat} (h : a < 2 ^ 64) :
    ksCount (flipV kz) (flipV a) = ksCount kz a := by
  unfold ksCount
  simp only [← flipV_and, ne_eq, flipV_eq_zero (Nat.and_lt_two_pow kz h)]

theorem isOutpost_mirror (c : Bool) {s : Nat} (h : s < 64) (opp cover : Nat) :
    isOutpost (flipSq s) (!c) (flipV opp) (flipV cover) = isOutpost s c opp cover := by
  unfold isOutpost
  have e1 : (PASSED_PAWN_MASK (!c) (flipSq s) &&& not64 (FILES_BB (fileIndex (flipSq s))))
      &&& flipV opp = 0 ↔ (PASSED_PAWN_MASK c s &&& not64 (FILES_BB (fileIndex s))) &&& opp = 0 := by
    have e : (PASSED_PAWN_MASK (!c) (flipSq s) &&& not64 (FILES_BB (fileIndex (flipSq s))))
        &&& flipV opp
        = flipV ((PASSED_PAWN_MASK c s &&& not64 (FILES_BB (fileIndex s))) &&& opp) := by
      rw [flipV_and, flipV_and, flipV_not64, flipV_FILES_BB, flipV_PASSED_PAWN_MASK c h,
        fileIndex_flipSq]
    rw [e, flipV_eq_zero (and_lt_of_left _ (and_lt_of_left _ (PASSED_PAWN_MASK_lt c s)))]
  have e2 : shl64 1 (flipSq s) &&& flipV cover ≠ 0 ↔ shl64 1 s &&& cover ≠ 0 := by
    rw [← flipV_shl64_one h, Ne, Ne, ← flipV_and,
      flipV_eq_zero (and_lt_of_left _ (shl64_lt _ _))]
  simp only [e1, e2]

theorem sameColoredSquares_mirror_fin : ∀ s : Fin 64,
    (if shl64 1 (flipSq s.val) &&& WHITE_SQUARES_BB ≠ 0 then WHITE_SQUARES_BB else BLACK_SQUARES_BB)
      = flipV (if shl64 1 s.val &&& WHITE_SQUARES_BB ≠ 0 then WHITE_SQUARES_BB
          else BLACK_SQUARES_BB) := by
  decide!

theorem sameColoredSquares_mirror {s : Nat} (h : s < 64) :
    (if shl64 1 (flipSq s) &&& WHITE_SQUARES_BB ≠ 0 then WHITE_SQUARES_BB else BLACK_SQUARES_BB)
      = flipV (if shl64 1 s &&& WHITE_SQUARES_BB ≠ 0 then WHITE_SQUARES_BB
          else BLACK_SQUARES_BB) :=
  sameColoredSquares_mirror_fin ⟨s, h⟩

theorem center_and_flipV (x : Nat) :
    CENTER_SQUARES_BB &&& flipV x = flipV (CENTER_SQUARES_BB &&& x) := by
  rw [flipV_and, flipV_CENTER_SQUARES]

theorem mirror_allPawns (b : Board) :
    (mirror b).getPieceBB WHITE PAWN ||| (mirror b).getPieceBB BLACK PAWN
      = flipV (b.getPieceBB WHITE PAWN ||| b.getPieceBB BLACK PAWN) := by
  rw [mirror_getPieceBB b _ _ (by decide : PAWN < 8), mirror_getPieceBB b _ _ (by decide : PAWN < 8),
    flipV_or, Nat.lor_comm]
  rfl

theorem pieceTerm_mirror (c : Bool) (t : Nat) (b : Board) (mob own opp : Nat) {k s : Nat}
    (hk : k < 64) (hs : s < 64) :
    pieceTerm (!c) t (mirror b) (flipV mob) (flipV own) (flipV opp) (flipSq k) (flipSq s)
      = pieceTerm c t b mob own opp k s := by
  unfold pieceTerm bishopTerm
  have hA := pieceAttacks_lt c t b s
  rw [pieceAttacks_mirror c t b hs]
  generalize pieceAttacks c t b s = A at hA
  have e1 : CENTER_SQUARES_BB &&& shl64 1 (flipSq s) = 0 ↔ CENTER_SQUARES_BB &&& shl64 1 s = 0 := by
    rw [← flipV_shl64_one hs, center_and_flipV,
      flipV_eq_zero (and_lt_of_left _ (by decide : CENTER_SQUARES_BB < 2 ^ 64))]
  have e2 : flipV (A &&& b.getPieceBB (!c) PAWN &&& opp) ≠ 0
      ↔ A &&& b.getPieceBB (!c) PAWN &&& opp ≠ 0 := by
    rw [Ne, Ne, flipV_eq_zero (and_lt_of_left _ (and_lt_of_left _ hA))]
  have e3 : b.getPieceBB (!WHITE) PAWN ||| b.getPieceBB (!BLACK) PAWN
      = b.getPieceBB WHITE PAWN ||| b.getPieceBB BLACK PAWN := Nat.lor_comm _ _
  simp only [mirror_getOccupiedBB, mirror_getTeamOccupiedBB, mirror_allPawns,
    mirror_getPieceBB b _ _ (by decide : PAWN < 8), Bool.not_not,
    isOutpost_mirror c hs, manhattanDistance_flipSq hs hk, sameColoredSquares_mirror hs, e1, e2,
    ← flipV_KNIGHT_ATTACKS hk, ← flipV_lookUpBishopAttack hk, ← flipV_lookUpRookAttack hk,
    ← flipV_lookUpBishopAttack hs, center_and_flipV,
    ← flipV_not64, ← flipV_and, ← flipV_or, bitCount_flipV, e3]

theorem sum_map_bitsOf_flipV {M : Type} [AddCommMonoid M] (f g : Nat → M) (x : Nat)
    (h : ∀ s, s < 64 → f (flipSq s) = g s) :
    ((bitsOf (flipV x)).map f).sum = ((bitsOf x).map g).sum := by
  rw [((bitsOf_flipV_perm x).map f).sum_eq, List.map_map]
  congr 1
  apply List.map_congr_left
  intro s hs
  rw [mem_bitsOf] at hs
  exact h s hs.1

theorem orList_perm {l1 l2 : List Nat} (p : l1.Perm l2) : orList l1 = orList l2 := by
  induction p with
  | nil => rfl
  | cons x _ ih => simp only [orList_cons, ih]
  | swap x y l =>
    simp only [orList_cons]
    rw [← Nat.lor_assoc, ← Nat.lor_assoc, Nat.lor_comm y x]
  | trans _ _ ih1 ih2 => rw [ih1, ih2]

theorem orList_map_flipV (g : Nat → Nat) (l : List Nat) :
    orList (l.map (fun s => flipV (g s))) = flipV (orList (l.map g)) := by
  induction l with
  | nil => exact flipV_zero.symm
  | cons s l ih => simp only [List.map_cons, orList_cons, ih, flipV_or]

theorem orList_map_bitsOf_flipV (f g : Nat → Nat) (x : Nat)
    (h : ∀ s, s < 64 → f (flipSq s) = flipV (g s)) :
    orList ((bitsOf (flipV x)).map f) = flipV (orList ((bitsOf x).map g)) := by
  rw [orList_perm ((bitsOf_flipV_perm x).map f), List.map_map, ← orList_map_flipV]
  congr 1
  apply List.map_congr_left
  intro s hs
  rw [mem_bitsOf] at hs
  exact h s hs.1

theorem sumTerm_mirror (c : Bool) (t : Nat) (ht : t < 8) (b : Board) (ed : EvalData)
    (hk : ed.kingSquare (!c) < 64) :
    sumTerm (!c) t (mirror b) (mirrorED ed) = sumTerm c t b ed := by
  unfold sumTerm
  rw [mirror_getPieceBB b _ _ ht]
  simp only [Bool.not_not]
  apply sum_map_bitsOf_flipV
  intro s hs
  simp only [mirrorED, Bool.not_not]
  exact pieceTerm_mirror c t b _ _ _ hk hs

theorem applyPiece_mirror (c : Bool) (t : Nat) (ed : EvalData) (a : Nat) (th : EvalScore)
    (v : Int) (n : Nat) :
    applyPiece (!c) t (mirrorED ed) (flipV a) th v n = mirrorED (applyPiece c t ed a th v n) := by
  unfold applyPiece mirrorED
  simp only [EvalData.mk.injEq]
  refine ⟨?_, ?_, trivial, trivial, trivial, trivial, trivial, trivial, trivial, ?_, ?_, ?_⟩
  · funext d u
    cases c <;> cases d <;> by_cases hu : u = t <;> simp [setCT, hu, flipV_or]
  · funext d
    cases c <;> cases d <;> simp [setC, flipV_or]
  · funext d
    cases c <;> cases d <;> simp [setC]
  · funext d
    cases c <;> cases d <;> simp [setC]
  · funext d
    cases c <;> cases d <;> simp [setC]

theorem piecesED_mirror (c : Bool) (t : Nat) (ht : t < 8) (b : Board) (ed : EvalData) :
    piecesED (!c) t (mirror b) (mirrorED ed) = mirrorED (piecesED c t b ed) := by
  unfold piecesED
  dsimp only
  rw [mirror_getPieceBB b _ _ ht]
  simp only [Bool.not_not]
  rw [orList_map_bitsOf_flipV _ (pieceAttacks c t b) _ (fun s hs => pieceAttacks_mirror c t b hs),
    sum_map_bitsOf_flipV _ (fun s => pieceThreat c t b (pieceAttacks c t b s)) _
      (fun s hs => by rw [pieceAttacks_mirror c t b hs, pieceThreat_mirror]),
    sum_map_bitsOf_flipV _ (fun s => ksValue t (ed.kingZone (!c)) (pieceAttacks c t b s)) _
      (fun s hs => by
        rw [pieceAttacks_mirror c t b hs]
        exact ksValue_mirror t _ (pieceAttacks_lt c t b s)),
    sum_map_bitsOf_flipV _ (fun s => ksCount (ed.kingZone (!c)) (pieceAttacks c t b s)) _
      (fun s hs => by
        rw [pieceAttacks_mirror c t b hs]
        exact ksCount_mirror _ (pieceAttacks_lt c t b s)),
    applyPiece_mirror]

theorem pieceSetwise_black (t : Nat) (ed : EvalData) (b : Board) (sc : EvalScore) :
    pieceSetwise BLACK t ed b sc = sc := by
  unfold pieceSetwise
  rw [if_neg (by decide)]

theorem pieceSetwise_mirror (t : Nat) (ed : EvalData) (b : Board)
    (hk : ∀ c, ed.kingSquare c < 64) :
    pieceSetwise WHITE t (mirrorED ed) (mirror b) 0 = -pieceSetwise WHITE t ed b 0 := by
  unfold pieceSetwise mirrorED
  simp only [mirror_bishopsW, mirror_bishopsB, mirror_getOccupiedBB,
    mirror_getPieceBB b _ _ (by decide : ROOK < 8), Bool.not_true, Bool.not_false,
    ← flipV_lookUpRookAttack (hk WHITE), ← flipV_lookUpRookAttack (hk BLACK),
    ← flipV_not64, ← flipV_and, bitCount_flipV, if_true, zero_add]
  by_cases h2 : t = BISHOP
  · subst h2
    simp only [if_true, (by decide : ¬ BISHOP = ROOK), if_false]
    exact scale_sub_swap _ _ _
  · by_cases h3 : t = ROOK
    · subst h3
      simp only [if_true, (by decide : ¬ ROOK = BISHOP), if_false, zero_add]
      rw [scale_sub_swap ROOK_KING_LINE, scale_sub_swap ROOK_OPEN_FILE,
        scale_sub_swap ROOK_HALF_OPEN_FILE]
      simp only [neg_add]
    · simp only [if_neg h2, if_neg h3, neg_zero]

theorem sumTerm_piecesED (c c' : Bool) (t t' : Nat) (ht' : t' ≠ PAWN) (b : Board)
    (ed : EvalData) :
    sumTerm c t b (piecesED c' t' b ed) = sumTerm c t b ed := by
  unfold sumTerm piecesED applyPiece
  simp only [setCT_pawn _ _ _ _ ht']

theorem piecesED_comm (t : Nat) (b : Board) (ed : EvalData) :
    piecesED WHITE t b (piecesED BLACK t b ed) = piecesED BLACK t b (piecesED WHITE t b ed) := by
  unfold piecesED
  dsimp only
  have e : ∀ c a th v n, (applyPiece c t ed a th v n).kingZone = ed.kingZone :=
    fun _ _ _ _ _ => rfl
  simp only [e]
  exact (applyPiece_comm WHITE t ed _ _ _ _ _ _ _ _).symm

theorem piecesED_kingSquare (c : Bool) (t : Nat) (b : Board) (ed : EvalData) :
    (piecesED c t b ed).kingSquare = ed.kingSquare := rfl

theorem computePieces_pair_mirror (t : Nat)
    (ht : t = KNIGHT ∨ t = BISHOP ∨ t = ROOK ∨ t = QUEEN) (b : Board) (ed : EvalData)
    (hk : ∀ c, ed.kingSquare c < 64) :
    (computePieces WHITE t (mirrorED ed) (mirror b)).1
        - (computePieces BLACK t (computePieces WHITE t (mirrorED ed) (mirror b)).2 (mirror b)).1
      = -((computePieces WHITE t ed b).1
          - (computePieces BLACK t (computePieces WHITE t ed b).2 b).1)
    ∧ (computePieces BLACK t (computePieces WHITE t (mirrorED ed) (mirror b)).2 (mirror b)).2
      = mirrorED (computePieces BLACK t (computePieces WHITE t ed b).2 b).2 := by
  have ht8 : t < 8 := by rcases ht with rfl | rfl | rfl | rfl <;> decide
  have htp : t ≠ PAWN := by rcases ht with rfl | rfl | rfl | rfl <;> decide
  simp only [computePieces_eq _ t ht, pieceSetwise_black, add_zero, sumTerm_piecesED _ _ _ _ htp]
  have eW : sumTerm WHITE t (mirror b) (mirrorED ed) = sumTerm BLACK t b ed :=
    sumTerm_mirror BLACK t ht8 b ed (hk WHITE)
  have eB : ∀ ed1 : EvalData, ed1.kingSquare BLACK < 64 →
      sumTerm BLACK t (mirror b) (mirrorED ed1) = sumTerm WHITE t b ed1 :=
    fun ed1 h1 => sumTerm_mirror WHITE t ht8 b ed1 h1
  have pW : ∀ ed1 : EvalData,
      piecesED WHITE t (mirror b) (mirrorED ed1) = mirrorED (piecesED BLACK t b ed1) :=
    fun ed1 => piecesED_mirror BLACK t ht8 b ed1
  have pB : ∀ ed1 : EvalData,
      piecesED BLACK t (mirror b) (mirrorED ed1) = mirrorED (piecesED WHITE t b ed1) :=
    fun ed1 => piecesED_mirror WHITE t ht8 b ed1
  rw [pW, pB, eW, eB _ (hk BLACK), pieceSetwise_mirror t ed b hk, piecesED_comm]
  refine ⟨?_, rfl⟩
  abel

theorem computeKings_score_static (c : Bool) (ed ed1 : EvalData) (b : Board)
    (h : ed1.kingSquare = ed.kingSquare) :
    (computeKings c ed1 b).1 = (computeKings c ed b).1 := by
  unfold computeKings
  simp only [h]

theorem computeKings_kingSquare (c : Bool) (ed : EvalData) (b : Board) :
    (computeKings c ed b).2.kingSquare = ed.kingSquare := rfl

theorem computeKings_comm (ed : EvalData) (b : Board) :
    (computeKings WHITE (computeKings BLACK ed b).2 b).2
      = (computeKings BLACK (computeKings WHITE ed b).2 b).2 := by
  unfold computeKings
  simp only [EvalData.mk.injEq]
  refine ⟨?_, ?_, trivial, trivial, trivial, trivial, trivial, trivial, trivial, trivial, trivial,
    trivial⟩
  · funext d u
    cases d <;> by_cases hu : u = KING <;> simp [setCT, hu]
  · funext d
    cases d <;> simp [setC, setCT]

theorem computeKings_mirror (c : Bool) (ed : EvalData) (b : Board) (hk : ed.kingSquare c < 64) :
    computeKings (!c) (mirrorED ed) (mirror b)
      = ((computeKings c ed b).1, mirrorED (computeKings c ed b).2) := by
  unfold computeKings mirrorED
  simp only [mirror_getPieceBB b _ _ (by decide : PAWN < 8), mirror_getTeamOccupiedBB,
    Bool.not_not, ← flipV_KING_ATTACKS hk, ← flipV_and, bitCount_flipV, Prod.mk.injEq,
    EvalData.mk.injEq, true_and, and_true]
  refine ⟨?_, ?_⟩
  · funext d u
    cases c <;> cases d <;> by_cases hu : u = KING <;> simp [setCT, hu]
  · funext d
    cases c <;> cases d <;> simp [setC, setCT, flipV_or]

theorem computeKings_pair_mirror (b : Board) (ed : EvalData) (hk : ∀ c, ed.kingSquare c < 64) :
    (computeKings WHITE (mirrorED ed) (mirror b)).1
        - (computeKings BLACK (computeKings WHITE (mirrorED ed) (mirror b)).2 (mirror b)).1
      = -((computeKings WHITE ed b).1
          - (computeKings BLACK (computeKings WHITE ed b).2 b).1)
    ∧ (computeKings BLACK (computeKings WHITE (mirrorED ed) (mirror b)).2 (mirror b)).2
      = mirrorED (computeKings BLACK (computeKings WHITE ed b).2 b).2 := by
  have eW : ∀ ed1 : EvalData, ed1.kingSquare BLACK < 64 →
      computeKings WHITE (mirrorED ed1) (mirror b)
        = ((computeKings BLACK ed1 b).1, mirrorED (computeKings BLACK ed1 b).2) :=
    fun ed1 h1 => computeKings_mirror BLACK ed1 b h1
  have eB : ∀ ed1 : EvalData, ed1.kingSquare WHITE < 64 →
      computeKings BLACK (mirrorED ed1) (mirror b)
        = ((computeKings WHITE ed1 b).1, mirrorED (computeKings WHITE ed1 b).2) :=
    fun ed1 h1 => computeKings_mirror WHITE ed1 b h1
  rw [eW ed (hk BLACK)]
  dsimp only
  rw [eB (computeKings BLACK ed b).2 (hk WHITE)]
  dsimp only
  rw [computeKings_comm, computeKings_score_static WHITE ed (computeKings BLACK ed b).2 b rfl,
    computeKings_score_static BLACK ed (computeKings WHITE ed b).2 b rfl]
  refine ⟨?_, rfl⟩
  abel

theorem computeKingSafety_mirror (c : Bool) (ed : EvalData) :
    computeKingSafety (!c) (mirrorED ed) = computeKingSafety c ed := by
  unfold computeKingSafety mirrorED
  simp only [Bool.not_not]

theorem computeHangingPieces_mirror (ed : EvalData) (b : Board) :
    computeHangingPieces (mirrorED ed) (mirror b) = -computeHangingPieces ed b := by
  unfold computeHangingPieces mirrorED
  simp only [List.foldl, mirror_getPieceBB b _ _ (by decide : PAWN < 8),
    mirror_getPieceBB b _ _ (by decide : KNIGHT < 8), mirror_getPieceBB b _ _ (by decide : BISHOP < 8),
    mirror_getPieceBB b _ _ (by decide : ROOK < 8), mirror_getPieceBB b _ _ (by decide : QUEEN < 8),
    Bool.not_true, Bool.not_false, ← flipV_not64, ← flipV_and, bitCount_flipV]
  rw [scale_sub_swap (tableAt hangingEval PAWN), scale_sub_swap (tableAt hangingEval KNIGHT),
    scale_sub_swap (tableAt hangingEval BISHOP), scale_sub_swap (tableAt hangingEval ROOK),
    scale_sub_swap (tableAt hangingEval QUEEN)]
  simp only [M, neg_add]
  abel

theorem getPiece_eq_pieceOf (b : Board) (s : Nat) :
    b.getPiece s = pieceOf (fun p => (b.pieceBB p).testBit s) := rfl

theorem pieceOf_eq_bools (f : Nat → Bool) :
    pieceOf f = pieceOfBools (f 0) (f 1) (f 2) (f 3) (f 4) (f 5) (f 8) (f 9) (f 10) (f 11)
      (f 12) (f 13) := by
  unfold pieceOf pieceOfBools
  simp only [List.find?]
  cases f 0 <;> cases f 1 <;> cases f 2 <;> cases f 3 <;> cases f 4 <;> cases f 5 <;>
    cases f 8 <;> cases f 9 <;> cases f 10 <;> cases f 11 <;> cases f 12 <;> cases f 13 <;> rfl

theorem pieceOfBools_swap_white :
    ∀ w0 w1 w2 w3 w4 w5 b0 b1 b2 b3 b4 b5 : Bool,
      ((w0 || w1 || w2 || w3 || w4 || w5) && (b0 || b1 || b2 || b3 || b4 || b5)) = false →
      (w0 || w1 || w2 || w3 || w4 || w5) = true →
      pieceOfBools b0 b1 b2 b3 b4 b5 w0 w1 w2 w3 w4 w5
          = pieceOfBools w0 w1 w2 w3 w4 w5 b0 b1 b2 b3 b4 b5 + 8
        ∧ 0 ≤ pieceOfBools w0 w1 w2 w3 w4 w5 b0 b1 b2 b3 b4 b5
        ∧ pieceOfBools w0 w1 w2 w3 w4 w5 b0 b1 b2 b3 b4 b5 < 6 := by
  decide

theorem pieceOfBools_swap_black :
    ∀ w0 w1 w2 w3 w4 w5 b0 b1 b2 b3 b4 b5 : Bool,
      ((w0 || w1 || w2 || w3 || w4 || w5) && (b0 || b1 || b2 || b3 || b4 || b5)) = false →
      (b0 || b1 || b2 || b3 || b4 || b5) = true →
      pieceOfBools b0 b1 b2 b3 b4 b5 w0 w1 w2 w3 w4 w5
          = pieceOfBools w0 w1 w2 w3 w4 w5 b0 b1 b2 b3 b4 b5 - 8
        ∧ 8 ≤ pieceOfBools w0 w1 w2 w3 w4 w5 b0 b1 b2 b3 b4 b5
        ∧ pieceOfBools w0 w1 w2 w3 w4 w5 b0 b1 b2 b3 b4 b5 < 14 := by
  decide

theorem mirror_testBit (b : Board) (p : Nat) {s : Nat} (hs : s < 64) :
    ((mirror b).pieceBB p).testBit (flipSq s) = (b.pieceBB (swapPiece p)).testBit s := by
  rw [mirror_pieceBB, testBit_flipV]
  simp [flipSq_lt hs, flipSq_flipSq hs]

theorem getPiece_mirror_bools (b : Board) {s : Nat} (hs : s < 64) :
    (mirror b).getPiece (flipSq s)
      = pieceOfBools ((b.pieceBB 8).testBit s) ((b.pieceBB 9).testBit s)
          ((b.pieceBB 10).testBit s) ((b.pieceBB 11).testBit s) ((b.pieceBB 12).testBit s)
          ((b.pieceBB 13).testBit s) ((b.pieceBB 0).testBit s) ((b.pieceBB 1).testBit s)
          ((b.pieceBB 2).testBit s) ((b.pieceBB 3).testBit s) ((b.pieceBB 4).testBit s)
          ((b.pieceBB 5).testBit s) := by
  rw [getPiece_eq_pieceOf, pieceOf_eq_bools]
  simp only [mirror_testBit b _ hs]
  rfl

theorem getPiece_bools (b : Board) (s : Nat) :
    b.getPiece s
      = pieceOfBools ((b.pieceBB 0).testBit s) ((b.pieceBB 1).testBit s)
          ((b.pieceBB 2).testBit s) ((b.pieceBB 3).testBit s) ((b.pieceBB 4).testBit s)
          ((b.pieceBB 5).testBit s) ((b.pieceBB 8).testBit s) ((b.pieceBB 9).testBit s)
          ((b.pieceBB 10).testBit s) ((b.pieceBB 11).testBit s) ((b.pieceBB 12).testBit s)
          ((b.pieceBB 13).testBit s) := by
  rw [getPiece_eq_pieceOf, pieceOf_eq_bools]

theorem team_testBit_white (b : Board) (s : Nat) :
    (b.getTeamOccupiedBB WHITE).testBit s
      = ((b.pieceBB 0).testBit s || (b.pieceBB 1).testBit s || (b.pieceBB 2).testBit s
          || (b.pieceBB 3).testBit s || (b.pieceBB 4).testBit s || (b.pieceBB 5).testBit s) := by
  unfold Board.getTeamOccupiedBB Board.getPieceBB
  simp only [Nat.testBit_or]
  rfl

theorem team_testBit_black (b : Board) (s : Nat) :
    (b.getTeamOccupiedBB BLACK).testBit s
      = ((b.pieceBB 8).testBit s || (b.pieceBB 9).testBit s || (b.pieceBB 10).testBit s
          || (b.pieceBB 11).testBit s || (b.pieceBB 12).testBit s || (b.pieceBB 13).testBit s) := by
  unfold Board.getTeamOccupiedBB Board.getPieceBB
  simp only [Nat.testBit_or]
  rfl

theorem wf_disjoint {b : Board} (h : b.wellFormed) (s : Nat) :
    ((b.getTeamOccupiedBB WHITE).testBit s && (b.getTeamOccupiedBB BLACK).testBit s) = false := by
  rw [← Nat.testBit_and, h.2.2.2.1, Nat.zero_testBit]

theorem getPiece_mirror_white {b : Board} (h : b.wellFormed) {s : Nat} (hs : s < 64)
    (ht : (b.getTeamOccupiedBB WHITE).testBit s = true) :
    (mirror b).getPiece (flipSq s) = b.getPiece s + 8 ∧ 0 ≤ b.getPiece s ∧ b.getPiece s < 6 := by
  have hd := wf_disjoint h s
  rw [team_testBit_white, team_testBit_black] at hd
  rw [team_testBit_white] at ht
  rw [getPiece_mirror_bools b hs, getPiece_bools]
  exact pieceOfBools_swap_white _ _ _ _ _ _ _ _ _ _ _ _ hd ht

theorem getPiece_mirror_black {b : Board} (h : b.wellFormed) {s : Nat} (hs : s < 64)
    (ht : (b.getTeamOccupiedBB BLACK).testBit s = true) :
    (mirror b).getPiece (flipSq s) = b.getPiece s - 8 ∧ 8 ≤ b.getPiece s ∧ b.getPiece s < 14 := by
  have hd := wf_disjoint h s
  rw [team_testBit_white, team_testBit_black] at hd
  rw [team_testBit_black] at ht
  rw [getPiece_mirror_bools b hs, getPiece_bools]
  exact pieceOfBools_swap_black _ _ _ _ _ _ _ _ _ _ _ _ hd ht

theorem bitsOf_two_pow {k : Nat} (hk : k < 64) : bitsOf (2 ^ k) = [k] := by
  have h1 : (bitsOf (2 ^ k)).length = 1 := bitCount_two_pow ⟨k, hk⟩
  obtain ⟨a, ha⟩ := List.length_eq_one.mp h1
  have h2 := bitscanForward_pow hk
  unfold bitscanForward at h2
  rw [ha] at h2
  rw [ha]
  simpa using h2

theorem lsbIsolation_cond {x : Nat} (hx : x < 2 ^ 64) :
    (x = 0 ∨ lsbIsolation x ≠ x) ↔ bitCount x ≠ 1 := by
  constructor
  · intro h h1
    obtain ⟨k, hk, e⟩ := eq_two_pow_of_bitCount_one hx h1
    rcases h with h | h
    · rw [h] at e
      exact absurd e.symm (by positivity)
    · apply h
      unfold lsbIsolation
      rw [e, bitsOf_two_pow hk]
  · intro h
    by_contra hc
    rw [not_or, not_not] at hc
    apply h
    unfold lsbIsolation at hc
    cases hb : bitsOf x with
    | nil =>
      rw [hb] at hc
      exact absurd hc.2.symm hc.1
    | cons s l =>
      rw [hb] at hc
      have hs : s ∈ bitsOf x := by rw [hb]; exact List.mem_cons_self _ _
      rw [mem_bitsOf] at hs
      rw [← hc.2]
      exact bitCount_two_pow ⟨s, hs.1⟩

theorem foldl_additive (f : EvalScore → Nat → EvalScore) (h : ∀ r s, f r s = r + f 0 s)
    (l : List Nat) (r : EvalScore) : l.foldl f r = r + (l.map (f 0)).sum := by
  induction l generalizing r with
  | nil => simp
  | cons s l ih =>
    rw [List.foldl_cons, ih, h r s, List.map_cons, List.sum_cons, add_assoc]

theorem sum_map_bitsOf_flipV_mem {M : Type} [AddCommMonoid M] (f g : Nat → M) (x : Nat)
    (h : ∀ s, s ∈ bitsOf x → f (flipSq s) = g s) :
    ((bitsOf (flipV x)).map f).sum = ((bitsOf x).map g).sum := by
  rw [((bitsOf_flipV_perm x).map f).sum_eq, List.map_map]
  congr 1
  apply List.map_congr_left
  intro s hs
  exact h s hs

theorem pinnedStep_additive (c : Bool) (b : Board) (ourOcc kingSq : Nat) (r : EvalScore)
    (s : Nat) :
    pinnedStep c b ourOcc kingSq r s = r + pinnedStep c b ourOcc kingSq 0 s := by
  unfold pinnedStep
  dsimp only
  split_ifs <;> simp

theorem pinnedStep_mirror {b : Board} (h : b.wellFormed) (c : Bool) {k s : Nat} (hk : k < 64)
    (hs : s < 64) (hopp : (b.getTeamOccupiedBB (!c)).testBit s = true) :
    pinnedStep (!c) (mirror b) (flipV (b.getTeamOccupiedBB c)) (flipSq k) 0 (flipSq s)
      = pinnedStep c b (b.getTeamOccupiedBB c) k 0 s := by
  unfold pinnedStep
  dsimp only
  rw [← flipV_IN_BETWEEN_SQUARES hk hs, ← flipV_and]
  have hpp : b.getTeamOccupiedBB c &&& IN_BETWEEN_SQUARES k s < 2 ^ 64 :=
    Nat.and_lt_two_pow _ (IN_BETWEEN_SQUARES_lt k s)
  have hteam : ∀ q, (b.getTeamOccupiedBB c &&& IN_BETWEEN_SQUARES k s).testBit q = true →
      (b.getTeamOccupiedBB c).testBit q = true := by
    intro q hq
    rw [Nat.testBit_and, Bool.and_eq_true] at hq
    exact hq.1
  generalize b.getTeamOccupiedBB c &&& IN_BETWEEN_SQUARES k s = pp at hpp hteam
  have c1 : (flipV pp = 0 ∨ lsbIsolation (flipV pp) ≠ flipV pp) ↔ bitCount pp ≠ 1 := by
    rw [lsbIsolation_cond (flipV_lt _), bitCount_flipV]
  have c2 := lsbIsolation_cond hpp
  by_cases h1 : bitCount pp = 1
  · rw [if_neg (fun hc => c1.mp hc h1), if_neg (fun hc => c2.mp hc h1)]
    obtain ⟨q, hq, e⟩ := eq_two_pow_of_bitCount_one hpp h1
    have hqt : (b.getTeamOccupiedBB c).testBit q = true := by
      apply hteam
      rw [e, Nat.testBit_two_pow_self]
    rw [e, flipV_two_pow hq, bitscanForward_pow hq, bitscanForward_pow (flipSq_lt hq)]
    cases c
    · obtain ⟨e1, _, _⟩ := getPiece_mirror_white h hq hqt
      obtain ⟨e2, _, _⟩ := getPiece_mirror_black h hs hopp
      rw [e1, e2]
      simp only [Bool.not_false, Bool.true_eq_false, if_false, if_true]
      congr 3
      ring
    · obtain ⟨e1, _, _⟩ := getPiece_mirror_black h hq hqt
      obtain ⟨e2, _, _⟩ := getPiece_mirror_white h hs hopp
      rw [e1, e2]
      simp only [Bool.not_true, Bool.true_eq_false, if_false, if_true]
      congr 3
      ring
  · rw [if_pos (c1.mpr h1), if_pos (c2.mpr h1)]

theorem computePinnedPieces_mirror {b : Board} (h : b.wellFormed) (c : Bool) :
    computePinnedPieces (!c) (mirror b) = computePinnedPieces c b := by
  unfold computePinnedPieces
  dsimp only
  have hk := wf_kingSquare_lt h c
  have ek : bitscanForward ((mirror b).getPieceBB (!c) KING)
      = flipSq (bitscanForward (b.getPieceBB c KING)) := by
    have := mirror_kingSquare h (!c)
    rw [Bool.not_not] at this
    exact this
  rw [ek, foldl_additive _ (pinnedStep_additive _ _ _ _), foldl_additive _ (pinnedStep_additive _ _ _ _)]
  simp only [mirror_getTeamOccupiedBB, mirror_getPieceBB b _ _ (by decide : BISHOP < 8),
    mirror_getPieceBB b _ _ (by decide : ROOK < 8), mirror_getPieceBB b _ _ (by decide : QUEEN < 8),
    Bool.not_not, ← flipV_lookUpRookAttack hk, ← flipV_lookUpBishopAttack hk, ← flipV_or,
    ← flipV_and, zero_add]
  congr 1
  apply sum_map_bitsOf_flipV_mem
  intro s hs
  rw [mem_bitsOf] at hs
  apply pinnedStep_mirror h c hk hs.1
  have h2 := hs.2
  simp only [Nat.testBit_or, Nat.testBit_and, Bool.or_eq_true, Bool.and_eq_true] at h2
  unfold Board.getTeamOccupiedBB
  simp only [Nat.testBit_or, Bool.or_eq_true]
  rcases h2 with ⟨_, h3 | h3⟩ | ⟨_, h3 | h3⟩
  · exact Or.inl (Or.inl (Or.inr h3))
  · exact Or.inl (Or.inr h3)
  · exact Or.inl (Or.inl (Or.inl (Or.inr h3)))
  · exact Or.inl (Or.inr h3)

theorem passedStep_additive (c : Bool) (ed : EvalData) (b : Board)
    (pawns oppPawns kingSq oppKingSq : Nat) (r : EvalScore) (s : Nat) :
    passedStep c ed b pawns oppPawns kingSq oppKingSq r s
      = r + passedStep c ed b pawns oppPawns kingSq oppKingSq 0 s := by
  unfold passedStep
  dsimp only
  split_ifs <;> simp only [zero_add, add_assoc, add_zero]

theorem advSquare_white_fin : ∀ s : Fin 64, s.val < 56 →
    bitscanForward (shiftSouth (shl64 1 (flipSq s.val)))
        = flipSq (bitscanForward (shiftNorth (shl64 1 s.val)))
      ∧ bitscanForward (shiftNorth (shl64 1 s.val)) < 64 := by
  decide!

theorem advSquare_black_fin : ∀ s : Fin 64, 8 ≤ s.val →
    bitscanForward (shiftNorth (shl64 1 (flipSq s.val)))
        = flipSq (bitscanForward (shiftSouth (shl64 1 s.val)))
      ∧ bitscanForward (shiftSouth (shl64 1 s.val)) < 64 := by
  decide!

theorem promSquare_fin : ∀ f : Fin 8,
    bitscanForward (FILES_BB f.val &&& RANK_1_BB)
        = flipSq (bitscanForward (FILES_BB f.val &&& RANK_8_BB))
      ∧ bitscanForward (FILES_BB f.val &&& RANK_8_BB)
        = flipSq (bitscanForward (FILES_BB f.val &&& RANK_1_BB))
      ∧ bitscanForward (FILES_BB f.val &&& RANK_8_BB) < 64
      ∧ bitscanForward (FILES_BB f.val &&& RANK_1_BB) < 64 := by
  decide!

theorem promColor_fin : ∀ f : Fin 8,
    (if FILES_BB f.val &&& RANK_1_BB &&& WHITE_SQUARES_BB ≠ 0 then WHITE_SQUARES_BB
        else BLACK_SQUARES_BB)
      = flipV (if FILES_BB f.val &&& RANK_8_BB &&& WHITE_SQUARES_BB ≠ 0 then WHITE_SQUARES_BB
          else BLACK_SQUARES_BB)
    ∧ (if FILES_BB f.val &&& RANK_8_BB &&& WHITE_SQUARES_BB ≠ 0 then WHITE_SQUARES_BB
        else BLACK_SQUARES_BB)
      = flipV (if FILES_BB f.val &&& RANK_1_BB &&& WHITE_SQUARES_BB ≠ 0 then WHITE_SQUARES_BB
          else BLACK_SQUARES_BB) := by
  decide!

theorem xor_zero_mirror {x y : Nat} (hx : x < 2 ^ 64) (hy : y < 2 ^ 64) :
    flipV (x ^^^ y) = 0 ↔ x ^^^ y = 0 :=
  flipV_eq_zero (Nat.xor_lt_two_pow hx hy)

theorem passedStep_mirror_white {b : Board} (h : b.wellFormed) (ed : EvalData)
    (P O : Nat) {K K2 s : Nat} (hK : K < 64) (hK2 : K2 < 64) (hs : s < 56) :
    passedStep BLACK (mirrorED ed) (mirror b) (flipV P) (flipV O) (flipSq K) (flipSq K2) 0
        (flipSq s)
      = passedStep WHITE ed b P O K K2 0 s := by
  have hs64 : s < 64 := by omega
  have hadv := advSquare_white_fin ⟨s, hs64⟩ hs
  have hprom := promSquare_fin ⟨fileIndex s, Nat.mod_lt _ (by decide)⟩
  have hpc := promColor_fin ⟨fileIndex s, Nat.mod_lt _ (by decide)⟩
  have hks : bitscanForward ((mirror b).getPieceBB WHITE KING)
      = flipSq (bitscanForward (b.getPieceBB BLACK KING)) := mirror_kingSquare h WHITE
  have hppm : PASSED_PAWN_MASK BLACK (flipSq s) = flipV (PASSED_PAWN_MASK WHITE s) :=
    (flipV_PASSED_PAWN_MASK WHITE hs64).symm
  have hr : (7 : Int) - (7 - (rankIndex s : Int)) = rankIndex s := by ring
  simp only at hadv hprom hpc
  have z1 : ∀ y, flipV (PASSED_PAWN_MASK WHITE s &&& y) = 0 ↔ PASSED_PAWN_MASK WHITE s &&& y = 0 :=
    fun y => flipV_eq_zero (and_lt_of_left _ (PASSED_PAWN_MASK_lt _ _))
  have z2 : ∀ y, flipV (shl64 1 s &&& y) = 0 ↔ shl64 1 s &&& y = 0 :=
    fun y => flipV_eq_zero (and_lt_of_left _ (shl64_lt _ _))
  have z3 : ∀ y sh, sh < 2 ^ 64 →
      (flipV (PASSED_PAWN_MASK WHITE s &&& y ^^^ y &&& sh) = 0
        ↔ PASSED_PAWN_MASK WHITE s &&& y ^^^ y &&& sh = 0) :=
    fun y sh hsh => xor_zero_mirror (and_lt_of_left _ (PASSED_PAWN_MASK_lt _ _))
      (Nat.and_lt_two_pow _ hsh)
  have z4 := z3 O _ (Nat.or_lt_two_pow (shiftNorthEast_lt (shl64 1 s)) (shiftNorthWest_lt (shl64 1 s)))
  have z5 := z3 O _ (Nat.or_lt_two_pow (shiftNorthEast_lt (shiftNorth (shl64 1 s)))
    (shiftNorthWest_lt (shiftNorth (shl64 1 s))))
  have hbne : (BLACK != !b.getActivePlayer) = (WHITE != b.getActivePlayer) := by
    cases b.getActivePlayer <;> rfl
  unfold passedStep
  simp only [Bool.true_eq_false, if_false, if_true, Bool.not_true, Bool.not_false,
    fileIndex_flipSq, hadv.1, hprom.1, hpc.1, hks, rankIndex_flipSq hs64, hr, mirrorED,
    mirror_getActivePlayer, mirror_getTeamOccupiedBB,
    mirror_getPieceBB b _ _ (by decide : BISHOP < 8), mirror_getPieceBB b _ _ (by decide : QUEEN < 8),
    manhattanDistance_flipSq hprom.2.2.1 (wf_kingSquare_lt h BLACK),
    chebyshevDistance_flipSq hK2 hadv.2, chebyshevDistance_flipSq hK hadv.2]
  simp only [← flipV_shl64_one hs64, hppm, ← flipV_shiftNorth, ← flipV_shiftNorthEast,
    ← flipV_shiftNorthWest, ← flipV_shiftEast, ← flipV_shiftWest, ← flipV_wAttackRearSpans,
    ← flipV_and, ← flipV_or, ← flipV_xor, bitCount_flipV, z1, z2, z4, z5, ne_eq, hbne]

theorem passedStep_mirror_black {b : Board} (h : b.wellFormed) (ed : EvalData)
    (P O : Nat) {K K2 s : Nat} (hK : K < 64) (hK2 : K2 < 64) (hs : s < 64) (hs8 : 8 ≤ s) :
    passedStep WHITE (mirrorED ed) (mirror b) (flipV P) (flipV O) (flipSq K) (flipSq K2) 0
        (flipSq s)
      = passedStep BLACK ed b P O K K2 0 s := by
  have hadv := advSquare_black_fin ⟨s, hs⟩ hs8
  have hprom := promSquare_fin ⟨fileIndex s, Nat.mod_lt _ (by decide)⟩
  have hpc := promColor_fin ⟨fileIndex s, Nat.mod_lt _ (by decide)⟩
  have hks : bitscanForward ((mirror b).getPieceBB BLACK KING)
      = flipSq (bitscanForward (b.getPieceBB WHITE KING)) := mirror_kingSquare h BLACK
  have hppm : PASSED_PAWN_MASK WHITE (flipSq s) = flipV (PASSED_PAWN_MASK BLACK s) :=
    (flipV_PASSED_PAWN_MASK BLACK hs).symm
  simp only at hadv hprom hpc
  have z1 : ∀ y, flipV (PASSED_PAWN_MASK BLACK s &&& y) = 0 ↔ PASSED_PAWN_MASK BLACK s &&& y = 0 :=
    fun y => flipV_eq_zero (and_lt_of_left _ (PASSED_PAWN_MASK_lt _ _))
  have z2 : ∀ y, flipV (shl64 1 s &&& y) = 0 ↔ shl64 1 s &&& y = 0 :=
    fun y => flipV_eq_zero (and_lt_of_left _ (shl64_lt _ _))
  have z3 : ∀ y sh, sh < 2 ^ 64 →
      (flipV (PASSED_PAWN_MASK BLACK s &&& y ^^^ y &&& sh) = 0
        ↔ PASSED_PAWN_MASK BLACK s &&& y ^^^ y &&& sh = 0) :=
    fun y sh hsh => xor_zero_mirror (and_lt_of_left _ (PASSED_PAWN_MASK_lt _ _))
      (Nat.and_lt_two_pow _ hsh)
  have z4 := z3 O _ (Nat.or_lt_two_pow (shiftSouthEast_lt (shl64 1 s)) (shiftSouthWest_lt (shl64 1 s)))
  have z5 := z3 O _ (Nat.or_lt_two_pow (shiftSouthEast_lt (shiftSouth (shl64 1 s)))
    (shiftSouthWest_lt (shiftSouth (shl64 1 s))))
  have hbne : (WHITE != !b.getActivePlayer) = (BLACK != b.getActivePlayer) := by
    cases b.getActivePlayer <;> rfl
  unfold passedStep
  simp only [Bool.true_eq_false, Bool.false_eq_true, if_false, if_true, Bool.not_true,
    Bool.not_false, fileIndex_flipSq, hadv.1, hprom.2.1, hpc.2, hks, rankIndex_flipSq hs, mirrorED,
    mirror_getActivePlayer, mirror_getTeamOccupiedBB,
    mirror_getPieceBB b _ _ (by decide : BISHOP < 8), mirror_getPieceBB b _ _ (by decide : QUEEN < 8),
    manhattanDistance_flipSq hprom.2.2.2 (wf_kingSquare_lt h WHITE),
    chebyshevDistance_flipSq hK2 hadv.2, chebyshevDistance_flipSq hK hadv.2]
  simp only [← flipV_shl64_one hs, hppm, ← flipV_shiftSouth, ← flipV_shiftSouthEast,
    ← flipV_shiftSouthWest, ← flipV_shiftEast, ← flipV_shiftWest, ← flipV_bAttackRearSpans,
    ← flipV_and, ← flipV_or, ← flipV_xor, bitCount_flipV, z1, z2, z4, z5, ne_eq, hbne]

theorem testBit_RANK_8_fin : ∀ s : Fin 64, 56 ≤ s.val → RANK_8_BB.testBit s.val = true := by
  decide

theorem testBit_RANK_1_fin : ∀ s : Fin 64, s.val < 8 → RANK_1_BB.testBit s.val = true := by
  decide

theorem wf_whitePawn_lt {b : Board} (h : b.wellFormed) {s : Nat}
    (hs : s ∈ bitsOf (b.getPieceBB WHITE PAWN)) : s < 56 := by
  rw [mem_bitsOf] at hs
  by_contra hc
  have h1 : RANK_8_BB.testBit s = true := testBit_RANK_8_fin ⟨s, hs.1⟩ (by simpa using hc)
  have h2 : (b.pieceBB WHITE_PAWN &&& RANK_8_BB).testBit s = true := by
    rw [Nat.testBit_and, h1, Bool.and_true]
    exact hs.2
  rw [h.2.2.2.2.1, Nat.zero_testBit] at h2
  exact Bool.false_ne_true h2

theorem wf_blackPawn_ge {b : Board} (h : b.wellFormed) {s : Nat}
    (hs : s ∈ bitsOf (b.getPieceBB BLACK PAWN)) : 8 ≤ s := by
  rw [mem_bitsOf] at hs
  by_contra hc
  have h1 : RANK_1_BB.testBit s = true := testBit_RANK_1_fin ⟨s, hs.1⟩ (by simpa using hc)
  have h2 : (b.pieceBB BLACK_PAWN &&& RANK_1_BB).testBit s = true := by
    rw [Nat.testBit_and, h1, Bool.and_true]
    exact hs.2
  rw [h.2.2.2.2.2, Nat.zero_testBit] at h2
  exact Bool.false_ne_true h2

theorem computePassedPawns_mirror {b : Board} (h : b.wellFormed) (c : Bool) (ed : EvalData) :
    computePassedPawns (!c) (mirrorED ed) (mirror b) = computePassedPawns c ed b := by
  unfold computePassedPawns
  dsimp only
  have ek : bitscanForward ((mirror b).getPieceBB (!c) KING)
      = flipSq (bitscanForward (b.getPieceBB c KING)) := by
    have := mirror_kingSquare h (!c)
    rw [Bool.not_not] at this
    exact this
  have ek2 : bitscanForward ((mirror b).getPieceBB c KING)
      = flipSq (bitscanForward (b.getPieceBB (!c) KING)) := mirror_kingSquare h c
  rw [Bool.not_not, ek, ek2, mirror_getPieceBB b _ _ (by decide : PAWN < 8),
    mirror_getPieceBB b _ _ (by decide : PAWN < 8), Bool.not_not,
    foldl_additive _ (passedStep_additive _ _ _ _ _ _ _),
    foldl_additive _ (passedStep_additive _ _ _ _ _ _ _)]
  congr 1
  apply sum_map_bitsOf_flipV_mem
  intro s hs
  have hs64 : s < 64 := ((mem_bitsOf _ _).mp hs).1
  cases c
  · exact passedStep_mirror_white h ed _ _ (wf_kingSquare_lt h WHITE) (wf_kingSquare_lt h BLACK)
      (wf_whitePawn_lt h hs)
  · exact passedStep_mirror_black h ed _ _ (wf_kingSquare_lt h BLACK) (wf_kingSquare_lt h WHITE)
      hs64 (wf_blackPawn_ge h hs)

theorem totalScoreOf_eq (b : Board) : (totalScoreOf b).1 = totalFrom b (features b) := by
  unfold totalScoreOf totalFrom features pairScore kingsPair initED
  dsimp only
  split <;> simp_all

theorem initED_kingSquare {b : Board} (h : b.wellFormed) (c : Bool) :
    (initED b).kingSquare c < 64 := by
  cases c
  · exact wf_kingSquare_lt h WHITE
  · exact wf_kingSquare_lt h BLACK

theorem initED_mirror {b : Board} (h : b.wellFormed) : initED (mirror b) = mirrorED (initED b) := by
  have hW : bitscanForward ((mirror b).pieceBB WHITE_KING)
      = flipSq (bitscanForward (b.pieceBB BLACK_KING)) := mirror_kingSquare h WHITE
  have hB : bitscanForward ((mirror b).pieceBB BLACK_KING)
      = flipSq (bitscanForward (b.pieceBB WHITE_KING)) := mirror_kingSquare h BLACK
  have kW : bitscanForward (b.pieceBB WHITE_KING) < 64 := wf_kingSquare_lt h WHITE
  have kB : bitscanForward (b.pieceBB BLACK_KING) < 64 := wf_kingSquare_lt h BLACK
  unfold initED mirrorED EvalData.zero
  simp only [hW, hB, ← flipV_KING_ATTACKS kW, ← flipV_KING_ATTACKS kB, EvalData.mk.injEq]
  refine ⟨?_, ?_, ?_, ?_, ?_, ?_, ?_, ?_, ?_, trivial, trivial, trivial⟩
  · funext d u; exact flipV_zero.symm
  · funext d; exact flipV_zero.symm
  · funext d; cases d <;> simp [setC]
  · funext d; cases d <;> simp [setC]
  · funext d; exact flipV_zero.symm
  · funext d; exact flipV_zero.symm
  · funext d; exact flipV_zero.symm
  · funext d; exact flipV_zero.symm
  · exact flipV_zero.symm

theorem computePieces_kingSquare (c : Bool) (t : Nat)
    (ht : t = KNIGHT ∨ t = BISHOP ∨ t = ROOK ∨ t = QUEEN) (ed : EvalData) (b : Board) :
    (computePieces c t ed b).2.kingSquare = ed.kingSquare := by
  rw [computePieces_eq c t ht]
  rfl

theorem pairScore_kingSquare (t : Nat)
    (ht : t = KNIGHT ∨ t = BISHOP ∨ t = ROOK ∨ t = QUEEN) (ed : EvalData) (b : Board) :
    (pairScore t ed b).2.kingSquare = ed.kingSquare := by
  unfold pairScore
  dsimp only
  rw [computePieces_kingSquare _ t ht, computePieces_kingSquare _ t ht]

theorem pairScore_mirror (t : Nat)
    (ht : t = KNIGHT ∨ t = BISHOP ∨ t = ROOK ∨ t = QUEEN) (b : Board) (ed : EvalData)
    (hk : ∀ c, ed.kingSquare c < 64) :
    pairScore t (mirrorED ed) (mirror b)
      = (-(pairScore t ed b).1, mirrorED (pairScore t ed b).2) := by
  unfold pairScore
  dsimp only
  obtain ⟨h1, h2⟩ := computePieces_pair_mirror t ht b ed hk
  rw [h1, h2]

theorem kingsPair_mirror (b : Board) (ed : EvalData) (hk : ∀ c, ed.kingSquare c < 64) :
    kingsPair (mirrorED ed) (mirror b)
      = (-(kingsPair ed b).1, mirrorED (kingsPair ed b).2) := by
  unfold kingsPair
  dsimp only
  obtain ⟨h1, h2⟩ := computeKings_pair_mirror b ed hk
  rw [h1, h2]

theorem features_mirror {b : Board} (h : b.wellFormed) :
    features (mirror b) = (-(features b).1, mirrorED (features b).2) := by
  unfold features
  dsimp only
  have k0 := initED_kingSquare h
  have e0 : computePawns (initED (mirror b)) (mirror b)
      = (-(computePawns (initED b) b).1, mirrorED (computePawns (initED b) b).2) := by
    rw [initED_mirror h]
    exact Prod.ext (computePawns_mirror_score b _ _) (computePawns_mirror_ed b _)
  have k1 : ∀ c, (computePawns (initED b) b).2.kingSquare c < 64 := k0
  rw [e0]
  dsimp only
  generalize computePawns (initED b) b = p at k1
  have e1 := pairScore_mirror KNIGHT (by decide) b p.2 k1
  have k2 : ∀ c, (pairScore KNIGHT p.2 b).2.kingSquare c < 64 := by
    rw [pairScore_kingSquare KNIGHT (by decide)]; exact k1
  rw [e1]
  dsimp only
  generalize pairScore KNIGHT p.2 b = n at k2
  have e2 := pairScore_mirror BISHOP (by decide) b n.2 k2
  have k3 : ∀ c, (pairScore BISHOP n.2 b).2.kingSquare c < 64 := by
    rw [pairScore_kingSquare BISHOP (by decide)]; exact k2
  rw [e2]
  dsimp only
  generalize pairScore BISHOP n.2 b = bi at k3
  have e3 := pairScore_mirror ROOK (by decide) b bi.2 k3
  have k4 : ∀ c, (pairScore ROOK bi.2 b).2.kingSquare c < 64 := by
    rw [pairScore_kingSquare ROOK (by decide)]; exact k3
  rw [e3]
  dsimp only
  generalize pairScore ROOK bi.2 b = r at k4
  have e4 := pairScore_mirror QUEEN (by decide) b r.2 k4
  have k5 : ∀ c, (pairScore QUEEN r.2 b).2.kingSquare c < 64 := by
    rw [pairScore_kingSquare QUEEN (by decide)]; exact k4
  rw [e4]
  dsimp only
  generalize pairScore QUEEN r.2 b = q at k5
  rw [kingsPair_mirror b q.2 k5]
  dsimp only
  refine Prod.ext ?_ rfl
  simp only [M]
  abel

theorem side_mirror (a : Bool) :
    SIDE_TO_MOVE.scale (if (!a) = WHITE then 1 else -1)
      = -SIDE_TO_MOVE.scale (if a = WHITE then 1 else -1) := by
  cases a <;> decide

theorem castling_mirror (b : Board) :
    CASTLING_RIGHTS.scale
        (boolInt ((mirror b).getCastlingRights WHITE_QUEENSIDE_CASTLING)
          + boolInt ((mirror b).getCastlingRights WHITE_KINGSIDE_CASTLING)
          - boolInt ((mirror b).getCastlingRights BLACK_QUEENSIDE_CASTLING)
          - boolInt ((mirror b).getCastlingRights BLACK_KINGSIDE_CASTLING))
      = -CASTLING_RIGHTS.scale
        (boolInt (b.getCastlingRights WHITE_QUEENSIDE_CASTLING)
          + boolInt (b.getCastlingRights WHITE_KINGSIDE_CASTLING)
          - boolInt (b.getCastlingRights BLACK_QUEENSIDE_CASTLING)
          - boolInt (b.getCastlingRights BLACK_KINGSIDE_CASTLING)) := by
  have e0 : (mirror b).getCastlingRights WHITE_QUEENSIDE_CASTLING
      = b.getCastlingRights BLACK_QUEENSIDE_CASTLING := rfl
  have e1 : (mirror b).getCastlingRights WHITE_KINGSIDE_CASTLING
      = b.getCastlingRights BLACK_KINGSIDE_CASTLING := rfl
  have e2 : (mirror b).getCastlingRights BLACK_QUEENSIDE_CASTLING
      = b.getCastlingRights WHITE_QUEENSIDE_CASTLING := rfl
  have e3 : (mirror b).getCastlingRights BLACK_KINGSIDE_CASTLING
      = b.getCastlingRights WHITE_KINGSIDE_CASTLING := rfl
  rw [e0, e1, e2, e3, ← scale_neg]
  congr 1
  ring

theorem totalFrom_mirror {b : Board} (h : b.wellFormed) (f : EvalScore × EvalData) :
    totalFrom (mirror b) (-f.1, mirrorED f.2) = (totalFrom b f).map (fun v => -v) := by
  unfold totalFrom
  dsimp only
  have p1 : computePinnedPieces WHITE (mirror b) = computePinnedPieces BLACK b :=
    computePinnedPieces_mirror h BLACK
  have p2 : computePinnedPieces BLACK (mirror b) = computePinnedPieces WHITE b :=
    computePinnedPieces_mirror h WHITE
  have q1 : computePassedPawns WHITE (mirrorED f.2) (mirror b) = computePassedPawns BLACK f.2 b :=
    computePassedPawns_mirror h BLACK f.2
  have q2 : computePassedPawns BLACK (mirrorED f.2) (mirror b) = computePassedPawns WHITE f.2 b :=
    computePassedPawns_mirror h WHITE f.2
  have s1 : computeKingSafety WHITE (mirrorED f.2) = computeKingSafety BLACK f.2 :=
    computeKingSafety_mirror BLACK f.2
  have s2 : computeKingSafety BLACK (mirrorED f.2) = computeKingSafety WHITE f.2 :=
    computeKingSafety_mirror WHITE f.2
  have t1 : (mirrorED f.2).threats WHITE = f.2.threats BLACK := rfl
  have t2 : (mirrorED f.2).threats BLACK = f.2.threats WHITE := rfl
  rw [p1, p2, q1, q2, s1, s2, t1, t2, castling_mirror, mirror_getActivePlayer, side_mirror,
    computeHangingPieces_mirror]
  cases computeKingSafety WHITE f.2 <;> cases computeKingSafety BLACK f.2
  · rfl
  · rfl
  · rfl
  · simp only [Option.map_some', Option.some.injEq, M]
    abel

theorem totalScoreOf_mirror {b : Board} (h : b.wellFormed) :
    (totalScoreOf (mirror b)).1 = (totalScoreOf b).1.map (fun v => -v) := by
  rw [totalScoreOf_eq, totalScoreOf_eq, features_mirror h, totalFrom_mirror h]

theorem truncInt_neg (q : ℚ) : truncInt (-q) = -truncInt q := by
  unfold truncInt
  rcases lt_trichotomy q 0 with hq | hq | hq
  · have h1 : ¬ (-q < 0) := by linarith
    rw [if_neg h1, if_pos hq, neg_neg]
  · subst hq
    have e : Rat.floor 0 = 0 := by
      show ⌊(0 : ℚ)⌋ = 0
      exact Int.floor_zero
    simp [e]
  · have h1 : -q < 0 := by linarith
    have h2 : ¬ (q < 0) := by linarith
    rw [if_pos h1, if_neg h2, neg_neg]

theorem floatOfInt_neg (n : Int) : floatOfInt (-n) = -floatOfInt n := by
  unfold floatOfInt
  rw [Int.cast_neg, f32_neg]

theorem fmul_neg_left (a c : ℚ) : fmul (-a) c = -fmul a c := by
  unfold fmul
  rw [neg_mul, f32_neg]

theorem mirror_pawnCount (b : Board) (c : Bool) :
    bitCount ((mirror b).getPieceBB c PAWN) = bitCount (b.getPieceBB (!c) PAWN) := by
  rw [mirror_getPieceBB b c PAWN (by decide), bitCount_flipV]

theorem egScale_mirror (b : Board) (eg : Int) :
    (-eg * (120 - (8 - (bitCount ((mirror b).getPieceBB (if -eg > 0 then WHITE else BLACK) PAWN) : Int))
        * (8 - (bitCount ((mirror b).getPieceBB (if -eg > 0 then WHITE else BLACK) PAWN) : Int)))).tdiv 100
      = -((eg * (120 - (8 - (bitCount (b.getPieceBB (if eg > 0 then WHITE else BLACK) PAWN) : Int))
        * (8 - (bitCount (b.getPieceBB (if eg > 0 then WHITE else BLACK) PAWN) : Int)))).tdiv 100) := by
  rcases lt_trichotomy eg 0 with h | h | h
  · have h1 : -eg > 0 := by omega
    have h2 : ¬ eg > 0 := by omega
    rw [if_pos h1, if_neg h2, mirror_pawnCount, neg_mul, Int.neg_tdiv]
    rfl
  · subst h
    simp
  · have h1 : ¬ -eg > 0 := by omega
    rw [if_neg h1, if_pos h, mirror_pawnCount, neg_mul, Int.neg_tdiv]
    rfl

theorem blendScore_mirror {b : Board} (h : b.wellFormed) (phase : ℚ) (ts : EvalScore) :
    blendScore (mirror b) phase (-ts) = -blendScore b phase ts := by
  unfold blendScore
  dsimp only
  have e1 : MgScore (-ts + (mirror b).material) = -MgScore (ts + b.material) := by
    rw [mirror_material]
    simp only [MgScore, Prod.fst_add, Prod.fst_neg]
    ring
  have e2 : EgScore (-ts + (mirror b).material) = -EgScore (ts + b.material) := by
    rw [mirror_material]
    simp only [EgScore, Prod.snd_add, Prod.snd_neg]
    ring
  rw [e1, e2, floatOfInt_neg, fmul_neg_left, truncInt_neg, egScale_mirror, floatOfInt_neg,
    fmul_neg_left, truncInt_neg, ← neg_add]
  generalize truncInt (fmul (floatOfInt (MgScore (ts + b.material))) (fsub 1 phase))
    + truncInt (fmul (floatOfInt ((EgScore (ts + b.material)
        * (120 - (8 - (bitCount (b.getPieceBB
            (if EgScore (ts + b.material) > 0 then WHITE else BLACK) PAWN) : Int))
          * (8 - (bitCount (b.getPieceBB
            (if EgScore (ts + b.material) > 0 then WHITE else BLACK) PAWN) : Int)))).tdiv 100))
        phase) = res
  rcases lt_trichotomy res 0 with hr | hr | hr
  · have h1 : -res > 0 := by omega
    have h2 : ¬ res > 0 := by omega
    rw [if_pos h1, if_neg h2, mirror_hasMatingMaterial h, Int.neg_tdiv]
    simp only [Bool.not_false]
    split <;> rfl
  · subst hr
    simp
  · have h1 : ¬ -res > 0 := by omega
    rw [if_neg h1, if_pos hr, mirror_hasMatingMaterial h, Int.neg_tdiv]
    simp only [Bool.not_true]
    split <;> rfl

theorem fullEvaluate_mirror {b : Board} (h : b.wellFormed) (phase : ℚ) :
    (fullEvaluate (mirror b) phase).1 = (fullEvaluate b phase).1.map (fun v => -v) := by
  unfold fullEvaluate
  dsimp only
  rw [totalScoreOf_mirror h]
  cases (totalScoreOf b).1 with
  | none => rfl
  | some ts =>
    simp only [Option.map_some']
    rw [blendScore_mirror h]

/-- Claim C7: for every well-formed position `b` and every window, `evaluate` is
antisymmetric under colour swap: on the position mirrored vertically with the colours of
the pieces, the side to move and the castling rights exchanged and the material score
negated, it returns the negated value (and reads out of bounds exactly when it does on
`b`), whatever the two evaluators held before. -/
theorem evaluate_mirror (b : Board) (h : b.wellFormed) (ev ev' : Evaluator) (alpha beta : Int) :
    (ev'.evaluate (mirror b) alpha beta).1
      = (ev.evaluate b alpha beta).1.map (fun v => -v) := by
  unfold Evaluator.evaluate
  dsimp only
  have e1 : MgScore (mirror b).material = -MgScore b.material := rfl
  have e2 : EgScore (mirror b).material = -EgScore b.material := rfl
  rw [mirror_phaseOf, e1, e2, floatOfInt_neg, fmul_neg_left, truncInt_neg, floatOfInt_neg,
    fmul_neg_left, truncInt_neg, mirror_getActivePlayer]
  generalize truncInt (fmul (floatOfInt (MgScore b.material)) (fsub 1 (phaseOf b))) = r1
  generalize truncInt (fmul (floatOfInt (EgScore b.material)) (phaseOf b)) = r2
  have e3 : (0 + -r1 + -r2) * (if (!b.getActivePlayer) = WHITE then 1 else -1)
      = (0 + r1 + r2) * (if b.getActivePlayer = WHITE then 1 else -1) := by
    cases b.getActivePlayer <;> simp <;> ring
  rw [e3]
  generalize (0 + r1 + r2) * (if b.getActivePlayer = WHITE then 1 else -1) = lazyScore
  have e4 : (0 : Int) + -r1 + -r2 = -(0 + r1 + r2) := by ring
  by_cases h1 : lazyScore < alpha - lazyEvalAlphaBound
  · rw [if_pos h1, if_pos h1, e4]
    rfl
  · rw [if_neg h1, if_neg h1]
    by_cases h2 : lazyScore > beta + lazyEvalBetaBound
    · rw [if_pos h2, if_pos h2, e4]
      rfl
    · rw [if_neg h2, if_neg h2]
      exact fullEvaluate_mirror h _

/-- Witness of `evaluate_mirror`: the starting position without the knight of b1 and its
mirror image, the starting position without the knight of b8 and Black to move. -/
theorem evaluate_mirror_witness :
    startMinusKnight.wellFormed
      ∧ (someEvaluator.evaluate (mirror startMinusKnight) (-32000) 32000).1
        = (someEvaluator.evaluate startMinusKnight (-32000) 32000).1.map (fun v => -v) :=
  ⟨by decide!, evaluate_mirror startMinusKnight (by decide!) someEvaluator someEvaluator _ _⟩

theorem eq_zero_of_bitCount_zero {x : Nat} (hx : x < 2 ^ 64) (h : bitCount x = 0) : x = 0 := by
  apply eq_of_testBit_lt hx (by decide)
  intro i hi
  rw [Nat.zero_testBit]
  by_contra hc
  have hm : i ∈ bitsOf x := (mem_bitsOf x i).mpr ⟨hi, by simpa using hc⟩
  unfold bitCount at h
  rw [List.length_eq_zero] at h
  rw [h] at hm
  exact List.not_mem_nil _ hm

theorem ne_zero_iff_bitCount {x : Nat} (hx : x < 2 ^ 64) : x ≠ 0 ↔ 1 ≤ bitCount x := by
  constructor
  · intro h
    by_contra hc
    exact h (eq_zero_of_bitCount_zero hx (by omega))
  · intro h e
    rw [e, bitCount_zero] at h
    omega

theorem or_eq_zero_iff (x y : Nat) : x ||| y = 0 ↔ x = 0 ∧ y = 0 := by
  constructor
  · intro h
    constructor
    · apply Nat.eq_of_testBit_eq
      intro i
      have := congrArg (fun z => z.testBit i) h
      simp only [Nat.testBit_or, Nat.zero_testBit, Bool.or_eq_false_iff] at this
      rw [this.1, Nat.zero_testBit]
    · apply Nat.eq_of_testBit_eq
      intro i
      have := congrArg (fun z => z.testBit i) h
      simp only [Nat.testBit_or, Nat.zero_testBit, Bool.or_eq_false_iff] at this
      rw [this.2, Nat.zero_testBit]
  · rintro ⟨rfl, rfl⟩
    rfl

/-- Claim C13: for every board and side (64-bit bitboards, no square holding a knight and
a bishop of the side), `hasMatingMaterial(b, side)` is true if and only if the side has at
least one queen, rook or pawn, or has at least two minor pieces of which at least one is a
bishop; it is false for a lone king, for a single minor piece and for any number of
knights without a bishop. -/
theorem hasMatingMaterial_iff (b : Board) (side : Bool)
    (h64 : ∀ t ∈ [PAWN, KNIGHT, BISHOP, ROOK, QUEEN], b.getPieceBB side t < 2 ^ 64)
    (hd : b.getPieceBB side KNIGHT &&& b.getPieceBB side BISHOP = 0) :
    (hasMatingMaterial b side = true ↔
      (1 ≤ bitCount (b.getPieceBB side QUEEN) + bitCount (b.getPieceBB side ROOK)
          + bitCount (b.getPieceBB side PAWN))
        ∨ (2 ≤ bitCount (b.getPieceBB side KNIGHT) + bitCount (b.getPieceBB side BISHOP)
            ∧ 1 ≤ bitCount (b.getPieceBB side BISHOP)))
    ∧ (bitCount (b.getPieceBB side QUEEN) + bitCount (b.getPieceBB side ROOK)
          + bitCount (b.getPieceBB side PAWN) = 0 →
        (bitCount (b.getPieceBB side KNIGHT) + bitCount (b.getPieceBB side BISHOP) ≤ 1
          ∨ bitCount (b.getPieceBB side BISHOP) = 0) →
        hasMatingMaterial b side = false) := by
  have hq := h64 QUEEN (by decide)
  have hr := h64 ROOK (by decide)
  have hp := h64 PAWN (by decide)
  have hn := h64 KNIGHT (by decide)
  have hb := h64 BISHOP (by decide)
  have e : ∀ t, b.pieceBB (t + Board.colorIndex side * 8) = b.getPieceBB side t := by
    intro t
    unfold Board.getPieceBB
    rw [Nat.add_comm]
  have key : hasMatingMaterial b side = true ↔
      (1 ≤ bitCount (b.getPieceBB side QUEEN) + bitCount (b.getPieceBB side ROOK)
          + bitCount (b.getPieceBB side PAWN))
        ∨ (2 ≤ bitCount (b.getPieceBB side KNIGHT) + bitCount (b.getPieceBB side BISHOP)
            ∧ 1 ≤ bitCount (b.getPieceBB side BISHOP)) := by
    unfold hasMatingMaterial
    simp only [e, Bool.or_eq_true, Bool.and_eq_true, decide_eq_true_eq]
    rw [Nat.lor_comm (b.getPieceBB side BISHOP), bitCount_or_disjoint _ _ hd,
      ne_zero_iff_bitCount hb, Ne, or_eq_zero_iff, or_eq_zero_iff]
    have q0 := ne_zero_iff_bitCount hq
    have r0 := ne_zero_iff_bitCount hr
    have p0 := ne_zero_iff_bitCount hp
    constructor
    · rintro (h1 | h1)
      · left
        by_contra hc
        apply h1
        refine ⟨⟨?_, ?_⟩, ?_⟩
        · by_contra h2; have := q0.mp h2; omega
        · by_contra h2; have := r0.mp h2; omega
        · by_contra h2; have := p0.mp h2; omega
      · right
        omega
    · rintro (h1 | h1)
      · left
        rintro ⟨⟨e1, e2⟩, e3⟩
        rw [e1, e2, e3, bitCount_zero] at h1
        omega
      · right
        omega
  refine ⟨key, ?_⟩
  intro h0 h1
  by_contra hc
  rw [Bool.not_eq_false] at hc
  have := key.mp hc
  omega

/-- Witness of `hasMatingMaterial_iff`: the lone white knight of `knightBoard` is no mating
material. -/
theorem hasMatingMaterial_iff_witness :
    ((∀ t ∈ [PAWN, KNIGHT, BISHOP, ROOK, QUEEN], knightBoard.getPieceBB WHITE t < 2 ^ 64)
      ∧ knightBoard.getPieceBB WHITE KNIGHT &&& knightBoard.getPieceBB WHITE BISHOP = 0)
    ∧ hasMatingMaterial knightBoard WHITE = false :=
  ⟨⟨by decide, by decide⟩,
    (hasMatingMaterial_iff knightBoard WHITE (by decide) (by decide)).2 (by decide!)
      (Or.inl (by decide!))⟩

theorem blendScore_eq (b : Board) (phase : ℚ) (ts : EvalScore) :
    blendScore b phase ts
      = if hasMatingMaterial b (if blendRaw b phase ts > 0 then WHITE else BLACK) = true
        then blendRaw b phase ts else (blendRaw b phase ts).tdiv 10 := by
  have e : blendScore b phase ts
      = if (!hasMatingMaterial b (if blendRaw b phase ts > 0 then WHITE else BLACK)) = true
        then (blendRaw b phase ts).tdiv 10 else blendRaw b phase ts := rfl
  rw [e]
  cases hasMatingMaterial b (if blendRaw b phase ts > 0 then WHITE else BLACK) <;> simp

theorem evaluate_eq (ev : Evaluator) (b : Board) (alpha beta : Int) :
    ev.evaluate b alpha beta
      = if lazyScoreOf b < alpha - lazyEvalAlphaBound ∨ lazyScoreOf b > beta + lazyEvalBetaBound
        then (some (blend b.material (phaseOf b)), { ev with phase := phaseOf b })
        else ((fullEvaluate b (phaseOf b)).1,
          { evalData := (fullEvaluate b (phaseOf b)).2, phase := phaseOf b }) := by
  unfold Evaluator.evaluate lazyScoreOf blend
  simp only [zero_add]
  by_cases h1 : (truncInt (fmul (floatOfInt (MgScore b.material)) (fsub 1 (phaseOf b)))
      + truncInt (fmul (floatOfInt (EgScore b.material)) (phaseOf b)))
        * (if b.getActivePlayer = WHITE then 1 else -1) < alpha - lazyEvalAlphaBound
  · rw [if_pos h1, if_pos (Or.inl h1)]
  · rw [if_neg h1]
    by_cases h2 : (truncInt (fmul (floatOfInt (MgScore b.material)) (fsub 1 (phaseOf b)))
        + truncInt (fmul (floatOfInt (EgScore b.material)) (phaseOf b)))
          * (if b.getActivePlayer = WHITE then 1 else -1) > beta + lazyEvalBetaBound
    · rw [if_pos h2, if_pos (Or.inr h2)]
    · rw [if_neg h2, if_neg (by rintro (h | h); exact h1 h; exact h2 h)]

theorem lazyScoreOf_startBoard : lazyScoreOf startBoard = 0 := by
  unfold lazyScoreOf
  rw [phaseOf_startBoard]
  decide!

/-- Claim C14: in every full (non-lazy) evaluation whose feature part yields a total
score, with `r` the blended score before the last step (`blendRaw`), `evaluate` returns
`r / 10` truncated toward zero when the side with the positive result (White if `r > 0`,
Black otherwise) lacks mating material, and `r` unchanged when that side has mating
material. -/
theorem evaluate_final_step (ev : Evaluator) (b : Board) (alpha beta : Int) (ts : EvalScore)
    (hfull : ¬ (lazyScoreOf b < alpha - lazyEvalAlphaBound
      ∨ lazyScoreOf b > beta + lazyEvalBetaBound))
    (hts : (totalScoreOf b).1 = some ts) :
    (ev.evaluate b alpha beta).1
      = some (if hasMatingMaterial b
            (if blendRaw b (phaseOf b) ts > 0 then WHITE else BLACK) = true
          then blendRaw b (phaseOf b) ts else (blendRaw b (phaseOf b) ts).tdiv 10) := by
  rw [evaluate_eq, if_neg hfull]
  unfold fullEvaluate
  simp only [hts, Option.map_some', blendScore_eq]

/-- Witness of `evaluate_final_step`: the starting position with the window
(-32000, 32000). -/
theorem evaluate_final_step_witness :
    (¬ (lazyScoreOf startBoard < -32000 - lazyEvalAlphaBound
      ∨ lazyScoreOf startBoard > 32000 + lazyEvalBetaBound)
      ∧ (totalScoreOf startBoard).1 = some SIDE_TO_MOVE)
    ∧ (someEvaluator.evaluate startBoard (-32000) 32000).1
      = some (if hasMatingMaterial startBoard
            (if blendRaw startBoard (phaseOf startBoard) SIDE_TO_MOVE > 0 then WHITE else BLACK)
              = true
          then blendRaw startBoard (phaseOf startBoard) SIDE_TO_MOVE
          else (blendRaw startBoard (phaseOf startBoard) SIDE_TO_MOVE).tdiv 10) :=
  ⟨⟨by rw [lazyScoreOf_startBoard]; decide, by decide!⟩,
    evaluate_final_step someEvaluator startBoard (-32000) 32000 SIDE_TO_MOVE
      (by rw [lazyScoreOf_startBoard]; decide) (by decide!)⟩

/-- Claim C15: with `lazyScoreOf b` the blend of the material score at the current phase
seen from the side to move, `evaluate(b, alpha, beta)` returns early, leaving the feature
scratchpad untouched, exactly when `lazy < alpha - 803` or `lazy > beta + 392`, and the
value it then returns is the blended material score from White's perspective (the lazy
score is that value times 1 for White to move and times -1 for Black to move); otherwise
it returns the full evaluation. -/
theorem evaluate_lazy_return (ev : Evaluator) (b : Board) (alpha beta : Int) :
    ev.evaluate b alpha beta
        = (if lazyScoreOf b < alpha - 803 ∨ lazyScoreOf b > beta + 392
          then (some (blend b.material (phaseOf b)), { ev with phase := phaseOf b })
          else ((fullEvaluate b (phaseOf b)).1,
            { evalData := (fullEvaluate b (phaseOf b)).2, phase := phaseOf b }))
      ∧ lazyScoreOf b
        = blend b.material (phaseOf b) * (if b.getActivePlayer = WHITE then 1 else -1)
      ∧ lazyEvalAlphaBound = 803 ∧ lazyEvalBetaBound = 392 := by
  refine ⟨evaluate_eq ev b alpha beta, ?_, rfl, rfl⟩
  unfold lazyScoreOf blend
  rw [zero_add]

theorem scale_factor_bounds (n : Int) (h0 : 0 ≤ n) (h8 : n ≤ 8) :
    56 ≤ 120 - (8 - n) * (8 - n) ∧ 120 - (8 - n) * (8 - n) ≤ 120 := by
  constructor
  · nlinarith
  · nlinarith

/-- Claim C16: in the full evaluation the endgame component `eg` of `total + material` is
replaced by `eg * (120 - (8 - n)^2) / 100` truncated toward zero, `n` being the number of
White pawns when `eg > 0` and of Black pawns otherwise; when neither side has more than 8
pawns the factor lies in [56, 120] and the scaled value never has the sign opposite to
`eg` (it is 0 for `eg = 0` and keeps the strict sign when `|eg| >= 2`). -/
theorem eg_scaling (b : Board) (phase : ℚ) (ts : EvalScore)
    (hw : bitCount (b.getPieceBB WHITE PAWN) ≤ 8)
    (hb : bitCount (b.getPieceBB BLACK PAWN) ≤ 8) :
    blendRaw b phase ts
        = truncInt (fmul (floatOfInt (MgScore (ts + b.material))) (fsub 1 phase))
          + truncInt (fmul (floatOfInt (scaledEg b (EgScore (ts + b.material)))) phase)
      ∧ blendScore b phase ts
        = (if hasMatingMaterial b (if blendRaw b phase ts > 0 then WHITE else BLACK) = true
          then blendRaw b phase ts else (blendRaw b phase ts).tdiv 10)
      ∧ (∀ eg : Int, ∃ n : Int,
          n = bitCount (b.getPieceBB (if eg > 0 then WHITE else BLACK) PAWN)
          ∧ scaledEg b eg = (eg * (120 - (8 - n) ^ 2)).tdiv 100
          ∧ 0 ≤ n ∧ n ≤ 8
          ∧ 56 ≤ 120 - (8 - n) ^ 2 ∧ 120 - (8 - n) ^ 2 ≤ 120
          ∧ (0 ≤ eg → 0 ≤ scaledEg b eg)
          ∧ (eg ≤ 0 → scaledEg b eg ≤ 0)
          ∧ (2 ≤ eg → 0 < scaledEg b eg)
          ∧ (eg ≤ -2 → scaledEg b eg < 0)) := by
  refine ⟨rfl, blendScore_eq b phase ts, ?_⟩
  intro eg
  refine ⟨_, rfl, ?_⟩
  have hn0 : (0 : Int) ≤ bitCount (b.getPieceBB (if eg > 0 then WHITE else BLACK) PAWN) :=
    Int.ofNat_nonneg _
  have hn8 : ((bitCount (b.getPieceBB (if eg > 0 then WHITE else BLACK) PAWN) : Nat) : Int)
      ≤ 8 := by
    split
    · exact_mod_cast hw
    · exact_mod_cast hb
  generalize hn : ((bitCount (b.getPieceBB (if eg > 0 then WHITE else BLACK) PAWN) : Nat) : Int)
    = n at hn0 hn8
  have hs : scaledEg b eg = (eg * (120 - (8 - n) ^ 2)).tdiv 100 := by
    unfold scaledEg
    simp only [hn, pow_two]
  obtain ⟨f1, f2⟩ := scale_factor_bounds n hn0 hn8
  rw [← pow_two] at f1 f2
  refine ⟨hs, hn0, hn8, f1, f2, ?_, ?_, ?_, ?_⟩
  all_goals rw [hs]
  all_goals generalize 120 - (8 - n) ^ 2 = f at f1 f2
  · intro h
    exact Int.tdiv_nonneg (mul_nonneg h (by omega)) (by decide)
  · intro h
    have h1 : 0 ≤ (-eg) * f := mul_nonneg (by omega) (by omega)
    have h2 := Int.tdiv_nonneg h1 (show (0 : Int) ≤ 100 by decide)
    rw [neg_mul, Int.neg_tdiv] at h2
    omega
  · intro h
    have h1 : 100 ≤ eg * f := by nlinarith
    have h2 : (100 : Int).tdiv 100 ≤ (eg * f).tdiv 100 := by
      rw [Int.tdiv_eq_ediv (by omega) (by omega), Int.tdiv_eq_ediv (by omega) (by omega)]
      exact Int.ediv_le_ediv (by decide) h1
    have h3 : (100 : Int).tdiv 100 = 1 := by decide
    omega
  · intro h
    have h1 : 100 ≤ (-eg) * f := by nlinarith
    have h2 : (100 : Int).tdiv 100 ≤ ((-eg) * f).tdiv 100 := by
      rw [Int.tdiv_eq_ediv (by omega) (by omega), Int.tdiv_eq_ediv (by omega) (by omega)]
      exact Int.ediv_le_ediv (by decide) h1
    have h3 : (100 : Int).tdiv 100 = 1 := by decide
    rw [neg_mul, Int.neg_tdiv] at h2
    omega

/-- Witness of `eg_scaling`: the starting position, where both sides have 8 pawns. -/
theorem eg_scaling_witness :
    (bitCount (startBoard.getPieceBB WHITE PAWN) ≤ 8
      ∧ bitCount (startBoard.getPieceBB BLACK PAWN) ≤ 8)
    ∧ (0 ≤ (5 : Int) → 0 ≤ scaledEg startBoard 5) :=
  ⟨⟨by decide!, by decide!⟩,
    ((eg_scaling startBoard 0 SIDE_TO_MOVE (by decide!) (by decide!)).2.2 5).elim
      (fun _ h => h.2.2.2.2.2.2.1)⟩

theorem qLoop_table (env : Env B SD)
    (search : State B SD → Int → Int → Nat → Option (Int × State B SD))
    (tb : TranspositionTable)
    (hs : ∀ st a b p, search { st with table := tb } a b p = withTable tb (search st a b p))
    (beta : Int) (ply : Nat) :
    ∀ (ms : List Nat) (st : State B SD) (alpha : Int),
      qLoop env search beta ply ms { st with table := tb } alpha
        = withTable tb (qLoop env search beta ply ms st alpha) := by
  intro ms
  induction ms with
  | nil => intro st alpha; rfl
  | cons m ms ih =>
    intro st alpha
    rw [qLoop, qLoop]
    by_cases hl : (!env.isLegal st.board m) = true
    · rw [if_pos hl, if_pos hl]
      exact ih st alpha
    · rw [if_neg hl, if_neg hl]
      dsimp only
      have e := hs { st with board := env.move st.board m } (-beta) (-alpha) (toDepth (ply + 1))
      rw [e]
      cases hr : search { st with board := env.move st.board m } (-beta) (-alpha)
        (toDepth (ply + 1)) with
      | none => rfl
      | some p =>
        obtain ⟨r, st2⟩ := p
        simp only [withTable, Option.map_some']
        by_cases h1 : -r ≥ beta
        · rw [if_pos h1, if_pos h1]
          rfl
        · rw [if_neg h1, if_neg h1]
          by_cases h2 : -r > alpha
          · rw [if_pos h2, if_pos h2]
            exact ih { st2 with board := env.undoMove st2.board } (-r)
          · rw [if_neg h2, if_neg h2]
            exact ih { st2 with board := env.undoMove st2.board } alpha

theorem qSearch_table (env : Env B SD) (tb : TranspositionTable) :
    ∀ (fuel : Nat) (st : State B SD) (alpha beta : Int) (ply : Nat),
      qSearch env fuel { st with table := tb } alpha beta ply
        = withTable tb (qSearch env fuel st alpha beta ply) := by
  intro fuel
  induction fuel with
  | zero => intro st alpha beta ply; rfl
  | succ fuel ih =>
    intro st alpha beta ply
    simp only [qSearch]
    by_cases hsp : env.evaluate st.board
        * (if env.getActivePlayer st.board = false then 1 else -1) ≥ beta
    · rw [if_pos hsp, if_pos hsp]
      rfl
    · rw [if_neg hsp, if_neg hsp]
      exact qLoop_table env (qSearch env fuel) tb ih beta ply _
        { st with nodes := st.nodes + 1,
                  moves := fun i => if i = ply then env.getNonQuietMoves st.board
                    else st.moves i } _

/-- Claim C18: whenever `isTimeLeft()` is false on entry (the stop flag is set or
`elapsed + 1 >= maxTime`), `pvSearch` with any fuel left returns its `beta` argument at
once through the timeout return; the state it leaves differs from the entry state in the
node counter (and the count of clock polls) only: board, transposition table, move lists,
history data, selective depth and time limit are those of the entry state. -/
theorem pvSearch_timeout (env : Env B SD) (fuel : Nat) (st : State B SD) (alpha beta : Int)
    (depth ply : Nat) (cut : Bool) (h : isTimeLeft env st = false) :
    pvSearch env (fuel + 1) st alpha beta depth ply cut
        = some (beta, Exit.timeout, countNode st)
      ∧ (countNode st).board = st.board ∧ (countNode st).table = st.table
      ∧ (countNode st).moves = st.moves ∧ (countNode st).sd = st.sd
      ∧ (countNode st).selDepth = st.selDepth ∧ (countNode st).maxTime = st.maxTime
      ∧ (countNode st).nodes = st.nodes + 1
      ∧ (env.forceStop st.polls = true ∨ env.elapsedTime st.polls + 1 ≥ st.maxTime) := by
  refine ⟨?_, rfl, rfl, rfl, rfl, rfl, rfl, rfl, ?_⟩
  · simp only [pvSearch]
    rw [if_pos (by rw [h]; rfl)]
  · unfold isTimeLeft at h
    rw [Bool.and_eq_false_iff] at h
    rcases h with h | h
    · right
      simpa using h
    · left
      simpa using h

/-- Witness of `pvSearch_timeout`: the counter game with a clock that has run out. -/
theorem pvSearch_timeout_witness :
    isTimeLeft (toyEnv toyNever toyNever (toyClock 0)) (toyState 5 toyTable 100) = false
      ∧ pvSearch (toyEnv toyNever toyNever (toyClock 0)) 1 (toyState 5 toyTable 100)
          (-10) 10 3 0 false
        = some (10, Exit.timeout, countNode (toyState 5 toyTable 100)) :=
  ⟨by decide, (pvSearch_timeout (toyEnv toyNever toyNever (toyClock 0)) 0
    (toyState 5 toyTable 100) (-10) 10 3 0 false (by decide)).1⟩

/-- Claim C19: with time left and no draw return, if `depth == 0` or `depth > MAX_PLY`,
`pvSearch` returns exactly the result of `qSearch(b, alpha, beta, ply)` run on the state
after the node count and the selective-depth update, it does return when the fuel exceeds
the measure of the position, the transposition table is left as it was, and the value
does not depend on the table. -/
theorem pvSearch_quiescence (env : Env B SD) (mu : B → Nat)
    (hundo : ∀ b m, env.undoMove (env.move b m) = b)
    (hmu : ∀ b m, m ∈ env.orderQ (env.getNonQuietMoves b) → env.isLegal b m = true →
      mu (env.move b m) < mu b)
    (fuel : Nat) (st : State B SD) (alpha beta : Int) (depth ply : Nat) (cut : Bool)
    (htime : isTimeLeft env st = true)
    (hdraw : (env.isDraw st.board && decide (ply > 0)) = false)
    (hd : depth = 0 ∨ depth > env.MAX_PLY) (hfuel : mu st.board < fuel) :
    ∃ v s, qSearch env fuel (bumpSelDepth (countNode st) ply) alpha beta ply = some (v, s)
      ∧ pvSearch env (fuel + 1) st alpha beta depth ply cut = some (v, Exit.quiescence, s)
      ∧ s.table = st.table
      ∧ ∀ tb : TranspositionTable,
          pvSearch env (fuel + 1) { st with table := tb } alpha beta depth ply cut
            = some (v, Exit.quiescence, { s with table := tb }) := by
  have hb : (bumpSelDepth (countNode st) ply).board = st.board := by
    rw [bumpSelDepth_board, countNode_board]
  obtain ⟨v, s, hq, hf⟩ := qSearch_total env mu hundo hmu fuel
    (bumpSelDepth (countNode st) ply) alpha beta ply (by rw [hb]; exact hfuel)
  refine ⟨v, s, hq, ?_, ?_, ?_⟩
  · simp only [pvSearch]
    rw [if_neg (by rw [htime]; decide), if_neg (by rw [hdraw]; decide)]
    simp only [if_pos hd, hq]
  · rw [hf.2.1, bumpSelDepth_table, countNode_table]
  · intro tb
    have e : bumpSelDepth (countNode { st with table := tb }) ply
        = { bumpSelDepth (countNode st) ply with table := tb } := by
      unfold bumpSelDepth countNode
      dsimp only
      split <;> rfl
    have ht : isTimeLeft env { st with table := tb } = true := htime
    simp only [pvSearch]
    rw [if_neg (by rw [ht]; decide), if_neg (by rw [hdraw]; decide)]
    simp only [if_pos hd, e, qSearch_table, hq, withTable, Option.map_some']

/-- Witness of `pvSearch_quiescence`: depth 0 in the counter game. -/
theorem pvSearch_quiescence_witness :
    (isTimeLeft (toyEnv toyNever toyNever (toyClock 50)) (toyState 5 toyTable 100) = true
      ∧ ((toyEnv toyNever toyNever (toyClock 50)).isDraw (toyState 5 toyTable 100).board
          && decide (0 > 0)) = false
      ∧ ((0 : Nat) = 0 ∨ 0 > (toyEnv toyNever toyNever (toyClock 50)).MAX_PLY)
      ∧ toyMu (toyState 5 toyTable 100).board < 20)
    ∧ ∃ v s, qSearch (toyEnv toyNever toyNever (toyClock 50)) 20
          (bumpSelDepth (countNode (toyState 5 toyTable 100)) 0) (-10) 10 0 = some (v, s)
        ∧ pvSearch (toyEnv toyNever toyNever (toyClock 50)) 21 (toyState 5 toyTable 100)
            (-10) 10 0 0 false = some (v, Exit.quiescence, s) :=
  ⟨⟨by decide, by decide, Or.inl rfl, by decide⟩,
    (pvSearch_quiescence (toyEnv toyNever toyNever (toyClock 50)) toyMu
      (toy_undo _ _ _) (toy_mu_decreases _ _ _) 20 (toyState 5 toyTable 100) (-10) 10 0 0 false
      (by decide) (by decide) (Or.inl rfl) (by decide)).elim
      (fun v h => h.elim (fun s hs => ⟨v, s, hs.1, hs.2.1⟩))⟩

/-! ## Search: the board is left as it was found -/

theorem extractPV_board (env : Env B SD) (hundo : ∀ b m, env.undoMove (env.move b m) = b)
    (t : TranspositionTable) : ∀ (n : Nat) (b : B), (extractPV env t n b).1 = b := by
  intro n
  induction n with
  | zero => intro b; rfl
  | succ n ih =>
    intro b
    rw [extractPV]
    split
    · rfl
    · dsimp only
      split
      · rfl
      · split
        · rfl
        · dsimp only
          rw [ih, hundo]

theorem qLoop_board (env : Env B SD)
    (search : State B SD → Int → Int → Nat → Option (Int × State B SD))
    (hundo : ∀ b m, env.undoMove (env.move b m) = b)
    (hs : ∀ st a b p v s, search st a b p = some (v, s) → s.board = st.board)
    (beta : Int) (ply : Nat) :
    ∀ (ms : List Nat) (st : State B SD) (alpha v : Int) (s : State B SD),
      qLoop env search beta ply ms st alpha = some (v, s) → s.board = st.board := by
  intro ms
  induction ms with
  | nil =>
    intro st alpha v s h
    simp only [qLoop, Option.some.injEq, Prod.mk.injEq] at h
    rw [← h.2]
  | cons m ms ih =>
    intro st alpha v s h
    rw [qLoop] at h
    split at h
    · exact ih _ _ _ _ h
    · dsimp only at h
      split at h
      · exact absurd h (by simp)
      · rename_i r st2 heq
        have hb : env.undoMove st2.board = st.board := by
          rw [hs _ _ _ _ _ _ heq]
          exact hundo _ _
        split at h
        · simp only [Option.some.injEq, Prod.mk.injEq] at h
          rw [← h.2]
          exact hb
        · split at h
          · exact (ih _ _ _ _ h).trans hb
          · exact (ih _ _ _ _ h).trans hb

theorem qSearch_board (env : Env B SD) (hundo : ∀ b m, env.undoMove (env.move b m) = b) :
    ∀ (fuel : Nat) (st : State B SD) (alpha beta : Int) (ply : Nat) (v : Int) (s : State B SD),
      qSearch env fuel st alpha beta ply = some (v, s) → s.board = st.board := by
  intro fuel
  induction fuel with
  | zero => intro st alpha beta ply v s h; simp [qSearch] at h
  | succ fuel ih =>
    intro st alpha beta ply v s h
    simp only [qSearch] at h
    generalize env.evaluate st.board * (if env.getActivePlayer st.board = false then 1 else -1)
      = sp at h
    by_cases hsp : sp ≥ beta
    · rw [if_pos hsp] at h
      simp only [Option.some.injEq, Prod.mk.injEq] at h
      rw [← h.2]
    · rw [if_neg hsp] at h
      have := qLoop_board env (qSearch env fuel) hundo ih beta ply _ _ _ _ _ h
      exact this

theorem searchMove_board
    (search : State B SD → Int → Int → Nat → Nat → Bool → PvResult B SD)
    (hs : KeepsBoard search) (st1 : State B SD) (alpha beta : Int) (depth ply : Nat) (pv : Bool)
    (legalMoves lmr : Nat) (extension : Int) (score : Int) (s : State B SD)
    (h : searchMove search st1 alpha beta depth ply pv legalMoves lmr extension
      = some (score, s)) : s.board = st1.board := by
  unfold searchMove at h
  split at h
  · split at h
    · exact absurd h (by simp)
    · rename_i r x s0 heq
      simp only [Option.some.injEq, Prod.mk.injEq] at h
      rw [← h.2]
      exact hs _ _ _ _ _ _ _ _ _ heq
  · split at h
    · exact absurd h (by simp)
    · rename_i r1 x1 s1 heq1
      have b1 : s1.board = st1.board := hs _ _ _ _ _ _ _ _ _ heq1
      dsimp only at h
      by_cases hc : lmr ≠ 0 ∧ -r1 > alpha
      · rw [if_pos hc] at h
        split at h
        · exact absurd h (by simp)
        · rename_i score2 s2 heq2
          split at heq2
          · exact absurd heq2 (by simp)
          · rename_i r2 x2 s2' heq2'
            simp only [Option.some.injEq, Prod.mk.injEq] at heq2
            have b2 : s2.board = st1.board := by
              rw [← heq2.2]
              exact (hs _ _ _ _ _ _ _ _ _ heq2').trans b1
            split at h
            · split at h
              · exact absurd h (by simp)
              · rename_i r3 x3 s3 heq3
                simp only [Option.some.injEq, Prod.mk.injEq] at h
                rw [← h.2]
                exact (hs _ _ _ _ _ _ _ _ _ heq3).trans b2
            · simp only [Option.some.injEq, Prod.mk.injEq] at h
              rw [← h.2]
              exact b2
      · rw [if_neg hc] at h
        dsimp only at h
        split at h
        · split at h
          · exact absurd h (by simp)
          · rename_i r3 x3 s3 heq3
            simp only [Option.some.injEq, Prod.mk.injEq] at h
            rw [← h.2]
            exact (hs _ _ _ _ _ _ _ _ _ heq3).trans b1
        · simp only [Option.some.injEq, Prod.mk.injEq] at h
          rw [← h.2]
          exact b1

theorem pvLoop_board (env : Env B SD)
    (search : State B SD → Int → Int → Nat → Nat → Bool → PvResult B SD)
    (hundo : ∀ b m, env.undoMove (env.move b m) = b) (hs : KeepsBoard search)
    (zobrist : Nat) (pv : Bool) (originalAlpha beta : Int) (depth ply : Nat) :
    ∀ (ms : List Nat) (st : State B SD) (v : LoopVars) (r : Int) (x : Exit) (s : State B SD),
      pvLoop env search zobrist pv originalAlpha beta depth ply ms st v = some (r, x, s) →
      s.board = st.board := by
  intro ms
  induction ms with
  | nil =>
    intro st v r x s h
    rw [pvLoop] at h
    unfold pvEpilogue at h
    split at h
    · split at h <;>
      · simp only [Option.some.injEq, Prod.mk.injEq] at h
        rw [← h.2.2]
    · split at h <;>
      · simp only [Option.some.injEq, Prod.mk.injEq] at h
        rw [← h.2.2]
  | cons m ms ih =>
    intro st v r x s h
    rw [pvLoop] at h
    split at h
    · exact ih _ _ _ _ _ h
    · dsimp only at h
      split at h
      · exact absurd h (by simp)
      · rename_i score s1 heq
        have hb : env.undoMove s1.board = st.board := by
          rw [searchMove_board search hs _ _ _ _ _ _ _ _ _ _ _ heq]
          exact hundo _ _
        split at h
        · simp only [Option.some.injEq, Prod.mk.injEq] at h
          rw [← h.2.2]
          exact hb
        · split at h
          · have := ih _ _ _ _ _ h
            rw [this]
            split
            · dsimp only
              rw [extractPV_board env hundo]
              exact hb
            · exact hb
          · exact (ih _ _ _ _ _ h).trans hb

theorem nullMovePruning_board (env : Env B SD)
    (search : State B SD → Int → Int → Nat → Nat → Bool → PvResult B SD)
    (hnull : ∀ b, env.undoMove_null (env.move_null b) = b) (hs : KeepsBoard search)
    (st : State B SD) (beta : Int) (depth ply : Nat) (pv : Bool) (c : Bool) (s : State B SD)
    (h : nullMovePruning env search st beta depth ply pv = some (c, s)) :
    s.board = st.board := by
  unfold nullMovePruning at h
  split at h
  · dsimp only at h
    split at h
    · exact absurd h (by simp)
    · rename_i r x s1 heq
      simp only [Option.some.injEq, Prod.mk.injEq] at h
      rw [← h.2]
      show env.undoMove_null s1.board = st.board
      rw [hs _ _ _ _ _ _ _ _ _ heq]
      exact hnull _
  · simp only [Option.some.injEq, Prod.mk.injEq] at h
    rw [← h.2]

theorem iid_board
    (search : State B SD → Int → Int → Nat → Nat → Bool → PvResult B SD)
    (hs : KeepsBoard search) (st : State B SD) (zobrist : Nat) (alpha beta : Int)
    (depth ply : Nat) (pv : Bool) (hashMove : Nat) (hm : Nat) (s : State B SD)
    (h : iid search st zobrist alpha beta depth ply pv hashMove = some (hm, s)) :
    s.board = st.board := by
  unfold iid at h
  split at h
  · split at h
    · exact absurd h (by simp)
    · rename_i r x s1 heq
      split at h <;>
      · simp only [Option.some.injEq, Prod.mk.injEq] at h
        rw [← h.2]
        exact hs _ _ _ _ _ _ _ _ _ heq
  · simp only [Option.some.injEq, Prod.mk.injEq] at h
    rw [← h.2]

theorem mateDistanceAndLoop_board (env : Env B SD)
    (search : State B SD → Int → Int → Nat → Nat → Bool → PvResult B SD)
    (hundo : ∀ b m, env.undoMove (env.move b m) = b) (hs : KeepsBoard search)
    (st : State B SD) (zobrist : Nat) (pv : Bool) (originalAlpha alpha beta : Int)
    (depth ply : Nat) (hashMove : Nat) (r : Int) (x : Exit) (s : State B SD)
    (h : mateDistanceAndLoop env search st zobrist pv originalAlpha alpha beta depth ply hashMove
      = some (r, x, s)) : s.board = st.board := by
  unfold mateDistanceAndLoop at h
  dsimp only at h
  by_cases c1 : env.MAX_MATE_SCORE - ply < beta ∧ alpha ≥ env.MAX_MATE_SCORE - ply
  · rw [if_pos c1] at h
    simp only [Option.some.injEq, Prod.mk.injEq] at h
    rw [← h.2.2]
  · rw [if_neg c1] at h
    by_cases c2 : -env.MAX_MATE_SCORE + ply > alpha ∧
        (if env.MAX_MATE_SCORE - ply < beta then env.MAX_MATE_SCORE - ply else beta)
          ≤ -env.MAX_MATE_SCORE + ply
    · rw [if_pos c2] at h
      simp only [Option.some.injEq, Prod.mk.injEq] at h
      rw [← h.2.2]
    · rw [if_neg c2] at h
      exact pvLoop_board env search hundo hs _ _ _ _ _ _ _ _ _ _ _ _ h

theorem pvBody_board (env : Env B SD)
    (search : State B SD → Int → Int → Nat → Nat → Bool → PvResult B SD)
    (hundo : ∀ b m, env.undoMove (env.move b m) = b)
    (hnull : ∀ b, env.undoMove_null (env.move_null b) = b) (hs : KeepsBoard search)
    (st : State B SD) (alpha beta : Int) (depth ply : Nat) (hashMove : Nat)
    (r : Int) (x : Exit) (s : State B SD)
    (h : pvBody env search st alpha beta depth ply hashMove = some (r, x, s)) :
    s.board = st.board := by
  unfold pvBody at h
  dsimp only at h
  split at h
  · exact absurd h (by simp)
  · rename_i s1 heq
    simp only [Option.some.injEq, Prod.mk.injEq] at h
    rw [← h.2.2]
    have := nullMovePruning_board env search hnull hs _ _ _ _ _ _ _ heq
    exact this
  · rename_i s1 heq
    have b1 := nullMovePruning_board env search hnull hs _ _ _ _ _ _ _ heq
    dsimp only at b1
    split at h
    · exact absurd h (by simp)
    · rename_i hm s2 heq2
      have b2 := iid_board search hs _ _ _ _ _ _ _ _ _ _ heq2
      have b3 := mateDistanceAndLoop_board env search hundo hs _ _ _ _ _ _ _ _ _ _ _ _ h
      exact b3.trans (b2.trans b1)

theorem pvSearch_board (env : Env B SD) (hundo : ∀ b m, env.undoMove (env.move b m) = b)
    (hnull : ∀ b, env.undoMove_null (env.move_null b) = b) :
    ∀ fuel : Nat, KeepsBoard (pvSearch env fuel) := by
  intro fuel
  induction fuel with
  | zero => intro st alpha beta depth ply cut r x s h; simp [pvSearch] at h
  | succ fuel ih =>
    intro st alpha beta depth ply cut r x s h
    simp only [pvSearch] at h
    split at h
    · simp only [Option.some.injEq, Prod.mk.injEq] at h
      rw [← h.2.2]
      rfl
    · split at h
      · simp only [Option.some.injEq, Prod.mk.injEq] at h
        rw [← h.2.2]
        rfl
      · have hb : (bumpSelDepth (countNode st) ply).board = st.board := by
          rw [bumpSelDepth_board, countNode_board]
        split at h
        · split at h
          · exact absurd h (by simp)
          · rename_i hq
            simp only [Option.some.injEq, Prod.mk.injEq] at h
            obtain ⟨_, _, rfl⟩ := h
            exact (qSearch_board env hundo fuel _ _ _ _ _ _ hq).trans hb
        · split at h
          · simp only [Option.some.injEq, Prod.mk.injEq] at h
            rw [← h.2.2]
            exact hb
          · exact (pvBody_board env _ hundo hnull ih _ _ _ _ _ _ _ _ _ h).trans hb

/-! ## Search: nodes without a legal move -/

theorem pvLoop_no_legal (env : Env B SD)
    (search : State B SD → Int → Int → Nat → Nat → Bool → PvResult B SD)
    (zobrist : Nat) (pv : Bool) (originalAlpha beta : Int) (depth ply : Nat) (st : State B SD)
    (hno : ∀ m, env.isLegal st.board m = false) :
    ∀ (ms : List Nat) (v : LoopVars),
      pvLoop env search zobrist pv originalAlpha beta depth ply ms st v
        = some (pvEpilogue env zobrist originalAlpha depth ply st v) := by
  intro ms
  induction ms with
  | nil => intro v; rw [pvLoop]
  | cons m ms ih =>
    intro v
    rw [pvLoop, if_pos (by rw [hno]; rfl)]
    exact ih v

theorem nullMovePruning_true (env : Env B SD)
    (search : State B SD → Int → Int → Nat → Nat → Bool → PvResult B SD)
    (st : State B SD) (beta : Int) (depth ply : Nat) (pv : Bool) (s : State B SD)
    (h : nullMovePruning env search st beta depth ply pv = some (true, s)) :
    pv = false ∧ env.isInCheck st.board (env.getActivePlayer st.board) = false := by
  unfold nullMovePruning at h
  split at h
  · rename_i hc
    simpa using hc
  · simp at h

theorem pvBody_no_legal (env : Env B SD) (T : Int) (p : Nat)
    (search : State B SD → Int → Int → Nat → Nat → Bool → PvResult B SD)
    (hnull : ∀ b, env.undoMove_null (env.move_null b) = b)
    (hs : PvTotal T p search) (hk : KeepsBoard search)
    (st : State B SD) (alpha beta : Int) (depth ply : Nat) (hashMove : Nat)
    (hT : st.maxTime = T) (hp : p ≤ st.polls)
    (hno : ∀ m, env.isLegal st.board m = false)
    (hlo : alpha < env.MAX_MATE_SCORE - ply) (hhi : -env.MAX_MATE_SCORE + ply < beta)
    (hply : (ply : Int) < env.MAX_MATE_SCORE) :
    ∃ r x s, pvBody env search st alpha beta depth ply hashMove = some (r, x, s) ∧
      ((x = Exit.nullMove ∧ r = beta ∧ beta - alpha = 1
          ∧ env.isInCheck st.board (env.getActivePlayer st.board) = false)
        ∨ (x = Exit.stalemate ∧ r = 0
          ∧ env.isInCheck st.board (env.getActivePlayer st.board) = false)
        ∨ (x = Exit.checkmate ∧ r = -env.MAX_MATE_SCORE + ply
          ∧ env.isInCheck st.board (env.getActivePlayer st.board) = true)) := by
  unfold pvBody
  dsimp only
  obtain ⟨c, s1, e, h1, h2⟩ := nullMovePruning_total env T p search hs
    { st with moves := fun i => if i = ply then env.getPseudoLegalMoves st.board else st.moves i }
    beta depth ply (decide (beta - alpha ≠ 1)) hT hp
  have b1 := nullMovePruning_board env search hnull hk _ _ _ _ _ _ _ e
  dsimp only at b1
  rw [e]
  cases c with
  | true =>
    have := nullMovePruning_true env search _ _ _ _ _ _ e
    dsimp only at this
    refine ⟨_, _, _, rfl, Or.inl ⟨rfl, rfl, ?_, this.2⟩⟩
    have h3 := this.1
    simp only [decide_eq_false_iff_not, not_not] at h3
    by_contra hc
    exact absurd h3 (by simpa using hc)
  | false =>
    dsimp only
    obtain ⟨hm, s2, e2, h1', h2'⟩ := iid_total T p search hs s1 (env.zobrist st.board) alpha beta
      depth ply (decide (beta - alpha ≠ 1)) hashMove h1 (le_trans hp h2)
    have b2 := iid_board search hk _ _ _ _ _ _ _ _ _ _ e2
    rw [e2]
    dsimp only
    have hb : s2.board = st.board := b2.trans b1
    unfold mateDistanceAndLoop
    dsimp only
    rw [if_neg (by omega), if_neg (by split <;> omega),
      pvLoop_no_legal env search _ _ _ _ _ _ s2 (by rw [hb]; exact hno)]
    unfold pvEpilogue
    dsimp only
    rw [if_pos rfl, hb]
    cases hc : env.isInCheck st.board (env.getActivePlayer st.board) with
    | false => exact ⟨_, _, _, rfl, Or.inr (Or.inl ⟨rfl, rfl, rfl⟩)⟩
    | true => exact ⟨_, _, _, rfl, Or.inr (Or.inr ⟨rfl, rfl, rfl⟩)⟩

/-- Claim C17, as stated, fails: in the counter game the position without counters has no
legal move, the clock has time left, no draw is reported, the depth is 1 and the table is
empty, yet `pvSearch` returns -10 for the window (-11, -10) although the side to move is
not in check (null-move pruning returned beta), returns -31998 for the window
(-32000, -31998) at ply 2 although the side to move is not in check, and returns 31998 for
the window (31999, 32000) at ply 2 although the side to move is in check (mate-distance
pruning). -/
theorem pvSearch_no_legal_move_counterexample :
    (∀ m, (toyEnv toyNever toyNever (toyClock 100)).isLegal
        (toyState 0 toyTable 100).board m = false)
      ∧ isTimeLeft (toyEnv toyNever toyNever (toyClock 100)) (toyState 0 toyTable 100) = true
      ∧ (toyEnv toyNever toyNever (toyClock 100)).isDraw (toyState 0 toyTable 100).board = false
      ∧ (toyState 0 toyTable 100).table.get
          ((toyEnv toyNever toyNever (toyClock 100)).zobrist (toyState 0 toyTable 100).board)
          = none
      ∧ (toyEnv toyNever toyNever (toyClock 100)).isInCheck (toyState 0 toyTable 100).board
          false = false
      ∧ (toyEnv toyNever toyAlways (toyClock 100)).isInCheck (toyState 0 toyTable 100).board
          false = true
      ∧ (pvSearch (toyEnv toyNever toyNever (toyClock 100)) 10 (toyState 0 toyTable 100)
          (-11) (-10) 1 0 false).map (fun r => (r.1, r.2.1)) = some (-10, Exit.nullMove)
      ∧ (pvSearch (toyEnv toyNever toyNever (toyClock 100)) 10 (toyState 0 toyTable 100)
          (-32000) (-31998) 1 2 false).map (fun r => (r.1, r.2.1))
          = some (-31998, Exit.mateLower)
      ∧ (pvSearch (toyEnv toyNever toyAlways (toyClock 100)) 10 (toyState 0 toyTable 100)
          31999 32000 1 2 false).map (fun r => (r.1, r.2.1)) = some (31998, Exit.mateUpper) := by
  refine ⟨?_, by decide!, by decide!, by decide!, by decide!, by decide!, by decide!,
    by decide!, by decide!⟩
  intro m
  simp only [toyEnv, toyState, Bool.and_eq_false_iff, decide_eq_false_iff_not]
  omega

/-- Claim C17, amended: at a node whose side to move has no legal move, reached with time
left, no draw return, depth in 1..MAX_PLY and no transposition-table cutoff, with a
window that admits the mate scores of the ply (`alpha < MAX_MATE_SCORE - ply` and
`-MAX_MATE_SCORE + ply < beta`, `ply < MAX_MATE_SCORE`), `pvSearch` returns (given fuel
for the null-move and the internal searches), and unless null-move pruning returned beta,
which happens only at a zero-window node that is not in check, the value is 0 when the
side to move is not in check (stalemate) and `-(MAX_MATE_SCORE - ply)` when it is in check
(checkmate). -/
theorem pvSearch_no_legal_move (env : Env B SD) (mu : B → Nat) (K N : Nat) (T : Int)
    (hundo : ∀ b m, env.undoMove (env.move b m) = b)
    (hnull : ∀ b, env.undoMove_null (env.move_null b) = b)
    (hmu : ∀ b m, m ∈ env.orderQ (env.getNonQuietMoves b) → env.isLegal b m = true →
      mu (env.move b m) < mu b)
    (hK : ∀ b, mu b ≤ K) (hN : TimeUp env T N)
    (fuel : Nat) (st : State B SD) (alpha beta : Int) (depth ply : Nat) (cut : Bool)
    (hT : st.maxTime = T) (hfuel : (N - st.polls) + K + 2 ≤ fuel)
    (hno : ∀ m, env.isLegal st.board m = false)
    (htime : isTimeLeft env st = true)
    (hdraw : (env.isDraw st.board && decide (ply > 0)) = false)
    (hd1 : 1 ≤ depth) (hd2 : depth ≤ env.MAX_PLY)
    (hprobe : probeCutoff (st.table.get (env.zobrist st.board)) alpha beta depth = none)
    (hlo : alpha < env.MAX_MATE_SCORE - ply) (hhi : -env.MAX_MATE_SCORE + ply < beta)
    (hply : (ply : Int) < env.MAX_MATE_SCORE) :
    ∃ r x s, pvSearch env fuel st alpha beta depth ply cut = some (r, x, s) ∧
      ((x = Exit.nullMove ∧ r = beta ∧ beta - alpha = 1
          ∧ env.isInCheck st.board (env.getActivePlayer st.board) = false)
        ∨ (x = Exit.stalemate ∧ r = 0
          ∧ env.isInCheck st.board (env.getActivePlayer st.board) = false)
        ∨ (x = Exit.checkmate ∧ r = -(env.MAX_MATE_SCORE - ply)
          ∧ env.isInCheck st.board (env.getActivePlayer st.board) = true)) := by
  have hlt : st.polls < N := by
    by_contra hge
    have := hN st.polls (not_lt.mp hge)
    unfold isTimeLeft at htime
    rw [hT] at htime
    rw [this] at htime
    exact Bool.false_ne_true htime
  obtain ⟨f, rfl⟩ : ∃ f, fuel = f + 1 := ⟨fuel - 1, by omega⟩
  rw [pvSearch_probe_none env f st alpha beta depth ply cut htime hdraw hd1 hd2 hprobe]
  have hrec : PvTotal T (st.polls + 1) (pvSearch env f) := by
    intro s a b d pl c hsT hsp
    exact pvSearch_total env mu K N T hundo hmu hK hN f s a b d pl c hsT (by omega)
  have hb : (bumpSelDepth (countNode st) ply).board = st.board := by
    rw [bumpSelDepth_board, countNode_board]
  have := pvBody_no_legal env T (st.polls + 1) (pvSearch env f) hnull hrec
    (pvSearch_board env hundo hnull f) (bumpSelDepth (countNode st) ply) alpha beta depth ply
    (hashMoveOf (st.table.get (env.zobrist st.board)))
    (by rw [bumpSelDepth_maxTime, countNode_maxTime, hT])
    (by rw [bumpSelDepth_polls, countNode_polls])
    (by rw [hb]; exact hno) hlo hhi hply
  rw [hb] at this
  obtain ⟨r, x, s, e, h⟩ := this
  refine ⟨r, x, s, e, ?_⟩
  rcases h with h | h | h
  · exact Or.inl h
  · exact Or.inr (Or.inl h)
  · exact Or.inr (Or.inr ⟨h.1, by rw [h.2.1]; ring, h.2.2⟩)

/-- Witness of `pvSearch_no_legal_move`: the position without counters of the counter
game, searched with the full window at depth 1. -/
theorem pvSearch_no_legal_move_witness :
    (isTimeLeft (toyEnv toyNever toyNever (toyClock 50)) (toyState 0 toyTable 100) = true
      ∧ probeCutoff ((toyState 0 toyTable 100).table.get
          ((toyEnv toyNever toyNever (toyClock 50)).zobrist (toyState 0 toyTable 100).board))
          (-32000) 32000 1 = none)
    ∧ ∃ r x s, pvSearch (toyEnv toyNever toyNever (toyClock 50)) 62 (toyState 0 toyTable 100)
          (-32000) 32000 1 0 false = some (r, x, s)
        ∧ ((x = Exit.nullMove ∧ r = 32000 ∧ (32000 : Int) - (-32000) = 1
            ∧ (toyEnv toyNever toyNever (toyClock 50)).isInCheck (toyState 0 toyTable 100).board
              ((toyEnv toyNever toyNever (toyClock 50)).getActivePlayer
                (toyState 0 toyTable 100).board) = false)
          ∨ (x = Exit.stalemate ∧ r = 0
            ∧ (toyEnv toyNever toyNever (toyClock 50)).isInCheck (toyState 0 toyTable 100).board
              ((toyEnv toyNever toyNever (toyClock 50)).getActivePlayer
                (toyState 0 toyTable 100).board) = false)
          ∨ (x = Exit.checkmate
            ∧ r = -((toyEnv toyNever toyNever (toyClock 50)).MAX_MATE_SCORE - ((0 : Nat) : Int))
            ∧ (toyEnv toyNever toyNever (toyClock 50)).isInCheck (toyState 0 toyTable 100).board
              ((toyEnv toyNever toyNever (toyClock 50)).getActivePlayer
                (toyState 0 toyTable 100).board) = true)) :=
  ⟨⟨by decide, by decide⟩,
    pvSearch_no_legal_move (toyEnv toyNever toyNever (toyClock 50)) toyMu 10 50 100
      (toy_undo _ _ _) (fun b => by cases b; simp [toyEnv]) (toy_mu_decreases _ _ _) toy_mu_le
      (toy_timeUp _ _ 50) 62 (toyState 0 toyTable 100) (-32000) 32000 1 0 false rfl
      (by decide)
      (fun m => by
        simp only [toyEnv, toyState, Bool.and_eq_false_iff, decide_eq_false_iff_not]
        omega)
      (by decide) (by decide) (by decide)
      (by decide) (by decide) (by decide) (by decide) (by decide)⟩

/-! ## Search: the plies of the calls -/

theorem toDepth_lt (x : Int) : toDepth x < 256 := by
  unfold toDepth
  have h := Int.emod_lt_of_pos x (show (0 : Int) < 256 by decide)
  have h0 := Int.emod_nonneg x (show (256 : Int) ≠ 0 by decide)
  omega

theorem PlyFrame.same (st : State B SD) : PlyFrame st st := ⟨fun _ _ => rfl, id⟩

theorem PlyFrame.trans {a b c : State B SD} (h1 : PlyFrame a b) (h2 : PlyFrame b c) :
    PlyFrame a c :=
  ⟨fun i hi => (h2.1 i hi).trans (h1.1 i hi), fun h => h2.2 (h1.2 h)⟩

theorem PlyFrame.congr {st s st' s' : State B SD} (h : PlyFrame st s)
    (e1 : st'.moves = st.moves) (e2 : st'.selDepth = st.selDepth)
    (e3 : s'.moves = s.moves) (e4 : s'.selDepth = s.selDepth) : PlyFrame st' s' := by
  constructor
  · intro i hi
    rw [e3, e1]
    exact h.1 i hi
  · intro h0
    rw [e4]
    rw [e2] at h0
    exact h.2 h0

theorem PlyFrame.setMoves (st : State B SD) (ply : Nat) (hp : ply < 256) (mv : List Nat) :
    PlyFrame st { st with moves := fun i => if i = ply then mv else st.moves i } := by
  constructor
  · intro i hi
    show (if i = ply then mv else st.moves i) = st.moves i
    rw [if_neg (by omega)]
  · exact id

theorem PlyFrame.bump (st : State B SD) (ply : Nat) (hp : ply < 256) :
    PlyFrame st (bumpSelDepth (countNode st) ply) := by
  unfold bumpSelDepth countNode
  dsimp only
  split
  · refine ⟨fun _ _ => rfl, fun _ => ?_⟩
    show (ply : Int) ≤ 255
    omega
  · exact ⟨fun _ _ => rfl, id⟩

theorem qLoop_ply (env : Env B SD)
    (search : State B SD → Int → Int → Nat → Option (Int × State B SD))
    (hs : ∀ st a b p v s, p < 256 → search st a b p = some (v, s) → PlyFrame st s)
    (beta : Int) (ply : Nat) :
    ∀ (ms : List Nat) (st : State B SD) (alpha v : Int) (s : State B SD),
      qLoop env search beta ply ms st alpha = some (v, s) → PlyFrame st s := by
  intro ms
  induction ms with
  | nil =>
    intro st alpha v s h
    simp only [qLoop, Option.some.injEq, Prod.mk.injEq] at h
    rw [← h.2]
    exact PlyFrame.same st
  | cons m ms ih =>
    intro st alpha v s h
    rw [qLoop] at h
    split at h
    · exact ih _ _ _ _ h
    · dsimp only at h
      split at h
      · exact absurd h (by simp)
      · rename_i r st2 heq
        have hb : PlyFrame st { st2 with board := env.undoMove st2.board } :=
          (hs _ _ _ _ _ _ (toDepth_lt _) heq).congr rfl rfl rfl rfl
        split at h
        · simp only [Option.some.injEq, Prod.mk.injEq] at h
          rw [← h.2]
          exact hb
        · split at h
          · exact hb.trans (ih _ _ _ _ h)
          · exact hb.trans (ih _ _ _ _ h)

theorem qSearch_ply (env : Env B SD) :
    ∀ (fuel : Nat) (st : State B SD) (alpha beta : Int) (ply : Nat) (v : Int) (s : State B SD),
      ply < 256 → qSearch env fuel st alpha beta ply = some (v, s) → PlyFrame st s := by
  intro fuel
  induction fuel with
  | zero => intro st alpha beta ply v s _ h; simp [qSearch] at h
  | succ fuel ih =>
    intro st alpha beta ply v s hp h
    simp only [qSearch] at h
    generalize env.evaluate st.board * (if env.getActivePlayer st.board = false then 1 else -1)
      = sp at h
    by_cases hsp : sp ≥ beta
    · rw [if_pos hsp] at h
      simp only [Option.some.injEq, Prod.mk.injEq] at h
      rw [← h.2]
      exact ⟨fun _ _ => rfl, id⟩
    · rw [if_neg hsp] at h
      have := qLoop_ply env (qSearch env fuel) ih beta ply _ _ _ _ _ h
      exact (PlyFrame.setMoves st ply hp _).trans (this.congr rfl rfl rfl rfl)

theorem searchMove_ply
    (search : State B SD → Int → Int → Nat → Nat → Bool → PvResult B SD)
    (hs : KeepsPlyFrame search) (st1 : State B SD) (alpha beta : Int) (depth ply : Nat)
    (pv : Bool) (legalMoves lmr : Nat) (extension : Int) (score : Int) (s : State B SD)
    (h : searchMove search st1 alpha beta depth ply pv legalMoves lmr extension
      = some (score, s)) : PlyFrame st1 s := by
  unfold searchMove at h
  split at h
  · split at h
    · exact absurd h (by simp)
    · rename_i r x s0 heq
      simp only [Option.some.injEq, Prod.mk.injEq] at h
      rw [← h.2]
      exact hs _ _ _ _ _ _ _ _ _ (toDepth_lt _) heq
  · split at h
    · exact absurd h (by simp)
    · rename_i r1 x1 s1 heq1
      have b1 : PlyFrame st1 s1 := hs _ _ _ _ _ _ _ _ _ (toDepth_lt _) heq1
      dsimp only at h
      by_cases hc : lmr ≠ 0 ∧ -r1 > alpha
      · rw [if_pos hc] at h
        split at h
        · exact absurd h (by simp)
        · rename_i score2 s2 heq2
          split at heq2
          · exact absurd heq2 (by simp)
          · rename_i r2 x2 s2' heq2'
            simp only [Option.some.injEq, Prod.mk.injEq] at heq2
            have b2 : PlyFrame st1 s2 := by
              rw [← heq2.2]
              exact b1.trans (hs _ _ _ _ _ _ _ _ _ (toDepth_lt _) heq2')
            split at h
            · split at h
              · exact absurd h (by simp)
              · rename_i r3 x3 s3 heq3
                simp only [Option.some.injEq, Prod.mk.injEq] at h
                rw [← h.2]
                exact b2.trans (hs _ _ _ _ _ _ _ _ _ (toDepth_lt _) heq3)
            · simp only [Option.some.injEq, Prod.mk.injEq] at h
              rw [← h.2]
              exact b2
      · rw [if_neg hc] at h
        dsimp only at h
        split at h
        · split at h
          · exact absurd h (by simp)
          · rename_i r3 x3 s3 heq3
            simp only [Option.some.injEq, Prod.mk.injEq] at h
            rw [← h.2]
            exact b1.trans (hs _ _ _ _ _ _ _ _ _ (toDepth_lt _) heq3)
        · simp only [Option.some.injEq, Prod.mk.injEq] at h
          rw [← h.2]
          exact b1

theorem pvLoop_ply (env : Env B SD)
    (search : State B SD → Int → Int → Nat → Nat → Bool → PvResult B SD)
    (hs : KeepsPlyFrame search)
    (zobrist : Nat) (pv : Bool) (originalAlpha beta : Int) (depth ply : Nat) :
    ∀ (ms : List Nat) (st : State B SD) (v : LoopVars) (r : Int) (x : Exit) (s : State B SD),
      pvLoop env search zobrist pv originalAlpha beta depth ply ms st v = some (r, x, s) →
      PlyFrame st s := by
  intro ms
  induction ms with
  | nil =>
    intro st v r x s h
    rw [pvLoop] at h
    unfold pvEpilogue at h
    split at h
    · split at h <;>
      · simp only [Option.some.injEq, Prod.mk.injEq] at h
        rw [← h.2.2]
        exact PlyFrame.same st
    · split at h <;>
      · simp only [Option.some.injEq, Prod.mk.injEq] at h
        rw [← h.2.2]
        exact ⟨fun _ _ => rfl, id⟩
  | cons m ms ih =>
    intro st v r x s h
    rw [pvLoop] at h
    split at h
    · exact ih _ _ _ _ _ h
    · dsimp only at h
      split at h
      · exact absurd h (by simp)
      · rename_i score s1 heq
        have hb : PlyFrame st s1 :=
          (searchMove_ply search hs _ _ _ _ _ _ _ _ _ _ _ heq).congr rfl rfl rfl rfl
        split at h
        · simp only [Option.some.injEq, Prod.mk.injEq] at h
          rw [← h.2.2]
          exact hb.congr rfl rfl rfl rfl
        · split at h
          · have := ih _ _ _ _ _ h
            refine hb.trans (this.congr ?_ ?_ rfl rfl)
            · split <;> rfl
            · split <;> rfl
          · exact hb.trans ((ih _ _ _ _ _ h).congr rfl rfl rfl rfl)

theorem nullMovePruning_ply (env : Env B SD)
    (search : State B SD → Int → Int → Nat → Nat → Bool → PvResult B SD)
    (hs : KeepsPlyFrame search)
    (st : State B SD) (beta : Int) (depth ply : Nat) (pv : Bool) (c : Bool) (s : State B SD)
    (h : nullMovePruning env search st beta depth ply pv = some (c, s)) :
    PlyFrame st s := by
  unfold nullMovePruning at h
  split at h
  · dsimp only at h
    split at h
    · exact absurd h (by simp)
    · rename_i r x s1 heq
      simp only [Option.some.injEq, Prod.mk.injEq] at h
      rw [← h.2]
      exact (hs _ _ _ _ _ _ _ _ _ (toDepth_lt _) heq).congr rfl rfl rfl rfl
  · simp only [Option.some.injEq, Prod.mk.injEq] at h
    rw [← h.2]
    exact PlyFrame.same st

theorem iid_ply
    (search : State B SD → Int → Int → Nat → Nat → Bool → PvResult B SD)
    (hs : KeepsPlyFrame search) (st : State B SD) (zobrist : Nat) (alpha beta : Int)
    (depth ply : Nat) (hp : ply < 256) (pv : Bool) (hashMove : Nat) (hm : Nat) (s : State B SD)
    (h : iid search st zobrist alpha beta depth ply pv hashMove = some (hm, s)) :
    PlyFrame st s := by
  unfold iid at h
  split at h
  · split at h
    · exact absurd h (by simp)
    · rename_i r x s1 heq
      split at h <;>
      · simp only [Option.some.injEq, Prod.mk.injEq] at h
        rw [← h.2]
        exact hs _ _ _ _ _ _ _ _ _ hp heq
  · simp only [Option.some.injEq, Prod.mk.injEq] at h
    rw [← h.2]
    exact PlyFrame.same st

theorem mateDistanceAndLoop_ply (env : Env B SD)
    (search : State B SD → Int → Int → Nat → Nat → Bool → PvResult B SD)
    (hs : KeepsPlyFrame search)
    (st : State B SD) (zobrist : Nat) (pv : Bool) (originalAlpha alpha beta : Int)
    (depth ply : Nat) (hashMove : Nat) (r : Int) (x : Exit) (s : State B SD)
    (h : mateDistanceAndLoop env search st zobrist pv originalAlpha alpha beta depth ply hashMove
      = some (r, x, s)) : PlyFrame st s := by
  unfold mateDistanceAndLoop at h
  dsimp only at h
  by_cases c1 : env.MAX_MATE_SCORE - ply < beta ∧ alpha ≥ env.MAX_MATE_SCORE - ply
  · rw [if_pos c1] at h
    simp only [Option.some.injEq, Prod.mk.injEq] at h
    rw [← h.2.2]
    exact PlyFrame.same st
  · rw [if_neg c1] at h
    by_cases c2 : -env.MAX_MATE_SCORE + ply > alpha ∧
        (if env.MAX_MATE_SCORE - ply < beta then env.MAX_MATE_SCORE - ply else beta)
          ≤ -env.MAX_MATE_SCORE + ply
    · rw [if_pos c2] at h
      simp only [Option.some.injEq, Prod.mk.injEq] at h
      rw [← h.2.2]
      exact PlyFrame.same st
    · rw [if_neg c2] at h
      exact pvLoop_ply env search hs _ _ _ _ _ _ _ _ _ _ _ _ h

theorem pvBody_ply (env : Env B SD)
    (search : State B SD → Int → Int → Nat → Nat → Bool → PvResult B SD)
    (hs : KeepsPlyFrame search)
    (st : State B SD) (alpha beta : Int) (depth ply : Nat) (hp : ply < 256) (hashMove : Nat)
    (r : Int) (x : Exit) (s : State B SD)
    (h : pvBody env search st alpha beta depth ply hashMove = some (r, x, s)) :
    PlyFrame st s := by
  unfold pvBody at h
  dsimp only at h
  have b0 := PlyFrame.setMoves st ply hp (env.getPseudoLegalMoves st.board)
  split at h
  · exact absurd h (by simp)
  · rename_i s1 heq
    simp only [Option.some.injEq, Prod.mk.injEq] at h
    rw [← h.2.2]
    have := nullMovePruning_ply env search hs _ _ _ _ _ _ _ heq
    exact b0.trans this
  · rename_i s1 heq
    have b1 := nullMovePruning_ply env search hs _ _ _ _ _ _ _ heq
    split at h
    · exact absurd h (by simp)
    · rename_i hm s2 heq2
      have b2 := iid_ply search hs _ _ _ _ _ _ hp _ _ _ _ heq2
      have b3 := mateDistanceAndLoop_ply env search hs _ _ _ _ _ _ _ _ _ _ _ _ h
      exact b0.trans (b1.trans (b2.trans b3))

theorem pvSearch_ply (env : Env B SD) : ∀ fuel : Nat, KeepsPlyFrame (pvSearch env fuel) := by
  intro fuel
  induction fuel with
  | zero => intro st alpha beta depth ply cut r x s _ h; simp [pvSearch] at h
  | succ fuel ih =>
    intro st alpha beta depth ply cut r x s hp h
    simp only [pvSearch] at h
    split at h
    · simp only [Option.some.injEq, Prod.mk.injEq] at h
      rw [← h.2.2]
      exact ⟨fun _ _ => rfl, id⟩
    · split at h
      · simp only [Option.some.injEq, Prod.mk.injEq] at h
        rw [← h.2.2]
        exact ⟨fun _ _ => rfl, id⟩
      · have hb := PlyFrame.bump st ply hp
        split at h
        · split at h
          · exact absurd h (by simp)
          · rename_i hq
            simp only [Option.some.injEq, Prod.mk.injEq] at h
            obtain ⟨_, _, rfl⟩ := h
            exact hb.trans (qSearch_ply env fuel _ _ _ _ _ _ hp hq)
        · split at h
          · simp only [Option.some.injEq, Prod.mk.injEq] at h
            rw [← h.2.2]
            exact hb
          · exact hb.trans (pvBody_ply env _ ih _ _ _ _ _ hp _ _ _ _ h)

theorem iterate_ply (env : Env B SD) (maxDepth : Nat) :
    ∀ (fuel d : Nat) (st s : State B SD), iterate env maxDepth fuel d st = some s →
      PlyFrame st s := by
  intro fuel
  induction fuel with
  | zero => intro d st s h; simp [iterate] at h
  | succ fuel ih =>
    intro d st s h
    rw [iterate] at h
    split at h
    · split at h
      · exact absurd h (by simp)
      · rename_i r x s1 heq
        have b1 : PlyFrame st s1 := pvSearch_ply env fuel _ _ _ _ _ _ _ _ _ (by decide) heq
        dsimp only at h
        split at h
        · simp only [Option.some.injEq] at h
          rw [← h]
          exact b1.congr rfl rfl rfl rfl
        · exact b1.trans ((ih _ _ _ h).congr rfl rfl rfl rfl)
    · simp only [Option.some.injEq] at h
      rw [← h]
      exact PlyFrame.same st

theorem iterate_total (env : Env B SD) (mu : B → Nat) (K N : Nat) (T : Int)
    (hundo : ∀ b m, env.undoMove (env.move b m) = b)
    (hmu : ∀ b m, m ∈ env.orderQ (env.getNonQuietMoves b) → env.isLegal b m = true →
      mu (env.move b m) < mu b)
    (hK : ∀ b, mu b ≤ K) (hN : TimeUp env T N) (maxDepth : Nat) :
    ∀ (fuel d : Nat) (st : State B SD), st.maxTime = T → (N - st.polls) + K + 3 ≤ fuel →
      ∃ s, iterate env maxDepth fuel d st = some s := by
  intro fuel
  induction fuel with
  | zero => intro d st _ h; omega
  | succ fuel ih =>
    intro d st hT hf
    rw [iterate]
    by_cases hd : d ≤ maxDepth
    · rw [if_pos hd]
      obtain ⟨r, x, s1, e, e1, e2⟩ := pvSearch_total env mu K N T hundo hmu hK hN fuel st
        (-env.MAX_MATE_SCORE) env.MAX_MATE_SCORE d 0 false hT (by omega)
      rw [e]
      dsimp only
      by_cases htl : isTimeLeft env s1 = true
      · rw [if_neg (by rw [htl]; decide)]
        have hlt : s1.polls < N := by
          by_contra hge
          have := hN s1.polls (not_lt.mp hge)
          unfold isTimeLeft at htl
          rw [e1] at htl
          rw [this] at htl
          exact Bool.false_ne_true htl
        exact ih _ _ e1 (by show (N - (s1.polls + 1)) + K + 3 ≤ fuel; omega)
      · rw [if_pos (by simpa using htl)]
        exact ⟨_, rfl⟩
    · rw [if_neg hd]
      exact ⟨_, rfl⟩

/-- Claim C20, as stated, fails: the plies of the calls are not bounded by `MAX_PLY`.  In
the counter game every move gives check, so the check extension keeps the depth at 1
while the ply grows; `bestMove` on 200 counters with a clock that stops the search at the
132nd node leaves a selective depth of 130, set by a `pvSearch` call with ply 130, and
the move lists `moves[129]` and `moves[130]` (empty before) filled by the calls with
these plies, although `MAX_PLY` is 128. -/
theorem bestMove_ply_counterexample :
    (toyEnv toyNever toyAlways (toyClock 131)).MAX_PLY = 128
      ∧ (toyState 200 toyTable 0).moves 129 = []
      ∧ (toyState 200 toyTable 0).moves 130 = []
      ∧ (bestMove (toyEnv toyNever toyAlways (toyClock 131)) 140 (toyState 200 toyTable 0)
            1 100).map (fun r => (r.2.selDepth, r.2.moves 129, r.2.moves 130))
          = some (130, [1, 2, 3], [1, 2, 3]) := by
  refine ⟨rfl, rfl, rfl, ?_⟩
  decide!

/-- Claim C20, amended: the plies of the calls are bounded by the range of the 8-bit
`Depth` type, not by `MAX_PLY`.  Every `pvSearch` and `qSearch` call with a ply below 256
leaves the move lists from index 256 on untouched and keeps a selective depth of at most
255 (the plies it passes on are values of `Depth`); and when the time budget
is finite, quiescence terminates and `undoMove` undoes `move`, `bestMove` with enough fuel
returns with a selective depth of at most 255 and without having written a move list of
index 256 or more. -/
theorem bestMove_ply_bound (env : Env B SD) (mu : B → Nat) (K N : Nat)
    (hundo : ∀ b m, env.undoMove (env.move b m) = b)
    (hmu : ∀ b m, m ∈ env.orderQ (env.getNonQuietMoves b) → env.isLegal b m = true →
      mu (env.move b m) < mu b)
    (hK : ∀ b, mu b ≤ K)
    (fuel : Nat) (st : State B SD) (maxDepth : Nat) (maxTime : Int)
    (hN : TimeUp env maxTime N) (hfuel : (N - st.polls) + K + 3 ≤ fuel) :
    (∀ f, KeepsPlyFrame (pvSearch env f))
      ∧ (∀ f (s0 : State B SD) a b p v s, p < 256 → qSearch env f s0 a b p = some (v, s) →
          PlyFrame s0 s)
      ∧ (∀ x, toDepth x < 256)
      ∧ ∃ mv s, bestMove env fuel st maxDepth maxTime = some (mv, s)
          ∧ (∀ i, 256 ≤ i → s.moves i = st.moves i) ∧ s.selDepth ≤ 255 := by
  refine ⟨pvSearch_ply env, qSearch_ply env, toDepth_lt, ?_⟩
  unfold bestMove
  dsimp only
  obtain ⟨s, e⟩ := iterate_total env mu K N maxTime hundo hmu hK hN
    (if maxDepth > env.MAX_PLY then toDepth env.MAX_PLY else maxDepth) fuel 1
    { st with maxTime := maxTime, nodes := 0, selDepth := 0, table := st.table.clear,
              sd := env.sdInit } rfl hfuel
  have hf := iterate_ply env _ fuel 1 _ s e
  rw [e]
  exact ⟨_, _, rfl, fun i hi => hf.1 i hi, hf.2 (show (0 : Int) ≤ 255 by decide)⟩

/-- Witness of `bestMove_ply_bound`: the counter game with five counters and a clock that
runs out at the sixth call of `isTimeLeft`. -/
theorem bestMove_ply_bound_witness :
    ((6 - (toyState 5 toyTable 0).polls) + 10 + 3 ≤ 19)
    ∧ ∃ mv s, bestMove (toyEnv toyNever toyNever (toyClock 6)) 19 (toyState 5 toyTable 0) 2 100
          = some (mv, s)
        ∧ (∀ i, 256 ≤ i → s.moves i = (toyState 5 toyTable 0).moves i) ∧ s.selDepth ≤ 255 :=
  ⟨by decide,
    (bestMove_ply_bound (toyEnv toyNever toyNever (toyClock 6)) toyMu 10 6
      (toy_undo _ _ _) (toy_mu_decreases _ _ _) toy_mu_le 19 (toyState 5 toyTable 0) 2 100
      (toy_timeUp _ _ 6) (by decide)).2.2.2⟩

/-! ## Single precision: the rounding error -/

theorem roundHalfEven_error (x : ℚ) : |(roundHalfEven x : ℚ) - x| ≤ 1 / 2 := by
  unfold roundHalfEven
  have hf : Rat.floor x = ⌊x⌋ := rfl
  rw [hf]
  have h1 : (⌊x⌋ : ℚ) ≤ x := Int.floor_le x
  have h2 : x < (⌊x⌋ : ℚ) + 1 := Int.lt_floor_add_one x
  dsimp only
  split
  · rename_i h
    rw [abs_le]
    constructor <;> linarith
  · split
    · rename_i h h'
      push_cast
      rw [abs_le]
      constructor <;> linarith
    · rename_i h h'
      have hr : x - (⌊x⌋ : ℚ) = 1 / 2 := le_antisymm (not_lt.mp h') (not_lt.mp h)
      split
      · rw [abs_le]
        constructor <;> linarith
      · push_cast
        rw [abs_le]
        constructor <;> linarith

theorem binExp_le (q : ℚ) (hq : 0 < q) : (2 : ℚ) ^ (binExp q) ≤ q := by
  unfold binExp
  dsimp only
  split
  · have hnum : 0 < q.num := Rat.num_pos.mpr hq
    have hn0 : q.num.natAbs ≠ 0 := by omega
    have h1 : 2 ^ (Nat.log2 q.num.natAbs) ≤ q.num.natAbs := Nat.log2_self_le hn0
    have h2 : q.den < 2 ^ (Nat.log2 q.den + 1) := Nat.lt_log2_self
    have hd : (0 : ℚ) < q.den := by exact_mod_cast q.den_pos
    have e : ((Nat.log2 q.num.natAbs : Int) - (Nat.log2 q.den : Int) - 1)
        = (Nat.log2 q.num.natAbs : Int) - ((Nat.log2 q.den + 1 : Nat) : Int) := by
      push_cast
      ring
    rw [e, zpow_sub₀ (by norm_num : (2 : ℚ) ≠ 0), zpow_natCast, zpow_natCast]
    have h1' : ((2 : ℚ) ^ (Nat.log2 q.num.natAbs)) ≤ (q.num.natAbs : ℚ) := by exact_mod_cast h1
    have h2' : (q.den : ℚ) ≤ (2 : ℚ) ^ (Nat.log2 q.den + 1) := by exact_mod_cast h2.le
    have hqd : q * (q.den : ℚ) = (q.num.natAbs : ℚ) := by
      have hc : (q.num : ℚ) = ((q.num.natAbs : Nat) : ℚ) := by
        have : q.num = ((q.num.natAbs : Nat) : Int) := (Int.natAbs_of_nonneg hnum.le).symm
        calc (q.num : ℚ) = (((q.num.natAbs : Nat) : Int) : ℚ) := by rw [← this]
          _ = ((q.num.natAbs : Nat) : ℚ) := Int.cast_natCast _
      rw [Rat.mul_den_eq_num q, hc]
    have hp : (0 : ℚ) < (2 : ℚ) ^ (Nat.log2 q.den + 1) := pow_pos (by norm_num) _
    rw [div_le_iff₀ hp]
    calc (2 : ℚ) ^ (Nat.log2 q.num.natAbs)
        ≤ (q.num.natAbs : ℚ) := h1'
      _ = q * (q.den : ℚ) := hqd.symm
      _ ≤ q * (2 : ℚ) ^ (Nat.log2 q.den + 1) := mul_le_mul_of_nonneg_left h2' hq.le
  · rename_i h
    exact not_lt.mp h

theorem f32pos_error (q : ℚ) (hq : 0 < q) : |f32pos q - q| ≤ q / 2 ^ 24 := by
  unfold f32pos
  dsimp only
  have hu : (0 : ℚ) < (2 : ℚ) ^ (binExp q - 23) := zpow_pos (by norm_num) _
  have he := roundHalfEven_error (q / (2 : ℚ) ^ (binExp q - 23))
  have hb := binExp_le q hq
  have e1 : (roundHalfEven (q / (2 : ℚ) ^ (binExp q - 23)) : ℚ) * (2 : ℚ) ^ (binExp q - 23) - q
      = ((roundHalfEven (q / (2 : ℚ) ^ (binExp q - 23)) : ℚ) - q / (2 : ℚ) ^ (binExp q - 23))
          * (2 : ℚ) ^ (binExp q - 23) := by
    field_simp
  rw [e1, abs_mul, abs_of_pos hu]
  have e2 : (2 : ℚ) ^ (binExp q - 23) = (2 : ℚ) ^ (binExp q) / 2 ^ 23 := by
    rw [zpow_sub₀ (by norm_num : (2 : ℚ) ≠ 0)]
    norm_num
  calc |(roundHalfEven (q / (2 : ℚ) ^ (binExp q - 23)) : ℚ) - q / (2 : ℚ) ^ (binExp q - 23)|
        * (2 : ℚ) ^ (binExp q - 23)
      ≤ 1 / 2 * (2 : ℚ) ^ (binExp q - 23) := mul_le_mul_of_nonneg_right he hu.le
    _ = (2 : ℚ) ^ (binExp q) / 2 ^ 24 := by rw [e2]; ring
    _ ≤ q / 2 ^ 24 := by
        apply div_le_div_of_nonneg_right hb
        positivity

theorem f32_error (q : ℚ) : |f32 q - q| ≤ |q| / 2 ^ 24 := by
  unfold f32
  split
  · rename_i h
    rw [h]
    norm_num
  · split
    · rename_i h0 h
      have := f32pos_error (-q) (by linarith)
      rw [abs_of_neg h]
      have e : -f32pos (-q) - q = -(f32pos (-q) - -q) := by ring
      rw [e, abs_neg]
      exact this
    · rename_i h0 h
      have hq : 0 < q := lt_of_le_of_ne (not_lt.mp h) (Ne.symm h0)
      rw [abs_of_pos hq]
      exact f32pos_error q hq

theorem binExp_lt (q : ℚ) (hq : 0 < q) : q < (2 : ℚ) ^ (binExp q + 1) := by
  unfold binExp
  dsimp only
  split
  · rename_i h
    rw [sub_add_cancel]
    exact h
  · have hnum : 0 < q.num := Rat.num_pos.mpr hq
    have h1 : q.num.natAbs < 2 ^ (Nat.log2 q.num.natAbs + 1) := Nat.lt_log2_self
    have hd0 : q.den ≠ 0 := q.den_nz
    have h2 : 2 ^ (Nat.log2 q.den) ≤ q.den := Nat.log2_self_le hd0
    have e : ((Nat.log2 q.num.natAbs : Int) - (Nat.log2 q.den : Int) + 1)
        = ((Nat.log2 q.num.natAbs + 1 : Nat) : Int) - ((Nat.log2 q.den : Nat) : Int) := by
      push_cast
      ring
    rw [e, zpow_sub₀ (by norm_num : (2 : ℚ) ≠ 0), zpow_natCast, zpow_natCast]
    have h1' : (q.num.natAbs : ℚ) < (2 : ℚ) ^ (Nat.log2 q.num.natAbs + 1) := by exact_mod_cast h1
    have h2' : ((2 : ℚ) ^ (Nat.log2 q.den)) ≤ (q.den : ℚ) := by exact_mod_cast h2
    have hqd : q * (q.den : ℚ) = (q.num.natAbs : ℚ) := by
      have hc : (q.num : ℚ) = ((q.num.natAbs : Nat) : ℚ) := by
        have : q.num = ((q.num.natAbs : Nat) : Int) := (Int.natAbs_of_nonneg hnum.le).symm
        calc (q.num : ℚ) = (((q.num.natAbs : Nat) : Int) : ℚ) := by rw [← this]
          _ = ((q.num.natAbs : Nat) : ℚ) := Int.cast_natCast _
      rw [Rat.mul_den_eq_num q, hc]
    have hp : (0 : ℚ) < (2 : ℚ) ^ (Nat.log2 q.den) := pow_pos (by norm_num) _
    rw [lt_div_iff₀ hp]
    calc q * (2 : ℚ) ^ (Nat.log2 q.den)
        ≤ q * (q.den : ℚ) := mul_le_mul_of_nonneg_left h2' hq.le
      _ = (q.num.natAbs : ℚ) := hqd
      _ < (2 : ℚ) ^ (Nat.log2 q.num.natAbs + 1) := h1'

theorem binExp_eq (q : ℚ) (e : Int) (hq : 0 < q) (h1 : (2 : ℚ) ^ e ≤ q)
    (h2 : q < (2 : ℚ) ^ (e + 1)) : binExp q = e := by
  have a1 := binExp_le q hq
  have a2 := binExp_lt q hq
  have two : (1 : ℚ) < 2 := by norm_num
  have c1 : e < binExp q + 1 := (zpow_lt_zpow_iff_right₀ two).mp (lt_of_le_of_lt h1 a2)
  have c2 : binExp q < e + 1 := (zpow_lt_zpow_iff_right₀ two).mp (lt_of_le_of_lt a1 h2)
  omega

theorem f32_of_pos (q : ℚ) (e m : Int) (hq : 0 < q) (h1 : (2 : ℚ) ^ e ≤ q)
    (h2 : q < (2 : ℚ) ^ (e + 1)) (hm : roundHalfEven (q / (2 : ℚ) ^ (e - 23)) = m) :
    f32 q = (m : ℚ) * (2 : ℚ) ^ (e - 23) := by
  unfold f32
  rw [if_neg (ne_of_gt hq), if_neg (not_lt.mpr hq.le)]
  unfold f32pos
  dsimp only
  rw [binExp_eq q e hq h1 h2, hm]

/-! ## Truncation toward zero -/

theorem truncInt_le (z : ℚ) (h : 0 ≤ z) : (truncInt z : ℚ) ≤ z := by
  unfold truncInt
  rw [if_neg (by linarith)]
  exact Int.floor_le z

theorem truncInt_gt (z : ℚ) : z - 1 < (truncInt z : ℚ) := by
  unfold truncInt
  split
  · rename_i h
    have h1 : ((Rat.floor (-z) : Int) : ℚ) ≤ -z := Int.floor_le (-z)
    push_cast
    linarith
  · have := Int.lt_floor_add_one z
    have e : Rat.floor z = ⌊z⌋ := rfl
    rw [e]
    linarith

theorem truncInt_ge (z : ℚ) (h : z ≤ 0) : z ≤ (truncInt z : ℚ) := by
  unfold truncInt
  split
  · have h1 : ((Rat.floor (-z) : Int) : ℚ) ≤ -z := Int.floor_le (-z)
    push_cast
    linarith
  · rename_i h0
    have hz : z = 0 := le_antisymm h (not_lt.mp h0)
    rw [hz]
    have e : Rat.floor (0 : ℚ) = ⌊(0 : ℚ)⌋ := rfl
    rw [e, Int.floor_zero]
    norm_num

theorem truncInt_nonpos (z : ℚ) (h : z ≤ 0) : truncInt z ≤ 0 := by
  unfold truncInt
  split
  · have e : Rat.floor (-z) = ⌊-z⌋ := rfl
    rw [e]
    have : 0 ≤ ⌊-z⌋ := Int.floor_nonneg.mpr (by linarith)
    omega
  · rename_i h0
    have hz : z = 0 := le_antisymm h (not_lt.mp h0)
    rw [hz]
    have e : Rat.floor (0 : ℚ) = ⌊(0 : ℚ)⌋ := rfl
    rw [e, Int.floor_zero]

theorem truncInt_nonneg (z : ℚ) (h : 0 ≤ z) : 0 ≤ truncInt z := by
  unfold truncInt
  rw [if_neg (by linarith)]
  exact Int.floor_nonneg.mpr h

theorem truncInt_zero_of_lt_one (z : ℚ) (h0 : 0 ≤ z) (h1 : z < 1) : truncInt z = 0 := by
  have a := truncInt_nonneg z h0
  have b := truncInt_le z h0
  have c : (truncInt z : ℚ) < 1 := by linarith
  have d : truncInt z < 1 := by exact_mod_cast c
  omega

theorem truncInt_add_upper (x y w : ℚ) (h : |w - (x + y)| < 1) :
    truncInt w - truncInt x - truncInt y ≤ 2 := by
  rw [abs_lt] at h
  have gx := truncInt_gt x
  have gy := truncInt_gt y
  have gw := truncInt_gt (-w)
  rw [truncInt_neg] at gw
  push_cast at gw
  by_cases hw : 0 ≤ w
  · have lw := truncInt_le w hw
    have : ((truncInt w - truncInt x - truncInt y : Int) : ℚ) < 3 := by
      push_cast
      linarith
    have := (Int.cast_lt (R := ℚ)).mp (by push_cast; push_cast at this; exact this :
      ((truncInt w - truncInt x - truncInt y : Int) : ℚ) < ((3 : Int) : ℚ))
    omega
  · have hw' : w ≤ 0 := by linarith
    have nw := truncInt_nonpos w hw'
    by_cases hx : 0 < x
    · by_cases hy : 0 < y
      · have ex := truncInt_zero_of_lt_one x hx.le (by linarith)
        have ey := truncInt_zero_of_lt_one y hy.le (by linarith)
        omega
      · have ly := truncInt_ge y (by linarith)
        have : ((truncInt w - truncInt x - truncInt y : Int) : ℚ) < 3 := by
          push_cast
          linarith
        have := (Int.cast_lt (R := ℚ)).mp (by push_cast; push_cast at this; exact this :
          ((truncInt w - truncInt x - truncInt y : Int) : ℚ) < ((3 : Int) : ℚ))
        omega
    · have lx := truncInt_ge x (by linarith)
      have : ((truncInt w - truncInt x - truncInt y : Int) : ℚ) < 3 := by
        push_cast
        linarith
      have := (Int.cast_lt (R := ℚ)).mp (by push_cast; push_cast at this; exact this :
        ((truncInt w - truncInt x - truncInt y : Int) : ℚ) < ((3 : Int) : ℚ))
      omega

theorem truncInt_add_error (x y w : ℚ) (h : |w - (x + y)| < 1) :
    |truncInt w - truncInt x - truncInt y| ≤ 2 := by
  have h1 := truncInt_add_upper x y w h
  have h' : |(-w) - ((-x) + (-y))| < 1 := by
    have e : (-w) - ((-x) + (-y)) = -(w - (x + y)) := by ring
    rw [e, abs_neg]
    exact h
  have h2 := truncInt_add_upper (-x) (-y) (-w) h'
  rw [truncInt_neg, truncInt_neg, truncInt_neg] at h2
  rw [abs_le]
  constructor <;> omega

/-! ## Evaluation: the blend of a packed score -/

theorem floatOfInt_eq (z : Int) (h1 : -(2 ^ 24) < z) (h2 : z < 2 ^ 24) : floatOfInt z = z :=
  f32_intCast z h1 h2

theorem fmul_int_of_pos (z : Int) (c : ℚ) (e m : Int) (hz1 : -(2 ^ 24) < z) (hz2 : z < 2 ^ 24)
    (hq : 0 < (z : ℚ) * c) (h1 : (2 : ℚ) ^ e ≤ (z : ℚ) * c) (h2 : (z : ℚ) * c < (2 : ℚ) ^ (e + 1))
    (hm : roundHalfEven ((z : ℚ) * c / (2 : ℚ) ^ (e - 23)) = m) :
    fmul (floatOfInt z) c = (m : ℚ) * (2 : ℚ) ^ (e - 23) := by
  unfold fmul
  rw [floatOfInt_eq z hz1 hz2]
  exact f32_of_pos _ e m hq h1 h2 hm

theorem fsub_one_error (p : ℚ) (hp0 : 0 ≤ p) (hp1 : p ≤ 1) :
    |fsub 1 p - (1 - p)| ≤ 1 / 2 ^ 24 ∧ |fsub 1 p| ≤ 2 := by
  unfold fsub
  have h := f32_error (1 - p)
  have h0 : |1 - p| ≤ 1 := by
    rw [abs_le]
    constructor <;> linarith
  have h1 : |f32 (1 - p) - (1 - p)| ≤ 1 / 2 ^ 24 := by
    calc |f32 (1 - p) - (1 - p)| ≤ |1 - p| / 2 ^ 24 := h
      _ ≤ 1 / 2 ^ 24 := by
        apply div_le_div_of_nonneg_right h0
        positivity
  refine ⟨h1, ?_⟩
  rw [abs_le] at h1 h0 ⊢
  constructor
  · have : (1 : ℚ) / 2 ^ 24 ≤ 1 := by norm_num
    linarith [h1.1, h0.1]
  · have : (1 : ℚ) / 2 ^ 24 ≤ 1 := by norm_num
    linarith [h1.2, h0.2]

theorem fmul_error (z : Int) (c c0 : ℚ) (hz : |z| ≤ 65536) (hc : |c - c0| ≤ 1 / 2 ^ 24)
    (hc2 : |c| ≤ 2) : |fmul (floatOfInt z) c - (z : ℚ) * c0| ≤ 3 / 256 := by
  have hz' := abs_le.mp hz
  have hzq : |(z : ℚ)| ≤ 65536 := by
    rw [← Int.cast_abs]
    exact_mod_cast hz
  unfold fmul
  rw [floatOfInt_eq z (by norm_num; omega) (by norm_num; omega)]
  have h := f32_error ((z : ℚ) * c)
  have h1 : |(z : ℚ) * c| ≤ 65536 * 2 := by
    rw [abs_mul]
    exact mul_le_mul hzq hc2 (abs_nonneg _) (by norm_num)
  have h2 : |f32 ((z : ℚ) * c) - (z : ℚ) * c| ≤ 1 / 128 := by
    calc |f32 ((z : ℚ) * c) - (z : ℚ) * c| ≤ |(z : ℚ) * c| / 2 ^ 24 := h
      _ ≤ 65536 * 2 / 2 ^ 24 := by
        apply div_le_div_of_nonneg_right h1
        positivity
      _ = 1 / 128 := by norm_num
  have h3 : |(z : ℚ) * c - (z : ℚ) * c0| ≤ 1 / 256 := by
    rw [← mul_sub, abs_mul]
    calc |(z : ℚ)| * |c - c0| ≤ 65536 * (1 / 2 ^ 24) :=
          mul_le_mul hzq hc (abs_nonneg _) (by norm_num)
      _ = 1 / 256 := by norm_num
  have e : f32 ((z : ℚ) * c) - (z : ℚ) * c0
      = (f32 ((z : ℚ) * c) - (z : ℚ) * c) + ((z : ℚ) * c - (z : ℚ) * c0) := by ring
  rw [e]
  calc |(f32 ((z : ℚ) * c) - (z : ℚ) * c) + ((z : ℚ) * c - (z : ℚ) * c0)|
      ≤ |f32 ((z : ℚ) * c) - (z : ℚ) * c| + |(z : ℚ) * c - (z : ℚ) * c0| := abs_add _ _
    _ ≤ 1 / 128 + 1 / 256 := add_le_add h2 h3
    _ = 3 / 256 := by norm_num

theorem mgTerm_error (z : Int) (p : ℚ) (hz : |z| ≤ 65536) (hp0 : 0 ≤ p) (hp1 : p ≤ 1) :
    |fmul (floatOfInt z) (fsub 1 p) - (z : ℚ) * (1 - p)| ≤ 3 / 256 :=
  fmul_error z (fsub 1 p) (1 - p) hz (fsub_one_error p hp0 hp1).1 (fsub_one_error p hp0 hp1).2

theorem egTerm_error (z : Int) (p : ℚ) (hz : |z| ≤ 65536) (hp0 : 0 ≤ p) (hp1 : p ≤ 1) :
    |fmul (floatOfInt z) p - (z : ℚ) * p| ≤ 3 / 256 := by
  apply fmul_error z p p hz
  · rw [sub_self, abs_zero]
    positivity
  · rw [abs_le]
    constructor <;> linarith

theorem term_linear (x y : Int) (c c0 : ℚ) (hx : |x| ≤ 32768) (hy : |y| ≤ 32768)
    (herr : ∀ z : Int, |z| ≤ 65536 → |fmul (floatOfInt z) c - (z : ℚ) * c0| ≤ 3 / 256) :
    |truncInt (fmul (floatOfInt (x + y)) c) - truncInt (fmul (floatOfInt x) c)
        - truncInt (fmul (floatOfInt y) c)| ≤ 2 := by
  apply truncInt_add_error
  have hx' := abs_le.mp hx
  have hy' := abs_le.mp hy
  have e1 := abs_le.mp (herr (x + y) (by rw [abs_le]; constructor <;> omega))
  have e2 := abs_le.mp (herr x (by rw [abs_le]; constructor <;> omega))
  have e3 := abs_le.mp (herr y (by rw [abs_le]; constructor <;> omega))
  push_cast at e1
  rw [abs_lt]
  constructor <;> linarith [e1.1, e1.2, e2.1, e2.2, e3.1, e3.2]

theorem example_fsub : fsub 1 (9786709 / 16777216) = 6990507 / 16777216 := by
  unfold fsub
  rw [f32_of_pos (1 - 9786709 / 16777216) (-2) 13981014 (by norm_num) (by norm_num) (by norm_num)
    (by decide!)]
  norm_num

theorem mgTerm_2130 :
    truncInt (fmul (floatOfInt 2130) (6990507 / 16777216)) = 887 := by
  rw [fmul_int_of_pos 2130 (6990507 / 16777216) (9) 14540801 (by norm_num) (by norm_num) (by norm_num)
    (by norm_num) (by norm_num) (by decide!)]
  decide!

theorem mgTerm_187 :
    truncInt (fmul (floatOfInt 187) (6990507 / 16777216)) = 77 := by
  rw [fmul_int_of_pos 187 (6990507 / 16777216) (6) 10212694 (by norm_num) (by norm_num) (by norm_num)
    (by norm_num) (by norm_num) (by decide!)]
  decide!

theorem mgTerm_2317 :
    truncInt (fmul (floatOfInt 2317) (6990507 / 16777216)) = 965 := by
  rw [fmul_int_of_pos 2317 (6990507 / 16777216) (9) 15817387 (by norm_num) (by norm_num) (by norm_num)
    (by norm_num) (by norm_num) (by decide!)]
  decide!

theorem egTerm_864 :
    truncInt (fmul (floatOfInt 864) (9786709 / 16777216)) = 503 := by
  rw [fmul_int_of_pos 864 (9786709 / 16777216) (8) 16515071 (by norm_num) (by norm_num) (by norm_num)
    (by norm_num) (by norm_num) (by decide!)]
  decide!

theorem egTerm_1668 :
    truncInt (fmul (floatOfInt 1668) (9786709 / 16777216)) = 972 := by
  rw [fmul_int_of_pos 1668 (9786709 / 16777216) (9) 15941631 (by norm_num) (by norm_num) (by norm_num)
    (by norm_num) (by norm_num) (by decide!)]
  decide!

theorem egTerm_2532 :
    truncInt (fmul (floatOfInt 2532) (9786709 / 16777216)) = 1477 := by
  rw [fmul_int_of_pos 2532 (9786709 / 16777216) (10) 12099584 (by norm_num) (by norm_num) (by norm_num)
    (by norm_num) (by norm_num) (by decide!)]
  decide!

theorem blend_example_sum :
    blend (M 2130 864 + M 187 1668) (9786709 / 16777216) = 2442 := by
  have e : M 2130 864 + M 187 1668 = M 2317 2532 := rfl
  rw [e]
  unfold blend
  rw [example_fsub]
  show truncInt (fmul (floatOfInt 2317) (6990507 / 16777216))
    + truncInt (fmul (floatOfInt 2532) (9786709 / 16777216)) = 2442
  rw [mgTerm_2317, egTerm_2532]
  rfl

theorem blend_example_left : blend (M 2130 864) (9786709 / 16777216) = 1390 := by
  unfold blend
  rw [example_fsub]
  show truncInt (fmul (floatOfInt 2130) (6990507 / 16777216))
    + truncInt (fmul (floatOfInt 864) (9786709 / 16777216)) = 1390
  rw [mgTerm_2130, egTerm_864]
  rfl

theorem blend_example_right : blend (M 187 1668) (9786709 / 16777216) = 1049 := by
  unfold blend
  rw [example_fsub]
  show truncInt (fmul (floatOfInt 187) (6990507 / 16777216))
    + truncInt (fmul (floatOfInt 1668) (9786709 / 16777216)) = 1049
  rw [mgTerm_187, egTerm_1668]
  rfl

theorem blend_exact_error (s : EvalScore) (p : ℚ)
    (hmg : |MgScore s| ≤ 32768) (heg : |EgScore s| ≤ 32768) (hp0 : 0 ≤ p) (hp1 : p ≤ 1) :
    |blend s p - truncInt (exactBlend s p)| ≤ 2 := by
  have h1 := abs_le.mp (mgTerm_error (MgScore s) p (le_trans hmg (by norm_num)) hp0 hp1)
  have h2 := abs_le.mp (egTerm_error (EgScore s) p (le_trans heg (by norm_num)) hp0 hp1)
  have h := truncInt_add_error (fmul (floatOfInt (MgScore s)) (fsub 1 p))
    (fmul (floatOfInt (EgScore s)) p) (exactBlend s p) (by
      unfold exactBlend
      rw [abs_lt]
      constructor <;> linarith [h1.1, h1.2, h2.1, h2.2])
  unfold blend
  rw [abs_le] at h ⊢
  constructor <;> omega

theorem blend_phase_zero (mg eg : Int) (h1 : -(2 ^ 24) < mg) (h2 : mg < 2 ^ 24) :
    blend (M mg eg) 0 = mg := by
  unfold blend fmul fsub
  have e1 : f32 ((1 : ℚ) - 0) = 1 := by
    rw [sub_zero]
    exact_mod_cast f32_intCast 1 (by norm_num) (by norm_num)
  have e0 : f32 (0 : ℚ) = 0 := by
    unfold f32
    rw [if_pos rfl]
  rw [e1, mul_one, mul_zero, e0]
  show truncInt (f32 (floatOfInt mg)) + truncInt 0 = mg
  rw [floatOfInt_eq mg h1 h2, f32_intCast mg h1 h2]
  have fl : ∀ z : Int, Rat.floor (z : ℚ) = z := by
    intro z
    show ⌊(z : ℚ)⌋ = z
    exact Int.floor_intCast z
  have f0 : Rat.floor 0 = 0 := by
    show ⌊(0 : ℚ)⌋ = 0
    exact Int.floor_zero
  unfold truncInt
  by_cases c : (mg : ℚ) < 0
  · rw [if_pos c, if_neg (by norm_num), f0]
    rw [show (-(mg : ℚ)) = ((-mg : Int) : ℚ) by push_cast; ring, fl]
    omega
  · rw [if_neg c, if_neg (by norm_num), fl, f0]
    omega

theorem wrap16_of_range (x : Int) (h1 : -32768 ≤ x) (h2 : x ≤ 32767) : wrap16 x = x := by
  unfold wrap16
  omega

/-- Claim C11, as stated, fails: the blend is not linear within tolerance 1.  At the phase
1/2 (the phase of `rooksQueenBoard`) the blend of (1, 1) is 0 and the blend of
(1, 1) + (1, 1) is 2; at the phase of `queensRookBoard`, the `float` nearest to 14/24, the
blends of (2130, 864), of (187, 1668) and of their sum are 1390, 1049 and 2442, a
deviation of 3.  When a half of the sum leaves the signed 16-bit range, the deviation is
not bounded by any small tolerance: the middlegame half of (32760, 0) + (14, 14) is 32774,
the 16-bit half holds -32762, and at the phase 0 the blend of a score with this half is
-32762, whatever its endgame half, against 32760 + 14. -/
theorem blend_linearity_counterexample :
    phaseOf rooksQueenBoard = 1 / 2
      ∧ blend (M 1 1 + M 1 1) (1 / 2) = 2
      ∧ blend (M 1 1) (1 / 2) = 0
      ∧ phaseOf queensRookBoard = 9786709 / 16777216
      ∧ blend (M 2130 864 + M 187 1668) (9786709 / 16777216) = 2442
      ∧ blend (M 2130 864) (9786709 / 16777216) = 1390
      ∧ blend (M 187 1668) (9786709 / 16777216) = 1049
      ∧ EvalScore.fits16 (M 32760 0) ∧ EvalScore.fits16 (M 14 14)
      ∧ ¬ EvalScore.fits16 (M 32760 0 + M 14 14)
      ∧ wrap16 (MgScore (M 32760 0 + M 14 14)) = -32762
      ∧ (∀ eg : Int, blend (M (wrap16 (MgScore (M 32760 0 + M 14 14))) eg) 0
            - (blend (M 32760 0) 0 + blend (M 14 14) 0) = -65536) :=
  ⟨by decide!, by decide!, by decide!, by decide!, blend_example_sum, blend_example_left,
    blend_example_right, by decide, by decide, by decide, by decide,
    fun eg => by
      rw [show wrap16 (MgScore (M 32760 0 + M 14 14)) = -32762 by decide,
        blend_phase_zero _ eg (by norm_num) (by norm_num),
        blend_phase_zero 32760 0 (by norm_num) (by norm_num),
        blend_phase_zero 14 14 (by norm_num) (by norm_num)]
      norm_num⟩

/-- Claim C11, amended: for packed scores `a` and `b` such that the halves of `a`, of `b`
and of the sum `a + b` are within the signed 16-bit range, and every phase `p` in [0, 1],
the scalar blend used by `evaluate` is linear within tolerance 4:
`|blend(a+b, p) - (blend(a, p) + blend(b, p))| <= 4`; each of the two truncated products
deviates by at most 2.  Under the range condition the halves of the sum are not changed by
the 16-bit wrap-around, so the sum is the sum of the code. -/
theorem blend_linearity (a b : EvalScore) (p : ℚ)
    (ha : EvalScore.fits16 a) (hb : EvalScore.fits16 b) (hab : EvalScore.fits16 (a + b))
    (hp0 : 0 ≤ p) (hp1 : p ≤ 1) :
    |blend (a + b) p - (blend a p + blend b p)| ≤ 4
      ∧ wrap16 (MgScore (a + b)) = MgScore (a + b)
      ∧ wrap16 (EgScore (a + b)) = EgScore (a + b) := by
  obtain ⟨⟨ha1, ha2⟩, ha3, ha4⟩ := ha
  obtain ⟨⟨hb1, hb2⟩, hb3, hb4⟩ := hb
  refine ⟨?_, wrap16_of_range _ hab.1.1 hab.1.2, wrap16_of_range _ hab.2.1 hab.2.2⟩
  have hu := term_linear (MgScore a) (MgScore b) (fsub 1 p) (1 - p)
    (abs_le.mpr ⟨by omega, by omega⟩) (abs_le.mpr ⟨by omega, by omega⟩)
    (fun z hz => mgTerm_error z p hz hp0 hp1)
  have hv := term_linear (EgScore a) (EgScore b) p p
    (abs_le.mpr ⟨by omega, by omega⟩) (abs_le.mpr ⟨by omega, by omega⟩)
    (fun z hz => egTerm_error z p hz hp0 hp1)
  have e1 : MgScore (a + b) = MgScore a + MgScore b := rfl
  have e2 : EgScore (a + b) = EgScore a + EgScore b := rfl
  unfold blend
  rw [e1, e2]
  rw [abs_le] at hu hv ⊢
  constructor <;> omega

/-- Witness of `blend_linearity`: the scores (1, 1) and (1, 1) at the phase 1/2. -/
theorem blend_linearity_witness :
    (EvalScore.fits16 (M 1 1) ∧ EvalScore.fits16 (M 1 1 + M 1 1)
        ∧ (0 : ℚ) ≤ 1 / 2 ∧ (1 / 2 : ℚ) ≤ 1)
    ∧ |blend (M 1 1 + M 1 1) (1 / 2) - (blend (M 1 1) (1 / 2) + blend (M 1 1) (1 / 2))| ≤ 4
    ∧ wrap16 (MgScore (M 1 1 + M 1 1)) = MgScore (M 1 1 + M 1 1)
    ∧ wrap16 (EgScore (M 1 1 + M 1 1)) = EgScore (M 1 1 + M 1 1) :=
  ⟨⟨by decide, by decide, by norm_num, by norm_num⟩,
    blend_linearity (M 1 1) (M 1 1) (1 / 2) (by decide) (by decide) (by decide)
      (by norm_num) (by norm_num)⟩

/-- Claim C12, as stated, fails: the scalar is not a single rounding of the exact sum.
For the packed score (1, 1) at the phase 1/2 the exact sum `mg*(1-p) + eg*p` is 1, but
the two products are truncated one by one and the scalar is 0; `evaluate` returns this 0
through its lazy return on `rooksQueenBoard`, whose material score is (1, 1) and whose
phase is 1/2. -/
theorem blend_single_rounding_counterexample :
    blend (M 1 1) (1 / 2) = 0
      ∧ exactBlend (M 1 1) (1 / 2) = 1
      ∧ truncInt (exactBlend (M 1 1) (1 / 2)) = 1
      ∧ rooksQueenBoard.material = M 1 1
      ∧ phaseOf rooksQueenBoard = 1 / 2
      ∧ (someEvaluator.evaluate rooksQueenBoard 1000 2000).1 = some 0 :=
  ⟨by decide!, by decide!, by decide!, rfl, by decide!, by decide!⟩

/-- Claim C12, amended: for every packed score `(mg, eg)` with components of absolute
value at most 32768 and every phase `p` in [0, 1], the scalar that `evaluate` derives is
the sum of the two products, each made in `float` and truncated toward zero on its own,
`trunc(float(mg) * (1 - p)) + trunc(float(eg) * p)`; it differs from `mg*(1-p) + eg*p`
rounded toward zero by at most 2, and the lazy score of `evaluate` is this scalar of the
material score seen from the side to move. -/
theorem blend_two_roundings (s : EvalScore) (p : ℚ)
    (hmg : |MgScore s| ≤ 32768) (heg : |EgScore s| ≤ 32768) (hp0 : 0 ≤ p) (hp1 : p ≤ 1) :
    blend s p = truncInt (f32 ((MgScore s : ℚ) * f32 (1 - p)))
        + truncInt (f32 ((EgScore s : ℚ) * p))
      ∧ |blend s p - truncInt (exactBlend s p)| ≤ 2
      ∧ ∀ b : Board, lazyScoreOf b
          = blend b.material (phaseOf b) * (if b.getActivePlayer = WHITE then 1 else -1) := by
  have h1 := abs_le.mp hmg
  have h2 := abs_le.mp heg
  refine ⟨?_, blend_exact_error s p hmg heg hp0 hp1, ?_⟩
  · unfold blend fmul fsub
    rw [floatOfInt_eq _ (by norm_num; omega) (by norm_num; omega),
      floatOfInt_eq _ (by norm_num; omega) (by norm_num; omega)]
  · intro b
    unfold lazyScoreOf blend
    rw [zero_add]

/-- Witness of `blend_two_roundings`: the score (1, 1) at the phase 1/2. -/
theorem blend_two_roundings_witness :
    (|MgScore (M 1 1)| ≤ 32768 ∧ |EgScore (M 1 1)| ≤ 32768 ∧ (0 : ℚ) ≤ 1 / 2 ∧ (1 / 2 : ℚ) ≤ 1)
    ∧ |blend (M 1 1) (1 / 2) - truncInt (exactBlend (M 1 1) (1 / 2))| ≤ 2 :=
  ⟨⟨by decide, by decide, by norm_num, by norm_num⟩,
    (blend_two_roundings (M 1 1) (1 / 2) (by decide) (by decide) (by norm_num)
      (by norm_num)).2.1⟩

/-- Claim C21: for every `pvSearch` call with `alpha < beta` that reaches the
mate-distance step, the step returns `MAX_MATE_SCORE - ply` if `alpha >= MAX_MATE_SCORE -
ply`; else it returns `-(MAX_MATE_SCORE - ply)` if the (possibly lowered) beta
`min(beta, MAX_MATE_SCORE - ply)` is at most `-(MAX_MATE_SCORE - ply)`; otherwise the move
loop runs with `alpha' = max(alpha, -(MAX_MATE_SCORE - ply))` and
`beta' = min(beta, MAX_MATE_SCORE - ply)`, which satisfy
`-(MAX_MATE_SCORE - ply) <= alpha' < beta' <= MAX_MATE_SCORE - ply`. -/
theorem mateDistance_step (env : Env B SD)
    (search : State B SD → Int → Int → Nat → Nat → Bool → PvResult B SD)
    (st : State B SD) (zobrist : Nat) (pv : Bool) (originalAlpha alpha beta : Int)
    (depth ply : Nat) (hashMove : Nat) (hab : alpha < beta) :
    mateDistanceAndLoop env search st zobrist pv originalAlpha alpha beta depth ply hashMove
        = (if alpha ≥ env.MAX_MATE_SCORE - ply then
            some (env.MAX_MATE_SCORE - ply, Exit.mateUpper, st)
          else if min beta (env.MAX_MATE_SCORE - ply) ≤ -(env.MAX_MATE_SCORE - ply) then
            some (-(env.MAX_MATE_SCORE - ply), Exit.mateLower, st)
          else
            pvLoop env search zobrist pv originalAlpha (min beta (env.MAX_MATE_SCORE - ply))
              depth ply (env.orderPV (st.moves ply) hashMove st.sd) st
              ⟨max alpha (-(env.MAX_MATE_SCORE - ply)), -env.MAX_MATE_SCORE, 0, 0⟩)
      ∧ (¬ alpha ≥ env.MAX_MATE_SCORE - ply →
          ¬ min beta (env.MAX_MATE_SCORE - ply) ≤ -(env.MAX_MATE_SCORE - ply) →
          -(env.MAX_MATE_SCORE - ply) ≤ max alpha (-(env.MAX_MATE_SCORE - ply))
            ∧ max alpha (-(env.MAX_MATE_SCORE - ply)) < min beta (env.MAX_MATE_SCORE - ply)
            ∧ min beta (env.MAX_MATE_SCORE - ply) ≤ env.MAX_MATE_SCORE - ply) := by
  constructor
  · unfold mateDistanceAndLoop
    dsimp only
    have e : -env.MAX_MATE_SCORE + (ply : Int) = -(env.MAX_MATE_SCORE - ply) := by ring
    rw [e]
    generalize env.MAX_MATE_SCORE - (ply : Int) = mv
    have hmin : (if mv < beta then mv else beta) = min beta mv := by
      rw [min_def]
      split <;> split <;> omega
    have hmax : (if -mv > alpha then -mv else alpha) = max alpha (-mv) := by
      rw [max_def]
      split <;> split <;> omega
    rw [hmin, hmax]
    by_cases c1 : alpha ≥ mv
    · rw [if_pos ⟨by omega, c1⟩, if_pos c1]
    · rw [if_neg (fun h => c1 h.2), if_neg c1]
      by_cases c2 : min beta mv ≤ -mv
      · have : -mv > alpha := by
          rcases min_choice beta mv with h | h <;> rw [h] at c2 <;> omega
        rw [if_pos ⟨this, c2⟩, if_pos c2]
      · rw [if_neg (fun h => c2 h.2), if_neg c2]
  · intro c1 c2
    refine ⟨le_max_right _ _, ?_, min_le_right _ _⟩
    rw [max_lt_iff, lt_min_iff, lt_min_iff]
    rw [min_le_iff] at c2
    push_neg at c1 c2
    exact ⟨⟨hab, c1⟩, by omega, by omega⟩

/-- Witness of `mateDistance_step`: the window (31999, 32000) at ply 2 of the counter
game. -/
theorem mateDistance_step_witness :
    ((31999 : Int) < 32000)
    ∧ mateDistanceAndLoop (toyEnv toyNever toyNever (toyClock 50))
        (pvSearch (toyEnv toyNever toyNever (toyClock 50)) 5) (toyState 5 toyTable 100) 10
        false 31999 31999 32000 1 2 0
      = (if (31999 : Int) ≥ (toyEnv toyNever toyNever (toyClock 50)).MAX_MATE_SCORE - (2 : Nat)
          then some ((toyEnv toyNever toyNever (toyClock 50)).MAX_MATE_SCORE - (2 : Nat),
            Exit.mateUpper, toyState 5 toyTable 100)
        else if min 32000 ((toyEnv toyNever toyNever (toyClock 50)).MAX_MATE_SCORE - (2 : Nat))
            ≤ -((toyEnv toyNever toyNever (toyClock 50)).MAX_MATE_SCORE - (2 : Nat)) then
          some (-((toyEnv toyNever toyNever (toyClock 50)).MAX_MATE_SCORE - (2 : Nat)),
            Exit.mateLower, toyState 5 toyTable 100)
        else
          pvLoop (toyEnv toyNever toyNever (toyClock 50))
            (pvSearch (toyEnv toyNever toyNever (toyClock 50)) 5) 10 false 31999
            (min 32000 ((toyEnv toyNever toyNever (toyClock 50)).MAX_MATE_SCORE - (2 : Nat)))
            1 2
            ((toyEnv toyNever toyNever (toyClock 50)).orderPV
              ((toyState 5 toyTable 100).moves 2) 0 (toyState 5 toyTable 100).sd)
            (toyState 5 toyTable 100)
            ⟨max 31999 (-((toyEnv toyNever toyNever (toyClock 50)).MAX_MATE_SCORE - (2 : Nat))),
              -(toyEnv toyNever toyNever (toyClock 50)).MAX_MATE_SCORE, 0, 0⟩) :=
  ⟨by decide,
    (mateDistance_step (toyEnv toyNever toyNever (toyClock 50))
      (pvSearch (toyEnv toyNever toyNever (toyClock 50)) 5) (toyState 5 toyTable 100) 10
      false 31999 31999 32000 1 2 0 (by decide)).1⟩

/-- Claim C27: for every board and window with `alpha <= beta`, with `s` the value of
`evaluate(b)` seen from the side to move, `qSearch` returns beta at once when `s >= beta`,
having changed nothing but the node counter (no move list is filled, no move is made);
otherwise it returns (for every amount of fuel above the measure of the board) a value
`v` with `max(alpha, s) <= v <= beta`. -/
theorem qSearch_stand_pat (env : Env B SD) (mu : B → Nat)
    (hundo : ∀ b m, env.undoMove (env.move b m) = b)
    (hmu : ∀ b m, m ∈ env.orderQ (env.getNonQuietMoves b) → env.isLegal b m = true →
      mu (env.move b m) < mu b)
    (fuel : Nat) (st : State B SD) (alpha beta : Int) (ply : Nat)
    (hab : alpha ≤ beta) (hfuel : mu st.board < fuel) :
    (env.evaluate st.board * (if env.getActivePlayer st.board = false then 1 else -1) ≥ beta →
        qSearch env fuel st alpha beta ply = some (beta, { st with nodes := st.nodes + 1 }))
      ∧ (env.evaluate st.board * (if env.getActivePlayer st.board = false then 1 else -1) < beta →
        ∃ v st', qSearch env fuel st alpha beta ply = some (v, st')
          ∧ max alpha (env.evaluate st.board
              * (if env.getActivePlayer st.board = false then 1 else -1)) ≤ v
          ∧ v ≤ beta) := by
  obtain ⟨f, rfl⟩ : ∃ f, fuel = f + 1 := ⟨fuel - 1, by omega⟩
  constructor
  · intro h
    simp only [qSearch]
    rw [if_pos h]
  · intro h
    obtain ⟨v, st', e, _⟩ := qSearch_total env mu hundo hmu (f + 1) st alpha beta ply hfuel
    refine ⟨v, st', e, ?_⟩
    simp only [qSearch] at e
    generalize env.evaluate st.board * (if env.getActivePlayer st.board = false then 1 else -1)
      = sp at h e
    rw [if_neg (by omega)] at e
    have hmax : (if alpha < sp then sp else alpha) = max alpha sp := by
      rw [max_def]
      split <;> split <;> omega
    rw [hmax] at e
    exact qLoop_window env (qSearch env f) beta ply _ _ _ _ _
      (by rw [max_le_iff]; omega) e

/-- Witness of `qSearch_stand_pat` in the counter game: seven counters, window (-3, 4). -/
theorem qSearch_stand_pat_witness :
    ((-3 : Int) ≤ 4 ∧ toyMu (toyState 7 toyTable 100).board < 8
      ∧ (toyEnv toyNever toyNever (toyClock 6)).evaluate (toyState 7 toyTable 100).board
          * (if (toyEnv toyNever toyNever (toyClock 6)).getActivePlayer
              (toyState 7 toyTable 100).board = false then 1 else -1) < 4)
    ∧ ∃ v st', qSearch (toyEnv toyNever toyNever (toyClock 6)) 8 (toyState 7 toyTable 100)
          (-3) 4 0 = some (v, st')
        ∧ max (-3) ((toyEnv toyNever toyNever (toyClock 6)).evaluate
            (toyState 7 toyTable 100).board
            * (if (toyEnv toyNever toyNever (toyClock 6)).getActivePlayer
                (toyState 7 toyTable 100).board = false then 1 else -1)) ≤ v
        ∧ v ≤ 4 :=
  ⟨by decide,
    (qSearch_stand_pat (toyEnv toyNever toyNever (toyClock 6)) toyMu (toy_undo _ _ _)
      (toy_mu_decreases _ _ _) 8 (toyState 7 toyTable 100) (-3) 4 0 (by decide) (by decide)).2
      (by decide)⟩

/-- Claim C30: assuming `undoMove` undoes `move` and `undoMove_null` undoes `move_null`,
`pvSearch`, `qSearch` and `extractPV` leave the board exactly as they found it on every
return path: whatever a call returns (time-out, draw, table return, null-move cutoff,
mate-distance return, beta cutoff or the end of the move loop), the board of the state it
leaves is the board of the state it was called on. -/
theorem search_keeps_board (env : Env B SD)
    (hundo : ∀ b m, env.undoMove (env.move b m) = b)
    (hnull : ∀ b, env.undoMove_null (env.move_null b) = b) :
    (∀ (fuel : Nat) (st : State B SD) (alpha beta : Int) (depth ply : Nat) (cut : Bool)
        (r : Int) (x : Exit) (s : State B SD),
        pvSearch env fuel st alpha beta depth ply cut = some (r, x, s) → s.board = st.board)
      ∧ (∀ (fuel : Nat) (st : State B SD) (alpha beta : Int) (ply : Nat) (v : Int)
          (s : State B SD),
          qSearch env fuel st alpha beta ply = some (v, s) → s.board = st.board)
      ∧ (∀ (table : TranspositionTable) (depth : Nat) (b : B),
          (extractPV env table depth b).1 = b) :=
  ⟨fun fuel => pvSearch_board env hundo hnull fuel, qSearch_board env hundo,
    extractPV_board env hundo⟩

/-- Witness of `search_keeps_board`: a search of depth 2 in the counter game returns and
leaves the board of five counters. -/
theorem search_keeps_board_witness :
    ((∀ b m, (toyEnv toyNever toyNever (toyClock 6)).undoMove
          ((toyEnv toyNever toyNever (toyClock 6)).move b m) = b)
      ∧ (∀ b, (toyEnv toyNever toyNever (toyClock 6)).undoMove_null
          ((toyEnv toyNever toyNever (toyClock 6)).move_null b) = b))
    ∧ ∃ r x s, pvSearch (toyEnv toyNever toyNever (toyClock 6)) 18 (toyState 5 toyTable 100)
          (-32000) 32000 2 0 false = some (r, x, s)
        ∧ s.board = (toyState 5 toyTable 100).board :=
  ⟨⟨toy_undo _ _ _, fun b => by cases b; simp [toyEnv]⟩,
    (pvSearch_total (toyEnv toyNever toyNever (toyClock 6)) toyMu 10 6 100
      (toy_undo _ _ _) (toy_mu_decreases _ _ _) toy_mu_le (toy_timeUp _ _ 6) 18
      (toyState 5 toyTable 100) (-32000) 32000 2 0 false rfl (by decide)).elim
      (fun r h => h.elim (fun x h2 => h2.elim (fun s h3 => ⟨r, x, s, h3.1,
        (search_keeps_board (toyEnv toyNever toyNever (toyClock 6)) (toy_undo _ _ _)
          (fun b => by cases b; simp [toyEnv])).1 _ _ _ _ _ _ _ _ _ _ h3.1⟩)))⟩

/-! ## Evaluation: king safety -/

theorem piecesED_ksAttackCount (c : Bool) (t : Nat) (b : Board) (ed : EvalData) (d : Bool) :
    (piecesED c t b ed).ksAttackCount d
      = ed.ksAttackCount d + (if d = !c then
          ((bitsOf (b.getPieceBB c t)).map (fun s =>
            ksCount (ed.kingZone (!c)) (pieceAttacks c t b s))).sum else 0) := by
  unfold piecesED applyPiece setC
  dsimp only
  split
  · rename_i h
    rw [h]
  · rw [add_zero]

theorem piecesED_kingZone (c : Bool) (t : Nat) (b : Board) (ed : EvalData) :
    (piecesED c t b ed).kingZone = ed.kingZone := rfl

theorem pairScore_kingZone (t : Nat) (ht : t = KNIGHT ∨ t = BISHOP ∨ t = ROOK ∨ t = QUEEN)
    (ed : EvalData) (b : Board) : (pairScore t ed b).2.kingZone = ed.kingZone := by
  unfold pairScore
  dsimp only
  rw [computePieces_eq WHITE t ht, computePieces_eq BLACK t ht]
  rfl

theorem pairScore_ksAttackCount (t : Nat)
    (ht : t = KNIGHT ∨ t = BISHOP ∨ t = ROOK ∨ t = QUEEN)
    (ed : EvalData) (b : Board) (d : Bool) :
    (pairScore t ed b).2.ksAttackCount d
      = ed.ksAttackCount d + ((bitsOf (b.getPieceBB (!d) t)).map (fun s =>
          ksCount (ed.kingZone d) (pieceAttacks (!d) t b s))).sum := by
  unfold pairScore
  dsimp only
  rw [computePieces_eq WHITE t ht, computePieces_eq BLACK t ht]
  dsimp only
  rw [piecesED_ksAttackCount, piecesED_ksAttackCount, piecesED_kingZone]
  cases d <;> simp

theorem features_ksAttackCount (b : Board) (c : Bool) :
    (features b).2.ksAttackCount c = attackerCount b c := by
  unfold features kingsPair attackerCount
  dsimp only
  have e1 : ∀ (ed : EvalData), ((computeKings BLACK (computeKings WHITE ed b).2 b).2).ksAttackCount c
      = ed.ksAttackCount c := fun _ => rfl
  have e2 : (computePawns (initED b) b).2.ksAttackCount c = 0 := rfl
  have e3 : (computePawns (initED b) b).2.kingZone c
      = KING_ATTACKS (bitscanForward (b.getPieceBB c KING)) := by
    cases c <;> rfl
  simp only [e1, pairScore_ksAttackCount QUEEN (by decide), pairScore_kingZone QUEEN (by decide),
    pairScore_ksAttackCount ROOK (by decide), pairScore_kingZone ROOK (by decide),
    pairScore_ksAttackCount BISHOP (by decide), pairScore_kingZone BISHOP (by decide),
    pairScore_ksAttackCount KNIGHT (by decide), pairScore_kingZone KNIGHT (by decide),
    e2, e3, List.map_cons, List.map_nil, List.sum_cons, List.sum_nil]
  omega

/-- Claim C26: for every colour, `computeKingSafety<colour>` returns the packed score
`(-danger, 0)` with `danger = ksAttackValue[colour] *
kingSafetyAttackScale[ksAttackCount[colour]] / 100` (integer division) whenever the count
indexes the table, that is, is below 8: the endgame component is 0; and the whole term is
(0, 0) when the count is below two, which in the full evaluation is the case whenever
fewer than two knights, bishops, rooks and queens of the opponent attack the king zone. -/
theorem computeKingSafety_value (color : Bool) (ed : EvalData)
    (h : ed.ksAttackCount color < 8) :
    kingSafetyAttackScale = [0, 0, 36, 66, 91, 105, 1453, 99]
      ∧ (∃ scale : Int, kingSafetyAttackScale.get? (ed.ksAttackCount color) = some scale
          ∧ computeKingSafety color ed
            = some (M (-((ed.ksAttackValue color * scale).tdiv 100)) 0))
      ∧ (∀ v, computeKingSafety color ed = some v → EgScore v = 0)
      ∧ (ed.ksAttackCount color < 2 → computeKingSafety color ed = some (M 0 0))
      ∧ (∀ b : Board, (features b).2.ksAttackCount color = attackerCount b color)
      ∧ (∀ b : Board, attackerCount b color < 2 →
          computeKingSafety color (features b).2 = some (M 0 0)) := by
  have hlen : ed.ksAttackCount color < kingSafetyAttackScale.length := h
  have key : ∀ e : EvalData, e.ksAttackCount color < 2 →
      computeKingSafety color e = some (M 0 0) := by
    intro e h2
    unfold computeKingSafety
    have : e.ksAttackCount color = 0 ∨ e.ksAttackCount color = 1 := by omega
    rcases this with h0 | h0 <;> rw [h0] <;> simp [kingSafetyAttackScale, M]
  refine ⟨rfl, ⟨kingSafetyAttackScale.get ⟨_, hlen⟩, List.get?_eq_get hlen, ?_⟩, ?_, key ed,
    fun b => features_ksAttackCount b color, ?_⟩
  · unfold computeKingSafety
    rw [List.get?_eq_get hlen]
  · intro v hv
    unfold computeKingSafety at hv
    rw [List.get?_eq_get hlen] at hv
    simp only [Option.some.injEq] at hv
    rw [← hv]
    rfl
  · intro b hb
    apply key
    rw [features_ksAttackCount]
    exact hb

/-- Witness of `computeKingSafety_value`: the scratchpad `threeAttackers`, with three
attackers of value 80 against the white king. -/
theorem computeKingSafety_value_witness :
    threeAttackers.ksAttackCount WHITE < 8
    ∧ ∃ scale : Int, kingSafetyAttackScale.get? (threeAttackers.ksAttackCount WHITE)
          = some scale
        ∧ computeKingSafety WHITE threeAttackers
          = some (M (-((threeAttackers.ksAttackValue WHITE * scale).tdiv 100)) 0) :=
  ⟨by decide, (computeKingSafety_value WHITE threeAttackers (by decide)).2.1⟩

/-! ## Evaluation: the scratchpad of earlier evaluations -/

/-- Claim C29: the score returned by `evaluate(b, alpha, beta)` does not depend on what
earlier evaluations left in the evaluator: two runs on the same board and window that
start from arbitrary scratchpads and phases return the same score and leave the same
phase; a full evaluation also leaves the same scratchpad (it is value-initialised at line
715 before any feature function reads it), while a lazy return leaves the scratchpad it
found. -/
theorem evaluate_scratchpad_independent (ev ev' : Evaluator) (b : Board) (alpha beta : Int) :
    (ev.evaluate b alpha beta).1 = (ev'.evaluate b alpha beta).1
      ∧ (ev.evaluate b alpha beta).2.phase = (ev'.evaluate b alpha beta).2.phase
      ∧ (¬ (lazyScoreOf b < alpha - lazyEvalAlphaBound
            ∨ lazyScoreOf b > beta + lazyEvalBetaBound) →
          (ev.evaluate b alpha beta).2 = (ev'.evaluate b alpha beta).2
            ∧ (ev.evaluate b alpha beta).1 = (totalScoreOf b).1.map (blendScore b (phaseOf b)))
      ∧ ((lazyScoreOf b < alpha - lazyEvalAlphaBound
            ∨ lazyScoreOf b > beta + lazyEvalBetaBound) →
          (ev.evaluate b alpha beta).2.evalData = ev.evalData) := by
  rw [evaluate_eq ev, evaluate_eq ev']
  by_cases h : lazyScoreOf b < alpha - lazyEvalAlphaBound
      ∨ lazyScoreOf b > beta + lazyEvalBetaBound
  · rw [if_pos h, if_pos h]
    exact ⟨rfl, rfl, fun hn => absurd h hn, fun _ => rfl⟩
  · rw [if_neg h, if_neg h]
    exact ⟨rfl, rfl, fun _ => ⟨rfl, rfl⟩, fun hp => absurd hp h⟩

/-! ## Search: the history data -/

theorem HistoryPath.append {env : Env B SD} {a b c : SD} (h1 : HistoryPath env a b)
    (h2 : HistoryPath env b c) : HistoryPath env a c := by
  induction h2 with
  | same => exact h1
  | add sd' m d _ ih => exact HistoryPath.add _ _ m d ih
  | sub sd' m d _ ih => exact HistoryPath.sub _ _ m d ih

theorem qLoop_sd (env : Env B SD)
    (search : State B SD → Int → Int → Nat → Option (Int × State B SD))
    (hs : ∀ st a b p v s, search st a b p = some (v, s) → s.sd = st.sd)
    (beta : Int) (ply : Nat) :
    ∀ (ms : List Nat) (st : State B SD) (alpha v : Int) (s : State B SD),
      qLoop env search beta ply ms st alpha = some (v, s) → s.sd = st.sd := by
  intro ms
  induction ms with
  | nil =>
    intro st alpha v s h
    simp only [qLoop, Option.some.injEq, Prod.mk.injEq] at h
    rw [← h.2]
  | cons m ms ih =>
    intro st alpha v s h
    rw [qLoop] at h
    split at h
    · exact ih _ _ _ _ h
    · dsimp only at h
      split at h
      · exact absurd h (by simp)
      · rename_i r st2 heq
        have hb0 := hs _ _ _ _ _ _ heq
        have hb : st2.sd = st.sd := hb0
        split at h
        · simp only [Option.some.injEq, Prod.mk.injEq] at h
          rw [← h.2]
          exact hb
        · split at h
          · exact (ih _ _ _ _ h).trans hb
          · exact (ih _ _ _ _ h).trans hb

theorem qSearch_sd (env : Env B SD) :
    ∀ (fuel : Nat) (st : State B SD) (alpha beta : Int) (ply : Nat) (v : Int) (s : State B SD),
      qSearch env fuel st alpha beta ply = some (v, s) → s.sd = st.sd := by
  intro fuel
  induction fuel with
  | zero => intro st alpha beta ply v s h; simp [qSearch] at h
  | succ fuel ih =>
    intro st alpha beta ply v s h
    simp only [qSearch] at h
    generalize env.evaluate st.board * (if env.getActivePlayer st.board = false then 1 else -1)
      = sp at h
    by_cases hsp : sp ≥ beta
    · rw [if_pos hsp] at h
      simp only [Option.some.injEq, Prod.mk.injEq] at h
      rw [← h.2]
    · rw [if_neg hsp] at h
      have := qLoop_sd env (qSearch env fuel) ih beta ply _ _ _ _ _ h
      exact this

theorem searchMove_history (env : Env B SD)
    (search : State B SD → Int → Int → Nat → Nat → Bool → PvResult B SD)
    (hs : KeepsHistory env search) (st1 : State B SD) (alpha beta : Int) (depth ply : Nat)
    (pv : Bool) (legalMoves lmr : Nat) (extension : Int) (score : Int) (s : State B SD)
    (h : searchMove search st1 alpha beta depth ply pv legalMoves lmr extension
      = some (score, s)) : HistoryPath env st1.sd s.sd := by
  unfold searchMove at h
  split at h
  · split at h
    · exact absurd h (by simp)
    · rename_i r x s0 heq
      simp only [Option.some.injEq, Prod.mk.injEq] at h
      rw [← h.2]
      exact hs _ _ _ _ _ _ _ _ _ heq
  · split at h
    · exact absurd h (by simp)
    · rename_i r1 x1 s1 heq1
      have b1 : HistoryPath env st1.sd s1.sd := hs _ _ _ _ _ _ _ _ _ heq1
      dsimp only at h
      by_cases hc : lmr ≠ 0 ∧ -r1 > alpha
      · rw [if_pos hc] at h
        split at h
        · exact absurd h (by simp)
        · rename_i score2 s2 heq2
          split at heq2
          · exact absurd heq2 (by simp)
          · rename_i r2 x2 s2' heq2'
            simp only [Option.some.injEq, Prod.mk.injEq] at heq2
            have b2 : HistoryPath env st1.sd s2.sd := by
              rw [← heq2.2]
              exact b1.append (hs _ _ _ _ _ _ _ _ _ heq2')
            split at h
            · split at h
              · exact absurd h (by simp)
              · rename_i r3 x3 s3 heq3
                simp only [Option.some.injEq, Prod.mk.injEq] at h
                rw [← h.2]
                exact b2.append (hs _ _ _ _ _ _ _ _ _ heq3)
            · simp only [Option.some.injEq, Prod.mk.injEq] at h
              rw [← h.2]
              exact b2
      · rw [if_neg hc] at h
        dsimp only at h
        split at h
        · split at h
          · exact absurd h (by simp)
          · rename_i r3 x3 s3 heq3
            simp only [Option.some.injEq, Prod.mk.injEq] at h
            rw [← h.2]
            exact b1.append (hs _ _ _ _ _ _ _ _ _ heq3)
        · simp only [Option.some.injEq, Prod.mk.injEq] at h
          rw [← h.2]
          exact b1

theorem pvLoop_history (env : Env B SD)
    (search : State B SD → Int → Int → Nat → Nat → Bool → PvResult B SD)
    (hs : KeepsHistory env search)
    (zobrist : Nat) (pv : Bool) (originalAlpha beta : Int) (depth ply : Nat) :
    ∀ (ms : List Nat) (st : State B SD) (v : LoopVars) (r : Int) (x : Exit) (s : State B SD),
      pvLoop env search zobrist pv originalAlpha beta depth ply ms st v = some (r, x, s) →
      HistoryPath env st.sd s.sd := by
  intro ms
  induction ms with
  | nil =>
    intro st v r x s h
    rw [pvLoop] at h
    unfold pvEpilogue at h
    split at h
    · split at h <;>
      · simp only [Option.some.injEq, Prod.mk.injEq] at h
        rw [← h.2.2]
        exact HistoryPath.same _
    · split at h <;>
      · simp only [Option.some.injEq, Prod.mk.injEq] at h
        rw [← h.2.2]
        exact HistoryPath.same _
  | cons m ms ih =>
    intro st v r x s h
    rw [pvLoop] at h
    split at h
    · exact ih _ _ _ _ _ h
    · dsimp only at h
      split at h
      · exact absurd h (by simp)
      · rename_i score s1 heq
        have hb0 := searchMove_history env search hs _ _ _ _ _ _ _ _ _ _ _ heq
        have hb : HistoryPath env st.sd s1.sd := hb0
        split at h
        · simp only [Option.some.injEq, Prod.mk.injEq] at h
          rw [← h.2.2]
          exact HistoryPath.add _ _ m depth hb
        · split at h
          · by_cases hp : ply = 0
            · rw [if_pos hp] at h
              have := ih _ _ _ _ _ h
              exact hb.append this
            · rw [if_neg hp] at h
              have := ih _ _ _ _ _ h
              exact hb.append this
          · have := ih _ _ _ _ _ h
            exact (HistoryPath.sub _ _ m depth hb).append this

theorem nullMovePruning_history (env : Env B SD)
    (search : State B SD → Int → Int → Nat → Nat → Bool → PvResult B SD)
    (hs : KeepsHistory env search)
    (st : State B SD) (beta : Int) (depth ply : Nat) (pv : Bool) (c : Bool) (s : State B SD)
    (h : nullMovePruning env search st beta depth ply pv = some (c, s)) :
    HistoryPath env st.sd s.sd := by
  unfold nullMovePruning at h
  split at h
  · dsimp only at h
    split at h
    · exact absurd h (by simp)
    · rename_i r x s1 heq
      simp only [Option.some.injEq, Prod.mk.injEq] at h
      rw [← h.2]
      have := hs _ _ _ _ _ _ _ _ _ heq
      exact this
  · simp only [Option.some.injEq, Prod.mk.injEq] at h
    rw [← h.2]
    exact HistoryPath.same _

theorem iid_history (env : Env B SD)
    (search : State B SD → Int → Int → Nat → Nat → Bool → PvResult B SD)
    (hs : KeepsHistory env search) (st : State B SD) (zobrist : Nat) (alpha beta : Int)
    (depth ply : Nat) (pv : Bool) (hashMove : Nat) (hm : Nat) (s : State B SD)
    (h : iid search st zobrist alpha beta depth ply pv hashMove = some (hm, s)) :
    HistoryPath env st.sd s.sd := by
  unfold iid at h
  split at h
  · split at h
    · exact absurd h (by simp)
    · rename_i r x s1 heq
      split at h <;>
      · simp only [Option.some.injEq, Prod.mk.injEq] at h
        rw [← h.2]
        exact hs _ _ _ _ _ _ _ _ _ heq
  · simp only [Option.some.injEq, Prod.mk.injEq] at h
    rw [← h.2]
    exact HistoryPath.same _

theorem mateDistanceAndLoop_history (env : Env B SD)
    (search : State B SD → Int → Int → Nat → Nat → Bool → PvResult B SD)
    (hs : KeepsHistory env search)
    (st : State B SD) (zobrist : Nat) (pv : Bool) (originalAlpha alpha beta : Int)
    (depth ply : Nat) (hashMove : Nat) (r : Int) (x : Exit) (s : State B SD)
    (h : mateDistanceAndLoop env search st zobrist pv originalAlpha alpha beta depth ply hashMove
      = some (r, x, s)) : HistoryPath env st.sd s.sd := by
  unfold mateDistanceAndLoop at h
  dsimp only at h
  by_cases c1 : env.MAX_MATE_SCORE - ply < beta ∧ alpha ≥ env.MAX_MATE_SCORE - ply
  · rw [if_pos c1] at h
    simp only [Option.some.injEq, Prod.mk.injEq] at h
    rw [← h.2.2]
    exact HistoryPath.same _
  · rw [if_neg c1] at h
    by_cases c2 : -env.MAX_MATE_SCORE + ply > alpha ∧
        (if env.MAX_MATE_SCORE - ply < beta then env.MAX_MATE_SCORE - ply else beta)
          ≤ -env.MAX_MATE_SCORE + ply
    · rw [if_pos c2] at h
      simp only [Option.some.injEq, Prod.mk.injEq] at h
      rw [← h.2.2]
      exact HistoryPath.same _
    · rw [if_neg c2] at h
      exact pvLoop_history env search hs _ _ _ _ _ _ _ _ _ _ _ _ h

theorem pvBody_history (env : Env B SD)
    (search : State B SD → Int → Int → Nat → Nat → Bool → PvResult B SD)
    (hs : KeepsHistory env search)
    (st : State B SD) (alpha beta : Int) (depth ply : Nat) (hashMove : Nat)
    (r : Int) (x : Exit) (s : State B SD)
    (h : pvBody env search st alpha beta depth ply hashMove = some (r, x, s)) :
    HistoryPath env st.sd s.sd := by
  unfold pvBody at h
  dsimp only at h
  split at h
  · exact absurd h (by simp)
  · rename_i s1 heq
    simp only [Option.some.injEq, Prod.mk.injEq] at h
    rw [← h.2.2]
    have := nullMovePruning_history env search hs _ _ _ _ _ _ _ heq
    exact this
  · rename_i s1 heq
    have b1 := nullMovePruning_history env search hs _ _ _ _ _ _ _ heq
    dsimp only at b1
    split at h
    · exact absurd h (by simp)
    · rename_i hm s2 heq2
      have b2 := iid_history env search hs _ _ _ _ _ _ _ _ _ _ heq2
      have b3 := mateDistanceAndLoop_history env search hs _ _ _ _ _ _ _ _ _ _ _ _ h
      exact b1.append (b2.append b3)

theorem pvSearch_history_path (env : Env B SD) :
    ∀ fuel : Nat, KeepsHistory env (pvSearch env fuel) := by
  intro fuel
  induction fuel with
  | zero => intro st alpha beta depth ply cut r x s h; simp [pvSearch] at h
  | succ fuel ih =>
    intro st alpha beta depth ply cut r x s h
    simp only [pvSearch] at h
    split at h
    · simp only [Option.some.injEq, Prod.mk.injEq] at h
      rw [← h.2.2]
      exact HistoryPath.same _
    · split at h
      · simp only [Option.some.injEq, Prod.mk.injEq] at h
        rw [← h.2.2]
        exact HistoryPath.same _
      · have hb : (bumpSelDepth (countNode st) ply).sd = st.sd := by
          unfold bumpSelDepth countNode
          dsimp only
          split <;> rfl
        split at h
        · split at h
          · exact absurd h (by simp)
          · rename_i hq
            simp only [Option.some.injEq, Prod.mk.injEq] at h
            obtain ⟨_, _, rfl⟩ := h
            rw [qSearch_sd env fuel _ _ _ _ _ _ hq, hb]
            exact HistoryPath.same _
        · split at h
          · simp only [Option.some.injEq, Prod.mk.injEq] at h
            rw [← h.2.2, hb]
            exact HistoryPath.same _
          · have := pvBody_history env _ ih _ _ _ _ _ _ _ _ _ h
            rw [hb] at this
            exact this

theorem pvLoop_history_step (env : Env B SD)
    (search : State B SD → Int → Int → Nat → Nat → Bool → PvResult B SD)
    (zobrist : Nat) (pv : Bool) (originalAlpha beta : Int) (depth ply : Nat)
    (m : Nat) (ms : List Nat) (st : State B SD) (v : LoopVars) (score : Int) (s : State B SD)
    (hl : env.isLegal st.board m = true)
    (hsm : searchMove search { st with board := env.move st.board m } v.alpha beta depth ply pv
      v.legalMoves (lmrOf env pv depth v.legalMoves st.board m) (extensionOf env st.board m)
        = some (score, s)) :
    (score ≥ beta →
        pvLoop env search zobrist pv originalAlpha beta depth ply (m :: ms) st v
          = some (beta, Exit.betaCutoff,
              { s with
                board := env.undoMove s.board
                table := s.table.put zobrist beta m NodeType.CUT_NODE depth
                sd := env.addHistoryScore s.sd (env.getSquareFrom m) (env.getSquareTo m)
                  depth }))
      ∧ (score < beta → score ≤ v.alpha →
        pvLoop env search zobrist pv originalAlpha beta depth ply (m :: ms) st v
          = pvLoop env search zobrist pv originalAlpha beta depth ply ms
              { s with
                board := env.undoMove s.board
                sd := env.subtractHistoryScore s.sd (env.getSquareFrom m) (env.getSquareTo m)
                  depth }
              ⟨v.alpha, if score > v.highestScore then score else v.highestScore,
                if score > v.highestScore then m else v.bestMove, v.legalMoves + 1⟩) := by
  unfold lmrOf extensionOf at hsm
  constructor
  · intro hc
    rw [pvLoop, if_neg (by rw [hl]; decide)]
    dsimp only
    rw [hsm]
    dsimp only
    rw [if_pos hc]
  · intro hc1 hc2
    rw [pvLoop, if_neg (by rw [hl]; decide)]
    dsimp only
    rw [hsm]
    dsimp only
    rw [if_neg (by omega), if_neg (by omega)]

/-- Claim C22, as stated, fails: captures change the history table.  In the counter game
the move 3 is a capture.  Searching three counters with the full window at depth 1, the
capture 3 is searched and does not raise alpha, and `history[3][0]` goes from 0 to -1;
searching four counters with the window (0, 2), the moves 1 and 2 fail low, the capture 3
causes the beta cutoff, and `history[3][0]` goes from 0 to 1. -/
theorem pvSearch_history_counterexample :
    (toyEnv toyNever toyNever (toyClock 1000)).isCapture 3 = true
      ∧ (toyEnv toyNever toyNever (toyClock 1000)).getSquareFrom 3 = 3
      ∧ (toyEnv toyNever toyNever (toyClock 1000)).getSquareTo 3 = 0
      ∧ (toyState 3 toyTable 100).sd 3 0 = 0
      ∧ (pvSearch (toyEnv toyNever toyNever (toyClock 1000)) 30 (toyState 3 toyTable 100)
            (-32000) 32000 1 0 false).map (fun r => (r.2.1, r.2.2.sd 3 0))
          = some (Exit.final, -1)
      ∧ (pvSearch (toyEnv toyNever toyNever (toyClock 1000)) 30 (toyState 4 toyTable 100)
            0 2 1 0 false).map
              (fun r => (r.1, r.2.1, r.2.2.sd 1 0, r.2.2.sd 2 0, r.2.2.sd 3 0))
          = some (2, Exit.betaCutoff, -1, -1, 1) := by
  refine ⟨rfl, rfl, rfl, rfl, ?_, ?_⟩
  · decide!
  · decide!

/-- Claim C22, amended: `pvSearch` changes the history table for quiet moves and captures
alike.  The history data a call leaves is reached from the data it found by a sequence of
`addHistoryScore` and `subtractHistoryScore` updates at the squares of moves, and
`qSearch` never changes it; in the move loop every legal move `m`, whatever `isCapture(m)`
says, adds to `history[from(m)][to(m)]` when its score causes the beta cutoff and
subtracts when its score does not raise alpha. -/
theorem pvSearch_history (env : Env B SD) :
    (∀ (fuel : Nat) (st : State B SD) (alpha beta : Int) (depth ply : Nat) (cut : Bool)
        (r : Int) (x : Exit) (s : State B SD),
        pvSearch env fuel st alpha beta depth ply cut = some (r, x, s) →
        HistoryPath env st.sd s.sd)
      ∧ (∀ (fuel : Nat) (st : State B SD) (alpha beta : Int) (ply : Nat) (v : Int)
          (s : State B SD), qSearch env fuel st alpha beta ply = some (v, s) → s.sd = st.sd)
      ∧ (∀ (search : State B SD → Int → Int → Nat → Nat → Bool → PvResult B SD)
          (zobrist : Nat) (pv : Bool) (originalAlpha beta : Int) (depth ply : Nat)
          (m : Nat) (ms : List Nat) (st : State B SD) (v : LoopVars) (score : Int)
          (s : State B SD),
          env.isLegal st.board m = true →
          searchMove search { st with board := env.move st.board m } v.alpha beta depth ply pv
            v.legalMoves (lmrOf env pv depth v.legalMoves st.board m)
            (extensionOf env st.board m) = some (score, s) →
          (score ≥ beta →
            pvLoop env search zobrist pv originalAlpha beta depth ply (m :: ms) st v
              = some (beta, Exit.betaCutoff,
                  { s with
                    board := env.undoMove s.board
                    table := s.table.put zobrist beta m NodeType.CUT_NODE depth
                    sd := env.addHistoryScore s.sd (env.getSquareFrom m) (env.getSquareTo m)
                      depth }))
          ∧ (score < beta → score ≤ v.alpha →
            pvLoop env search zobrist pv originalAlpha beta depth ply (m :: ms) st v
              = pvLoop env search zobrist pv originalAlpha beta depth ply ms
                  { s with
                    board := env.undoMove s.board
                    sd := env.subtractHistoryScore s.sd (env.getSquareFrom m)
                      (env.getSquareTo m) depth }
                  ⟨v.alpha, if score > v.highestScore then score else v.highestScore,
                    if score > v.highestScore then m else v.bestMove, v.legalMoves + 1⟩)) :=
  ⟨fun fuel => pvSearch_history_path env fuel, qSearch_sd env,
    fun search zobrist pv originalAlpha beta depth ply m ms st v score s hl hsm =>
      pvLoop_history_step env search zobrist pv originalAlpha beta depth ply m ms st v score s
        hl hsm⟩

/-! ## Evaluation: the pawn sets of `computePawns` -/

theorem computePawns_score (ed : EvalData) (b : Board) : (computePawns ed b).1 = pawnScore b := by
  rfl

theorem testBit_false_of_ge {x : Nat} (hx : x < 2 ^ 64) {j : Nat} (hj : 64 ≤ j) :
    x.testBit j = false :=
  Nat.testBit_lt_two_pow (lt_of_lt_of_le hx (Nat.pow_le_pow_right (by decide) hj))

theorem lt_of_testBit {x : Nat} (hx : x < 2 ^ 64) {j : Nat} (h : x.testBit j = true) : j < 64 := by
  by_contra hc
  rw [testBit_false_of_ge hx (not_lt.mp hc)] at h
  exact Bool.false_ne_true h

theorem testBit_shr64_of_lt {x : Nat} (hx : x < 2 ^ 64) (k i : Nat) :
    (shr64 x k).testBit i = x.testBit (k + i) := by
  rw [testBit_shr64]
  by_cases h : k + i < 64
  · simp [h]
  · rw [testBit_false_of_ge hx (not_lt.mp h)]
    simp

theorem fillSouth_step {b x : Nat} (hx : x < 2 ^ 64) (n : Nat)
    (h : ∀ i, x.testBit i = true ↔ ∃ k, k < n ∧ b.testBit (i + 8 * k) = true) (i : Nat) :
    (x ||| shr64 x (8 * n)).testBit i = true
      ↔ ∃ k, k < 2 * n ∧ b.testBit (i + 8 * k) = true := by
  rw [Nat.testBit_or, Bool.or_eq_true, testBit_shr64_of_lt hx, h, h]
  constructor
  · rintro (⟨k, hk, hb⟩ | ⟨k, hk, hb⟩)
    · exact ⟨k, by omega, hb⟩
    · refine ⟨n + k, by omega, ?_⟩
      have e : i + 8 * (n + k) = 8 * n + i + 8 * k := by ring
      rw [e]
      exact hb
  · rintro ⟨k, hk, hb⟩
    by_cases hkn : k < n
    · exact Or.inl ⟨k, hkn, hb⟩
    · refine Or.inr ⟨k - n, by omega, ?_⟩
      have e : 8 * n + i + 8 * (k - n) = i + 8 * k := by omega
      rw [e]
      exact hb

theorem or_shr64_lt {x : Nat} (hx : x < 2 ^ 64) (k : Nat) : x ||| shr64 x k < 2 ^ 64 :=
  Nat.or_lt_two_pow hx (shr64_lt _ _)

theorem or_shl64_lt {x : Nat} (hx : x < 2 ^ 64) (k : Nat) : x ||| shl64 x k < 2 ^ 64 :=
  Nat.or_lt_two_pow hx (shl64_lt _ _)

theorem testBit_fillSouth {b : Nat} (hb : b < 2 ^ 64) (i : Nat) :
    (fillSouth b).testBit i = true ↔ ∃ k, k < 8 ∧ b.testBit (i + 8 * k) = true := by
  unfold fillSouth
  dsimp only
  have h0 : ∀ i, b.testBit i = true ↔ ∃ k, k < 1 ∧ b.testBit (i + 8 * k) = true := by
    intro i
    constructor
    · intro h
      exact ⟨0, by omega, by simpa using h⟩
    · rintro ⟨k, hk, h⟩
      have : k = 0 := by omega
      subst this
      simpa using h
  have h1 := fillSouth_step hb 1 h0
  have x1 := or_shr64_lt hb 8
  have h2 := fillSouth_step x1 2 h1
  have x2 := or_shr64_lt x1 16
  have h3 := fillSouth_step x2 4 h2
  have x3 := or_shr64_lt x2 32
  rw [Nat.mod_eq_of_lt x3]
  exact h3 i

theorem fillNorth_step {b x : Nat} (n : Nat)
    (h : ∀ i, x.testBit i = true ↔ i < 64 ∧ ∃ k, k < n ∧ 8 * k ≤ i ∧ b.testBit (i - 8 * k) = true)
    (i : Nat) :
    (x ||| shl64 x (8 * n)).testBit i = true
      ↔ i < 64 ∧ ∃ k, k < 2 * n ∧ 8 * k ≤ i ∧ b.testBit (i - 8 * k) = true := by
  rw [Nat.testBit_or, Bool.or_eq_true, testBit_shl64, h]
  simp only [Bool.and_eq_true, decide_eq_true_eq]
  rw [h]
  constructor
  · rintro (⟨hi, k, hk, hle, hb⟩ | ⟨hi, hle0, _, k, hk, hle, hb⟩)
    · exact ⟨hi, k, by omega, hle, hb⟩
    · refine ⟨hi, n + k, by omega, by omega, ?_⟩
      have e : i - 8 * (n + k) = i - 8 * n - 8 * k := by omega
      rw [e]
      exact hb
  · rintro ⟨hi, k, hk, hle, hb⟩
    by_cases hkn : k < n
    · exact Or.inl ⟨hi, k, hkn, hle, hb⟩
    · refine Or.inr ⟨hi, by omega, by omega, k - n, by omega, by omega, ?_⟩
      have e : i - 8 * n - 8 * (k - n) = i - 8 * k := by omega
      rw [e]
      exact hb

theorem testBit_fillNorth {b : Nat} (hb : b < 2 ^ 64) (i : Nat) :
    (fillNorth b).testBit i = true
      ↔ i < 64 ∧ ∃ k, k < 8 ∧ 8 * k ≤ i ∧ b.testBit (i - 8 * k) = true := by
  unfold fillNorth
  dsimp only
  have h0 : ∀ i, b.testBit i = true
      ↔ i < 64 ∧ ∃ k, k < 1 ∧ 8 * k ≤ i ∧ b.testBit (i - 8 * k) = true := by
    intro i
    constructor
    · intro h
      exact ⟨lt_of_testBit hb h, 0, by omega, by omega, by simpa using h⟩
    · rintro ⟨_, k, hk, _, h⟩
      have : k = 0 := by omega
      subst this
      simpa using h
  have h1 := fillNorth_step 1 h0
  have h2 := fillNorth_step 2 h1
  have h3 := fillNorth_step 4 h2
  have x3 := or_shl64_lt (or_shl64_lt (or_shl64_lt hb 8) 16) 32
  rw [Nat.mod_eq_of_lt x3]
  exact h3 i

theorem testBit_northSpan {b : Nat} (hb : b < 2 ^ 64) (i : Nat) :
    (shiftNorth (fillNorth b)).testBit i = true
      ↔ i < 64 ∧ ∃ j, 1 ≤ j ∧ 8 * j ≤ i ∧ b.testBit (i - 8 * j) = true := by
  unfold shiftNorth
  rw [testBit_shl64]
  simp only [Bool.and_eq_true, decide_eq_true_eq]
  rw [testBit_fillNorth hb]
  constructor
  · rintro ⟨hi, h8, _, k, hk, hle, h⟩
    refine ⟨hi, k + 1, by omega, by omega, ?_⟩
    have e : i - 8 * (k + 1) = i - 8 - 8 * k := by omega
    rw [e]
    exact h
  · rintro ⟨hi, j, hj, hle, h⟩
    refine ⟨hi, by omega, by omega, j - 1, by omega, by omega, ?_⟩
    have e : i - 8 - 8 * (j - 1) = i - 8 * j := by omega
    rw [e]
    exact h

theorem testBit_southSpan {b : Nat} (hb : b < 2 ^ 64) (i : Nat) :
    (shiftSouth (fillSouth b)).testBit i = true
      ↔ ∃ j, 1 ≤ j ∧ b.testBit (i + 8 * j) = true := by
  unfold shiftSouth
  rw [testBit_shr64_of_lt (fillSouth_lt b), testBit_fillSouth hb]
  constructor
  · rintro ⟨k, hk, h⟩
    refine ⟨k + 1, by omega, ?_⟩
    have e : i + 8 * (k + 1) = 8 + i + 8 * k := by ring
    rw [e]
    exact h
  · rintro ⟨j, hj, h⟩
    have hlt := lt_of_testBit hb h
    refine ⟨j - 1, by omega, ?_⟩
    have e : 8 + i + 8 * (j - 1) = i + 8 * j := by omega
    rw [e]
    exact h

theorem testBit_northDoubled {p : Nat} (hp : p < 2 ^ 64) (s : Nat) :
    (shiftNorth (fillNorth p) &&& p).testBit s = true
      ↔ p.testBit s = true ∧ ∃ j, 1 ≤ j ∧ 8 * j ≤ s ∧ p.testBit (s - 8 * j) = true := by
  rw [Nat.testBit_and, Bool.and_eq_true, testBit_northSpan hp]
  constructor
  · rintro ⟨⟨_, h⟩, hs⟩
    exact ⟨hs, h⟩
  · rintro ⟨hs, h⟩
    exact ⟨⟨lt_of_testBit hp hs, h⟩, hs⟩

theorem testBit_southDoubled {p : Nat} (hp : p < 2 ^ 64) (s : Nat) :
    (shiftSouth (fillSouth p) &&& p).testBit s = true
      ↔ p.testBit s = true ∧ ∃ j, 1 ≤ j ∧ p.testBit (s + 8 * j) = true := by
  rw [Nat.testBit_and, Bool.and_eq_true, testBit_southSpan hp]
  exact and_comm

theorem sameFile_iff (p : Nat) (s : Nat) :
    ((∃ j, 1 ≤ j ∧ 8 * j ≤ s ∧ p.testBit (s - 8 * j) = true)
        ∨ (∃ j, 1 ≤ j ∧ p.testBit (s + 8 * j) = true))
      ↔ ∃ t, t ≠ s ∧ t % 8 = s % 8 ∧ p.testBit t = true := by
  constructor
  · rintro (⟨j, hj, hle, h⟩ | ⟨j, hj, h⟩)
    · exact ⟨s - 8 * j, by omega, by omega, h⟩
    · exact ⟨s + 8 * j, by omega, by omega, h⟩
  · rintro ⟨t, hne, hmod, h⟩
    by_cases hlt : t < s
    · refine Or.inl ⟨(s - t) / 8, by omega, by omega, ?_⟩
      have e : s - 8 * ((s - t) / 8) = t := by omega
      rw [e]
      exact h
    · refine Or.inr ⟨(t - s) / 8, by omega, ?_⟩
      have e : s + 8 * ((t - s) / 8) = t := by omega
      rw [e]
      exact h

theorem testBit_doubledPawns (color : Bool) {p : Nat} (hp : p < 2 ^ 64) (s : Nat) :
    (doubledPawns color p).testBit s = true
      ↔ p.testBit s = true ∧ ∃ t, t ≠ s ∧ t % 8 = s % 8 ∧ p.testBit t = true := by
  rw [← sameFile_iff]
  have hN : shiftNorth (fillNorth p) &&& p < 2 ^ 64 := and_lt_of_left _ (shiftNorth_lt _)
  have hS : shiftSouth (fillSouth p) &&& p < 2 ^ 64 := and_lt_of_left _ (shiftSouth_lt _)
  cases color
  · unfold doubledPawns wFrontSpans wRearSpans
    simp only [if_true]
    rw [Nat.testBit_or, Bool.or_eq_true, testBit_northDoubled hp, Nat.testBit_and,
      Bool.and_eq_true, testBit_southSpan hN]
    simp only [testBit_northDoubled hp]
    constructor
    · rintro (⟨hs, h⟩ | ⟨⟨j, hj, h, _⟩, hs⟩)
      · exact ⟨hs, Or.inl h⟩
      · exact ⟨hs, Or.inr ⟨j, hj, h⟩⟩
    · rintro ⟨hs, h | ⟨j, hj, h⟩⟩
      · exact Or.inl ⟨hs, h⟩
      · refine Or.inr ⟨⟨j, hj, h, j, hj, by omega, ?_⟩, hs⟩
        have e : s + 8 * j - 8 * j = s := by omega
        rw [e]
        exact hs
  · unfold doubledPawns bFrontSpans bRearSpans
    simp only [Bool.true_eq_false, if_false]
    rw [Nat.testBit_or, Bool.or_eq_true, testBit_southDoubled hp, Nat.testBit_and,
      Bool.and_eq_true, testBit_northSpan hS]
    simp only [testBit_southDoubled hp]
    constructor
    · rintro (⟨hs, h⟩ | ⟨⟨_, j, hj, hle, h, _⟩, hs⟩)
      · exact ⟨hs, Or.inr h⟩
      · exact ⟨hs, Or.inl ⟨j, hj, hle, h⟩⟩
    · rintro ⟨hs, ⟨j, hj, hle, h⟩ | h⟩
      · refine Or.inr ⟨⟨lt_of_testBit hp hs, j, hj, hle, h, j, hj, ?_⟩, hs⟩
        have e : s - 8 * j + 8 * j = s := by omega
        rw [e]
        exact hs
      · exact Or.inl ⟨hs, h⟩

/-- Claim C23, as stated, fails: the doubled set also holds the most advanced pawn of a
file.  For white pawns on a2 and a3 (squares 8 and 16) the set that `computePawns` treats
as doubled is both pawns, so the pawn on a3 is in it although no white pawn is further
advanced on its file, and both pawns are counted in the `PAWN_DOUBLED_AND_ISOLATED` term;
for black pawns on the same squares the pawn on a2 is in the set although no black pawn is
further advanced (on a lower rank). -/
theorem doubledPawns_counterexample :
    doubledPawns WHITE (2 ^ 8 + 2 ^ 16) = 2 ^ 8 + 2 ^ 16
      ∧ (doubledPawns WHITE (2 ^ 8 + 2 ^ 16)).testBit 16 = true
      ∧ (∀ t : Fin 64, 16 < t.val → t.val % 8 = 16 % 8 →
          (2 ^ 8 + 2 ^ 16 : Nat).testBit t.val = false)
      ∧ bitCount (isolatedPawns (2 ^ 8 + 2 ^ 16) &&& doubledPawns WHITE (2 ^ 8 + 2 ^ 16)) = 2
      ∧ (doubledPawns BLACK (2 ^ 8 + 2 ^ 16)).testBit 8 = true
      ∧ (∀ t : Fin 64, t.val < 8 → t.val % 8 = 8 % 8 →
          (2 ^ 8 + 2 ^ 16 : Nat).testBit t.val = false) := by
  refine ⟨by decide!, by decide!, by decide!, by decide!, by decide!, by decide!⟩

/-- Claim C23, amended: for every pawn configuration of one colour, the set of pawns that
`computePawns` treats as doubled (the set used for the `PAWN_DOUBLED` and
`PAWN_DOUBLED_AND_ISOLATED` counts) is exactly the set of pawns that share their file
with at least one other pawn of the colour, further advanced or not; the score of
`computePawns` is `pawnScore`, which counts this set. -/
theorem doubledPawns_iff (color : Bool) (pawns : Nat) (h : pawns < 2 ^ 64) (s : Nat) :
    ((doubledPawns color pawns).testBit s = true
        ↔ pawns.testBit s = true
          ∧ ∃ t, t ≠ s ∧ t % 8 = s % 8 ∧ pawns.testBit t = true)
      ∧ ∀ (ed : EvalData) (b : Board), (computePawns ed b).1 = pawnScore b :=
  ⟨testBit_doubledPawns color h s, computePawns_score⟩

/-- Witness of `doubledPawns_iff`: white pawns on a2 and a3, the pawn on a3. -/
theorem doubledPawns_iff_witness :
    (2 ^ 8 + 2 ^ 16 : Nat) < 2 ^ 64
    ∧ ((doubledPawns WHITE (2 ^ 8 + 2 ^ 16)).testBit 16 = true
        ↔ (2 ^ 8 + 2 ^ 16 : Nat).testBit 16 = true
          ∧ ∃ t, t ≠ 16 ∧ t % 8 = 16 % 8 ∧ (2 ^ 8 + 2 ^ 16 : Nat).testBit t = true) :=
  ⟨by decide, (doubledPawns_iff WHITE (2 ^ 8 + 2 ^ 16) (by decide) 16).1⟩

/-! ## Evaluation: backward pawns -/

theorem testBit_pawnAttacks_black {opp : Nat} (h : opp < 2 ^ 64) (t : Nat) :
    (pawnAttacksOf BLACK opp).testBit t = true
      ↔ (t % 8 ≠ 0 ∧ opp.testBit (t + 7) = true) ∨ (t % 8 ≠ 7 ∧ opp.testBit (t + 9) = true) := by
  unfold pawnAttacksOf shiftSouthEast shiftSouthWest
  simp only [Bool.true_eq_false, if_false]
  rw [Nat.testBit_or, Bool.or_eq_true, Nat.testBit_and, Nat.testBit_and, Bool.and_eq_true,
    Bool.and_eq_true, testBit_shr64_of_lt h, testBit_shr64_of_lt h, testBit_NOT_FILE_A,
    testBit_NOT_FILE_H]
  simp only [Bool.and_eq_true, decide_eq_true_eq]
  rw [Nat.add_comm 7 t, Nat.add_comm 9 t]
  constructor
  · rintro (⟨h1, _, h2⟩ | ⟨h1, _, h2⟩)
    · exact Or.inl ⟨h2, h1⟩
    · exact Or.inr ⟨h2, h1⟩
  · rintro (⟨h2, h1⟩ | ⟨h2, h1⟩)
    · exact Or.inl ⟨h1, by have := lt_of_testBit h h1; omega, h2⟩
    · exact Or.inr ⟨h1, by have := lt_of_testBit h h1; omega, h2⟩

theorem testBit_pawnAttacks_white (own : Nat) (t : Nat) :
    (pawnAttacksOf WHITE own).testBit t = true
      ↔ t < 64 ∧ ((t % 8 ≠ 0 ∧ 9 ≤ t ∧ own.testBit (t - 9) = true)
        ∨ (t % 8 ≠ 7 ∧ 7 ≤ t ∧ own.testBit (t - 7) = true)) := by
  unfold pawnAttacksOf shiftNorthEast shiftNorthWest
  simp only [if_true]
  rw [Nat.testBit_or, Bool.or_eq_true, Nat.testBit_and, Nat.testBit_and, Bool.and_eq_true,
    Bool.and_eq_true, testBit_shl64, testBit_shl64, testBit_NOT_FILE_A, testBit_NOT_FILE_H]
  simp only [Bool.and_eq_true, decide_eq_true_eq]
  constructor
  · rintro (⟨⟨h0, h1, h2⟩, _, h3⟩ | ⟨⟨h0, h1, h2⟩, _, h3⟩)
    · exact ⟨h0, Or.inl ⟨h3, h1, h2⟩⟩
    · exact ⟨h0, Or.inr ⟨h3, h1, h2⟩⟩
  · rintro ⟨h0, ⟨h3, h1, h2⟩ | ⟨h3, h1, h2⟩⟩
    · exact Or.inl ⟨⟨h0, h1, h2⟩, h0, h3⟩
    · exact Or.inr ⟨⟨h0, h1, h2⟩, h0, h3⟩

theorem pawnAttacksOf_lt (c : Bool) (p : Nat) : pawnAttacksOf c p < 2 ^ 64 := by
  unfold pawnAttacksOf
  split
  · exact Nat.or_lt_two_pow (shiftNorthEast_lt _) (shiftNorthWest_lt _)
  · exact Nat.or_lt_two_pow (shiftSouthEast_lt _) (shiftSouthWest_lt _)

theorem wAttackFrontSpans_eq (own : Nat) :
    wAttackFrontSpans own = fillNorth (pawnAttacksOf WHITE own) := rfl

theorem bAttackFrontSpans_eq (own : Nat) :
    bAttackFrontSpans own = fillSouth (pawnAttacksOf BLACK own) := rfl

theorem testBit_backward_white {own : Nat} (opp : Nat) (s : Nat) :
    (backwardPawns WHITE own opp).testBit s = true
      ↔ own.testBit s = true
        ∧ ∃ k, k < 8 ∧ s + 8 * k < 64
          ∧ (pawnAttacksOf BLACK opp).testBit (s + 8 * k) = true
          ∧ (wAttackFrontSpans own).testBit (s + 8 * k) = false := by
  unfold backwardPawns
  simp only [if_true]
  have hlt : not64 (wAttackFrontSpans own) &&& pawnAttacksOf BLACK opp < 2 ^ 64 :=
    and_lt_of_left _ (not64_lt _)
  rw [Nat.testBit_and, Bool.and_eq_true, testBit_fillSouth hlt]
  simp only [Nat.testBit_and, Bool.and_eq_true, testBit_not64, Bool.not_eq_true',
    decide_eq_true_eq]
  constructor
  · rintro ⟨⟨k, hk, ⟨h1, h2⟩, h3⟩, hs⟩
    exact ⟨hs, k, hk, h1, h3, h2⟩
  · rintro ⟨hs, k, hk, h1, h3, h2⟩
    exact ⟨⟨k, hk, ⟨h1, h2⟩, h3⟩, hs⟩

theorem testBit_backward_black {own : Nat} (opp : Nat) (s : Nat) :
    (backwardPawns BLACK own opp).testBit s = true
      ↔ own.testBit s = true
        ∧ ∃ k, k < 8 ∧ 8 * k ≤ s ∧ s < 64
          ∧ (pawnAttacksOf WHITE opp).testBit (s - 8 * k) = true
          ∧ (bAttackFrontSpans own).testBit (s - 8 * k) = false := by
  unfold backwardPawns
  simp only [Bool.true_eq_false, if_false]
  have hlt : not64 (bAttackFrontSpans own) &&& pawnAttacksOf WHITE opp < 2 ^ 64 :=
    and_lt_of_left _ (not64_lt _)
  rw [Nat.testBit_and, Bool.and_eq_true, testBit_fillNorth hlt]
  simp only [Nat.testBit_and, Bool.and_eq_true, testBit_not64, Bool.not_eq_true',
    decide_eq_true_eq]
  constructor
  · rintro ⟨⟨h0, k, hk, hle, ⟨_, h2⟩, h3⟩, hs⟩
    exact ⟨hs, k, hk, hle, h0, h3, h2⟩
  · rintro ⟨hs, k, hk, hle, h0, h3, h2⟩
    exact ⟨⟨h0, k, hk, hle, ⟨by omega, h2⟩, h3⟩, hs⟩

theorem testBit_wAttackFrontSpans (own t : Nat) :
    (wAttackFrontSpans own).testBit t = true
      ↔ t < 64 ∧ ∃ u, own.testBit u = true ∧ u / 8 < t / 8
          ∧ (u % 8 + 1 = t % 8 ∨ t % 8 + 1 = u % 8) := by
  rw [wAttackFrontSpans_eq, testBit_fillNorth (pawnAttacksOf_lt _ _)]
  simp only [testBit_pawnAttacks_white]
  constructor
  · rintro ⟨h0, k, hk, hle, _, ⟨h1, h2, h3⟩ | ⟨h1, h2, h3⟩⟩
    · exact ⟨h0, t - 8 * k - 9, h3, by omega, by omega⟩
    · exact ⟨h0, t - 8 * k - 7, h3, by omega, by omega⟩
  · rintro ⟨h0, u, hu, hr, hf | hf⟩
    · refine ⟨h0, t / 8 - u / 8 - 1, by omega, by omega, by omega, Or.inl ⟨by omega, by omega, ?_⟩⟩
      rw [show t - 8 * (t / 8 - u / 8 - 1) - 9 = u by omega]
      exact hu
    · refine ⟨h0, t / 8 - u / 8 - 1, by omega, by omega, by omega, Or.inr ⟨by omega, by omega, ?_⟩⟩
      rw [show t - 8 * (t / 8 - u / 8 - 1) - 7 = u by omega]
      exact hu

theorem testBit_bAttackFrontSpans {own : Nat} (h : own < 2 ^ 64) (t : Nat) :
    (bAttackFrontSpans own).testBit t = true
      ↔ ∃ u, own.testBit u = true ∧ t / 8 < u / 8
          ∧ (u % 8 + 1 = t % 8 ∨ t % 8 + 1 = u % 8) := by
  rw [bAttackFrontSpans_eq, testBit_fillSouth (pawnAttacksOf_lt _ _)]
  simp only [testBit_pawnAttacks_black h]
  constructor
  · rintro ⟨k, hk, ⟨h1, h3⟩ | ⟨h1, h3⟩⟩
    · exact ⟨t + 8 * k + 7, h3, by omega, by omega⟩
    · exact ⟨t + 8 * k + 9, h3, by omega, by omega⟩
  · rintro ⟨u, hu, hr, hf | hf⟩
    · have hlt := lt_of_testBit h hu
      refine ⟨u / 8 - t / 8 - 1, by omega, Or.inl ⟨by omega, ?_⟩⟩
      rw [show t + 8 * (u / 8 - t / 8 - 1) + 7 = u by omega]
      exact hu
    · have hlt := lt_of_testBit h hu
      refine ⟨u / 8 - t / 8 - 1, by omega, Or.inr ⟨by omega, ?_⟩⟩
      rw [show t + 8 * (u / 8 - t / 8 - 1) + 9 = u by omega]
      exact hu

/-- Claim C24, as stated, fails: a pawn is also counted in the `PAWN_BACKWARD` term when
a square further up its file, or its own square, is attacked by an enemy pawn and
uncovered, while its advance square is not attacked.  A white pawn on a2 (square 8)
against a black pawn on b7 (square 49): the black pawn attacks a6 and c6 only, the
advance square a3 (square 16) is not attacked, and the pawn on a2 is counted.  A white
pawn on a4 (square 24) against a black pawn on b5 (square 33): the black pawn attacks a4
and c4, the advance square a5 (square 32) is not attacked, and the pawn on a4 is
counted. -/
theorem backwardPawns_counterexample :
    backwardPawns WHITE (2 ^ 8) (2 ^ 49) = 2 ^ 8
      ∧ bitCount (backwardPawns WHITE (2 ^ 8) (2 ^ 49)) = 1
      ∧ pawnAttacksOf BLACK (2 ^ 49) = 2 ^ 40 + 2 ^ 42
      ∧ (pawnAttacksOf BLACK (2 ^ 49)).testBit (8 + 8) = false
      ∧ backwardPawns WHITE (2 ^ 24) (2 ^ 33) = 2 ^ 24
      ∧ pawnAttacksOf BLACK (2 ^ 33) = 2 ^ 24 + 2 ^ 26
      ∧ (pawnAttacksOf BLACK (2 ^ 33)).testBit (24 + 8) = false := by
  refine ⟨by decide!, by decide!, by decide!, by decide!, by decide!, by decide!, by decide!⟩

/-- Claim C24, amended: a white pawn on square `s` is counted in the `PAWN_BACKWARD` term
of `computePawns` if and only if some square of its file at or ahead of it (its own
square, its advance square, or any square further up) is attacked by an enemy pawn and
is not in the attack front span of the friendly pawns; for a black pawn the same with the
squares at or below it.  A square is attacked by a black pawn when a black pawn stands
diagonally above it, by a white pawn when a white pawn stands diagonally below it; a
square is in the white (black) attack front span when a white (black) pawn stands on an
adjacent file on a lower (higher) rank.  In particular the condition of the claim on the
advance square is sufficient.  The score of `computePawns` is `pawnScore`, which counts
these sets. -/
theorem backwardPawns_iff (own opp : Nat) (ho : own < 2 ^ 64) (hp : opp < 2 ^ 64) (s : Nat) :
    ((backwardPawns WHITE own opp).testBit s = true
        ↔ own.testBit s = true
          ∧ ∃ k, k < 8 ∧ s + 8 * k < 64
            ∧ (pawnAttacksOf BLACK opp).testBit (s + 8 * k) = true
            ∧ (wAttackFrontSpans own).testBit (s + 8 * k) = false)
      ∧ ((backwardPawns BLACK own opp).testBit s = true
        ↔ own.testBit s = true
          ∧ ∃ k, k < 8 ∧ 8 * k ≤ s ∧ s < 64
            ∧ (pawnAttacksOf WHITE opp).testBit (s - 8 * k) = true
            ∧ (bAttackFrontSpans own).testBit (s - 8 * k) = false)
      ∧ (own.testBit s = true → s + 8 < 64
          → (pawnAttacksOf BLACK opp).testBit (s + 8) = true
          → (wAttackFrontSpans own).testBit (s + 8) = false
          → (backwardPawns WHITE own opp).testBit s = true)
      ∧ (own.testBit s = true → 8 ≤ s
          → (pawnAttacksOf WHITE opp).testBit (s - 8) = true
          → (bAttackFrontSpans own).testBit (s - 8) = false
          → (backwardPawns BLACK own opp).testBit s = true)
      ∧ (∀ t, (pawnAttacksOf BLACK opp).testBit t = true
          ↔ (t % 8 ≠ 0 ∧ opp.testBit (t + 7) = true) ∨ (t % 8 ≠ 7 ∧ opp.testBit (t + 9) = true))
      ∧ (∀ t, (pawnAttacksOf WHITE opp).testBit t = true
          ↔ t < 64 ∧ ((t % 8 ≠ 0 ∧ 9 ≤ t ∧ opp.testBit (t - 9) = true)
            ∨ (t % 8 ≠ 7 ∧ 7 ≤ t ∧ opp.testBit (t - 7) = true)))
      ∧ (∀ t, (wAttackFrontSpans own).testBit t = true
          ↔ t < 64 ∧ ∃ u, own.testBit u = true ∧ u / 8 < t / 8
              ∧ (u % 8 + 1 = t % 8 ∨ t % 8 + 1 = u % 8))
      ∧ (∀ t, (bAttackFrontSpans own).testBit t = true
          ↔ ∃ u, own.testBit u = true ∧ t / 8 < u / 8
              ∧ (u % 8 + 1 = t % 8 ∨ t % 8 + 1 = u % 8))
      ∧ ∀ (ed : EvalData) (b : Board), (computePawns ed b).1 = pawnScore b := by
  refine ⟨testBit_backward_white opp s, testBit_backward_black opp s, ?_, ?_,
    testBit_pawnAttacks_black hp, testBit_pawnAttacks_white opp,
    testBit_wAttackFrontSpans own, testBit_bAttackFrontSpans ho, computePawns_score⟩
  · intro h1 h2 h3 h4
    exact (testBit_backward_white opp s).2 ⟨h1, 1, by omega, by omega, h3, h4⟩
  · intro h1 h2 h3 h4
    have hs := lt_of_testBit ho h1
    exact (testBit_backward_black opp s).2 ⟨h1, 1, by omega, by omega, hs, h3, h4⟩

/-- Witness of `backwardPawns_iff`: white pawn on a2 against a black pawn on b7. -/
theorem backwardPawns_iff_witness :
    (2 ^ 8 : Nat) < 2 ^ 64 ∧ (2 ^ 49 : Nat) < 2 ^ 64
    ∧ ((backwardPawns WHITE (2 ^ 8) (2 ^ 49)).testBit 8 = true
        ↔ (2 ^ 8 : Nat).testBit 8 = true
          ∧ ∃ k, k < 8 ∧ 8 + 8 * k < 64
            ∧ (pawnAttacksOf BLACK (2 ^ 49)).testBit (8 + 8 * k) = true
            ∧ (wAttackFrontSpans (2 ^ 8)).testBit (8 + 8 * k) = false) :=
  ⟨by decide, by decide, (backwardPawns_iff (2 ^ 8) (2 ^ 49) (by decide) (by decide) 8).1⟩

/-! ## Evaluation: pinned pieces -/

theorem find_eq_of_unique {α : Type} (P : α → Bool) (l : List α) (a : α) (ha : a ∈ l)
    (hP : P a = true) (hu : ∀ x ∈ l, x ≠ a → P x = false) : l.find? P = some a := by
  induction l with
  | nil => exact absurd ha (List.not_mem_nil _)
  | cons x l ih =>
    by_cases hx : x = a
    · subst hx
      rw [List.find?_cons_of_pos _ hP]
    · have hf := hu x (List.mem_cons_self _ _) hx
      rw [List.find?_cons_of_neg _ (by rw [hf]; exact Bool.false_ne_true)]
      rcases List.mem_cons.mp ha with e | e
      · exact absurd e.symm hx
      · exact ih e (fun y hy hne => hu y (List.mem_cons_of_mem _ hy) hne)

theorem testBit_disjoint {b : Board} (hd : b.piecesDisjoint) {p q : Nat}
    (hp : p ∈ [0, 1, 2, 3, 4, 5, 8, 9, 10, 11, 12, 13])
    (hq : q ∈ [0, 1, 2, 3, 4, 5, 8, 9, 10, 11, 12, 13]) (hne : q ≠ p) {s : Nat}
    (hs : (b.pieceBB p).testBit s = true) : (b.pieceBB q).testBit s = false := by
  have h0 := hd q hq p hp hne
  have h1 : (b.pieceBB q &&& b.pieceBB p).testBit s = false := by
    rw [h0, Nat.zero_testBit]
  rw [Nat.testBit_and, hs, Bool.and_true] at h1
  exact h1

theorem getPiece_of_testBit {b : Board} (hd : b.piecesDisjoint) {p : Nat}
    (hp : p ∈ [0, 1, 2, 3, 4, 5, 8, 9, 10, 11, 12, 13]) {s : Nat}
    (hs : (b.pieceBB p).testBit s = true) : b.getPiece s = (p : Int) := by
  unfold Board.getPiece
  rw [find_eq_of_unique (fun p => (b.pieceBB p).testBit s) _ p hp hs
    (fun x hx hne => testBit_disjoint hd hp hx hne hs)]

theorem code_mem (c : Bool) {t : Nat} (ht : t ≤ 5) :
    Board.colorIndex c * 8 + t ∈ [0, 1, 2, 3, 4, 5, 8, 9, 10, 11, 12, 13] := by
  cases c <;> interval_cases t <;> decide

theorem pieceTypeOf_of_testBit {b : Board} (hd : b.piecesDisjoint) (c : Bool) {t : Nat}
    (ht : t ≤ 5) {s : Nat} (hs : (b.getPieceBB c t).testBit s = true) :
    pieceTypeOf b c s = t := by
  unfold pieceTypeOf
  rw [find_eq_of_unique (fun t => (b.getPieceBB c t).testBit s) _ t
    (by interval_cases t <;> decide) hs]
  · rfl
  · intro x hx hne
    have hx5 : x ≤ 5 := by
      simp only [List.mem_cons, List.mem_singleton, List.not_mem_nil, or_false] at hx
      rcases hx with rfl | rfl | rfl | rfl | rfl | rfl <;> decide
    exact testBit_disjoint hd (code_mem c ht) (code_mem c hx5) (by omega) hs

theorem team_testBit (b : Board) (c : Bool) (s : Nat) :
    (b.getTeamOccupiedBB c).testBit s = true
      ↔ ∃ t, t ≤ 5 ∧ (b.getPieceBB c t).testBit s = true := by
  unfold Board.getTeamOccupiedBB
  simp only [Nat.testBit_or, Bool.or_eq_true]
  constructor
  · rintro (((((h | h) | h) | h) | h) | h)
    · exact ⟨PAWN, by decide, h⟩
    · exact ⟨KNIGHT, by decide, h⟩
    · exact ⟨BISHOP, by decide, h⟩
    · exact ⟨ROOK, by decide, h⟩
    · exact ⟨QUEEN, by decide, h⟩
    · exact ⟨KING, by decide, h⟩
  · rintro ⟨t, ht, h⟩
    interval_cases t
    · exact Or.inl (Or.inl (Or.inl (Or.inl (Or.inl h))))
    · exact Or.inl (Or.inl (Or.inl (Or.inl (Or.inr h))))
    · exact Or.inl (Or.inl (Or.inl (Or.inr h)))
    · exact Or.inl (Or.inl (Or.inr h))
    · exact Or.inl (Or.inr h)
    · exact Or.inr h

/-- A bitboard all of whose squares are above `a`. -/
theorem rayAttack_above (shift : Nat → Nat) (a : Nat)
    (hs : ∀ b, (∀ i, b.testBit i = true → a ≤ i) → ∀ i, (shift b).testBit i = true → a < i)
    (occ n : Nat) (b : Nat) (hb : ∀ i, b.testBit i = true → a ≤ i) (i : Nat)
    (hi : (rayAttack shift occ n b).testBit i = true) : a < i := by
  induction n generalizing b with
  | zero =>
    rw [rayAttack, Nat.zero_testBit] at hi
    exact Bool.noConfusion hi
  | succ n ih =>
    rw [rayAttack] at hi
    have hn := hs b hb
    by_cases h0 : shift b = 0
    · rw [if_pos h0, Nat.zero_testBit] at hi
      exact Bool.noConfusion hi
    · rw [if_neg h0] at hi
      by_cases h1 : shift b &&& occ ≠ 0
      · rw [if_pos h1] at hi
        exact hn i hi
      · rw [if_neg h1, Nat.testBit_or, Bool.or_eq_true] at hi
        rcases hi with hi | hi
        · exact hn i hi
        · exact ih (shift b) (fun j hj => (hn j hj).le) hi

/-- A bitboard all of whose squares are below `a`. -/
theorem rayAttack_below (shift : Nat → Nat) (a : Nat)
    (hs : ∀ b, (∀ i, b.testBit i = true → i ≤ a) → ∀ i, (shift b).testBit i = true → i < a)
    (occ n : Nat) (b : Nat) (hb : ∀ i, b.testBit i = true → i ≤ a) (i : Nat)
    (hi : (rayAttack shift occ n b).testBit i = true) : i < a := by
  induction n generalizing b with
  | zero =>
    rw [rayAttack, Nat.zero_testBit] at hi
    exact Bool.noConfusion hi
  | succ n ih =>
    rw [rayAttack] at hi
    have hn := hs b hb
    by_cases h0 : shift b = 0
    · rw [if_pos h0, Nat.zero_testBit] at hi
      exact Bool.noConfusion hi
    · rw [if_neg h0] at hi
      by_cases h1 : shift b &&& occ ≠ 0
      · rw [if_pos h1] at hi
        exact hn i hi
      · rw [if_neg h1, Nat.testBit_or, Bool.or_eq_true] at hi
        rcases hi with hi | hi
        · exact hn i hi
        · exact ih (shift b) (fun j hj => (hn j hj).le) hi

theorem shl64_above (a k : Nat) (hk : 1 ≤ k) (b : Nat) (hb : ∀ i, b.testBit i = true → a ≤ i)
    (i : Nat) (hi : (shl64 b k).testBit i = true) : a < i := by
  rw [testBit_shl64] at hi
  simp only [Bool.and_eq_true, decide_eq_true_eq] at hi
  have := hb _ hi.2.2
  omega

theorem shr64_below (a k : Nat) (hk : 1 ≤ k) (b : Nat) (hb : ∀ i, b.testBit i = true → i ≤ a)
    (i : Nat) (hi : (shr64 b k).testBit i = true) : i < a := by
  rw [testBit_shr64] at hi
  simp only [Bool.and_eq_true, decide_eq_true_eq] at hi
  have := hb _ hi.2
  omega

theorem and_testBit_left {x y i : Nat} (h : (x &&& y).testBit i = true) : x.testBit i = true := by
  rw [Nat.testBit_and, Bool.and_eq_true] at h
  exact h.1

theorem between_not_self (shift : Nat → Nat) (a t : Nat)
    (hs : (∀ b, (∀ i, b.testBit i = true → a ≤ i) → ∀ i, (shift b).testBit i = true → a < i)
      ∨ (∀ b, (∀ i, b.testBit i = true → i ≤ a) → ∀ i, (shift b).testBit i = true → i < a)) :
    (between shift (shl64 1 a) (shl64 1 t)).testBit a = false := by
  have hx : ∀ i, (shl64 1 a).testBit i = true → i = a := by
    intro i hi
    rw [testBit_shl64] at hi
    simp only [Bool.and_eq_true, decide_eq_true_eq] at hi
    have h1 : (1 : Nat).testBit (i - a) = true := hi.2.2
    have h2 : i - a = 0 := by
      by_contra hne
      have : (1 : Nat).testBit (i - a) = false := by
        rw [show (1 : Nat) = 2 ^ 0 by rfl, Nat.testBit_two_pow]
        simp only [decide_eq_false_iff_not]
        omega
      rw [this] at h1
      exact Bool.noConfusion h1
    omega
  by_contra hc
  have hc2 : (between shift (shl64 1 a) (shl64 1 t)).testBit a = true := by
    cases h : (between shift (shl64 1 a) (shl64 1 t)).testBit a
    · exact absurd h hc
    · rfl
  unfold between at hc2
  dsimp only at hc2
  split at hc2
  · have h3 := and_testBit_left hc2
    rcases hs with hs | hs
    · exact absurd (rayAttack_above shift a hs _ 7 _ (fun i hi => (hx i hi).ge) a h3)
        (lt_irrefl a)
    · exact absurd (rayAttack_below shift a hs _ 7 _ (fun i hi => (hx i hi).le) a h3)
        (lt_irrefl a)
  · rw [Nat.zero_testBit] at hc2
    exact Bool.noConfusion hc2

/-- The own square is not between a square and another one. -/
theorem inBetween_not_self {a t : Nat} (_ha : a < 64) (_ht : t < 64) :
    (IN_BETWEEN_SQUARES a t).testBit a = false := by
  unfold IN_BETWEEN_SQUARES
  dsimp only
  simp only [Nat.testBit_or, Bool.or_eq_false_iff]
  refine ⟨⟨⟨⟨⟨⟨⟨?_, ?_⟩, ?_⟩, ?_⟩, ?_⟩, ?_⟩, ?_⟩, ?_⟩
  · exact between_not_self _ a t (Or.inl (fun b hb i hi => shl64_above a 8 (by decide) b hb i hi))
  · exact between_not_self _ a t (Or.inr (fun b hb i hi => shr64_below a 8 (by decide) b hb i hi))
  · exact between_not_self _ a t
      (Or.inl (fun b hb i hi => shl64_above a 1 (by decide) b hb i (and_testBit_left hi)))
  · exact between_not_self _ a t
      (Or.inr (fun b hb i hi => shr64_below a 1 (by decide) b hb i (and_testBit_left hi)))
  · exact between_not_self _ a t
      (Or.inl (fun b hb i hi => shl64_above a 9 (by decide) b hb i (and_testBit_left hi)))
  · exact between_not_self _ a t
      (Or.inl (fun b hb i hi => shl64_above a 7 (by decide) b hb i (and_testBit_left hi)))
  · exact between_not_self _ a t
      (Or.inr (fun b hb i hi => shr64_below a 7 (by decide) b hb i (and_testBit_left hi)))
  · exact between_not_self _ a t
      (Or.inr (fun b hb i hi => shr64_below a 9 (by decide) b hb i (and_testBit_left hi)))

theorem computePinnedPieces_fold (c : Bool) (b : Board) :
    computePinnedPieces c b
      = ((bitsOf (potentialPinners c b)).map
          (pinnedStep c b (b.getTeamOccupiedBB c) (bitscanForward (b.getPieceBB c KING)) 0)).sum := by
  have e : computePinnedPieces c b
      = (bitsOf (potentialPinners c b)).foldl
          (pinnedStep c b (b.getTeamOccupiedBB c) (bitscanForward (b.getPieceBB c KING))) (0, 0) :=
    rfl
  rw [e, foldl_additive _ (pinnedStep_additive _ _ _ _)]
  exact zero_add _

/-- The type of a potential pinner: an enemy bishop, rook or queen. -/
theorem pinner_type {b : Board} (hd : b.piecesDisjoint) (c : Bool) {p : Nat}
    (hp : p ∈ bitsOf (potentialPinners c b)) :
    p < 64 ∧ BISHOP ≤ pieceTypeOf b (!c) p ∧ pieceTypeOf b (!c) p ≤ QUEEN
      ∧ (b.getPieceBB (!c) (pieceTypeOf b (!c) p)).testBit p = true := by
  rw [mem_bitsOf] at hp
  refine ⟨hp.1, ?_⟩
  have h2 := hp.2
  unfold potentialPinners at h2
  simp only [Nat.testBit_or, Nat.testBit_and, Bool.or_eq_true, Bool.and_eq_true] at h2
  have key : ∀ t, BISHOP ≤ t → t ≤ QUEEN → (b.getPieceBB (!c) t).testBit p = true →
      BISHOP ≤ pieceTypeOf b (!c) p ∧ pieceTypeOf b (!c) p ≤ QUEEN
        ∧ (b.getPieceBB (!c) (pieceTypeOf b (!c) p)).testBit p = true := by
    intro t h1 h3 h4
    have ht5 : t ≤ 5 := le_trans h3 (by decide)
    rw [pieceTypeOf_of_testBit hd (!c) ht5 h4]
    exact ⟨h1, h3, h4⟩
  rcases h2 with ⟨_, h3 | h3⟩ | ⟨_, h3 | h3⟩
  · exact key ROOK (by decide) (by decide) h3
  · exact key QUEEN (by decide) (by decide) h3
  · exact key BISHOP (by decide) (by decide) h3
  · exact key QUEEN (by decide) (by decide) h3

/-- The type of the single own piece between the king and a pinner: not a king. -/
theorem pinned_type {b : Board} (h : b.wellFormed) (hd : b.piecesDisjoint) (c : Bool) {p : Nat}
    (hp : p < 64)
    (h1 : bitCount (b.getTeamOccupiedBB c
      &&& IN_BETWEEN_SQUARES (bitscanForward (b.getPieceBB c KING)) p) = 1) :
    ∃ q, q < 64
      ∧ b.getTeamOccupiedBB c &&& IN_BETWEEN_SQUARES (bitscanForward (b.getPieceBB c KING)) p
          = 2 ^ q
      ∧ pieceTypeOf b c q ≤ 4 ∧ (b.getPieceBB c (pieceTypeOf b c q)).testBit q = true := by
  obtain ⟨k, hk, ek⟩ := wf_king h c
  rw [ek, bitscanForward_pow hk] at h1 ⊢
  have hlt : b.getTeamOccupiedBB c &&& IN_BETWEEN_SQUARES k p < 2 ^ 64 :=
    Nat.and_lt_two_pow _ (IN_BETWEEN_SQUARES_lt k p)
  obtain ⟨q, hq, e⟩ := eq_two_pow_of_bitCount_one hlt h1
  refine ⟨q, hq, e, ?_⟩
  have hbit : (b.getTeamOccupiedBB c &&& IN_BETWEEN_SQUARES k p).testBit q = true := by
    rw [e, Nat.testBit_two_pow_self]
  rw [Nat.testBit_and, Bool.and_eq_true] at hbit
  obtain ⟨t, ht, hts⟩ := (team_testBit b c q).mp hbit.1
  rw [pieceTypeOf_of_testBit hd c ht hts]
  refine ⟨?_, hts⟩
  by_contra hn
  have ht5 : t = 5 := by omega
  rw [ht5] at hts
  have hts2 : (b.getPieceBB c KING).testBit q = true := hts
  rw [ek, Nat.testBit_two_pow] at hts2
  have hqk : k = q := by simpa using hts2
  subst hqk
  have := inBetween_not_self hk hp
  rw [hbit.2] at this
  exact Bool.noConfusion this

theorem pinnedStep_value {b : Board} (h : b.wellFormed) (hd : b.piecesDisjoint) (c : Bool)
    {p : Nat} (hp : p ∈ bitsOf (potentialPinners c b)) (r : EvalScore) :
    pinnedStep c b (b.getTeamOccupiedBB c) (bitscanForward (b.getPieceBB c KING)) r p
      = r + (if bitCount (b.getTeamOccupiedBB c
            &&& IN_BETWEEN_SQUARES (bitscanForward (b.getPieceBB c KING)) p) = 1 then
          tableAt pinnedEval
            (pieceTypeOf b c (bitscanForward (b.getTeamOccupiedBB c
                &&& IN_BETWEEN_SQUARES (bitscanForward (b.getPieceBB c KING)) p)) * 3
              + (pieceTypeOf b (!c) p - BISHOP))
        else 0) := by
  obtain ⟨hp64, hb, hq, hpin⟩ := pinner_type hd c hp
  have hlt : b.getTeamOccupiedBB c
      &&& IN_BETWEEN_SQUARES (bitscanForward (b.getPieceBB c KING)) p < 2 ^ 64 :=
    Nat.and_lt_two_pow _ (IN_BETWEEN_SQUARES_lt _ p)
  have hc := lsbIsolation_cond hlt
  unfold pinnedStep
  dsimp only
  by_cases h1 : bitCount (b.getTeamOccupiedBB c
      &&& IN_BETWEEN_SQUARES (bitscanForward (b.getPieceBB c KING)) p) = 1
  · rw [if_neg (fun hx => hc.mp hx h1), if_pos h1]
    obtain ⟨q, hq64, e, hq4, hqbit⟩ := pinned_type h hd c hp64 h1
    rw [e, bitscanForward_pow hq64]
    have g1 : b.getPiece q = ((Board.colorIndex c * 8 + pieceTypeOf b c q : Nat) : Int) :=
      getPiece_of_testBit hd (code_mem c (le_trans hq4 (by decide))) hqbit
    have g2 : b.getPiece p = ((Board.colorIndex (!c) * 8 + pieceTypeOf b (!c) p : Nat) : Int) :=
      getPiece_of_testBit hd (code_mem (!c) (le_trans hq (by decide))) hpin
    rw [g1, g2]
    congr 2
    have hb2 : 2 ≤ pieceTypeOf b (!c) p := hb
    clear g1 g2 hc hlt h1 e hpin hqbit hb hq hp
    cases c
    · simp only [Board.colorIndex, BISHOP, Bool.not_false, if_true, Bool.false_eq_true,
        if_false] at hb2 ⊢
      omega
    · simp only [Board.colorIndex, BISHOP, Bool.not_true, if_true, Bool.false_eq_true, if_false,
        Bool.true_eq_false] at hb2 ⊢
      omega
  · rw [if_pos (hc.mpr h1), if_neg h1, add_zero]

/-- Claim C25: for every position (each side has one king, no square holds two pieces)
and colour, `computePinnedPieces<colour>` is the sum, over the enemy bishops, rooks and
queens that the own king meets first on a line of their kind (the potential pinners),
of `pinnedEval[t_pinned * 3 + (t_pinner - BISHOP)]` when exactly one own piece stands
between king and slider, and of nothing otherwise.  The pinner type is a bishop, rook or
queen, the pinned type is a pawn, knight, bishop, rook or queen, both colour-agnostic, so
the index is in 0..14; one step of the loop adds exactly this term, and leaves the
result unchanged for a slider with zero or with two or more own pieces in between. -/
theorem computePinnedPieces_eq (c : Bool) (b : Board) (h : b.wellFormed)
    (hd : b.piecesDisjoint) :
    computePinnedPieces c b = pinnedSpec c b
      ∧ ∀ p ∈ bitsOf (potentialPinners c b),
          BISHOP ≤ pieceTypeOf b (!c) p ∧ pieceTypeOf b (!c) p ≤ QUEEN
          ∧ (b.getPieceBB (!c) (pieceTypeOf b (!c) p)).testBit p = true
          ∧ (bitCount (b.getTeamOccupiedBB c
                &&& IN_BETWEEN_SQUARES (bitscanForward (b.getPieceBB c KING)) p) = 1 →
              ∃ q, q < 64
                ∧ b.getTeamOccupiedBB c
                    &&& IN_BETWEEN_SQUARES (bitscanForward (b.getPieceBB c KING)) p = 2 ^ q
                ∧ pieceTypeOf b c q ≤ 4
                ∧ (b.getPieceBB c (pieceTypeOf b c q)).testBit q = true
                ∧ pieceTypeOf b c q * 3 + (pieceTypeOf b (!c) p - BISHOP) < 15
                ∧ pieceTypeOf b c q * 3 + (pieceTypeOf b (!c) p - BISHOP) < pinnedEval.length
                ∧ ∀ r, pinnedStep c b (b.getTeamOccupiedBB c)
                      (bitscanForward (b.getPieceBB c KING)) r p
                    = r + tableAt pinnedEval
                        (pieceTypeOf b c q * 3 + (pieceTypeOf b (!c) p - BISHOP)))
          ∧ (bitCount (b.getTeamOccupiedBB c
                &&& IN_BETWEEN_SQUARES (bitscanForward (b.getPieceBB c KING)) p) ≠ 1 →
              ∀ r, pinnedStep c b (b.getTeamOccupiedBB c)
                  (bitscanForward (b.getPieceBB c KING)) r p = r) := by
  constructor
  · rw [computePinnedPieces_fold]
    unfold pinnedSpec
    dsimp only
    congr 1
    apply List.map_congr_left
    intro p hp
    rw [pinnedStep_value h hd c hp 0, zero_add]
  · intro p hp
    obtain ⟨hp64, hb, hq, hpin⟩ := pinner_type hd c hp
    refine ⟨hb, hq, hpin, ?_, ?_⟩
    · intro h1
      obtain ⟨q, hq64, e, hq4, hqbit⟩ := pinned_type h hd c hp64 h1
      have hb2 : 2 ≤ pieceTypeOf b (!c) p := hb
      have hq2 : pieceTypeOf b (!c) p ≤ 4 := hq
      have hi : pieceTypeOf b c q * 3 + (pieceTypeOf b (!c) p - BISHOP) < 15 := by
        show pieceTypeOf b c q * 3 + (pieceTypeOf b (!c) p - 2) < 15
        omega
      refine ⟨q, hq64, e, hq4, hqbit, hi, hi, ?_⟩
      intro r
      rw [pinnedStep_value h hd c hp r, if_pos h1, e, bitscanForward_pow hq64]
    · intro h1 r
      rw [pinnedStep_value h hd c hp r, if_neg h1, add_zero]

/-- Witness of `computePinnedPieces_eq`: the white knight on e2 pinned by the rook on
e8. -/
theorem computePinnedPieces_eq_witness :
    pinBoard.wellFormed ∧ pinBoard.piecesDisjoint
      ∧ computePinnedPieces WHITE pinBoard = pinnedSpec WHITE pinBoard :=
  ⟨by decide, by decide, (computePinnedPieces_eq WHITE pinBoard (by decide) (by decide)).1⟩

/-! ## Search: the late-move-reduction table -/

theorem f64pos_error (q : ℚ) (hq : 0 < q) : |f64pos q - q| ≤ q / 2 ^ 53 := by
  unfold f64pos
  dsimp only
  have hu : (0 : ℚ) < (2 : ℚ) ^ (binExp q - 52) := zpow_pos (by norm_num) _
  have he := roundHalfEven_error (q / (2 : ℚ) ^ (binExp q - 52))
  have hb := binExp_le q hq
  have e1 : (roundHalfEven (q / (2 : ℚ) ^ (binExp q - 52)) : ℚ) * (2 : ℚ) ^ (binExp q - 52) - q
      = ((roundHalfEven (q / (2 : ℚ) ^ (binExp q - 52)) : ℚ) - q / (2 : ℚ) ^ (binExp q - 52))
          * (2 : ℚ) ^ (binExp q - 52) := by
    field_simp
  rw [e1, abs_mul, abs_of_pos hu]
  have e2 : (2 : ℚ) ^ (binExp q - 52) = (2 : ℚ) ^ (binExp q) / 2 ^ 52 := by
    rw [zpow_sub₀ (by norm_num : (2 : ℚ) ≠ 0)]
    norm_num
  calc |(roundHalfEven (q / (2 : ℚ) ^ (binExp q - 52)) : ℚ) - q / (2 : ℚ) ^ (binExp q - 52)|
        * (2 : ℚ) ^ (binExp q - 52)
      ≤ 1 / 2 * (2 : ℚ) ^ (binExp q - 52) := mul_le_mul_of_nonneg_right he hu.le
    _ = (2 : ℚ) ^ (binExp q) / 2 ^ 53 := by rw [e2]; ring
    _ ≤ q / 2 ^ 53 := by
        apply div_le_div_of_nonneg_right hb
        positivity

theorem f64_error (q : ℚ) : |f64 q - q| ≤ |q| / 2 ^ 53 := by
  unfold f64
  split
  · rename_i h
    rw [h]
    norm_num
  · split
    · rename_i h0 h
      have := f64pos_error (-q) (by linarith)
      rw [abs_of_neg h]
      have e : -f64pos (-q) - q = -(f64pos (-q) - -q) := by ring
      rw [e, abs_neg]
      exact this
    · rename_i h0 h
      have hq : 0 < q := lt_of_le_of_ne (not_lt.mp h) (Ne.symm h0)
      rw [abs_of_pos hq]
      exact f64pos_error q hq

theorem f64_zero : f64 0 = 0 := by
  unfold f64
  rw [if_pos rfl]

theorem f64_one : f64 1 = 1 := by
  have h1 : binExp 1 = 0 := binExp_eq 1 0 (by norm_num) (by norm_num) (by norm_num)
  have hr : roundHalfEven ((2 : ℚ) ^ 52) = 2 ^ 52 := by
    unfold roundHalfEven
    have hf : Rat.floor ((2 : ℚ) ^ 52) = 2 ^ 52 := by
      show ⌊(2 : ℚ) ^ 52⌋ = 2 ^ 52
      rw [show ((2 : ℚ) ^ 52) = ((2 ^ 52 : Int) : ℚ) by norm_num, Int.floor_intCast]
    simp only [hf]
    norm_num
  unfold f64
  rw [if_neg (by norm_num), if_neg (by norm_num)]
  unfold f64pos
  simp only [h1]
  have e : (1 : ℚ) / (2 : ℚ) ^ ((0 : Int) - 52) = (2 : ℚ) ^ 52 := by
    rw [zero_sub, zpow_neg, one_div, inv_inv]
    norm_cast
  rw [e, hr]
  rw [zero_sub, zpow_neg]
  norm_num

/-! ### The loops of `initLmr` -/

theorem lmr_inner_fold (log : Nat → Double) (d : Nat) (l : List Nat) (t : LmrTable)
    (d' m' : Nat) :
    (l.foldl (fun t m => lmrAssign log t d m) t) d' m'
      = if d' = d ∧ m' ∈ l then (lmrValue log d' m').toInt else t d' m' := by
  induction l generalizing t with
  | nil => simp
  | cons x l ih =>
    rw [List.foldl_cons, ih]
    unfold lmrAssign
    by_cases h1 : d' = d
    · by_cases h2 : m' ∈ l
      · rw [if_pos ⟨h1, h2⟩, if_pos ⟨h1, List.mem_cons_of_mem _ h2⟩]
      · rw [if_neg (fun h => h2 h.2)]
        by_cases h3 : m' = x
        · rw [if_pos ⟨h1, h3⟩, if_pos ⟨h1, by rw [h3]; exact List.mem_cons_self _ _⟩, h1, h3]
        · rw [if_neg (fun h => h3 h.2), if_neg]
          rintro ⟨_, h⟩
          rcases List.mem_cons.mp h with e | e
          · exact h3 e
          · exact h2 e
    · rw [if_neg (fun h => h1 h.1), if_neg (fun h => h1 h.1), if_neg (fun h => h1 h.1)]

theorem lmr_outer_fold (log : Nat → Double) (l k : List Nat) (t : LmrTable) (d' m' : Nat) :
    (l.foldl (fun t d => k.foldl (fun t m => lmrAssign log t d m) t) t) d' m'
      = if d' ∈ l ∧ m' ∈ k then (lmrValue log d' m').toInt else t d' m' := by
  induction l generalizing t with
  | nil => simp
  | cons x l ih =>
    rw [List.foldl_cons, ih, lmr_inner_fold]
    by_cases h2 : m' ∈ k
    · by_cases h1 : d' ∈ l
      · rw [if_pos ⟨h1, h2⟩, if_pos ⟨List.mem_cons_of_mem _ h1, h2⟩]
      · rw [if_neg (fun h => h1 h.1)]
        by_cases h3 : d' = x
        · rw [if_pos ⟨h3, h2⟩, if_pos ⟨by rw [h3]; exact List.mem_cons_self _ _, h2⟩]
        · rw [if_neg (fun h => h3 h.1), if_neg]
          rintro ⟨h, _⟩
          rcases List.mem_cons.mp h with e | e
          · exact h3 e
          · exact h1 e
    · rw [if_neg (fun h => h2 h.2), if_neg (fun h => h2 h.2), if_neg (fun h => h2 h.2)]

/-- After the loops every entry of the array holds the conversion of its expression. -/
theorem initLmr_entry (log : Nat → Double) {d m : Nat} (hd : d < 256) (hm : m < 256) :
    initLmr log d m = (lmrValue log d m).toInt := by
  unfold initLmr
  rw [lmr_outer_fold, if_pos ⟨List.mem_range.mpr hd, List.mem_range.mpr hm⟩]

theorem mul_half_posInf : Double.mul Double.posInf (Double.finite (1 / 2)) = Double.posInf := by
  show (if (1 / 2 : ℚ) = 0 then Double.nan
    else if 0 < (1 / 2 : ℚ) then Double.posInf else Double.negInf) = _
  rw [if_neg (by norm_num), if_pos (by norm_num)]

theorem mul_half_negInf : Double.mul Double.negInf (Double.finite (1 / 2)) = Double.negInf := by
  show (if (1 / 2 : ℚ) = 0 then Double.nan
    else if 0 < (1 / 2 : ℚ) then Double.negInf else Double.posInf) = _
  rw [if_neg (by norm_num), if_pos (by norm_num)]

theorem lmrValue_zero_zero (log : Nat → Double) (h0 : log 0 = Double.negInf) :
    lmrValue log 0 0 = Double.posInf := by
  unfold lmrValue
  rw [h0]
  show Double.add (Double.finite 1) (Double.mul Double.posInf (Double.finite (1 / 2))) = _
  rw [mul_half_posInf]
  rfl

theorem lmrValue_zero_one (log : Nat → Double) (h0 : log 0 = Double.negInf)
    (h1 : log 1 = Double.finite 0) :
    lmrValue log 0 1 = Double.nan ∧ lmrValue log 1 0 = Double.nan := by
  unfold lmrValue
  rw [h0, h1]
  exact ⟨rfl, rfl⟩

theorem lmrValue_zero_pos (log : Nat → Double) (h0 : log 0 = Double.negInf) {d : Nat} {q : ℚ}
    (hq : log d = Double.finite q) (hpos : 0 < q) :
    lmrValue log 0 d = Double.negInf ∧ lmrValue log d 0 = Double.negInf := by
  unfold lmrValue
  rw [h0, hq]
  have e1 : Double.mul Double.negInf (Double.finite q) = Double.negInf := by
    show (if q = 0 then Double.nan else if 0 < q then Double.negInf else Double.posInf) = _
    rw [if_neg hpos.ne.symm, if_pos hpos]
  have e2 : Double.mul (Double.finite q) Double.negInf = Double.negInf := by
    show (if q = 0 then Double.nan else if 0 < q then Double.negInf else Double.posInf) = _
    rw [if_neg hpos.ne.symm, if_pos hpos]
  rw [e1, e2, mul_half_negInf]
  exact ⟨rfl, rfl⟩

/-! ### Certified bounds of the natural logarithm -/

theorem logStepsOk_table : logStepsOk 1 (0, 0) logRows = true := by
  decide!

theorem logRowOk_table : logRows.all logRowOk = true := by
  decide!

theorem logSorted_table : logSorted logRows = true := by
  decide!

theorem lmrLevelsOk_table : lmrLevelsOk = true := by
  decide!

theorem logRows_length : logRows.length = 254 := by
  decide!

theorem nat_div_bounds (a b : ℕ) :
    ((a / b : ℕ) : ℝ) ≤ (a : ℝ) / b ∧ (a : ℝ) / b < ((a / b : ℕ) : ℝ) + 1 := by
  refine ⟨Nat.cast_div_le, ?_⟩
  by_cases hb : b = 0
  · subst hb
    simp
  · have hb0 : (0 : ℝ) < b := by exact_mod_cast Nat.pos_of_ne_zero hb
    rw [div_lt_iff₀ hb0]
    have h1 : a < (a / b + 1) * b := by
      have := Nat.div_add_mod a b
      have := Nat.mod_lt a (Nat.pos_of_ne_zero hb)
      nlinarith
    exact_mod_cast h1

theorem log_step_series (n : ℕ) (hn : 1 ≤ n) (N : ℕ) :
    |(∑ i ∈ Finset.range N, (1 / ((n : ℝ) + 1)) ^ (i + 1) / ((i : ℝ) + 1))
        - (Real.log ((n : ℝ) + 1) - Real.log n)| ≤ 1 / ((n : ℝ) * ((n : ℝ) + 1) ^ N) := by
  have hn0 : (0 : ℝ) < n := by exact_mod_cast hn
  have hx0 : (0 : ℝ) < 1 / ((n : ℝ) + 1) := by positivity
  have hx : |1 / ((n : ℝ) + 1)| < 1 := by
    rw [abs_of_pos hx0, div_lt_one (by positivity)]
    linarith
  have h := Real.abs_log_sub_add_sum_range_le hx N
  rw [abs_of_pos hx0] at h
  have e1 : (1 : ℝ) - 1 / ((n : ℝ) + 1) = n / (n + 1) := by field_simp
  have e2 : Real.log ((n : ℝ) / (n + 1)) = Real.log n - Real.log (n + 1) :=
    Real.log_div hn0.ne.symm (by positivity)
  have e3 : (1 / ((n : ℝ) + 1)) ^ (N + 1) / ((n : ℝ) / (n + 1)) = 1 / (n * (n + 1) ^ N) := by
    field_simp
    ring
  rw [e1, e2, e3] at h
  have e4 : (∑ i ∈ Finset.range N, (1 / ((n : ℝ) + 1)) ^ (i + 1) / ((i : ℝ) + 1))
      - (Real.log ((n : ℝ) + 1) - Real.log n)
      = (∑ i ∈ Finset.range N, (1 / ((n : ℝ) + 1)) ^ (i + 1) / ((i : ℝ) + 1))
        + (Real.log n - Real.log (n + 1)) := by ring
  rw [e4]
  exact h

theorem logStepSum_bounds (n : ℕ) (N : ℕ) :
    (logStepSum n N : ℝ)
        ≤ (logScale : ℝ) * ∑ i ∈ Finset.range N, (1 / ((n : ℝ) + 1)) ^ (i + 1) / ((i : ℝ) + 1)
      ∧ (logScale : ℝ) * ∑ i ∈ Finset.range N, (1 / ((n : ℝ) + 1)) ^ (i + 1) / ((i : ℝ) + 1)
        ≤ (logStepSum n N : ℝ) + N := by
  induction N with
  | zero => simp [logStepSum]
  | succ k ih =>
    rw [Finset.sum_range_succ, mul_add]
    have ht : (logScale : ℝ) * ((1 / ((n : ℝ) + 1)) ^ (k + 1) / ((k : ℝ) + 1))
        = (logScale : ℝ) / (((k + 1) * (n + 1) ^ (k + 1) : ℕ) : ℝ) := by
      push_cast
      field_simp
      left
      ring
    have hb := nat_div_bounds logScale ((k + 1) * (n + 1) ^ (k + 1))
    have e : (logStepSum n (k + 1) : ℝ)
        = (logStepSum n k : ℝ) + ((logScale / ((k + 1) * (n + 1) ^ (k + 1)) : ℕ) : ℝ) := by
      show ((logStepSum n k + logScale / ((k + 1) * (n + 1) ^ (k + 1)) : ℕ) : ℝ) = _
      rw [Nat.cast_add]
    rw [ht, e]
    constructor
    · linarith [ih.1, hb.1]
    · have ek : ((k + 1 : ℕ) : ℝ) = (k : ℝ) + 1 := by push_cast; ring
      rw [ek]
      linarith [ih.2, hb.2]

theorem log_step_bounds (n : ℕ) (hn : 1 ≤ n) :
    (logStepLo n : ℝ) ≤ (logScale : ℝ) * (Real.log ((n : ℝ) + 1) - Real.log n)
      ∧ (logScale : ℝ) * (Real.log ((n : ℝ) + 1) - Real.log n) ≤ (logStepHi n : ℝ) := by
  have hn0 : (0 : ℝ) < n := by exact_mod_cast hn
  have hS : (0 : ℝ) < (logScale : ℝ) := by
    have : 0 < logScale := by decide
    exact_mod_cast this
  have hser := abs_le.mp (log_step_series n hn 32)
  have hsum := logStepSum_bounds n 32
  have htail := nat_div_bounds logScale (n * (n + 1) ^ 32)
  have et : (logScale : ℝ) * (1 / ((n : ℝ) * ((n : ℝ) + 1) ^ 32))
      = (logScale : ℝ) / ((n * (n + 1) ^ 32 : ℕ) : ℝ) := by
    push_cast
    field_simp
  have htl : (logScale : ℝ) * (1 / ((n : ℝ) * ((n : ℝ) + 1) ^ 32)) ≤ (logStepTail n : ℝ) := by
    rw [et]
    have : (logStepTail n : ℝ) = ((logScale / (n * (n + 1) ^ 32) : ℕ) : ℝ) + 1 := by
      unfold logStepTail
      push_cast
      rfl
    rw [this]
    exact htail.2.le
  generalize (∑ i ∈ Finset.range 32, (1 / ((n : ℝ) + 1)) ^ (i + 1) / ((i : ℝ) + 1)) = A
    at hser hsum
  generalize (1 / ((n : ℝ) * ((n : ℝ) + 1) ^ 32)) = T at hser htl
  have hL : 0 ≤ Real.log ((n : ℝ) + 1) - Real.log n :=
    sub_nonneg.mpr (Real.log_le_log hn0 (by linarith))
  generalize (Real.log ((n : ℝ) + 1) - Real.log n) = L at hser hL ⊢
  have hS1 : (logScale : ℝ) * (A - L) ≤ (logScale : ℝ) * T :=
    mul_le_mul_of_nonneg_left hser.2 hS.le
  have hS2 : (logScale : ℝ) * (-T) ≤ (logScale : ℝ) * (A - L) :=
    mul_le_mul_of_nonneg_left hser.1 hS.le
  constructor
  · unfold logStepLo
    by_cases hc : logStepTail n ≤ logStepSum n 32
    · rw [Nat.cast_sub hc]
      nlinarith [hsum.1]
    · have h0 : logStepSum n 32 - logStepTail n = 0 := by omega
      rw [h0, Nat.cast_zero]
      exact mul_nonneg hS.le hL
  · unfold logStepHi
    push_cast
    have := hsum.2
    push_cast at this
    nlinarith

theorem logStepsOk_sound (l : List (ℕ × ℕ)) :
    ∀ (n : ℕ) (a : ℕ × ℕ), 1 ≤ n → logStepsOk n a l = true →
      (a.1 : ℝ) ≤ (logScale : ℝ) * Real.log n → (logScale : ℝ) * Real.log n ≤ (a.2 : ℝ) →
      ∀ i, i < l.length →
        ((l.getD i (0, 0)).1 : ℝ) ≤ (logScale : ℝ) * Real.log ((n + 1 + i : ℕ) : ℝ)
          ∧ (logScale : ℝ) * Real.log ((n + 1 + i : ℕ) : ℝ) ≤ ((l.getD i (0, 0)).2 : ℝ) := by
  induction l with
  | nil =>
    intro n a _ _ _ _ i hi
    exact absurd hi (Nat.not_lt_zero _)
  | cons b rest ih =>
    intro n a hn h h1 h2 i hi
    rw [logStepsOk] at h
    simp only [Bool.and_eq_true, Nat.ble_eq] at h
    obtain ⟨⟨c1, c2⟩, c3⟩ := h
    have hb := log_step_bounds n hn
    have b1 : (b.1 : ℝ) ≤ (logScale : ℝ) * Real.log ((n + 1 : ℕ) : ℝ) := by
      have : (b.1 : ℝ) ≤ (a.1 : ℝ) + (logStepLo n : ℝ) := by exact_mod_cast c1
      push_cast
      linarith [hb.1]
    have b2 : (logScale : ℝ) * Real.log ((n + 1 : ℕ) : ℝ) ≤ (b.2 : ℝ) := by
      have : (a.2 : ℝ) + (logStepHi n : ℝ) ≤ (b.2 : ℝ) := by exact_mod_cast c2
      push_cast
      linarith [hb.2]
    cases i with
    | zero => exact ⟨b1, b2⟩
    | succ j =>
      have hj : j < rest.length := by
        rw [List.length_cons] at hi
        omega
      have := ih (n + 1) b (by omega) c3 b1 b2 j hj
      rw [List.getD_cons_succ, show n + 1 + (j + 1) = n + 1 + 1 + j by omega]
      exact this

theorem log_table_bounds (d : ℕ) (h1 : 2 ≤ d) (h2 : d ≤ 255) :
    (logLo d : ℝ) ≤ (logScale : ℝ) * Real.log d
      ∧ (logScale : ℝ) * Real.log d ≤ (logHi d : ℝ) := by
  have h := logStepsOk_sound logRows 1 (0, 0) (le_refl 1) logStepsOk_table
    (by simp) (by simp) (d - 2) (by rw [logRows_length]; omega)
  rw [show 1 + 1 + (d - 2) = d by omega] at h
  exact h

theorem logRows_mem {d : ℕ} (hd : 2 ≤ d) (hd' : d ≤ 255) : (logLo d, logHi d) ∈ logRows := by
  have hd2 : d - 2 < logRows.length := by rw [logRows_length]; omega
  have e : logRows.getD (d - 2) (0, 0) = logRows[d - 2] := List.getD_eq_getElem _ _ hd2
  show (logRows.getD (d - 2) (0, 0)) ∈ logRows
  rw [e]
  exact List.getElem_mem _

theorem logRow_facts {d : ℕ} (hd : 2 ≤ d) (hd' : d ≤ 255) :
    2 ^ 39 ≤ logLo d ∧ logLo d ≤ logHi d ∧ logHi d ≤ logLo d + 2 ^ 20
      ∧ logHi d ≤ 6102290000000 := by
  have h := List.all_eq_true.mp logRowOk_table _ (logRows_mem hd hd')
  unfold logRowOk at h
  simp only [Bool.and_eq_true, Nat.ble_eq] at h
  exact ⟨h.1.1.1, h.1.1.2, h.1.2, h.2⟩

theorem logSorted_pairwise (l : List (ℕ × ℕ)) (h : logSorted l = true) :
    l.Pairwise (fun a b => a.1 ≤ b.1 ∧ a.2 ≤ b.2) := by
  induction l with
  | nil => exact List.Pairwise.nil
  | cons a t ih =>
    cases t with
    | nil => exact List.pairwise_singleton _ _
    | cons b rest =>
      rw [logSorted] at h
      simp only [Bool.and_eq_true, Nat.ble_eq] at h
      have ihp := ih h.2
      rw [List.pairwise_cons]
      refine ⟨?_, ihp⟩
      intro c hc
      rcases List.mem_cons.mp hc with e | hc
      · rw [e]
        exact ⟨h.1.1, h.1.2⟩
      · have := (List.pairwise_cons.mp ihp).1 c hc
        exact ⟨le_trans h.1.1 this.1, le_trans h.1.2 this.2⟩

theorem lmrAbove_mono (k : ℕ) {a c b : ℕ × ℕ} (h : a.1 ≤ c.1) (hA : lmrAbove k a b = true) :
    lmrAbove k c b = true := by
  unfold lmrAbove at hA ⊢
  rw [Nat.ble_eq] at hA ⊢
  exact le_trans hA (Nat.mul_le_mul_right _ (Nat.sub_le_sub_right h _))

theorem lmrBelow_mono (k : ℕ) {a b c : ℕ × ℕ} (h : c.2 ≤ b.2) (hB : lmrBelow k a b = true) :
    lmrBelow k a c = true := by
  unfold lmrBelow at hB ⊢
  rw [Nat.ble_eq] at hB ⊢
  exact le_trans (Nat.add_le_add_right
    (Nat.mul_le_mul_left _ (Nat.add_le_add_right h _)) _) hB

theorem lmrSaddle_sound (k : ℕ) :
    ∀ (fuel : ℕ) (rows cols : List (ℕ × ℕ)),
      rows.Pairwise (fun a b => a.1 ≤ b.1 ∧ a.2 ≤ b.2) →
      cols.Pairwise (fun a b => b.1 ≤ a.1 ∧ b.2 ≤ a.2) →
      lmrSaddle k fuel rows cols = true →
      ∀ a ∈ rows, ∀ b ∈ cols, lmrAbove k a b = true ∨ lmrBelow k a b = true := by
  intro fuel
  induction fuel with
  | zero =>
    intro rows cols _ _ h a ha b hb
    cases rows with
    | nil => exact absurd ha (List.not_mem_nil _)
    | cons r rows =>
      cases cols with
      | nil => exact absurd hb (List.not_mem_nil _)
      | cons c cols =>
        rw [lmrSaddle] at h
        exact Bool.noConfusion h
  | succ fuel ih =>
    intro rows cols hr hc h a ha b hb
    cases rows with
    | nil => exact absurd ha (List.not_mem_nil _)
    | cons r rows =>
      cases cols with
      | nil => exact absurd hb (List.not_mem_nil _)
      | cons c cols =>
        rw [lmrSaddle] at h
        by_cases hA : lmrAbove k r c = true
        · rw [if_pos hA] at h
          rcases List.mem_cons.mp hb with e | hb2
          · left
            rw [e]
            rcases List.mem_cons.mp ha with e2 | ha2
            · rw [e2]
              exact hA
            · exact lmrAbove_mono k ((List.pairwise_cons.mp hr).1 a ha2).1 hA
          · exact ih (r :: rows) cols hr (List.pairwise_cons.mp hc).2 h a ha b hb2
        · rw [if_neg hA, Bool.and_eq_true] at h
          rcases List.mem_cons.mp ha with e | ha2
          · right
            rw [e]
            rcases List.mem_cons.mp hb with e2 | hb2
            · rw [e2]
              exact h.1
            · exact lmrBelow_mono k ((List.pairwise_cons.mp hc).1 b hb2).2 h.1
          · exact ih rows (c :: cols) (List.pairwise_cons.mp hr).2 hc h.2 a ha2 b hb

/-- Every pair of rows of the table is above or below each of the levels 1 to 16. -/
theorem lmrLevels_sound {k : ℕ} (hk1 : 1 ≤ k) (hk2 : k ≤ 16) {a b : ℕ × ℕ}
    (ha : a ∈ logRows) (hb : b ∈ logRows) : lmrAbove k a b = true ∨ lmrBelow k a b = true := by
  have h := lmrLevelsOk_table
  unfold lmrLevelsOk at h
  rw [List.all_eq_true] at h
  have hk := h (k - 1) (List.mem_range.mpr (by omega))
  rw [show k - 1 + 1 = k by omega] at hk
  have hs := logSorted_pairwise logRows logSorted_table
  have hrev : logRows.reverse.Pairwise (fun a b => b.1 ≤ a.1 ∧ b.2 ≤ a.2) :=
    List.pairwise_reverse.mpr hs
  exact lmrSaddle_sound k 600 logRows logRows.reverse hs hrev hk a ha b
    (List.mem_reverse.mpr hb)

/-! ### The entries of the table -/

theorem truncInt_of_floor (s : ℚ) (k : Int) (hk : 0 ≤ k) (h1 : (k : ℚ) ≤ s) (h2 : s < k + 1) :
    truncInt s = k := by
  unfold truncInt
  have hs : ¬ s < 0 := by
    have : (0 : ℚ) ≤ k := by exact_mod_cast hk
    linarith
  rw [if_neg hs]
  show ⌊s⌋ = k
  rw [Int.floor_eq_iff]
  exact ⟨h1, h2⟩

theorem lmr_float_chain (P : ℚ) (k : ℕ) (hk : k < 32)
    (h1 : (k : ℚ) + 1 / 2 ^ 30 ≤ P / 2) (h2 : P / 2 ≤ k + 1 - 1 / 2 ^ 30) :
    truncInt (f64 (1 + f64 (f64 P * (1 / 2)))) = 1 + (k : Int) := by
  have hk1 : (k : ℚ) ≤ 31 := by exact_mod_cast Nat.le_of_lt_succ hk
  have hk0 : (0 : ℚ) ≤ k := Nat.cast_nonneg k
  have hP0 : 0 ≤ P := by linarith
  have e1 := abs_le.mp (f64_error P)
  rw [abs_of_nonneg hP0] at e1
  generalize f64 P = p1 at e1 ⊢
  have hp1 : 0 ≤ p1 * (1 / 2) := by linarith [e1.1]
  have e2 := abs_le.mp (f64_error (p1 * (1 / 2)))
  rw [abs_of_nonneg hp1] at e2
  generalize f64 (p1 * (1 / 2)) = p2 at e2 ⊢
  have hs0 : 0 ≤ 1 + p2 := by linarith [e2.1]
  have e3 := abs_le.mp (f64_error (1 + p2))
  rw [abs_of_nonneg hs0] at e3
  generalize f64 (1 + p2) = s at e3 ⊢
  apply truncInt_of_floor
  · omega
  · push_cast
    linarith [e1.1, e1.2, e2.1, e2.2, e3.1, e3.2]
  · push_cast
    linarith [e1.1, e1.2, e2.1, e2.2, e3.1, e3.2]

theorem half_product_bounds (x y la lb ha hb k : ℝ) (hla : 0 ≤ la) (hlb : 0 ≤ lb)
    (hx1 : la ≤ x) (hx2 : x ≤ ha) (hy1 : lb ≤ y) (hy2 : y ≤ hb)
    (c1 : 2 * 2 ^ 40 * 2 ^ 40 * k + 2 ^ 51 ≤ la * lb)
    (c2 : ha * hb + 2 ^ 51 ≤ 2 * 2 ^ 40 * 2 ^ 40 * (k + 1)) :
    k + 1 / 2 ^ 30 ≤ x / 2 ^ 40 * (y / 2 ^ 40) / 2
      ∧ x / 2 ^ 40 * (y / 2 ^ 40) / 2 ≤ k + 1 - 1 / 2 ^ 30 := by
  have hx0 : 0 ≤ x := le_trans hla hx1
  have hy0 : 0 ≤ y := le_trans hlb hy1
  have m1 : la * lb ≤ x * y := mul_le_mul hx1 hy1 hlb hx0
  have m2 : x * y ≤ ha * hb := mul_le_mul hx2 hy2 hy0 (le_trans hx0 hx2)
  have e : x / 2 ^ 40 * (y / 2 ^ 40) / 2 = x * y / (2 * 2 ^ 40 * 2 ^ 40) := by
    rw [div_mul_div_comm, div_div]
    congr 1
    ring
  rw [e]
  constructor
  · rw [le_div_iff₀ (by positivity)]
    linarith
  · rw [div_le_iff₀ (by positivity)]
    linarith

theorem logPair_nat {d m : ℕ} (hd : 2 ≤ d) (hd' : d ≤ 255) (hm : 2 ≤ m) (hm' : m ≤ 255) :
    ∃ k : ℕ, k < 32
      ∧ 2 * 2 ^ 40 * 2 ^ 40 * k + 2 ^ 51 ≤ (logLo d - 2 ^ 20) * (logLo m - 2 ^ 20)
      ∧ (logHi d + 2 ^ 20) * (logHi m + 2 ^ 20) + 2 ^ 51 ≤ 2 * 2 ^ 40 * 2 ^ 40 * (k + 1) := by
  obtain ⟨d1, d2, d3, d4⟩ := logRow_facts hd hd'
  obtain ⟨m1, m2, m3, m4⟩ := logRow_facts hm hm'
  have hmemd := logRows_mem hd hd'
  have hmemm := logRows_mem hm hm'
  have hpos : 0 < 2 * 2 ^ 40 * 2 ^ 40 := by decide
  have hla : 2 ^ 38 ≤ logLo d - 2 ^ 20 := by omega
  have hlb : 2 ^ 38 ≤ logLo m - 2 ^ 20 := by omega
  have hub : (logLo d - 2 ^ 20) * (logLo m - 2 ^ 20) ≤ 6102290000000 * 6102290000000 :=
    Nat.mul_le_mul (by omega) (by omega)
  have hlh : (logLo d - 2 ^ 20) * (logLo m - 2 ^ 20) ≤ (logHi d + 2 ^ 20) * (logHi m + 2 ^ 20) :=
    Nat.mul_le_mul (by omega) (by omega)
  have hlow : 2 ^ 38 * 2 ^ 38 ≤ (logLo d - 2 ^ 20) * (logLo m - 2 ^ 20) := Nat.mul_le_mul hla hlb
  generalize hP : (logLo d - 2 ^ 20) * (logLo m - 2 ^ 20) = P at hub hlh hlow
  have hdiv := Nat.div_add_mod P (2 * 2 ^ 40 * 2 ^ 40)
  have hmod := Nat.mod_lt P hpos
  have hK : P / (2 * 2 ^ 40 * 2 ^ 40) < 16 := by
    rw [Nat.div_lt_iff_lt_mul hpos]
    exact lt_of_le_of_lt hub (by decide)
  generalize hKe : P / (2 * 2 ^ 40 * 2 ^ 40) = K at hdiv hK
  have up : lmrBelow (K + 1) (logLo d, logHi d) (logLo m, logHi m) = true := by
    rcases lmrLevels_sound (show 1 ≤ K + 1 by omega) (show K + 1 ≤ 16 by omega) hmemd hmemm
      with h | h
    · exfalso
      unfold lmrAbove logScale at h
      rw [Nat.ble_eq] at h
      have h2 : 2 * 2 ^ 40 * 2 ^ 40 * (K + 1) + 2 ^ 51 ≤ P := by
        rw [← hP]
        exact h
      rw [Nat.mul_add] at h2
      omega
    · exact h
  unfold lmrBelow logScale at up
  rw [Nat.ble_eq] at up
  refine ⟨K, by omega, ?_, up⟩
  by_cases hK0 : K = 0
  · subst hK0
    have : (2 : ℕ) ^ 51 ≤ 2 ^ 38 * 2 ^ 38 := by decide
    omega
  · rcases lmrLevels_sound (show 1 ≤ K by omega) (show K ≤ 16 by omega) hmemd hmemm
      with h | h
    · unfold lmrAbove logScale at h
      rw [Nat.ble_eq] at h
      rw [← hP]
      exact h
    · exfalso
      unfold lmrBelow logScale at h
      rw [Nat.ble_eq] at h
      have h3 : (logHi d + 2 ^ 20) * (logHi m + 2 ^ 20) + 2 ^ 51 ≤ 2 * 2 ^ 40 * 2 ^ 40 * K := h
      omega

theorem logPair_facts {d m : ℕ} (hd : 2 ≤ d) (hd' : d ≤ 255) (hm : 2 ≤ m) (hm' : m ≤ 255) :
    ∃ k : ℕ, k < 32
      ∧ 2 * 2 ^ 40 * 2 ^ 40 * (k : ℝ) + 2 ^ 51
          ≤ ((logLo d : ℝ) - 2 ^ 20) * ((logLo m : ℝ) - 2 ^ 20)
      ∧ ((logHi d : ℝ) + 2 ^ 20) * ((logHi m : ℝ) + 2 ^ 20) + 2 ^ 51
          ≤ 2 * 2 ^ 40 * 2 ^ 40 * ((k : ℝ) + 1)
      ∧ (0 : ℝ) ≤ (logLo d : ℝ) - 2 ^ 20 ∧ (0 : ℝ) ≤ (logLo m : ℝ) - 2 ^ 20 := by
  obtain ⟨k, c3, c1, c2⟩ := logPair_nat hd hd' hm hm'
  have hd20 : 2 ^ 20 ≤ logLo d := le_trans (by decide) (logRow_facts hd hd').1
  have hm20 : 2 ^ 20 ≤ logLo m := le_trans (by decide) (logRow_facts hm hm').1
  have e1 : ((logLo d - 2 ^ 20 : ℕ) : ℝ) = (logLo d : ℝ) - 2 ^ 20 := by
    rw [Nat.cast_sub hd20]
    norm_num
  have e2 : ((logLo m - 2 ^ 20 : ℕ) : ℝ) = (logLo m : ℝ) - 2 ^ 20 := by
    rw [Nat.cast_sub hm20]
    norm_num
  have r1 : ((2 * 2 ^ 40 * 2 ^ 40 * k + 2 ^ 51 : ℕ) : ℝ)
      ≤ (((logLo d - 2 ^ 20) * (logLo m - 2 ^ 20) : ℕ) : ℝ) :=
    Nat.cast_le.mpr c1
  have r2 : ((((logHi d + 2 ^ 20) * (logHi m + 2 ^ 20) + 2 ^ 51 : ℕ)) : ℝ)
      ≤ ((2 * 2 ^ 40 * 2 ^ 40 * (k + 1) : ℕ) : ℝ) :=
    Nat.cast_le.mpr c2
  rw [Nat.cast_mul, e1, e2] at r1
  refine ⟨k, c3, ?_, ?_, ?_, ?_⟩
  · have e : ((2 * 2 ^ 40 * 2 ^ 40 * k + 2 ^ 51 : ℕ) : ℝ)
        = 2 * 2 ^ 40 * 2 ^ 40 * (k : ℝ) + 2 ^ 51 := by push_cast; ring
    rw [e] at r1
    exact r1
  · have e : ((2 * 2 ^ 40 * 2 ^ 40 * (k + 1) : ℕ) : ℝ)
        = 2 * 2 ^ 40 * 2 ^ 40 * ((k : ℝ) + 1) := by push_cast; ring
    have e' : ((((logHi d + 2 ^ 20) * (logHi m + 2 ^ 20) + 2 ^ 51 : ℕ)) : ℝ)
        = ((logHi d : ℝ) + 2 ^ 20) * ((logHi m : ℝ) + 2 ^ 20) + 2 ^ 51 := by push_cast; ring
    rw [e, e'] at r2
    exact r2
  · rw [← e1]
    exact Nat.cast_nonneg _
  · rw [← e2]
    exact Nat.cast_nonneg _

theorem logScale_cast : (logScale : ℝ) = 2 ^ 40 := by
  unfold logScale
  norm_num

theorem toInt_finite_of_small (q : ℚ) (k : Int) (h : truncInt q = k) (h1 : -2 ^ 31 ≤ k)
    (h2 : k < 2 ^ 31) : Double.toInt (Double.finite q) = some k := by
  show (if -2 ^ 31 ≤ truncInt q ∧ truncInt q < 2 ^ 31 then some (truncInt q) else none) = _
  rw [h, if_pos ⟨h1, h2⟩]

theorem lmrValue_pos (log : Nat → Double) (h : LogAccurate log) {d m : ℕ} (hd : 2 ≤ d)
    (hd' : d ≤ 255) (hm : 2 ≤ m) (hm' : m ≤ 255) :
    (lmrValue log d m).toInt = some ⌊1 + Real.log d * Real.log m * (1 / 2)⌋ := by
  obtain ⟨qd, hqd, ed⟩ := h.2.2 d hd hd'
  obtain ⟨qm, hqm, em⟩ := h.2.2 m hm hm'
  obtain ⟨k, hk, c1, c2, l1, l2⟩ := logPair_facts hd hd' hm hm'
  have bd := log_table_bounds d hd hd'
  have bm := log_table_bounds m hm hm'
  rw [logScale_cast] at bd bm
  have ed2 := abs_le.mp ed
  have em2 := abs_le.mp em
  have p40 : (0 : ℝ) < 2 ^ 40 := by positivity
  have X := half_product_bounds (2 ^ 40 * Real.log d) (2 ^ 40 * Real.log m)
    ((logLo d : ℝ) - 2 ^ 20) ((logLo m : ℝ) - 2 ^ 20) ((logHi d : ℝ) + 2 ^ 20)
    ((logHi m : ℝ) + 2 ^ 20) k l1 l2 (by linarith [bd.1]) (by linarith [bd.2])
    (by linarith [bm.1]) (by linarith [bm.2]) c1 c2
  rw [mul_div_cancel_left₀ _ p40.ne.symm, mul_div_cancel_left₀ _ p40.ne.symm] at X
  have Y := half_product_bounds (2 ^ 40 * (qd : ℝ)) (2 ^ 40 * (qm : ℝ))
    ((logLo d : ℝ) - 2 ^ 20) ((logLo m : ℝ) - 2 ^ 20) ((logHi d : ℝ) + 2 ^ 20)
    ((logHi m : ℝ) + 2 ^ 20) k l1 l2 (by linarith [bd.1, ed2.1]) (by linarith [bd.2, ed2.2])
    (by linarith [bm.1, em2.1]) (by linarith [bm.2, em2.2]) c1 c2
  rw [mul_div_cancel_left₀ _ p40.ne.symm, mul_div_cancel_left₀ _ p40.ne.symm] at Y
  have Y1 : (k : ℚ) + 1 / 2 ^ 30 ≤ qd * qm / 2 := by
    have : (((k : ℚ) + 1 / 2 ^ 30 : ℚ) : ℝ) ≤ ((qd * qm / 2 : ℚ) : ℝ) := by
      push_cast
      exact Y.1
    exact Rat.cast_le.mp this
  have Y2 : qd * qm / 2 ≤ (k : ℚ) + 1 - 1 / 2 ^ 30 := by
    have : ((qd * qm / 2 : ℚ) : ℝ) ≤ (((k : ℚ) + 1 - 1 / 2 ^ 30 : ℚ) : ℝ) := by
      push_cast
      exact Y.2
    exact Rat.cast_le.mp this
  have hc := lmr_float_chain (qd * qm) k hk Y1 Y2
  have hfl : ⌊1 + Real.log d * Real.log m * (1 / 2)⌋ = 1 + (k : Int) := by
    rw [Int.floor_eq_iff]
    push_cast
    constructor
    · linarith [X.1]
    · have : (0 : ℝ) < 1 / 2 ^ 30 := by positivity
      linarith [X.2]
  rw [hfl]
  unfold lmrValue
  rw [hqd, hqm]
  exact toInt_finite_of_small _ _ hc (by omega) (by omega)

theorem lmrValue_one (log : Nat → Double) (h1 : log 1 = Double.finite 0) {m : ℕ} {q : ℚ}
    (hq : log m = Double.finite q) :
    (lmrValue log 1 m).toInt = some 1 ∧ (lmrValue log m 1).toInt = some 1 := by
  have ht : truncInt 1 = 1 := truncInt_of_floor 1 1 (by decide) (by norm_num) (by norm_num)
  have e : f64 (1 + f64 (f64 0 * (1 / 2))) = 1 := by
    rw [f64_zero, zero_mul, f64_zero, add_zero, f64_one]
  unfold lmrValue
  rw [h1, hq]
  constructor
  · show Double.toInt (Double.finite (f64 (1 + f64 (f64 (0 * q) * (1 / 2))))) = some 1
    rw [zero_mul, e]
    exact toInt_finite_of_small _ _ ht (by decide) (by decide)
  · show Double.toInt (Double.finite (f64 (1 + f64 (f64 (q * 0) * (1 / 2))))) = some 1
    rw [mul_zero, e]
    exact toInt_finite_of_small _ _ ht (by decide) (by decide)

theorem floor_one_of_log_one (x : ℝ) :
    ⌊1 + Real.log ((1 : ℕ) : ℝ) * x * (1 / 2)⌋ = 1
      ∧ ⌊1 + x * Real.log ((1 : ℕ) : ℝ) * (1 / 2)⌋ = 1 := by
  rw [Nat.cast_one, Real.log_one]
  constructor
  · rw [zero_mul, zero_mul, add_zero]
    exact Int.floor_one
  · rw [mul_zero, zero_mul, add_zero]
    exact Int.floor_one

theorem log_finite (log : Nat → Double) (h : LogAccurate log) {d : ℕ} (hd : 1 ≤ d)
    (hd' : d ≤ 255) : ∃ q : ℚ, log d = Double.finite q ∧ (2 ≤ d → 0 < q) := by
  by_cases h1 : d = 1
  · subst h1
    exact ⟨0, h.2.1, fun h2 => absurd h2 (by decide)⟩
  · have hd2 : 2 ≤ d := by omega
    obtain ⟨q, hq, e⟩ := h.2.2 d hd2 hd'
    refine ⟨q, hq, fun _ => ?_⟩
    have b := (log_table_bounds d hd2 hd').1
    rw [logScale_cast] at b
    have l : 2 ^ 21 < logLo d := lt_of_lt_of_le (by decide) (logRow_facts hd2 hd').1
    have l2 : ((2 ^ 21 : ℕ) : ℝ) < (logLo d : ℝ) := Nat.cast_lt.mpr l
    push_cast at l2
    have e2 := (abs_le.mp e).1
    have hq0 : (0 : ℝ) < (q : ℝ) := by
      have p40 : (0 : ℝ) < 2 ^ 40 := by positivity
      have : (2 : ℝ) ^ 21 < 2 ^ 40 * Real.log d := by linarith
      have h3 : (2 : ℝ) ^ 21 / 2 ^ 40 < Real.log d := by
        rw [div_lt_iff₀ p40]
        linarith
      have h4 : (1 : ℝ) / 2 ^ 20 < (2 : ℝ) ^ 21 / 2 ^ 40 := by norm_num
      linarith
    exact_mod_cast hq0

theorem tableLog_accurate : LogAccurate tableLog := by
  refine ⟨rfl, rfl, ?_⟩
  intro d hd hd'
  refine ⟨(logLo d : ℚ) / 2 ^ 40, ?_, ?_⟩
  · unfold tableLog
    rw [if_neg (by omega), if_neg (by omega)]
  · have b := log_table_bounds d hd hd'
    rw [logScale_cast] at b
    have l := (logRow_facts hd hd').2.2.1
    have l2 : (logHi d : ℝ) ≤ ((logLo d + 2 ^ 20 : ℕ) : ℝ) := Nat.cast_le.mpr l
    push_cast at l2
    have p40 : (0 : ℝ) < 2 ^ 40 := by positivity
    have e1 : (logLo d : ℝ) / 2 ^ 40 ≤ Real.log d := by
      rw [div_le_iff₀ p40]
      linarith [b.1]
    have e2 : Real.log d ≤ ((logLo d : ℝ) + 2 ^ 20) / 2 ^ 40 := by
      rw [le_div_iff₀ p40]
      linarith [b.2]
    have e3 : ((logLo d : ℝ) + 2 ^ 20) / 2 ^ 40 = (logLo d : ℝ) / 2 ^ 40 + 1 / 2 ^ 20 := by
      rw [add_div]
      norm_num
    rw [e3] at e2
    push_cast
    rw [abs_le]
    constructor <;> linarith

/-- Claim C28, as stated, fails on the entries with a zero index: the loops of `initLmr`
start at 0 and write these entries too.  With the `log` of the C library, `log(0)` is
minus infinity, so entry `[0][0]` is the conversion to `int` of plus infinity, entry
`[0][1]` that of a NaN and entry `[2][0]` that of minus infinity; these conversions are
undefined, and no such entry is set to 0. -/
theorem initLmr_zero_index_counterexample :
    LogAccurate tableLog
      ∧ lmrValue tableLog 0 0 = Double.posInf ∧ initLmr tableLog 0 0 = none
      ∧ lmrValue tableLog 0 1 = Double.nan ∧ initLmr tableLog 0 1 = none
      ∧ lmrValue tableLog 2 0 = Double.negInf ∧ initLmr tableLog 2 0 = none
      ∧ initLmr tableLog 0 0 ≠ some 0 := by
  have h := tableLog_accurate
  have v00 := lmrValue_zero_zero tableLog h.1
  have v01 := (lmrValue_zero_one tableLog h.1 h.2.1).1
  obtain ⟨q, hq, hpos⟩ := log_finite tableLog h (show 1 ≤ 2 by decide) (show 2 ≤ 255 by decide)
  have v20 := (lmrValue_zero_pos tableLog h.1 hq (hpos (le_refl 2))).2
  have e00 : initLmr tableLog 0 0 = none := by
    rw [initLmr_entry tableLog (by decide) (by decide), v00]
    rfl
  refine ⟨h, v00, e00, v01, ?_, v20, ?_, ?_⟩
  · rw [initLmr_entry tableLog (by decide) (by decide), v01]
    rfl
  · rw [initLmr_entry tableLog (by decide) (by decide), v20]
    rfl
  · rw [e00]
    exact fun hc => Option.noConfusion hc

/-- Claim C28, amended: for a `log` of the C library with `log(0)` minus infinity,
`log(1)` zero and `log(d)` within `2^-20` of the natural logarithm, after `initLmr`
`lmrReductions[d][m] = floor(1 + ln(d) * ln(m) * 0.5)` for all `d`, `m` in `[1, 255]`;
every entry where either index is 0 is written with the conversion to `int` of an
infinity or a NaN, which is undefined: it is not set to 0.  These entries are never read:
the reduction of `pvSearch` is 0 without a look at the table when the depth is below 2
or no legal move was searched yet. -/
theorem initLmr_table (log : Nat → Double) (h : LogAccurate log) :
    (∀ d m, 1 ≤ d → d ≤ 255 → 1 ≤ m → m ≤ 255 →
        initLmr log d m = some ⌊1 + Real.log d * Real.log m * (1 / 2)⌋)
      ∧ (∀ d m, d ≤ 255 → m ≤ 255 → d = 0 ∨ m = 0 →
          initLmr log d m = none
            ∧ (lmrValue log d m = Double.posInf ∨ lmrValue log d m = Double.negInf
                ∨ lmrValue log d m = Double.nan))
      ∧ (∀ (B SD : Type) (env : Env B SD) (pv : Bool) (depth legalMoves : Nat) (b : B)
          (mv : Nat), depth < 2 ∨ legalMoves = 0 → lmrOf env pv depth legalMoves b mv = 0) := by
  refine ⟨?_, ?_, ?_⟩
  · intro d m hd hd' hm hm'
    rw [initLmr_entry log (by omega) (by omega)]
    by_cases h1 : d = 1
    · subst h1
      obtain ⟨q, hq, _⟩ := log_finite log h hm hm'
      rw [(lmrValue_one log h.2.1 hq).1, (floor_one_of_log_one (Real.log m)).1]
    · by_cases h2 : m = 1
      · subst h2
        obtain ⟨q, hq, _⟩ := log_finite log h hd hd'
        rw [(lmrValue_one log h.2.1 hq).2, (floor_one_of_log_one (Real.log d)).2]
      · exact lmrValue_pos log h (by omega) hd' (by omega) hm'
  · intro d m hd hm hz
    rw [initLmr_entry log (by omega) (by omega)]
    have key : ∀ x, 1 ≤ x → x ≤ 255 →
        (lmrValue log 0 x = Double.negInf ∨ lmrValue log 0 x = Double.nan)
          ∧ (lmrValue log x 0 = Double.negInf ∨ lmrValue log x 0 = Double.nan) := by
      intro x hx hx'
      by_cases h1 : x = 1
      · subst h1
        have := lmrValue_zero_one log h.1 h.2.1
        exact ⟨Or.inr this.1, Or.inr this.2⟩
      · obtain ⟨q, hq, hpos⟩ := log_finite log h hx hx'
        have := lmrValue_zero_pos log h.1 hq (hpos (by omega))
        exact ⟨Or.inl this.1, Or.inl this.2⟩
    have fin : ∀ v : Double, v = Double.posInf ∨ v = Double.negInf ∨ v = Double.nan →
        v.toInt = none
          ∧ (v = Double.posInf ∨ v = Double.negInf ∨ v = Double.nan) := by
      intro v hv
      refine ⟨?_, hv⟩
      rcases hv with e | e | e <;> rw [e] <;> rfl
    apply fin
    by_cases hd0 : d = 0
    · subst hd0
      by_cases hm0 : m = 0
      · subst hm0
        exact Or.inl (lmrValue_zero_zero log h.1)
      · rcases (key m (by omega) hm).1 with e | e
        · exact Or.inr (Or.inl e)
        · exact Or.inr (Or.inr e)
    · have hm0 : m = 0 := by
        rcases hz with e | e
        · exact absurd e hd0
        · exact e
      subst hm0
      rcases (key d (by omega) hd).2 with e | e
      · exact Or.inr (Or.inl e)
      · exact Or.inr (Or.inr e)
  · intro B SD env pv depth legalMoves b mv hz
    unfold lmrOf
    rcases hz with hz | hz
    · have : decide (depth < 2) = true := decide_eq_true hz
      simp [this]
    · subst hz
      simp

/-- Witness of `initLmr_table`: the `log` of the table of lower bounds, entry `[31][189]`. -/
theorem initLmr_table_witness :
    LogAccurate tableLog
      ∧ initLmr tableLog 31 189
          = some ⌊1 + Real.log ((31 : ℕ) : ℝ) * Real.log ((189 : ℕ) : ℝ) * (1 / 2)⌋ :=
  ⟨tableLog_accurate,
    (initLmr_table tableLog tableLog_accurate).1 31 189 (by decide) (by decide) (by decide)
      (by decide)⟩

/-! ## Evaluation: the range of the king-safety index -/

theorem sum_map_le_length {α : Type} (f : α → Nat) (hf : ∀ x, f x ≤ 1) (l : List α) :
    (l.map f).sum ≤ l.length := by
  induction l with
  | nil => simp
  | cons a l ih =>
    rw [List.map_cons, List.sum_cons, List.length_cons]
    have := hf a
    omega

theorem ksCount_le_one (z a : Nat) : ksCount z a ≤ 1 := by
  unfold ksCount
  split <;> omega

theorem attackerCount_le (b : Board) (c : Bool) :
    attackerCount b c ≤ sliderAndKnightCount b (!c) := by
  unfold attackerCount sliderAndKnightCount bitCount
  simp only [List.map_cons, List.map_nil, List.sum_cons, List.sum_nil]
  have h := fun t => sum_map_le_length
    (fun s => ksCount (KING_ATTACKS (bitscanForward (b.getPieceBB c KING)))
      (pieceAttacks (!c) t b s)) (fun _ => ksCount_le_one _ _) (bitsOf (b.getPieceBB (!c) t))
  have h1 := h KNIGHT
  have h2 := h BISHOP
  have h3 := h ROOK
  have h4 := h QUEEN
  omega

theorem computeKingSafety_some (c : Bool) (ed : EvalData) (h : ed.ksAttackCount c ≤ 7) :
    ∃ v, computeKingSafety c ed = some v := by
  unfold computeKingSafety
  have hl : ed.ksAttackCount c < kingSafetyAttackScale.length := by
    have : kingSafetyAttackScale.length = 8 := rfl
    omega
  rw [List.get?_eq_get hl]
  exact ⟨_, rfl⟩

theorem computeKingSafety_none (c : Bool) (ed : EvalData) (h : 8 ≤ ed.ksAttackCount c) :
    computeKingSafety c ed = none := by
  unfold computeKingSafety
  have hl : kingSafetyAttackScale.length ≤ ed.ksAttackCount c := by
    have : kingSafetyAttackScale.length = 8 := rfl
    omega
  rw [List.get?_eq_none.mpr hl]

theorem eightKnights_count : attackerCount eightKnightsBoard WHITE = 8 := by
  decide!

/-- Claim C31: in every full evaluation, after the piece passes `ksAttackCount[c]` is at
most the number of knights, bishops, rooks and queens of the opponent of `c`; hence the
read of the eight-entry table `kingSafetyAttackScale` in `computeKingSafety<c>` is in
range whenever that opponent has at most 7 such pieces, and the total score is defined
when both sides have at most 7.  It is not guaranteed in range with 8: on the board with
eight black knights around the white king the count is 8 and the read is out of
bounds. -/
theorem ksAttackCount_le (b : Board) (c : Bool) :
    (features b).2.ksAttackCount c ≤ sliderAndKnightCount b (!c)
      ∧ (sliderAndKnightCount b (!c) ≤ 7 → ∃ v, computeKingSafety c (features b).2 = some v)
      ∧ (sliderAndKnightCount b WHITE ≤ 7 → sliderAndKnightCount b BLACK ≤ 7 →
          ∃ v, (totalScoreOf b).1 = some v)
      ∧ sliderAndKnightCount eightKnightsBoard BLACK = 8
      ∧ eightKnightsBoard.wellFormed
      ∧ (features eightKnightsBoard).2.ksAttackCount WHITE = 8
      ∧ computeKingSafety WHITE (features eightKnightsBoard).2 = none
      ∧ (totalScoreOf eightKnightsBoard).1 = none := by
  have hle : ∀ d, (features b).2.ksAttackCount d ≤ sliderAndKnightCount b (!d) := by
    intro d
    rw [features_ksAttackCount]
    exact attackerCount_le b d
  have h8 : (features eightKnightsBoard).2.ksAttackCount WHITE = 8 := by
    rw [features_ksAttackCount]
    exact eightKnights_count
  have hnone := computeKingSafety_none WHITE (features eightKnightsBoard).2 (by rw [h8])
  refine ⟨hle c, ?_, ?_, by decide!, by decide, h8, hnone, ?_⟩
  · intro h
    exact computeKingSafety_some c _ (le_trans (hle c) h)
  · intro hw hb
    obtain ⟨v, hv⟩ := computeKingSafety_some WHITE (features b).2 (le_trans (hle WHITE) hb)
    obtain ⟨w, hw2⟩ := computeKingSafety_some BLACK (features b).2 (le_trans (hle BLACK) hw)
    rw [totalScoreOf_eq]
    unfold totalFrom
    dsimp only
    rw [hv, hw2]
    exact ⟨_, rfl⟩
  · rw [totalScoreOf_eq]
    unfold totalFrom
    dsimp only
    rw [hnone]

/-! ## Search: `bestMove` without a stored root entry -/

theorem qSearch_table_of_some (env : Env B SD) (fuel : Nat) (st : State B SD) (alpha beta : Int)
    (ply : Nat) (v : Int) (s : State B SD) (h : qSearch env fuel st alpha beta ply = some (v, s)) :
    s.table = st.table := by
  have e : qSearch env fuel st alpha beta ply
      = withTable st.table (qSearch env fuel st alpha beta ply) :=
    qSearch_table env st.table fuel st alpha beta ply
  rw [h] at e
  unfold withTable at e
  simp only [Option.map_some', Option.some.injEq, Prod.mk.injEq, true_and] at e
  rw [e]

theorem mateDistanceAndLoop_no_legal_state (env : Env B SD)
    (search : State B SD → Int → Int → Nat → Nat → Bool → PvResult B SD)
    (st : State B SD) (zobrist : Nat) (pv : Bool) (originalAlpha alpha beta : Int)
    (depth ply : Nat) (hashMove : Nat) (r : Int) (x : Exit) (s : State B SD)
    (hno : ∀ m, env.isLegal st.board m = false)
    (h : mateDistanceAndLoop env search st zobrist pv originalAlpha alpha beta depth ply hashMove
      = some (r, x, s)) : s = st := by
  unfold mateDistanceAndLoop at h
  dsimp only at h
  by_cases c1 : env.MAX_MATE_SCORE - ply < beta ∧ alpha ≥ env.MAX_MATE_SCORE - ply
  · rw [if_pos c1] at h
    simp only [Option.some.injEq, Prod.mk.injEq] at h
    exact h.2.2.symm
  · rw [if_neg c1] at h
    by_cases c2 : -env.MAX_MATE_SCORE + ply > alpha ∧
        (if env.MAX_MATE_SCORE - ply < beta then env.MAX_MATE_SCORE - ply else beta)
          ≤ -env.MAX_MATE_SCORE + ply
    · rw [if_pos c2] at h
      simp only [Option.some.injEq, Prod.mk.injEq] at h
      exact h.2.2.symm
    · rw [if_neg c2, pvLoop_no_legal env search _ _ _ _ _ _ st hno] at h
      unfold pvEpilogue at h
      rw [if_pos rfl] at h
      split at h <;>
      · simp only [Option.some.injEq, Prod.mk.injEq] at h
        exact h.2.2.symm

theorem pvBody_no_legal_keeps (env : Env B SD)
    (search : State B SD → Int → Int → Nat → Nat → Bool → PvResult B SD)
    (hs : ∀ st alpha beta depth ply cut r x s, beta - alpha ≠ 1 →
      (∀ m, env.isLegal st.board m = false) →
      search st alpha beta depth ply cut = some (r, x, s) →
      s.table = st.table ∧ s.board = st.board)
    (st : State B SD) (alpha beta : Int) (depth ply : Nat) (hashMove : Nat)
    (r : Int) (x : Exit) (s : State B SD) (hpv : beta - alpha ≠ 1)
    (hno : ∀ m, env.isLegal st.board m = false)
    (h : pvBody env search st alpha beta depth ply hashMove = some (r, x, s)) :
    s.table = st.table ∧ s.board = st.board := by
  unfold pvBody at h
  dsimp only at h
  have hn : nullMovePruning env search
      { st with moves := fun i => if i = ply then env.getPseudoLegalMoves st.board else st.moves i }
      beta depth ply (decide (beta - alpha ≠ 1))
      = some (false, { st with moves := fun i =>
          if i = ply then env.getPseudoLegalMoves st.board else st.moves i }) := by
    unfold nullMovePruning
    rw [if_neg]
    rw [decide_eq_true hpv]
    simp
  rw [hn] at h
  dsimp only at h
  split at h
  · exact absurd h (by simp)
  · rename_i hm s2 heq2
    have k2 : s2.table = st.table ∧ s2.board = st.board := by
      unfold iid at heq2
      split at heq2
      · split at heq2
        · exact absurd heq2 (by simp)
        · rename_i r1 x1 s1 heq
          have k := hs _ _ _ _ _ _ _ _ _ hpv (by exact hno) heq
          split at heq2 <;>
          · simp only [Option.some.injEq, Prod.mk.injEq] at heq2
            rw [← heq2.2]
            exact k
      · simp only [Option.some.injEq, Prod.mk.injEq] at heq2
        rw [← heq2.2]
        exact ⟨rfl, rfl⟩
    have e := mateDistanceAndLoop_no_legal_state env search s2 _ _ _ _ _ _ _ _ _ _ _
      (by rw [k2.2]; exact hno) h
    rw [e]
    exact k2

theorem pvSearch_no_legal_keeps (env : Env B SD)
    (hundo : ∀ b m, env.undoMove (env.move b m) = b) :
    ∀ (fuel : Nat) (st : State B SD) (alpha beta : Int) (depth ply : Nat) (cut : Bool) (r : Int)
      (x : Exit) (s : State B SD), beta - alpha ≠ 1 →
      (∀ m, env.isLegal st.board m = false) →
      pvSearch env fuel st alpha beta depth ply cut = some (r, x, s) →
      s.table = st.table ∧ s.board = st.board := by
  intro fuel
  induction fuel with
  | zero => intro st alpha beta depth ply cut r x s _ _ h; simp [pvSearch] at h
  | succ fuel ih =>
    intro st alpha beta depth ply cut r x s hpv hno h
    simp only [pvSearch] at h
    split at h
    · simp only [Option.some.injEq, Prod.mk.injEq] at h
      rw [← h.2.2]
      exact ⟨rfl, rfl⟩
    · split at h
      · simp only [Option.some.injEq, Prod.mk.injEq] at h
        rw [← h.2.2]
        exact ⟨rfl, rfl⟩
      · have hb : (bumpSelDepth (countNode st) ply).board = st.board := by
          rw [bumpSelDepth_board, countNode_board]
        have ht : (bumpSelDepth (countNode st) ply).table = st.table := by
          rw [bumpSelDepth_table, countNode_table]
        split at h
        · split at h
          · exact absurd h (by simp)
          · rename_i hq
            simp only [Option.some.injEq, Prod.mk.injEq] at h
            obtain ⟨_, _, rfl⟩ := h
            exact ⟨(qSearch_table_of_some env fuel _ _ _ _ _ _ hq).trans ht,
              (qSearch_board env hundo fuel _ _ _ _ _ _ hq).trans hb⟩
        · split at h
          · simp only [Option.some.injEq, Prod.mk.injEq] at h
            rw [← h.2.2]
            exact ⟨ht, hb⟩
          · have k := pvBody_no_legal_keeps env _ ih _ _ _ _ _ _ _ _ _ hpv
              (by rw [hb]; exact hno) h
            exact ⟨k.1.trans ht, k.2.trans hb⟩

theorem iterate_no_legal_keeps (env : Env B SD)
    (hundo : ∀ b m, env.undoMove (env.move b m) = b) (maxDepth : Nat) :
    ∀ (fuel d : Nat) (st s : State B SD), (∀ m, env.isLegal st.board m = false) →
      iterate env maxDepth fuel d st = some s → s.table = st.table ∧ s.board = st.board := by
  intro fuel
  induction fuel with
  | zero => intro d st s _ h; simp [iterate] at h
  | succ fuel ih =>
    intro d st s hno h
    rw [iterate] at h
    split at h
    · split at h
      · exact absurd h (by simp)
      · rename_i r x s1 heq
        have k := pvSearch_no_legal_keeps env hundo fuel _ _ _ _ _ _ _ _ _ (by omega) hno heq
        dsimp only at h
        split at h
        · simp only [Option.some.injEq] at h
          rw [← h]
          exact k
        · have k2 := ih _ _ _ (by show ∀ m, env.isLegal s1.board m = false; rw [k.2]; exact hno) h
          exact ⟨k2.1.trans k.1, k2.2.trans k.2⟩
    · simp only [Option.some.injEq] at h
      rw [← h]
      exact ⟨rfl, rfl⟩

theorem iterate_timeup_keeps (env : Env B SD) (T : Int) (N : Nat) (hN : TimeUp env T N)
    (maxDepth : Nat) (fuel d : Nat) (st s : State B SD) (hT : st.maxTime = T)
    (hp : N ≤ st.polls) (h : iterate env maxDepth fuel d st = some s) :
    s.table = st.table ∧ s.board = st.board := by
  have tl : ∀ st' : State B SD, st'.maxTime = T → N ≤ st'.polls → isTimeLeft env st' = false := by
    intro st' h1 h2
    unfold isTimeLeft
    rw [h1]
    exact hN _ h2
  cases fuel with
  | zero => simp [iterate] at h
  | succ fuel =>
    rw [iterate] at h
    split at h
    · cases fuel with
      | zero => simp [pvSearch] at h
      | succ fuel =>
        simp only [pvSearch] at h
        rw [if_pos (by rw [tl st hT hp]; rfl)] at h
        dsimp only at h
        have t2 : isTimeLeft env (countNode st) = false :=
          tl _ hT (by show N ≤ st.polls + 1; omega)
        rw [if_pos (by rw [t2]; rfl)] at h
        simp only [Option.some.injEq] at h
        rw [← h]
        exact ⟨rfl, rfl⟩
    · simp only [Option.some.injEq] at h
      rw [← h]
      exact ⟨rfl, rfl⟩

theorem get_clear (t : TranspositionTable) (key : Nat) : t.clear.get key = none := rfl

/-- Claim C33: if the root position has no legal move (checkmate or stalemate), or the
time budget is exhausted from the first node on, no `pvSearch` call made by `bestMove`
stores a transposition entry: a call of `pvSearch` with a window wider than one on a
position without legal moves leaves the table as it found it, and so does a call without
time left.  `bestMove` clears the table first, so it returns with the cleared table, its
final lookup of the root entry finds none, and it reads the move of an absent entry (the
move `none` of the model). -/
theorem bestMove_absent_entry (env : Env B SD) (mu : B → Nat) (K N : Nat)
    (hundo : ∀ b m, env.undoMove (env.move b m) = b)
    (hmu : ∀ b m, m ∈ env.orderQ (env.getNonQuietMoves b) → env.isLegal b m = true →
      mu (env.move b m) < mu b)
    (hK : ∀ b, mu b ≤ K)
    (fuel : Nat) (st : State B SD) (maxDepth : Nat) (maxTime : Int)
    (hN : TimeUp env maxTime N) (hfuel : (N - st.polls) + K + 3 ≤ fuel)
    (h : (∀ m, env.isLegal st.board m = false) ∨ N ≤ st.polls) :
    (∃ s, bestMove env fuel st maxDepth maxTime = some (none, s)
        ∧ s.table = st.table.clear ∧ s.board = st.board
        ∧ s.table.get (env.zobrist st.board) = none)
      ∧ (∀ (f : Nat) (st1 : State B SD) (alpha beta : Int) (depth ply : Nat) (cut : Bool)
          (r : Int) (x : Exit) (s : State B SD), beta - alpha ≠ 1 →
          (∀ m, env.isLegal st1.board m = false) →
          pvSearch env f st1 alpha beta depth ply cut = some (r, x, s) →
          s.table = st1.table ∧ s.board = st1.board)
      ∧ (∀ (f : Nat) (st1 : State B SD) (alpha beta : Int) (depth ply : Nat) (cut : Bool),
          isTimeLeft env st1 = false →
          pvSearch env (f + 1) st1 alpha beta depth ply cut
            = some (beta, Exit.timeout, countNode st1)
          ∧ (countNode st1).table = st1.table) := by
  refine ⟨?_, pvSearch_no_legal_keeps env hundo, ?_⟩
  · unfold bestMove
    dsimp only
    obtain ⟨s, e⟩ := iterate_total env mu K N maxTime hundo hmu hK hN
      (if maxDepth > env.MAX_PLY then toDepth env.MAX_PLY else maxDepth) fuel 1
      { st with maxTime := maxTime, nodes := 0, selDepth := 0, table := st.table.clear,
                sd := env.sdInit } rfl hfuel
    have k : s.table = st.table.clear ∧ s.board = st.board := by
      rcases h with h | h
      · exact iterate_no_legal_keeps env hundo _ fuel 1 _ s (by exact h) e
      · exact iterate_timeup_keeps env maxTime N hN _ fuel 1 _ s (by rfl) (by exact h) e
    rw [e]
    dsimp only
    have hg : s.table.get (env.zobrist st.board) = none := by
      rw [k.1]
      exact get_clear _ _
    refine ⟨s, ?_, k.1, k.2, hg⟩
    rw [k.2, hg]
    rfl
  · intro f st1 alpha beta depth ply cut ht
    refine ⟨?_, rfl⟩
    simp only [pvSearch]
    rw [if_pos (by rw [ht]; rfl)]

/-- Witness of `bestMove_absent_entry`: the counter game without a counter, where no move
is legal. -/
theorem bestMove_absent_entry_witness :
    ((6 - (toyState 0 toyTable 0).polls) + 10 + 3 ≤ 19)
    ∧ (∀ m, (toyEnv toyNever toyNever (toyClock 6)).isLegal (toyState 0 toyTable 0).board m
        = false)
    ∧ ∃ s, bestMove (toyEnv toyNever toyNever (toyClock 6)) 19 (toyState 0 toyTable 0) 2 100
          = some (none, s)
        ∧ s.table = (toyState 0 toyTable 0).table.clear
        ∧ s.board = (toyState 0 toyTable 0).board
        ∧ s.table.get ((toyEnv toyNever toyNever (toyClock 6)).zobrist
            (toyState 0 toyTable 0).board) = none :=
  ⟨by decide,
    fun m => by
      simp only [toyEnv, toyState, Bool.and_eq_false_iff, decide_eq_false_iff_not]
      omega,
    (bestMove_absent_entry (toyEnv toyNever toyNever (toyClock 6)) toyMu 10 6
      (toy_undo _ _ _) (toy_mu_decreases _ _ _) toy_mu_le 19 (toyState 0 toyTable 0) 2 100
      (toy_timeUp _ _ 6) (by decide)
      (Or.inl (fun m => by
        simp only [toyEnv, toyState, Bool.and_eq_false_iff, decide_eq_false_iff_not]
        omega))).1⟩

/-! ## Search: `highestScore ≤ alpha` and the entry stored at the end of the move loop -/

theorem get_put_self (t : TranspositionTable) (key : Nat) (score : Int) (move : Nat)
    (type : NodeType) (depth : Nat) :
    (t.put key score move type depth).get key = some ⟨key, move, score, depth, type⟩ := by
  simp [TranspositionTable.get, TranspositionTable.put]

theorem loopStart_inv (env : Env B SD) (alpha : Int) (ply : Nat)
    (ha : -env.MAX_MATE_SCORE ≤ alpha) :
    LoopInv [] (-env.MAX_MATE_SCORE) (loopStart env alpha ply).alpha
      (loopStart env alpha ply) := by
  unfold LoopInv loopStart
  dsimp only
  refine ⟨?_, le_refl _, fun p hp => absurd hp (List.not_mem_nil p),
    fun h => absurd h (lt_irrefl _), fun _ => Or.inl ⟨rfl, rfl⟩⟩
  split <;> omega

theorem nextVars_le (v : LoopVars) (m : Nat) (score : Int)
    (h : v.highestScore ≤ v.alpha) :
    (nextVars v m score).highestScore ≤ (nextVars v m score).alpha := by
  unfold nextVars
  split
  · dsimp only
    split <;> omega
  · dsimp only
    split <;> omega

theorem nextVars_inv (trace : List (Nat × Int)) (hs0 a0 : Int) (v : LoopVars) (m : Nat)
    (score : Int) (h : LoopInv trace hs0 a0 v) :
    LoopInv (trace ++ [(m, score)]) hs0 a0 (nextVars v m score) := by
  obtain ⟨h1, h2, h5, h3, h4⟩ := h
  have hmem : (m, score) ∈ trace ++ [(m, score)] :=
    List.mem_append_right _ (List.mem_singleton.mpr rfl)
  have hsub : ∀ q, q ∈ trace → q ∈ trace ++ [(m, score)] :=
    fun q hq => List.mem_append_left _ hq
  have hmax : ∀ (x : Int), v.highestScore ≤ x → score ≤ x →
      ∀ p ∈ trace ++ [(m, score)], p.2 ≤ x := by
    intro x hx1 hx2 p hp
    rcases List.mem_append.mp hp with k | k
    · exact le_trans (h5 p k) hx1
    · rw [List.mem_singleton.mp k]
      exact hx2
  unfold LoopInv nextVars
  by_cases c : score > v.alpha
  · rw [if_pos c]
    dsimp only
    rw [if_pos (by omega)]
    exact ⟨le_refl _, by omega, hmax score (by omega) (le_refl _), fun _ => ⟨rfl, hmem⟩,
      fun e => absurd e (by omega)⟩
  · rw [if_neg c]
    dsimp only
    by_cases d : score > v.highestScore
    · rw [if_pos d, if_pos d]
      refine ⟨by omega, h2, hmax score (by omega) (le_refl _), fun e => ?_,
        fun _ => Or.inr hmem⟩
      have := (h3 e).1
      omega
    · rw [if_neg d, if_neg d]
      refine ⟨h1, h2, hmax v.highestScore (le_refl _) (by omega),
        fun e => ⟨(h3 e).1, hsub _ (h3 e).2⟩, fun e => ?_⟩
      rcases h4 e with k | k
      · exact Or.inl k
      · exact Or.inr (hsub _ k)

theorem pvLoop_step_next (env : Env B SD)
    (search : State B SD → Int → Int → Nat → Nat → Bool → PvResult B SD)
    (zobrist : Nat) (pv : Bool) (originalAlpha beta : Int) (depth ply : Nat)
    (m : Nat) (ms : List Nat) (st : State B SD) (v : LoopVars) (score : Int) (s : State B SD)
    (hl : env.isLegal st.board m = true)
    (hsm : searchMove search { st with board := env.move st.board m } v.alpha beta depth ply pv
      v.legalMoves (lmrOf env pv depth v.legalMoves st.board m) (extensionOf env st.board m)
        = some (score, s))
    (hb : score < beta) :
    pvLoop env search zobrist pv originalAlpha beta depth ply (m :: ms) st v
      = pvLoop env search zobrist pv originalAlpha beta depth ply ms
          (nextState env zobrist depth ply v m score s) (nextVars v m score) := by
  unfold lmrOf extensionOf at hsm
  rw [pvLoop, if_neg (by rw [hl]; decide)]
  dsimp only
  rw [hsm]
  dsimp only
  rw [if_neg (by omega)]
  unfold nextState nextVars
  by_cases c : score > v.alpha
  · rw [if_pos c, if_pos c, if_pos c]
  · rw [if_neg c, if_neg c, if_neg c]

theorem loopScores_step_next (env : Env B SD)
    (search : State B SD → Int → Int → Nat → Nat → Bool → PvResult B SD)
    (zobrist : Nat) (pv : Bool) (beta : Int) (depth ply : Nat)
    (m : Nat) (ms : List Nat) (st : State B SD) (v : LoopVars) (score : Int) (s : State B SD)
    (hl : env.isLegal st.board m = true)
    (hsm : searchMove search { st with board := env.move st.board m } v.alpha beta depth ply pv
      v.legalMoves (lmrOf env pv depth v.legalMoves st.board m) (extensionOf env st.board m)
        = some (score, s))
    (hb : score < beta) :
    loopScores env search zobrist pv beta depth ply (m :: ms) st v
      = (m, score) :: loopScores env search zobrist pv beta depth ply ms
          (nextState env zobrist depth ply v m score s) (nextVars v m score) := by
  rw [loopScores, if_neg (by rw [hl]; decide)]
  rw [hsm]
  dsimp only
  rw [if_neg (by omega)]

theorem pvLoop_final_vars (env : Env B SD)
    (search : State B SD → Int → Int → Nat → Nat → Bool → PvResult B SD)
    (zobrist : Nat) (pv : Bool) (originalAlpha beta : Int) (depth ply : Nat) (hs0 a0 : Int) :
    ∀ (ms : List Nat) (st : State B SD) (v : LoopVars) (trace : List (Nat × Int)) (r : Int)
      (s : State B SD),
      LoopInv trace hs0 a0 v →
      pvLoop env search zobrist pv originalAlpha beta depth ply ms st v
        = some (r, Exit.final, s) →
      ∃ (stf : State B SD) (vf : LoopVars),
        LoopInv (trace ++ loopScores env search zobrist pv beta depth ply ms st v) hs0 a0 vf
          ∧ pvEpilogue env zobrist originalAlpha depth ply stf vf = (r, Exit.final, s) := by
  intro ms
  induction ms with
  | nil =>
    intro st v trace r s hv h
    rw [pvLoop] at h
    rw [loopScores, List.append_nil]
    exact ⟨st, v, hv, Option.some.inj h⟩
  | cons m ms ih =>
    intro st v trace r s hv h
    by_cases hl : env.isLegal st.board m = true
    · cases hsm : searchMove search { st with board := env.move st.board m } v.alpha beta depth
          ply pv v.legalMoves (lmrOf env pv depth v.legalMoves st.board m)
          (extensionOf env st.board m) with
      | none =>
        unfold lmrOf extensionOf at hsm
        rw [pvLoop, if_neg (by rw [hl]; decide)] at h
        dsimp only at h
        rw [hsm] at h
        exact absurd h (by simp)
      | some p =>
        obtain ⟨score, s1⟩ := p
        by_cases hb : score < beta
        · rw [pvLoop_step_next env search zobrist pv originalAlpha beta depth ply m ms st v
            score s1 hl hsm hb] at h
          rw [loopScores_step_next env search zobrist pv beta depth ply m ms st v score s1 hl
            hsm hb]
          have k := ih _ _ (trace ++ [(m, score)]) r s (nextVars_inv trace hs0 a0 v m score hv) h
          rw [List.append_assoc, List.singleton_append] at k
          exact k
        · unfold lmrOf extensionOf at hsm
          rw [pvLoop, if_neg (by rw [hl]; decide)] at h
          dsimp only at h
          rw [hsm] at h
          dsimp only at h
          rw [if_pos (by omega)] at h
          simp only [Option.some.injEq, Prod.mk.injEq] at h
          exact absurd h.2.1 (by decide)
    · have hl2 : (!env.isLegal st.board m) = true := by
        simp only [Bool.not_eq_true] at hl
        rw [hl]
        rfl
      rw [pvLoop, if_pos hl2] at h
      rw [loopScores, if_pos hl2]
      exact ih st v trace r s hv h

theorem pvEpilogue_final_entry (env : Env B SD) (trace : List (Nat × Int)) (zobrist : Nat)
    (originalAlpha : Int) (depth ply : Nat) (hs0 a0 : Int) (stf : State B SD) (vf : LoopVars)
    (r : Int) (s : State B SD) (hinv : LoopInv trace hs0 a0 vf) (h0 : originalAlpha ≤ a0)
    (h : pvEpilogue env zobrist originalAlpha depth ply stf vf = (r, Exit.final, s)) :
    a0 ≤ r ∧ ∃ e, s.table.get zobrist = some e ∧ e.depth = depth ∧
      ((e.type = NodeType.PV_NODE ∧ e.score = r ∧ originalAlpha < r
          ∧ (∀ p ∈ trace, p.2 ≤ r)
          ∧ (a0 < r → (e.move, r) ∈ trace)
          ∧ (r = a0 → e.move = 0 ∨
              ∃ x, x ≤ a0 ∧ (e.move, x) ∈ trace ∧ ∀ p ∈ trace, p.2 ≤ x))
        ∨ (e.type = NodeType.ALL_NODE ∧ r = originalAlpha ∧ a0 = originalAlpha
          ∧ e.score ≤ originalAlpha ∧ (∀ p ∈ trace, p.2 ≤ e.score)
          ∧ ((e.move = 0 ∧ e.score = hs0) ∨ (e.move, e.score) ∈ trace))) := by
  obtain ⟨h1, h2, h5, h3, h4⟩ := hinv
  unfold pvEpilogue at h
  by_cases c0 : vf.legalMoves = 0
  · rw [if_pos c0] at h
    split at h <;>
    · simp only [Prod.mk.injEq] at h
      exact absurd h.2.1 (by decide)
  · rw [if_neg c0] at h
    by_cases c1 : vf.alpha > originalAlpha
    · rw [if_pos c1] at h
      simp only [Prod.mk.injEq, true_and] at h
      obtain ⟨hr, hs⟩ := h
      subst hr
      subst hs
      refine ⟨h2, _, get_put_self _ _ _ _ _ _, rfl, Or.inl ⟨rfl, rfl, c1,
        fun p hp => le_trans (h5 p hp) h1, fun e => (h3 e).2, fun e => ?_⟩⟩
      rcases h4 e with k | k
      · exact Or.inl k.1
      · exact Or.inr ⟨vf.highestScore, by omega, k, h5⟩
    · rw [if_neg c1] at h
      simp only [Prod.mk.injEq, true_and] at h
      obtain ⟨hr, hs⟩ := h
      subst hr
      subst hs
      have e1 : vf.alpha = a0 := by omega
      have e2 : a0 = originalAlpha := by omega
      refine ⟨h2, _, get_put_self _ _ _ _ _ _, rfl, Or.inr ⟨rfl, by omega, e2, ?_, h5, ?_⟩⟩
      · show vf.highestScore ≤ originalAlpha
        omega
      · rcases h4 e1 with k | k
        · exact Or.inl k
        · exact Or.inr k

theorem mateDistanceAndLoop_final (env : Env B SD)
    (search : State B SD → Int → Int → Nat → Nat → Bool → PvResult B SD)
    (st : State B SD) (zobrist : Nat) (pv : Bool) (originalAlpha alpha beta : Int)
    (depth ply : Nat) (hashMove : Nat) (r : Int) (s : State B SD)
    (h : mateDistanceAndLoop env search st zobrist pv originalAlpha alpha beta depth ply hashMove
      = some (r, Exit.final, s)) :
    pvLoop env search zobrist pv originalAlpha
      (if env.MAX_MATE_SCORE - ply < beta then env.MAX_MATE_SCORE - ply else beta) depth ply
      (env.orderPV (st.moves ply) hashMove st.sd) st (loopStart env alpha ply)
        = some (r, Exit.final, s) := by
  unfold mateDistanceAndLoop at h
  dsimp only at h
  by_cases c1 : env.MAX_MATE_SCORE - ply < beta ∧ alpha ≥ env.MAX_MATE_SCORE - ply
  · rw [if_pos c1] at h
    simp only [Option.some.injEq, Prod.mk.injEq] at h
    exact absurd h.2.1 (by decide)
  · rw [if_neg c1] at h
    by_cases c2 : -env.MAX_MATE_SCORE + ply > alpha ∧
        (if env.MAX_MATE_SCORE - ply < beta then env.MAX_MATE_SCORE - ply else beta)
          ≤ -env.MAX_MATE_SCORE + ply
    · rw [if_pos c2] at h
      simp only [Option.some.injEq, Prod.mk.injEq] at h
      exact absurd h.2.1 (by decide)
    · rw [if_neg c2] at h
      exact h

theorem pvBody_final (env : Env B SD)
    (search : State B SD → Int → Int → Nat → Nat → Bool → PvResult B SD)
    (st : State B SD) (alpha beta : Int) (depth ply : Nat) (hashMove : Nat)
    (r : Int) (s : State B SD)
    (h : pvBody env search st alpha beta depth ply hashMove = some (r, Exit.final, s)) :
    ∃ (stA stB : State B SD) (hashMove2 : Nat),
      nullMovePruning env search
          { st with
            moves := fun i => if i = ply then env.getPseudoLegalMoves st.board else st.moves i }
          beta depth ply (decide (beta - alpha ≠ 1)) = some (false, stA)
        ∧ iid search stA (env.zobrist st.board) alpha beta depth ply (decide (beta - alpha ≠ 1))
            hashMove = some (hashMove2, stB)
        ∧ mateDistanceAndLoop env search stB (env.zobrist st.board) (decide (beta - alpha ≠ 1))
            alpha alpha beta depth ply hashMove2 = some (r, Exit.final, s) := by
  unfold pvBody at h
  dsimp only at h
  split at h
  · exact absurd h (by simp)
  · simp only [Option.some.injEq, Prod.mk.injEq] at h
    exact absurd h.2.1 (by decide)
  · rename_i stA hA
    split at h
    · exact absurd h (by simp)
    · rename_i hm2 stB hB
      exact ⟨stA, stB, hm2, hA, hB, h⟩

theorem probeCutoff_not_final (en : Option Entry) (alpha beta : Int) (depth : Nat) (r : Int)
    (x : Exit) (h : probeCutoff en alpha beta depth = some (r, x)) : x ≠ Exit.final := by
  unfold probeCutoff at h
  split at h
  · exact absurd h (by simp)
  · split at h
    · split at h
      · simp only [Option.some.injEq, Prod.mk.injEq] at h
        rw [← h.2]
        decide
      · split at h
        · split at h
          · simp only [Option.some.injEq, Prod.mk.injEq] at h
            rw [← h.2]
            decide
          · exact absurd h (by simp)
        · split at h
          · split at h
            · simp only [Option.some.injEq, Prod.mk.injEq] at h
              rw [← h.2]
              decide
            · exact absurd h (by simp)
          · exact absurd h (by simp)
    · exact absurd h (by simp)

theorem pvSearch_final_loop (env : Env B SD) (fuel : Nat) (st : State B SD)
    (alpha beta : Int) (depth ply : Nat) (cut : Bool) (r : Int) (s : State B SD)
    (h : pvSearch env (fuel + 1) st alpha beta depth ply cut = some (r, Exit.final, s)) :
    ∃ (stA stB : State B SD) (hashMove : Nat),
      nullMovePruning env (pvSearch env fuel)
          { bumpSelDepth (countNode st) ply with
            moves := fun i =>
              if i = ply then env.getPseudoLegalMoves (bumpSelDepth (countNode st) ply).board
              else (bumpSelDepth (countNode st) ply).moves i }
          beta depth ply (decide (beta - alpha ≠ 1)) = some (false, stA)
        ∧ iid (pvSearch env fuel) stA (env.zobrist st.board) alpha beta depth ply
            (decide (beta - alpha ≠ 1))
            (hashMoveOf ((bumpSelDepth (countNode st) ply).table.get (env.zobrist st.board)))
              = some (hashMove, stB)
        ∧ pvLoop env (pvSearch env fuel) (env.zobrist st.board) (decide (beta - alpha ≠ 1))
            alpha (if env.MAX_MATE_SCORE - ply < beta then env.MAX_MATE_SCORE - ply else beta)
            depth ply (env.orderPV (stB.moves ply) hashMove stB.sd) stB (loopStart env alpha ply)
              = some (r, Exit.final, s) := by
  have hz : env.zobrist (bumpSelDepth (countNode st) ply).board = env.zobrist st.board := by
    rw [bumpSelDepth_board, countNode_board]
  simp only [pvSearch] at h
  split at h
  · simp only [Option.some.injEq, Prod.mk.injEq] at h
    exact absurd h.2.1 (by decide)
  · split at h
    · simp only [Option.some.injEq, Prod.mk.injEq] at h
      exact absurd h.2.1 (by decide)
    · split at h
      · split at h
        · exact absurd h (by simp)
        · simp only [Option.some.injEq, Prod.mk.injEq] at h
          exact absurd h.2.1 (by decide)
      · split at h
        · rename_i hp
          simp only [Option.some.injEq, Prod.mk.injEq] at h
          exact absurd h.2.1 (probeCutoff_not_final _ _ _ _ _ _ hp)
        · obtain ⟨stA, stB, hm2, hA, hB, h2⟩ := pvBody_final env _ _ _ _ _ _ _ _ _ h
          rw [hz] at hB h2
          exact ⟨stA, stB, hm2, hA, hB,
            mateDistanceAndLoop_final env _ _ _ _ _ _ _ _ _ _ _ _ h2⟩

/-- Claim C32, as stated, fails in its consequence for PV entries: when mate-distance
pruning raised `alpha` above the `alpha` of the call and no move raises it further, the
entry stored at the end is a PV entry whose score is the raised `alpha` and whose move is
the move with the highest score, a score below the final `alpha`.  In the one-counter game
a root search of depth 1 of the position with one counter stores a PV entry with the mate
score 31999 (key 2).  With that entry in the table, the position with two counters and
Black to move is searched at ply 2 with the window (-31999, 31999): `alpha` starts at
-31998, the only legal move is 1, the move loop searches this move alone and its search
returns -31999 through the table, and the search ends with the value -31998 and stores a
PV entry with score -31998 and move 1. -/
theorem pvSearch_final_entry_counterexample :
    (pvSearch (toyOneEnv (toyClock 1000)) 10 (toyState 1 toyTable 100) (-32000) 32000 1 0
          false).map (fun r => (r.1, r.2.1, r.2.2.table.get 2))
        = some (31999, Exit.final, toyTableMate.get 2)
      ∧ toyTableMate.get 2 = some ⟨2, 1, 31999, 1, NodeType.PV_NODE⟩
      ∧ -(toyOneEnv (toyClock 1000)).MAX_MATE_SCORE ≤ -31999
      ∧ (pvSearch (toyOneEnv (toyClock 1000)) (9 + 1) toyStateMate (-31999) 31999 2 2
          false).map (fun r => (r.1, r.2.1, r.2.2.table.get 5))
        = some (-31998, Exit.final, some ⟨5, 1, -31998, 2, NodeType.PV_NODE⟩)
      ∧ (loopStart (toyOneEnv (toyClock 1000)) (-31999) 2).alpha = -31998
      ∧ (∀ m, (toyOneEnv (toyClock 1000)).isLegal toyStateMate.board m = true → m = 1)
      ∧ loopScores (toyOneEnv (toyClock 1000)) (pvSearch (toyOneEnv (toyClock 1000)) 9)
          ((toyOneEnv (toyClock 1000)).zobrist toyStateMate.board) true 31998 2 2 [1, 2, 3]
          { bumpSelDepth (countNode toyStateMate) 2 with
            moves := fun i => if i = 2 then [1, 2, 3] else [] }
          (loopStart (toyOneEnv (toyClock 1000)) (-31999) 2)
        = [(1, -31999)] := by
  refine ⟨by decide!, by decide!, by decide, by decide!, by decide!, ?_, by decide!⟩
  intro m hm
  simp only [toyOneEnv, Bool.and_eq_true, decide_eq_true_eq] at hm
  exact hm.1

/-- Claim C32, amended.  In a call of `pvSearch` entered with `alpha ≥ -MAX_MATE_SCORE`
that runs to the end of the move loop and stores an entry: `highestScore ≤ alpha` holds
when the loop starts and is kept by every iteration that does not cut off (the loop
continues with `nextVars`, and the move with its score is added to the scores searched);
the value returned is at least the `alpha` the loop started with; and the key of the
position then holds the stored entry, of the depth of the call.  With `trace` the moves
that the move loop of this call searched, each with the score of its search, the entry is
either a PV entry with the returned value as score, above the `alpha` of the call, or an
ALL entry with a score at most the `alpha` of the call, stored when mate-distance pruning
did not raise `alpha` and the call returns that `alpha`.  No searched score is above the
returned value.  The PV entry carries a move of `trace` whose score is the returned value
when a move raised `alpha`; when only mate-distance pruning raised `alpha`, it carries 0 or
the move of `trace` with the highest score, a score at most the returned value.  The ALL
entry carries the highest score of `trace` (or `-MAX_MATE_SCORE` with the move 0) and the
move of `trace` that has this score. -/
theorem pvSearch_final_entry (env : Env B SD) (fuel : Nat) (st : State B SD)
    (alpha beta : Int) (depth ply : Nat) (cut : Bool) (r : Int) (s : State B SD)
    (ha : -env.MAX_MATE_SCORE ≤ alpha)
    (h : pvSearch env (fuel + 1) st alpha beta depth ply cut = some (r, Exit.final, s)) :
    (loopStart env alpha ply).highestScore ≤ (loopStart env alpha ply).alpha
      ∧ (∀ (v : LoopVars) (m : Nat) (score : Int), v.highestScore ≤ v.alpha →
          (nextVars v m score).highestScore ≤ (nextVars v m score).alpha)
      ∧ (∀ (zobrist : Nat) (pv : Bool) (originalAlpha beta1 : Int) (m : Nat) (ms : List Nat)
          (st1 : State B SD) (v : LoopVars) (score : Int) (s1 : State B SD),
          env.isLegal st1.board m = true →
          searchMove (pvSearch env fuel) { st1 with board := env.move st1.board m } v.alpha
            beta1 depth ply pv v.legalMoves (lmrOf env pv depth v.legalMoves st1.board m)
            (extensionOf env st1.board m) = some (score, s1) →
          score < beta1 →
          pvLoop env (pvSearch env fuel) zobrist pv originalAlpha beta1 depth ply (m :: ms) st1 v
              = pvLoop env (pvSearch env fuel) zobrist pv originalAlpha beta1 depth ply ms
                  (nextState env zobrist depth ply v m score s1) (nextVars v m score)
            ∧ loopScores env (pvSearch env fuel) zobrist pv beta1 depth ply (m :: ms) st1 v
              = (m, score) :: loopScores env (pvSearch env fuel) zobrist pv beta1 depth ply ms
                  (nextState env zobrist depth ply v m score s1) (nextVars v m score))
      ∧ ∃ (stA stB : State B SD) (hashMove : Nat) (trace : List (Nat × Int)),
          nullMovePruning env (pvSearch env fuel)
              { bumpSelDepth (countNode st) ply with
                moves := fun i =>
                  if i = ply then
                    env.getPseudoLegalMoves (bumpSelDepth (countNode st) ply).board
                  else (bumpSelDepth (countNode st) ply).moves i }
              beta depth ply (decide (beta - alpha ≠ 1)) = some (false, stA)
            ∧ iid (pvSearch env fuel) stA (env.zobrist st.board) alpha beta depth ply
                (decide (beta - alpha ≠ 1))
                (hashMoveOf
                  ((bumpSelDepth (countNode st) ply).table.get (env.zobrist st.board)))
                  = some (hashMove, stB)
            ∧ pvLoop env (pvSearch env fuel) (env.zobrist st.board)
                (decide (beta - alpha ≠ 1)) alpha
                (if env.MAX_MATE_SCORE - ply < beta then env.MAX_MATE_SCORE - ply else beta)
                depth ply (env.orderPV (stB.moves ply) hashMove stB.sd) stB
                (loopStart env alpha ply) = some (r, Exit.final, s)
            ∧ trace = loopScores env (pvSearch env fuel) (env.zobrist st.board)
                (decide (beta - alpha ≠ 1))
                (if env.MAX_MATE_SCORE - ply < beta then env.MAX_MATE_SCORE - ply else beta)
                depth ply (env.orderPV (stB.moves ply) hashMove stB.sd) stB
                (loopStart env alpha ply)
            ∧ (loopStart env alpha ply).alpha ≤ r
            ∧ ∃ e, s.table.get (env.zobrist st.board) = some e ∧ e.depth = depth ∧
                ((e.type = NodeType.PV_NODE ∧ e.score = r ∧ alpha < r
                    ∧ (∀ p ∈ trace, p.2 ≤ r)
                    ∧ ((loopStart env alpha ply).alpha < r → (e.move, r) ∈ trace)
                    ∧ (r = (loopStart env alpha ply).alpha →
                        e.move = 0 ∨ ∃ x, x ≤ (loopStart env alpha ply).alpha
                          ∧ (e.move, x) ∈ trace ∧ ∀ p ∈ trace, p.2 ≤ x))
                  ∨ (e.type = NodeType.ALL_NODE ∧ r = alpha
                    ∧ (loopStart env alpha ply).alpha = alpha
                    ∧ e.score ≤ alpha ∧ (∀ p ∈ trace, p.2 ≤ e.score)
                    ∧ ((e.move = 0 ∧ e.score = -env.MAX_MATE_SCORE)
                      ∨ (e.move, e.score) ∈ trace))) := by
  have hinv := loopStart_inv env alpha ply ha
  obtain ⟨stA, stB, hashMove, hA, hB, hl⟩ :=
    pvSearch_final_loop env fuel st alpha beta depth ply cut r s h
  obtain ⟨stf, vf, hvf, he⟩ := pvLoop_final_vars env _ _ _ _ _ _ _ _ _ _ _ _ _ _ _ hinv hl
  rw [List.nil_append] at hvf
  have h0 : alpha ≤ (loopStart env alpha ply).alpha := by
    unfold loopStart
    dsimp only
    split <;> omega
  have hfin := pvEpilogue_final_entry env _ _ _ _ _ _ _ _ _ _ _ hvf h0 he
  exact ⟨hinv.1, nextVars_le,
    fun zobrist pv originalAlpha beta1 m ms st1 v score s1 hlegal hsm hb =>
      ⟨pvLoop_step_next env _ zobrist pv originalAlpha beta1 depth ply m ms st1 v score s1
        hlegal hsm hb,
      loopScores_step_next env _ zobrist pv beta1 depth ply m ms st1 v score s1 hlegal hsm hb⟩,
    stA, stB, hashMove, _, hA, hB, hl, rfl, hfin.1, hfin.2⟩

/-- Witness of `pvSearch_final_entry`: the search of the counterexample, two counters and
Black to move at ply 2 with the window (-31999, 31999), runs to the end of the move
loop. -/
theorem pvSearch_final_entry_witness :
    -(toyOneEnv (toyClock 1000)).MAX_MATE_SCORE ≤ -31999
      ∧ ∃ r s, pvSearch (toyOneEnv (toyClock 1000)) (9 + 1) toyStateMate (-31999) 31999 2 2
            false = some (r, Exit.final, s)
          ∧ (loopStart (toyOneEnv (toyClock 1000)) (-31999) 2).alpha ≤ r
          ∧ ∃ e, s.table.get ((toyOneEnv (toyClock 1000)).zobrist toyStateMate.board) = some e
              ∧ e.depth = 2 := by
  have hx : (pvSearch (toyOneEnv (toyClock 1000)) (9 + 1) toyStateMate (-31999) 31999 2 2
      false).map (fun r => r.2.1) = some Exit.final := by decide!
  obtain ⟨r, s, hp⟩ : ∃ r s, pvSearch (toyOneEnv (toyClock 1000)) (9 + 1) toyStateMate
      (-31999) 31999 2 2 false = some (r, Exit.final, s) := by
    cases hq : pvSearch (toyOneEnv (toyClock 1000)) (9 + 1) toyStateMate (-31999) 31999 2 2
        false with
    | none => rw [hq] at hx; exact absurd hx (by simp)
    | some p =>
      obtain ⟨r, x, s⟩ := p
      rw [hq] at hx
      simp only [Option.map_some', Option.some.injEq] at hx
      subst hx
      exact ⟨r, s, rfl⟩
  have k := pvSearch_final_entry (toyOneEnv (toyClock 1000)) 9 toyStateMate (-31999) 31999 2 2
    false r s (by decide) hp
  obtain ⟨_, _, _, _, _, _, _, _, hr, e, he, hd, _⟩ := k.2.2.2
  exact ⟨by decide, r, s, hp, hr, e, he, hd⟩

end Koivisto
